import Mathlib

/-!
# instantpdf / pdf-backend: job workspace and page pipeline

Shallow embedding of the parts of `pdf-backend/main.go` that the gateway,
page-pipeline and sweep properties talk about.

Conventions of the embedding

* A Go `string` is a `List Char` (`Str`).  Every character the code inspects
  (`/`, `.`, `-`, digits, ASCII letters) is ASCII, so the byte view and the
  character view agree on them.
* Go `int` is 64 bit: values are `Int` and arithmetic that can leave the range
  is wrapped with `wrap64`.
* The outside world (file system, external tools, uuid source) is an oracle
  `Env` whose answers may depend on everything the handler did before (the
  trace of events so far).  A handler is a pure function from its request and
  the oracle to a response plus the trace of events it issued.
* Paths follow the Unix build of `path/filepath` (separator `/`, no volume
  names), which is the platform the tool chain of the backend runs on.
-/

namespace InstantPDF

/-- Go strings, seen as character lists. -/
abbrev Str := List Char

/-! ## The parts of `strings` and `strconv` the handlers use -/

/-- Test of `unicode.IsSpace`, the characters `strings.TrimSpace` removes. -/
def isSpace (c : Char) : Bool :=
  c = ' ' || c = '\t' || c = '\n' || c = '\r' || c.toNat = 0x0B || c.toNat = 0x0C
    || c.toNat = 0x85 || c.toNat = 0xA0 || c.toNat = 0x1680
    || (0x2000 ≤ c.toNat && c.toNat ≤ 0x200A)
    || c.toNat = 0x2028 || c.toNat = 0x2029 || c.toNat = 0x202F
    || c.toNat = 0x205F || c.toNat = 0x3000

/-- Go `strings.TrimSpace`. -/
def TrimSpace (s : Str) : Str :=
  ((s.dropWhile isSpace).reverse.dropWhile isSpace).reverse

/-- Go `strings.HasPrefix`. -/
def startsWith (s p : Str) : Bool := p.isPrefixOf s

/-- Go `strings.HasSuffix`. -/
def endsWith (s p : Str) : Bool := p.reverse.isPrefixOf s.reverse

/-- Go `strings.TrimPrefix`. -/
def trimStart (s p : Str) : Str := if startsWith s p then s.drop p.length else s

/-- Go `strings.TrimSuffix`. -/
def trimEnd (s p : Str) : Str :=
  if endsWith s p then s.take (s.length - p.length) else s

/-- Go `strings.Contains(s, "..")`. -/
def containsDotDot : Str → Bool
  | [] => false
  | c :: rest =>
    (c = '.' && (match rest with | d :: _ => decide (d = '.') | [] => false))
      || containsDotDot rest

/-- Go `strings.Split(s, "/")`. -/
def splitSlash (s : Str) : List Str := s.splitOn '/'

/-- Go `strings.Join(elems, "/")`. -/
def joinSlash (es : List Str) : Str := ['/'].intercalate es

/-- Go `strings.ReplaceAll(s, old, new)` for a one-character `old`. -/
def replaceChar (s : Str) (old new : Char) : Str :=
  s.map (fun c => if c = old then new else c)

/-- Go `strings.ToLower` on the ASCII letters (the only ones that can produce
the suffix `.png` the caller compares against). -/
def ToLower (s : Str) : Str := s.map Char.toLower

/-- Decimal digit for a value below ten. -/
def digitChar (d : Nat) : Char := Char.ofNat (48 + d % 10)

/-- Decimal digits of `n`, most significant first, appended in front of
`acc`; `fuel` bounds the number of digits. -/
def natDigits : Nat → Nat → Str → Str
  | 0, _, acc => acc
  | fuel + 1, n, acc =>
    if n / 10 = 0 then digitChar n :: acc
    else natDigits fuel (n / 10) (digitChar n :: acc)

/-- Decimal rendering of a natural number (`strconv.Itoa` on a value ≥ 0). -/
def natToDec (n : Nat) : Str := natDigits (n + 1) n []

/-- Go `strconv.Itoa` / `fmt.Sprintf("%d", n)`. -/
def Itoa (n : Int) : Str :=
  if n < 0 then '-' :: natToDec n.natAbs else natToDec n.natAbs

/-- Go `fmt.Sprintf("%0<w>d", n)` for `n ≥ 0`: zero padding up to width `w`. -/
def padZero (w : Nat) (n : Nat) : Str :=
  let d := natToDec n
  List.replicate (w - d.length) '0' ++ d

/-- Smallest and largest Go `int` (64 bit). -/
def minInt : Int := -(2 ^ 63)

/-- Largest Go `int` (64 bit). -/
def maxInt : Int := 2 ^ 63 - 1

/-- Two's complement wrap of a mathematical integer into the Go `int` range. -/
def wrap64 (x : Int) : Int := (x + 2 ^ 63) % 2 ^ 64 - 2 ^ 63

/-- Value of a digit string read in base ten. -/
def digitsValue (ds : Str) : Nat :=
  ds.foldl (fun acc c => acc * 10 + (c.toNat - 48)) 0

/-- Go `strconv.Atoi`: optional sign, at least one ASCII digit, nothing else,
and a value inside the `int` range; `none` stands for the error result. -/
def Atoi (s : Str) : Option Int :=
  let body : Bool × Str :=
    match s with
    | '-' :: r => (true, r)
    | '+' :: r => (false, r)
    | _ => (false, s)
  if body.2 = [] ∨ ¬ body.2.all Char.isDigit = true then none
  else
    let v : Int := if body.1 then -(digitsValue body.2 : Int) else (digitsValue body.2 : Int)
    if v < minInt ∨ maxInt < v then none else some v

/-- Source: `parseIntDefault`. -/
def parseIntDefault (s : Str) (dflt : Int) : Int :=
  let s := TrimSpace s
  if s = [] then dflt
  else
    match Atoi s with
    | none => dflt
    | some n => n

/-! ## The parts of `path/filepath` the handlers use (Unix) -/

/-- One step of `filepath.Clean` on a path element; `acc` holds the elements
kept so far, last one first.  Empty and `.` elements are dropped, `..` removes
the element before it, is dropped at the root of a rooted path and is kept at
the head of a relative one. -/
def cleanStep (rooted : Bool) (acc : List Str) (c : Str) : List Str :=
  if c = [] ∨ c = ['.'] then acc
  else if c = ['.', '.'] then
    match acc with
    | [] => if rooted then [] else [c]
    | top :: rest => if top = ['.', '.'] then c :: acc else rest
  else c :: acc

/-- Elements that `filepath.Clean` keeps, last one first. -/
def cleanStack (path : Str) : List Str :=
  (splitSlash path).foldl (cleanStep (startsWith path ['/'])) []

/-- Go `filepath.Clean`. -/
def Clean (path : Str) : Str :=
  if startsWith path ['/'] then '/' :: joinSlash (cleanStack path).reverse
  else if cleanStack path = [] then ['.']
  else joinSlash (cleanStack path).reverse

/-- Go `filepath.Join`: the elements from the first non-empty one on are
joined with `/` and cleaned; all elements empty gives the empty string. -/
def Join (elem : List Str) : Str :=
  match elem.dropWhile (fun e => decide (e = [])) with
  | [] => []
  | rest => Clean (joinSlash rest)

/-- Go `filepath.Base`. -/
def Base (path : Str) : Str :=
  if path = [] then ['.']
  else
    let p := (path.reverse.dropWhile (fun c => decide (c = '/'))).reverse
    let b := (p.reverse.takeWhile (fun c => decide (c ≠ '/'))).reverse
    if b = [] then ['/'] else b

/-- Go `filepath.Ext`: the suffix of the last element starting at its last
dot, empty when that element has no dot. -/
def Ext (path : Str) : Str :=
  let tail := (path.reverse.takeWhile (fun c => decide (c ≠ '/'))).reverse
  if tail.contains '.' then
    '.' :: (tail.reverse.takeWhile (fun c => decide (c ≠ '.'))).reverse
  else []

/-- Go `filepath.Abs` for a process whose working directory is `cwd`. -/
def Abs (cwd path : Str) : Str :=
  if startsWith path ['/'] then Clean path else Join [cwd, path]

/-- Lexical containment: `p` is `root` or starts with `root` and a separator. -/
def Inside (root p : Str) : Prop := p = root ∨ (root ++ ['/']) <+: p

instance (root p : Str) : Decidable (Inside root p) := by
  unfold Inside; infer_instance


/-! ## The outside world -/

/-- What `os.Stat` reports about an existing path. -/
structure FileInfo where
  /-- Result of `fi.IsDir()`. -/
  isDir : Bool
  /-- Result of `fi.ModTime()`, in nanoseconds. -/
  modTime : Int
deriving DecidableEq, Repr

/-- One entry of `os.ReadDir`. -/
structure DirEntry where
  /-- Result of `e.Name()`. -/
  name : Str
  /-- Result of `e.IsDir()`. -/
  isDir : Bool
deriving DecidableEq, Repr

/-- Everything a handler does to the outside world, in the order it does it. -/
inductive Event where
  /-- Call of `os.Stat`. -/
  | stat (path : Str)
  /-- Call of `os.MkdirAll`. -/
  | mkdirAll (path : Str)
  /-- Call of `saveUploadedFile` writing the upload to `dst`. -/
  | saveUpload (dst : Str)
  /-- External program started by `runCommand`, `runCommandOutput` or
  `exec.Command` with working directory `dir`. -/
  | run (dir : Str) (name : Str) (args : List Str)
  /-- Call of `filepath.Glob`. -/
  | glob (pattern : Str)
  /-- Call of `os.Rename`. -/
  | rename (src dst : Str)
  /-- Call of `os.WriteFile`. -/
  | writeFile (path : Str)
  /-- Call of `copyFileEdit`. -/
  | copyFile (src dst : Str)
  /-- Call of `zipDirectory`. -/
  | zipDir (src dst : Str)
  /-- Call of `os.Remove`. -/
  | remove (path : Str)
  /-- Call of `os.RemoveAll`. -/
  | removeAll (path : Str)
  /-- Call of `os.ReadDir`. -/
  | readDir (path : Str)
  /-- Call of `http.ServeFile`. -/
  | serveFile (path : Str)
  /-- Call of `os.ReadFile`. -/
  | readFile (path : Str)
deriving DecidableEq, Repr

/-- Chronological list of events. -/
abbrev Trace := List Event

/-- Answers of the outside world.  Every answer may depend on the events
issued so far, so a file can be absent at one `stat` and present at the next. -/
structure Env where
  /-- Result of `uuid.NewString()`. -/
  uuid : Trace → Str
  /-- Result of `os.Stat`; `none` is an error. -/
  stat : Trace → Str → Option FileInfo
  /-- Success of `os.MkdirAll`. -/
  mkdirAll : Trace → Str → Bool
  /-- Success of `saveUploadedFile`. -/
  saveUpload : Trace → Str → Bool
  /-- Combined output and success of an external program
  (working directory, program, arguments). -/
  run : Trace → Str → Str → List Str → Str × Bool
  /-- Result of `filepath.Glob`; `none` is an error. -/
  glob : Trace → Str → Option (List Str)
  /-- Success of `os.Rename`. -/
  rename : Trace → Str → Str → Bool
  /-- Success of `os.WriteFile`. -/
  writeFile : Trace → Str → Bool
  /-- Success of `copyFileEdit`. -/
  copyFile : Trace → Str → Str → Bool
  /-- Success of `zipDirectory`. -/
  zipDir : Trace → Str → Str → Bool
  /-- Result of `os.ReadDir`; `none` is an error. -/
  readDir : Trace → Str → Option (List DirEntry)
  /-- Result of `time.Now()`, in nanoseconds. -/
  now : Trace → Int
  /-- Order in which a Go `range` visits the given keys of a map. -/
  mapOrder : Trace → List Int → List Int
  /-- Text of `err.Error()` for the error the last failed call returned. -/
  errText : Trace → Str
  /-- Success of `os.ReadFile`. -/
  readFile : Trace → Str → Bool

/-- What a handler sends back. -/
inductive Reply where
  /-- Response of `errorJSON` or `http.Error` with a status and a message. -/
  | error (status : Nat) (msg : Str)
  /-- Status 200 with a `downloadResponse` holding the URL. -/
  | download (url : Str)
  /-- Response of `http.ServeFile` that answers from the content of the file
  `path`; `attachment` is the name given to `strconv.Quote` for the
  `Content-Disposition: attachment; filename=` header, `none` when the header
  is not set. -/
  | file (path : Str) (attachment : Option Str)
  /-- The handler panics: `net/http` recovers, logs and closes the connection
  without a response. -/
  | panic
  /-- Status 200 with a `previewResponse`: page numbers and image URLs. -/
  | preview (pages : List (Nat × Str))
  /-- Redirect with the given status and `Location` header. -/
  | redirect (status : Nat) (location : Str)
deriving DecidableEq, Repr

/-- String literal as a Go string. -/
def lit (s : String) : Str := s.toList

/-- Paths an event names: the paths it reads, writes, creates, removes or
serves, the working directory of a program and every argument given to it. -/
def Event.paths : Event → List Str
  | .stat p => [p]
  | .mkdirAll p => [p]
  | .saveUpload p => [p]
  | .run d _ _ => [d]
  | .glob p => [p]
  | .rename a b => [a, b]
  | .writeFile p => [p]
  | .copyFile a b => [a, b]
  | .zipDir a b => [a, b]
  | .remove p => [p]
  | .removeAll p => [p]
  | .readDir p => [p]
  | .serveFile p => [p]
  | .readFile p => [p]

/-- Arguments of a program that are file-system paths: those starting with
the separator. -/
def Event.pathArgs : Event → List Str
  | .run _ _ args => args.filter (fun a => startsWith a ['/'])
  | _ => []

/-! ## Download / preview gateway -/

/-- Source: the prefix stripping at the head of `serveDownload` and
`servePreview`; `aliased` is the `/api/pdf/...` form of the route. -/
def stripRoute (urlPath aliased plain : Str) : Str :=
  if startsWith urlPath aliased then trimStart urlPath aliased
  else trimStart urlPath plain

/-- Source: `err != nil || fi.IsDir()`. -/
def missingOrDir : Option FileInfo → Bool
  | none => true
  | some fi => fi.isDir

/-- Go `net/http`, the test `containsDotDot` of `http.ServeFile`: the text
holds `..` and one of its elements, cut at `/` and `\`, is `..`. -/
def hasDotDotElement (v : Str) : Bool :=
  containsDotDot v &&
    ((v.splitOnP (fun c => c = '/' || c = '\\')).filter (fun f => decide (f ≠ []))).any
      (fun ent => decide (ent = lit ".."))

/-- Go `http.ServeFile(w, r, name)`, called after the events `tr` for a request
whose `r.URL.Path` is `urlPath`: a URL path with a `..` element is answered 400
`invalid URL path`, a URL path that ends in `/index.html` is redirected to `./`
with 301, and only otherwise the answer comes from the content of the file
`name`.  `attachment` is the `Content-Disposition` name the caller has set. -/
def ServeFile (urlPath name : Str) (attachment : Option Str) (tr : Trace) : Reply × Trace :=
  let tr1 := tr ++ [Event.serveFile name]
  if hasDotDotElement urlPath then (Reply.error 400 (lit "invalid URL path"), tr1)
  else if endsWith urlPath (lit "/index.html") then (Reply.redirect 301 (lit "./"), tr1)
  else (Reply.file name attachment, tr1)

/-- Source: `serveDownload`, with `baseWorkDir` as a parameter. -/
def serveDownload (env : Env) (baseWorkDir urlPath : Str) : Reply × Trace :=
  let rel := stripRoute urlPath (lit "/api/pdf/downloads/") (lit "/downloads/")
  let clean := Clean rel
  if containsDotDot clean then (Reply.error 403 (lit "forbidden"), [])
  else
    let full := Join [baseWorkDir, clean]
    if missingOrDir (env.stat [] full) then
      (Reply.error 404 (lit "file not found"), [Event.stat full])
    else ServeFile urlPath full (some (Base full)) [Event.stat full]

/-- Source: the loop over `patterns` in `servePreview`: the first candidate
that exists and differs from `full` is renamed to `full`. -/
def renameFirst (env : Env) (full : Str) : List Str → Trace → Trace
  | [], tr => tr
  | pat :: rest, tr =>
    if (env.stat tr pat).isSome ∧ pat ≠ full then
      tr ++ [Event.stat pat, Event.rename pat full]
    else renameFirst env full rest (tr ++ [Event.stat pat])

/-- Source: the lazy rendering branch of `servePreview` for page `n` of job
`jobID`, entered after the first `stat` of `full` found nothing; when the
retried `stat` finds the file the branch falls through to the closing
`http.ServeFile` of `servePreview`. -/
def lazyRender (env : Env) (baseWorkDir urlPath jobID full : Str) (n : Int) (tr : Trace) :
    Reply × Trace :=
  let jobDir := Join [baseWorkDir, jobID]
  let srcPDF := Join [jobDir, lit "input.pdf"]
  let previewsDir := Join [jobDir, lit "previews"]
  let tr1 := tr ++ [Event.mkdirAll previewsDir]
  let pfx := Join [previewsDir, lit "page"]
  let args := [lit "-png", lit "-r", lit "110", lit "-f", Itoa n, lit "-l", Itoa n, srcPDF, pfx]
  let tr2 := tr1 ++ [Event.run jobDir (lit "pdftoppm") args]
  if (env.run tr1 jobDir (lit "pdftoppm") args).2 = false then
    (Reply.error 500 (lit "failed to render preview"), tr2)
  else
    let patterns := [
      Join [previewsDir, lit "page-" ++ Itoa n ++ lit ".png"],
      Join [previewsDir, lit "page-" ++ padZero 2 n.toNat ++ lit ".png"],
      Join [previewsDir, lit "page-" ++ padZero 3 n.toNat ++ lit ".png"]]
    let tr3 := renameFirst env full patterns tr2
    let tr4 := tr3 ++ [Event.stat full]
    if missingOrDir (env.stat tr3 full) then
      (Reply.error 404 (lit "file not found"), tr4)
    else ServeFile urlPath full none tr4

/-- Source: `servePreview`, with `baseWorkDir` as a parameter. -/
def servePreview (env : Env) (baseWorkDir urlPath : Str) : Reply × Trace :=
  let rel := stripRoute urlPath (lit "/api/pdf/previews/") (lit "/previews/")
  let clean := Clean rel
  if containsDotDot clean then (Reply.error 403 (lit "forbidden"), [])
  else
    let full := Join [baseWorkDir, clean]
    let tr := [Event.stat full]
    if missingOrDir (env.stat [] full) then
      let parts := splitSlash clean
      let notFound : Reply × Trace := (Reply.error 404 (lit "file not found"), tr)
      if 3 ≤ parts.length ∧ parts.get? 1 = some (lit "previews") then
        let jobID := parts.headD []
        let filename := parts.getLastD []
        if startsWith filename (lit "page-") ∧ endsWith (ToLower filename) (lit ".png") then
          let numStr := trimEnd (trimStart filename (lit "page-")) (lit ".png")
          match Atoi numStr with
          | some n =>
            if 0 < n then lazyRender env baseWorkDir urlPath jobID full n tr else notFound
          | none => notFound
        else notFound
      else notFound
    else ServeFile urlPath full none tr

/-- Source: `main`, the initialisation `baseWorkDir = filepath.Abs("./work")`
for a process started in the directory `cwd`. -/
def initBaseWorkDir (cwd : Str) : Str := Abs cwd (lit "./work")

/-! ## File names and URLs -/

/-- Source: `sanitizeFilename`. -/
def sanitizeFilename (name : Str) : Str :=
  let n1 := Base (TrimSpace name)
  let n2 := replaceChar n1 '/' '_'
  let n3 := replaceChar n2 '\\' '_'
  let n4 := TrimSpace n3
  if n4 = [] then lit "file" else n4

/-- Source: `baseNameWithoutExt`. -/
def baseNameWithoutExt (filename : Str) : Str :=
  let f := sanitizeFilename filename
  trimEnd f (Ext f)

/-- Source: `buildOutputName`. -/
def buildOutputName (originalName operation : Str) : Str :=
  let base := baseNameWithoutExt originalName
  let base := if base = [] ∨ base = lit "input" ∨ base = lit "file" then lit "output" else base
  base ++ lit "_" ++ operation ++ lit ".pdf"

/-- Source: `buildDownloadURL` (the request is not used by the source). -/
def buildDownloadURL (jobID filename : Str) : Str :=
  lit "/downloads/" ++ jobID ++ lit "/" ++ filename

/-- Source: `newJobDir`: job id, job directory and the trace, `none` when the
directory cannot be created. -/
def newJobDir (env : Env) (baseWorkDir : Str) (tr : Trace) : Option (Str × Str) × Trace :=
  let jobID := env.uuid tr
  let dir := Join [baseWorkDir, jobID]
  if env.mkdirAll tr dir then (some (jobID, dir), tr ++ [Event.mkdirAll dir])
  else (none, tr ++ [Event.mkdirAll dir])

/-! ## Page count -/

/-- Go `strings.Fields`. -/
def Fields (s : Str) : List Str := (s.splitOnP isSpace).filter (fun f => decide (f ≠ []))

/-- Source: the line scan of `pageCountPoppler` over the output of `pdfinfo`. -/
def parsePagesPoppler (out : Str) : Option Int :=
  (out.splitOn '\n').findSome? fun line =>
    let trim := TrimSpace line
    if startsWith trim (lit "Pages:") then
      let parts := Fields trim
      if 2 ≤ parts.length then
        match Atoi (parts.getLastD []) with
        | some n => if 0 < n then some n else none
        | none => none
      else none
    else none

/-- Source: the line scan of `pageCountPDF` over the output of `pdfcpu info`. -/
def parsePagesPDF (out : Str) : Option Int :=
  (out.splitOn '\n').findSome? fun line =>
    if startsWith (TrimSpace line) (lit "Pages:") then
      let parts := Fields line
      if 2 ≤ parts.length then Atoi (parts.getLastD []) else none
    else none

/-- Source: `pageCountPoppler`; `none` is the error result. -/
def pageCountPoppler (env : Env) (dir inPath : Str) (tr : Trace) : Option Int × Trace :=
  let r := env.run tr dir (lit "pdfinfo") [inPath]
  let tr1 := tr ++ [Event.run dir (lit "pdfinfo") [inPath]]
  if r.2 then (parsePagesPoppler r.1, tr1) else (none, tr1)

/-- Source: `pageCountPDF`; `none` is the error result. -/
def pageCountPDF (env : Env) (dir inPath : Str) (tr : Trace) : Option Int × Trace :=
  let r := env.run tr dir (lit "pdfcpu") [lit "info", inPath]
  let tr1 := tr ++ [Event.run dir (lit "pdfcpu") [lit "info", inPath]]
  if r.2 then (parsePagesPDF r.1, tr1) else (none, tr1)

/-! ## Page numbers: split, stamp each page, merge -/

/-- Multipart request of `handlePageNumbers`.  `opacityText` is the text that
`%.2f` gives for the clamped `opacity` field (floating point is not modelled). -/
structure PageNumbersRequest where
  /-- The method is POST. -/
  isPost : Bool
  /-- `ParseMultipartForm` succeeded. -/
  formOk : Bool
  /-- Name of the uploaded file, `none` when `FormFile("file")` fails. -/
  filename : Option Str
  /-- Form field `position`. -/
  position : Str
  /-- Form field `fontSize`. -/
  fontSize : Str
  /-- Two-decimal rendering of the clamped form field `opacity`. -/
  opacityText : Str
  /-- Form field `startAt`. -/
  startAt : Str
  /-- Form field `margin`. -/
  margin : Str

/-- Source: `handlePageNumbers`, the start value after parsing and clamping. -/
def startAtOf (field : Str) : Int :=
  let s := parseIntDefault field 1
  if s < 1 then 1 else s

/-- Source: `handlePageNumbers`, the stamp description string. -/
def stampDesc (req : PageNumbersRequest) : Str :=
  let pos := TrimSpace req.position
  let pos := if pos = [] then lit "bc" else pos
  let fontSize := parseIntDefault req.fontSize 10
  let fontSize := if fontSize < 6 then 6 else fontSize
  let fontSize := if 72 < fontSize then 72 else fontSize
  let marginStr := TrimSpace req.margin
  let marginOffset : Int :=
    if marginStr = lit "small" then 10 else if marginStr = lit "large" then 40 else 20
  let yOffset : Int := if startsWith pos (lit "t") then -marginOffset else marginOffset
  lit "pos:" ++ pos ++ lit ", off:0 " ++ Itoa yOffset ++ lit ", points:" ++ Itoa fontSize
    ++ lit ", scale:1 abs, rot:0, op:" ++ req.opacityText ++ lit ", fillc:.15 .15 .15"

/-- Source: `handlePageNumbers`, locating the single-page file of page `i`
inside `pagesDir`: `input_page_<i>.pdf`, else `page_<i>.pdf`, else the first
match of `*_page_<i>.pdf`, else the first name unchanged. -/
def resolvePage (env : Env) (pagesDir : Str) (i : Nat) (tr : Trace) : Str × Trace :=
  let pagePath := Join [pagesDir, lit "input_page_" ++ natToDec i ++ lit ".pdf"]
  let tr1 := tr ++ [Event.stat pagePath]
  if (env.stat tr pagePath).isSome then (pagePath, tr1)
  else
    let alt := Join [pagesDir, lit "page_" ++ natToDec i ++ lit ".pdf"]
    let tr2 := tr1 ++ [Event.stat alt]
    if (env.stat tr1 alt).isSome then (alt, tr2)
    else
      let pat := Join [pagesDir, lit "*_page_" ++ natToDec i ++ lit ".pdf"]
      let tr3 := tr2 ++ [Event.glob pat]
      match (env.glob tr2 pat).getD [] with
      | f :: _ => (f, tr3)
      | [] => (pagePath, tr3)

/-- Label stamped on page `i`: `fmt.Sprintf("%d", startAt+(i-1))` in Go `int`
arithmetic. -/
def pageLabel (startAt : Int) (i : Nat) : Str := Itoa (wrap64 (startAt + ((i : Int) - 1)))

/-- Output artifact of page `i`: `stamped-%04d.pdf` inside the job directory. -/
def stampedPath (dir : Str) (i : Nat) : Str :=
  Join [dir, lit "stamped-" ++ padZero 4 i ++ lit ".pdf"]

/-- Arguments of the stamp invocation of one page. -/
def stampArgs (label desc pagePath outPage : Str) : List Str :=
  [lit "stamp", lit "add", lit "-mode", lit "text", lit "--", label, desc, pagePath, outPage]

/-- Source: the `for i := 1; i <= total; i++` loop of `handlePageNumbers` over
the page indices still to do; `stamped` collects the outputs.  The result is
`none` when a stamp invocation failed (the handler then answers 500). -/
def stampPages (env : Env) (dir pagesDir desc : Str) (startAt : Int) :
    List Nat → Trace → List Str → Option (List Str) × Trace
  | [], tr, stamped => (some stamped, tr)
  | i :: rest, tr, stamped =>
    let rp := resolvePage env pagesDir i tr
    let args := stampArgs (pageLabel startAt i) desc rp.1 (stampedPath dir i)
    let tr2 := rp.2 ++ [Event.run dir (lit "pdfcpu") args]
    if (env.run rp.2 dir (lit "pdfcpu") args).2 then
      stampPages env dir pagesDir desc startAt rest tr2 (stamped ++ [stampedPath dir i])
    else (none, tr2)

/-- Page indices `1..total` visited by the stamping loop (none for
`total ≤ 0`).  The counter stays inside the `int` range for every
`total < maxInt`. -/
def pageIndices (total : Int) : List Nat := List.range' 1 total.toNat

/-- Source: `handlePageNumbers` from the creation of the `pages` directory to
the response, for a page count `total`.  `make([]string, 0, total)` panics for
a negative `total`; memory limits of the allocation are not modelled. -/
def pageNumbersPipeline (env : Env) (req : PageNumbersRequest) (filename jobID dir inPath : Str)
    (total : Int) (tr : Trace) : Reply × Trace :=
  let pagesDir := Join [dir, lit "pages"]
  let tr1 := tr ++ [Event.mkdirAll pagesDir]
  if env.mkdirAll tr pagesDir = false then
    (Reply.error 500 (lit "failed to create pages dir"), tr1)
  else
    let exArgs := [lit "extract", lit "-mode", lit "page", inPath, pagesDir]
    let tr2 := tr1 ++ [Event.run dir (lit "pdfcpu") exArgs]
    if (env.run tr1 dir (lit "pdfcpu") exArgs).2 = false then
      (Reply.error 500 (lit "failed to prepare pages"), tr2)
    else if total < 0 then (Reply.panic, tr2)
    else
      let r := stampPages env dir pagesDir (stampDesc req) (startAtOf req.startAt)
        (pageIndices total) tr2 []
      match r.1 with
      | none => (Reply.error 500 (lit "failed to add page numbers"), r.2)
      | some stamped =>
        let outName := buildOutputName filename (lit "numbered")
        let outPath := Join [dir, outName]
        let mArgs := lit "merge" :: outPath :: stamped
        let tr3 := r.2 ++ [Event.run dir (lit "pdfcpu") mArgs]
        if (env.run r.2 dir (lit "pdfcpu") mArgs).2 = false then
          (Reply.error 500 (lit "failed to write output"), tr3)
        else (Reply.download (buildDownloadURL jobID outName), tr3)

/-- Source: `handlePageNumbers`, the page count: `pageCountPDF` first and
`pageCountPoppler` only when the first fails. -/
def pageCountWithFallback (env : Env) (dir inPath : Str) (tr : Trace) : Option Int × Trace :=
  let a := pageCountPDF env dir inPath tr
  match a.1 with
  | some n => (some n, a.2)
  | none => pageCountPoppler env dir inPath a.2

/-- Source: `handlePageNumbers`, with `baseWorkDir` as a parameter. -/
def handlePageNumbers (env : Env) (baseWorkDir : Str) (req : PageNumbersRequest) :
    Reply × Trace :=
  if req.isPost = false then (Reply.error 405 (lit "method not allowed"), [])
  else if req.formOk = false then (Reply.error 400 (lit "invalid multipart form"), [])
  else
    match req.filename with
    | none => (Reply.error 400 (lit "file is required"), [])
    | some filename =>
      let j := newJobDir env baseWorkDir []
      match j.1 with
      | none => (Reply.error 500 (lit "failed to create job"), j.2)
      | some (jobID, dir) =>
        let inPath := Join [dir, lit "input.pdf"]
        let tr1 := j.2 ++ [Event.saveUpload inPath]
        if env.saveUpload j.2 inPath = false then
          (Reply.error 500 (lit "failed to save file"), tr1)
        else
          let c := pageCountWithFallback env dir inPath tr1
          match c.1 with
          | none => (Reply.error 500 (lit "failed to read page count"), c.2)
          | some total => pageNumbersPipeline env req filename jobID dir inPath total c.2

/-! ## PDF to JPG -/

/-- Multipart request of `handlePDFToJPG`. -/
structure JPGRequest where
  /-- The method is POST. -/
  isPost : Bool
  /-- `ParseMultipartForm` succeeded. -/
  formOk : Bool
  /-- Name of the uploaded file, `none` when `FormFile("file")` fails. -/
  filename : Option Str
  /-- Form field `dpi`. -/
  dpi : Str
  /-- Form field `page`. -/
  page : Str
  /-- Form field `all`. -/
  all : Str

/-- Go string comparison `a <= b` (lexicographic on code points, which is the
byte order of UTF-8). -/
def strLe : Str → Str → Bool
  | [], _ => true
  | _ :: _, [] => false
  | a :: as, b :: bs => decide (a.toNat < b.toNat) || (decide (a = b) && strLe as bs)

/-- Go `sort.Strings`. -/
def sortStrings (l : List Str) : List Str := l.insertionSort (fun a b => strLe a b = true)

/-- Source: `handlePDFToJPG`, the name of the single image returned. -/
def jpgOutputName (filename pageStr : Str) : Str :=
  let baseName := baseNameWithoutExt filename
  if pageStr ≠ [] then baseName ++ lit "_page" ++ pageStr ++ lit ".jpg"
  else baseName ++ lit ".jpg"

/-- Source: `handlePDFToJPG`, the index of the image returned. -/
def jpgPageIndex (pageStr : Str) (count : Nat) : Nat :=
  if pageStr ≠ [] then
    let requestedPage := parseIntDefault pageStr 1
    if 1 ≤ requestedPage ∧ requestedPage ≤ (count : Int) then (requestedPage - 1).toNat else 0
  else 0

/-- Source: `handlePDFToJPG` after the upload has been saved in the job
directory `dir`. -/
def pdfToJPGInJob (env : Env) (req : JPGRequest) (filename jobID dir : Str) (tr : Trace) :
    Reply × Trace :=
  let dpi := parseIntDefault req.dpi 150
  let dpi := if dpi < 72 then 72 else dpi
  let dpi := if 600 < dpi then 600 else dpi
  let inputPath := Join [dir, lit "input.pdf"]
  let c := pageCountPoppler env dir inputPath tr
  match c.1 with
  | none => (Reply.error 500 (lit "failed to get page count: " ++ env.errText c.2), c.2)
  | some pageCount =>
    let imagesDir := Join [dir, lit "images"]
    let tr1 := c.2 ++ [Event.mkdirAll imagesDir]
    if env.mkdirAll c.2 imagesDir = false then
      (Reply.error 500 (lit "failed to create images dir"), tr1)
    else
      let pfx := Join [imagesDir, lit "page"]
      let args := [lit "-jpeg", lit "-r", Itoa dpi, inputPath, pfx]
      let tr2 := tr1 ++ [Event.run dir (lit "pdftoppm") args]
      if (env.run tr1 dir (lit "pdftoppm") args).2 = false then
        (Reply.error 500 (lit "pdftoppm failed: " ++ env.errText tr2), tr2)
      else
        let baseName := baseNameWithoutExt filename
        let pat := Join [imagesDir, lit "page-*.jpg"]
        let tr3 := tr2 ++ [Event.glob pat]
        match env.glob tr2 pat with
        | none => (Reply.error 500 (lit "no JPG files generated"), tr3)
        | some [] => (Reply.error 500 (lit "no JPG files generated"), tr3)
        | some (f :: fs) =>
          let jpgFiles := sortStrings (f :: fs)
          if req.all = lit "true" ∧ 1 < pageCount then
            let zipName := baseName ++ lit "_images.zip"
            let zipPath := Join [dir, zipName]
            let tr4 := tr3 ++ [Event.zipDir imagesDir zipPath]
            if env.zipDir tr3 imagesDir zipPath = false then
              (Reply.error 500 (lit "zip failed: " ++ env.errText tr4), tr4)
            else (Reply.download (buildDownloadURL jobID zipName), tr4)
          else
            let pageIndex := jpgPageIndex req.page jpgFiles.length
            let outputName := jpgOutputName filename req.page
            let outputPath := Join [dir, outputName]
            let src := jpgFiles.getD pageIndex []
            let tr4 := tr3 ++ [Event.rename src outputPath]
            if env.rename tr3 src outputPath = false then
              (Reply.error 500 (lit "rename failed: " ++ env.errText tr4), tr4)
            else (Reply.download (buildDownloadURL jobID outputName), tr4)

/-- Source: `handlePDFToJPG`, with `baseWorkDir` as a parameter. -/
def handlePDFToJPG (env : Env) (baseWorkDir : Str) (req : JPGRequest) : Reply × Trace :=
  if req.isPost = false then (Reply.error 405 (lit "POST required"), [])
  else if req.formOk = false then (Reply.error 400 (lit "parse form failed"), [])
  else
    match req.filename with
    | none => (Reply.error 400 (lit "file required"), [])
    | some filename =>
      let j := newJobDir env baseWorkDir []
      match j.1 with
      | none => (Reply.error 500 (lit "failed to create job"), j.2)
      | some (jobID, dir) =>
        let inputPath := Join [dir, lit "input.pdf"]
        let tr1 := j.2 ++ [Event.saveUpload inputPath]
        if env.saveUpload j.2 inputPath = false then
          (Reply.error 500 (lit "save failed"), tr1)
        else pdfToJPGInJob env req filename jobID dir tr1

/-! ## Retention sweep -/

/-- Source: the loop of `cleanupOldJobs` over the entries of the storage
root; `cutoff` is `time.Now().Add(-maxAge)`. -/
def sweepEntries (env : Env) (baseWorkDir : Str) (cutoff : Int) :
    List DirEntry → Trace → Trace
  | [], tr => tr
  | e :: rest, tr =>
    if e.isDir = false then sweepEntries env baseWorkDir cutoff rest tr
    else
      let p := Join [baseWorkDir, e.name]
      let tr1 := tr ++ [Event.stat p]
      match env.stat tr p with
      | none => sweepEntries env baseWorkDir cutoff rest tr1
      | some info =>
        if info.modTime < cutoff then
          sweepEntries env baseWorkDir cutoff rest (tr1 ++ [Event.removeAll p])
        else sweepEntries env baseWorkDir cutoff rest tr1

/-- Source: `cleanupOldJobs`, with `baseWorkDir` as a parameter; `maxAge` is
the duration in nanoseconds.  The result of `os.RemoveAll` is ignored by the
source, so the trace records the removals requested. -/
def cleanupOldJobs (env : Env) (baseWorkDir : Str) (maxAge : Int) : Trace :=
  let tr := [Event.readDir baseWorkDir]
  match env.readDir [] baseWorkDir with
  | none => tr
  | some entries => sweepEntries env baseWorkDir (env.now tr - maxAge) entries tr

/-! ## Redaction -/

/-- One element of the `redactions` JSON array.  The coordinates are floats in
the source; `draw w h` is the text `rectangle x1,y1 x2,y2` the handler formats
from them for an image of `w` by `h` pixels (floating point is not modelled). -/
structure RedactionArea where
  /-- JSON field `page`. -/
  page : Int
  /-- Draw command for an image of the given width and height. -/
  draw : Int → Int → Str

/-- Multipart request of `handleRedactPDF`.  `parsed` is what `json.Unmarshal`
returns for the trimmed `redactions` field: the parser's error text or the
decoded list. -/
structure RedactRequest where
  /-- The method is POST. -/
  isPost : Bool
  /-- `ParseMultipartForm` succeeded. -/
  formOk : Bool
  /-- Form field `redactions`. -/
  redactions : Str
  /-- Result of `json.Unmarshal` on the trimmed field. -/
  parsed : Except Str (List RedactionArea)
  /-- Name of the uploaded file, `none` when `FormFile("file")` fails. -/
  filename : Option Str

/-- Go `fmt` scanning of one `%d`: blanks are skipped (a newline is not), then
an optional sign and a run of digits or underscores is read and given to
`strconv.ParseInt(tok, 10, 64)`.  Returns the value and the rest of the input. -/
def scanInt (s : Str) : Option (Int × Str) :=
  let s1 := s.dropWhile (fun c => isSpace c && decide (c ≠ '\n'))
  let sign : Str := match s1 with
    | '+' :: _ => ['+']
    | '-' :: _ => ['-']
    | _ => []
  let s2 := s1.drop sign.length
  let tok := s2.takeWhile (fun c => c.isDigit || decide (c = '_'))
  if tok = [] then none
  else
    match Atoi (sign ++ tok) with
    | some n => some (n, s2.drop tok.length)
    | none => none

/-- Source: `fmt.Sscanf(base, "page-%d.png", &pn)` in `handleRedactPDF`: the
page number when the scan succeeds. -/
def scanPageName (base : Str) : Option Int :=
  if startsWith base (lit "page-") then
    match scanInt (base.drop 5) with
    | some (n, rest) => if startsWith rest (lit ".png") then some n else none
    | none => none
  else none

/-- Source: `fmt.Sscanf(s, "%d %d", &imgWidth, &imgHeight)` in
`handleRedactPDF`. -/
def scanDims (s : Str) : Option (Int × Int) :=
  match scanInt s with
  | some (w, rest) =>
    match scanInt rest with
    | some (h, _) => some (w, h)
    | none => none
  | none => none

/-- Source: `handleRedactPDF`, the search of the rendered image of a page
among the sorted renderer outputs. -/
def findPagePNG (pngFiles : List Str) (pageNum : Int) : Option Str :=
  pngFiles.find? (fun p => decide (scanPageName (Base p) = some pageNum))

/-- Source: the loop `for pageNum, areas := range pageRedactions` of
`handleRedactPDF` over the pages still to visit.  The first component is the
error response when the loop returns early. -/
def redactPages (env : Env) (dir : Str) (areas : List RedactionArea) (pngFiles : List Str) :
    List Int → Trace → Option Reply × Trace
  | [], tr => (none, tr)
  | pageNum :: rest, tr =>
    match findPagePNG pngFiles pageNum with
    | none => redactPages env dir areas pngFiles rest tr
    | some pngPath =>
      let idArgs := [lit "-format", lit "%w %h", pngPath]
      let tr1 := tr ++ [Event.run dir (lit "identify") idArgs]
      let r := env.run tr dir (lit "identify") idArgs
      if r.2 = false then
        (some (Reply.error 500 (lit "identify failed: " ++ env.errText tr1)), tr1)
      else
        match scanDims (TrimSpace r.1) with
        | none => (some (Reply.error 500 (lit "parse dimensions failed")), tr1)
        | some (w, h) =>
          let drawCmds := (areas.filter (fun a => decide (a.page = pageNum))).map
            (fun a => a.draw w h)
          let tempPath := pngPath ++ lit ".tmp.png"
          let convertArgs := [pngPath, lit "-fill", lit "black"]
            ++ drawCmds.flatMap (fun c => [lit "-draw", c]) ++ [tempPath]
          let tr2 := tr1 ++ [Event.run dir (lit "convert") convertArgs]
          if (env.run tr1 dir (lit "convert") convertArgs).2 = false then
            (some (Reply.error 500 (lit "convert failed: " ++ env.errText tr2)), tr2)
          else
            let tr3 := tr2 ++ [Event.rename tempPath pngPath]
            if env.rename tr2 tempPath pngPath = false then
              (some (Reply.error 500 (lit "rename failed: " ++ env.errText tr3)), tr3)
            else redactPages env dir areas pngFiles rest tr3

/-- Source: `handleRedactPDF` after the upload has been saved in the job
directory `dir`. -/
def redactInJob (env : Env) (redactions : List RedactionArea) (filename jobID dir : Str)
    (tr : Trace) : Reply × Trace :=
  let inputPath := Join [dir, lit "input.pdf"]
  let pngPrefix := Join [dir, lit "page"]
  let rArgs := [lit "-png", lit "-r", lit "300", inputPath, pngPrefix]
  let tr1 := tr ++ [Event.run dir (lit "pdftoppm") rArgs]
  if (env.run tr dir (lit "pdftoppm") rArgs).2 = false then
    (Reply.error 500 (lit "pdftoppm failed: " ++ env.errText tr1), tr1)
  else
    let pat := Join [dir, lit "page-*.png"]
    let tr2 := tr1 ++ [Event.glob pat]
    match env.glob tr1 pat with
    | none => (Reply.error 500 (lit "no pages generated"), tr2)
    | some [] => (Reply.error 500 (lit "no pages generated"), tr2)
    | some (f :: fs) =>
      let pngFiles := sortStrings (f :: fs)
      let keys := env.mapOrder tr2 (redactions.map (fun a => a.page)).dedup
      let lp := redactPages env dir redactions pngFiles keys tr2
      match lp.1 with
      | some reply => (reply, lp.2)
      | none =>
        let tempPdfPath := Join [dir, lit "temp_redacted.pdf"]
        let cArgs := pngFiles ++ [tempPdfPath]
        let tr3 := lp.2 ++ [Event.run dir (lit "convert") cArgs]
        if (env.run lp.2 dir (lit "convert") cArgs).2 = false then
          (Reply.error 500 (lit "convert to pdf failed: " ++ env.errText tr3), tr3)
        else
          let outputName := baseNameWithoutExt filename ++ lit "_redacted.pdf"
          let outputPath := Join [dir, outputName]
          let qArgs := [lit "--warning-exit-0", lit "--linearize", lit "--compress-streams=y",
            lit "--object-streams=disable", tempPdfPath, outputPath]
          let tr4 := tr3 ++ [Event.run dir (lit "qpdf") qArgs]
          if (env.run tr3 dir (lit "qpdf") qArgs).2 = false then
            (Reply.error 500 (lit "qpdf optimize failed: " ++ env.errText tr4), tr4)
          else
            (Reply.download (buildDownloadURL jobID outputName),
              tr4 ++ [Event.remove tempPdfPath] ++ pngFiles.map Event.remove)

/-- Source: `handleRedactPDF`, with `baseWorkDir` as a parameter. -/
def handleRedactPDF (env : Env) (baseWorkDir : Str) (req : RedactRequest) : Reply × Trace :=
  if req.isPost = false then (Reply.error 405 (lit "POST required"), [])
  else if req.formOk = false then (Reply.error 400 (lit "parse form failed"), [])
  else if TrimSpace req.redactions = [] then
    (Reply.error 400 (lit "redactions JSON required"), [])
  else
    match req.parsed with
    | Except.error e => (Reply.error 400 (lit "invalid redactions JSON: " ++ e), [])
    | Except.ok [] => (Reply.error 400 (lit "at least one redaction area required"), [])
    | Except.ok (a :: as) =>
      match req.filename with
      | none => (Reply.error 400 (lit "file required"), [])
      | some filename =>
        let j := newJobDir env baseWorkDir []
        match j.1 with
        | none => (Reply.error 500 (lit "failed to create job"), j.2)
        | some (jobID, dir) =>
          let inputPath := Join [dir, lit "input.pdf"]
          let tr1 := j.2 ++ [Event.saveUpload inputPath]
          if env.saveUpload j.2 inputPath = false then
            (Reply.error 500 (lit "save failed"), tr1)
          else redactInJob env (a :: as) filename jobID dir tr1

/-! ## Signatures -/

/-- One element of the `signatures` JSON array.  Position and size are floats
in the source; `resize w h` and `offset w h` are the texts `%dx%d!` and
`+%d+%d` the handler formats from them for a page of `w` by `h` points, and
`decodes` tells whether `base64.StdEncoding.DecodeString` accepts the part of
`imageData` after the first comma (neither is modelled further). -/
structure PlacedSignature where
  /-- JSON field `id`. -/
  id : Str
  /-- JSON field `page`. -/
  page : Int
  /-- JSON field `imageData`. -/
  imageData : Str
  /-- The payload of `imageData` is valid base64. -/
  decodes : Bool
  /-- Text of the `-resize` argument for a page of the given size. -/
  resize : Int → Int → Str
  /-- Text of the `-geometry` argument for a page of the given size. -/
  offset : Int → Int → Str

/-- Multipart request of `handleSignPDF`.  `parsed` is what `json.Unmarshal`
returns for the `signatures` field. -/
structure SignRequest where
  /-- The method is POST. -/
  isPost : Bool
  /-- `ParseMultipartForm` succeeded. -/
  formOk : Bool
  /-- Name of the uploaded file, `none` when `FormFile("file")` fails. -/
  filename : Option Str
  /-- Form field `signatures`. -/
  signaturesJSON : Str
  /-- Result of `json.Unmarshal` on the field. -/
  parsed : Except Str (List PlacedSignature)

/-- Source: `handleSignPDF`, the test that keeps a signature when grouping by
page. -/
def validSignature (sig : PlacedSignature) : Bool :=
  decide (sig.imageData ≠ []) && startsWith sig.imageData (lit "data:image")

/-- Source: `handleSignPDF`, the page size read from the output of `pdfinfo`;
`toInt` stands for `strconv.ParseFloat` followed by the conversion to `int`. -/
def pageSizeOf (toInt : Str → Option Int) (out : Str) : Int × Int :=
  match (out.splitOn '\n').find? (fun line => startsWith line (lit "Page size:")) with
  | none => (612, 792)
  | some line =>
    let parts := Fields line
    if 5 ≤ parts.length then
      ((toInt (parts.getD 2 [])).getD 612, (toInt (parts.getD 4 [])).getD 792)
    else (612, 792)

/-- Source: the inner loop `for i, sig := range sigs` of `handleSignPDF`:
every signature that can be split, decoded and written adds its arguments to
the composite command. -/
def compositeSigs (env : Env) (dir : Str) (pageNum : Int) (w h : Int) :
    List (Nat × PlacedSignature) → Trace → List Str → List Str × Trace
  | [], tr, args => (args, tr)
  | (i, sig) :: rest, tr, args =>
    if ¬ sig.imageData.contains ',' then compositeSigs env dir pageNum w h rest tr args
    else if sig.decodes = false then compositeSigs env dir pageNum w h rest tr args
    else
      let sigPath := Join [dir, lit "sig_p" ++ Itoa pageNum ++ lit "_" ++ natToDec i ++ lit ".png"]
      let tr1 := tr ++ [Event.writeFile sigPath]
      if env.writeFile tr sigPath = false then
        compositeSigs env dir pageNum w h rest tr1 args
      else
        compositeSigs env dir pageNum w h rest tr1
          (args ++ [lit "(", sigPath, lit "-resize", sig.resize w h, lit ")",
            lit "-geometry", sig.offset w h, lit "-composite"])

/-- Arguments of the stamp invocation that puts the overlay on one page. -/
def signStampArgs (pageNum : Int) (overlayPath currentInput tempOutput : Str) : List Str :=
  [lit "stamp", lit "add", lit "-mode", lit "image", lit "-pages", Itoa pageNum, lit "--",
    overlayPath, lit "pos:tl, off:0 0, scale:1.0 abs, rot:0", currentInput, tempOutput]

/-- Source: the loop `for pageNum, sigs := range pageSignatures` of
`handleSignPDF` over the pages still to visit; the state is the current input
document and the counter of temporary outputs.  A page whose composite or
stamp invocation fails is skipped (`continue`). -/
def signPages (env : Env) (dir : Str) (sigs : List PlacedSignature) (w h : Int) :
    List Int → Trace → Str → Nat → Str × Trace
  | [], tr, currentInput, _ => (currentInput, tr)
  | pageNum :: rest, tr, currentInput, tempCounter =>
    let overlayPath := Join [dir, lit "overlay_" ++ Itoa pageNum ++ lit ".png"]
    let mine := (sigs.filter (fun s => decide (s.page = pageNum))).enum
    let c := compositeSigs env dir pageNum w h mine tr
      [lit "-size", Itoa w ++ lit "x" ++ Itoa h, lit "xc:none"]
    let compositeArgs := c.1 ++ [lit "PNG32:" ++ overlayPath]
    let tr1 := c.2 ++ [Event.run dir (lit "convert") compositeArgs]
    if (env.run c.2 dir (lit "convert") compositeArgs).2 = false then
      signPages env dir sigs w h rest tr1 currentInput tempCounter
    else
      let tempOutput := Join [dir, lit "temp_" ++ natToDec tempCounter ++ lit ".pdf"]
      let args := signStampArgs pageNum overlayPath currentInput tempOutput
      let tr2 := tr1 ++ [Event.run dir (lit "pdfcpu") args]
      if (env.run tr1 dir (lit "pdfcpu") args).2 = false then
        signPages env dir sigs w h rest tr2 currentInput (tempCounter + 1)
      else signPages env dir sigs w h rest tr2 tempOutput (tempCounter + 1)

/-- Source: `handleSignPDF` after the upload has been saved in the job
directory `dir`. -/
def signInJob (env : Env) (toInt : Str → Option Int) (req : SignRequest)
    (filename jobID dir : Str) (tr : Trace) : Reply × Trace :=
  let inputPath := Join [dir, lit "input.pdf"]
  let outputName := baseNameWithoutExt filename ++ lit "_signed.pdf"
  let outputPath := Join [dir, outputName]
  let parsed : Except Str (List PlacedSignature) :=
    if req.signaturesJSON ≠ [] then req.parsed else Except.ok []
  match parsed with
  | Except.error _ => (Reply.error 400 (lit "invalid signatures format"), tr)
  | Except.ok [] => (Reply.error 400 (lit "no signatures provided"), tr)
  | Except.ok (s :: ss) =>
    let valid := (s :: ss).filter validSignature
    let info := env.run tr dir (lit "pdfinfo") [inputPath]
    let tr1 := tr ++ [Event.run dir (lit "pdfinfo") [inputPath]]
    let size : Int × Int := if info.2 then pageSizeOf toInt info.1 else (612, 792)
    let keys := env.mapOrder tr1 (valid.map (fun x => x.page)).dedup
    let lp := signPages env dir valid size.1 size.2 keys tr1 inputPath 0
    if lp.1 ≠ inputPath then
      let tr2 := lp.2 ++ [Event.copyFile lp.1 outputPath]
      if env.copyFile lp.2 lp.1 outputPath = false then
        (Reply.error 500 (lit "failed to finalize PDF"), tr2)
      else (Reply.download (buildDownloadURL jobID outputName), tr2)
    else (Reply.error 500 (lit "no signatures could be applied"), lp.2)

/-- Source: `handleSignPDF`, with `baseWorkDir` as a parameter. -/
def handleSignPDF (env : Env) (toInt : Str → Option Int) (baseWorkDir : Str)
    (req : SignRequest) : Reply × Trace :=
  if req.isPost = false then (Reply.error 405 (lit "POST required"), [])
  else if req.formOk = false then (Reply.error 400 (lit "invalid multipart form"), [])
  else
    match req.filename with
    | none => (Reply.error 400 (lit "file is required"), [])
    | some filename =>
      let j := newJobDir env baseWorkDir []
      match j.1 with
      | none => (Reply.error 500 (env.errText j.2), j.2)
      | some (jobID, dir) =>
        let inputPath := Join [dir, lit "input.pdf"]
        let tr1 := j.2 ++ [Event.saveUpload inputPath]
        if env.saveUpload j.2 inputPath = false then
          (Reply.error 500 (lit "failed to save file"), tr1)
        else signInJob env toInt req filename jobID dir tr1

/-! ## Previews: eager rendering and name reconciliation -/

/-- Multipart request of `handlePreview`. -/
structure PreviewRequest where
  /-- The method is POST. -/
  isPost : Bool
  /-- `ParseMultipartForm` succeeded. -/
  formOk : Bool
  /-- Name of the uploaded file, `none` when `FormFile("file")` fails. -/
  filename : Option Str
  /-- Result of `inferBaseURL(r)`: scheme and host of the request. -/
  baseURL : Str

/-- Source: `buildPreviewURL`. -/
def buildPreviewURL (baseURL jobID filename : Str) : Str :=
  baseURL ++ lit "/previews/" ++ jobID ++ lit "/" ++ filename

/-- Canonical preview file of page `i`: `page-<i>.png` in the previews
directory. -/
def canonicalPreview (previewsDir : Str) (i : Nat) : Str :=
  Join [previewsDir, lit "page-" ++ natToDec i ++ lit ".png"]

/-- Preview file of page `i` with the page number zero-padded to width `w`. -/
def paddedPreview (previewsDir : Str) (w i : Nat) : Str :=
  Join [previewsDir, lit "page-" ++ padZero w i ++ lit ".png"]

/-- Source: the inner loop `for _, p := range padded` of `handlePreview`: the
first candidate that exists is renamed to `expected`. -/
def renamePadded (env : Env) (expected : Str) : List Str → Trace → Trace
  | [], tr => tr
  | p :: rest, tr =>
    if (env.stat tr p).isSome then tr ++ [Event.stat p, Event.rename p expected]
    else renamePadded env expected rest (tr ++ [Event.stat p])

/-- Source: the body of the reconciliation loop of `handlePreview` for page
`i`: nothing when the canonical file exists, else the padded names of width 2,
3 and 4 are tried in that order. -/
def reconcilePage (env : Env) (previewsDir : Str) (i : Nat) (tr : Trace) : Trace :=
  let expected := canonicalPreview previewsDir i
  if (env.stat tr expected).isSome then tr ++ [Event.stat expected]
  else
    renamePadded env expected
      [paddedPreview previewsDir 2 i, paddedPreview previewsDir 3 i,
        paddedPreview previewsDir 4 i]
      (tr ++ [Event.stat expected])

/-- Source: the reconciliation loop `for i := 1; i <= total; i++` of
`handlePreview` over the page indices still to do. -/
def reconcilePreviews (env : Env) (previewsDir : Str) : List Nat → Trace → Trace
  | [], tr => tr
  | i :: rest, tr => reconcilePreviews env previewsDir rest (reconcilePage env previewsDir i tr)

/-- Source: `handlePreview`, the page count: `pageCountPoppler` first and
`pageCountPDF` only when the first fails. -/
def previewPageCount (env : Env) (dir inPath : Str) (tr : Trace) : Option Int × Trace :=
  let a := pageCountPoppler env dir inPath tr
  match a.1 with
  | some n => (some n, a.2)
  | none => pageCountPDF env dir inPath a.2

/-- Source: `handlePreview` after the page count `total` is known.
`make([]previewPage, 0, total)` panics for a negative `total`. -/
def previewInJob (env : Env) (baseURL jobID dir : Str) (total : Int) (tr : Trace) :
    Reply × Trace :=
  if total < 0 then (Reply.panic, tr)
  else
    let inPath := Join [dir, lit "input.pdf"]
    let previewsDir := Join [dir, lit "previews"]
    let pages := (pageIndices total).map (fun i =>
      (i, buildPreviewURL baseURL jobID
        (Join [lit "previews", lit "page-" ++ natToDec i ++ lit ".png"])))
    let pfx := Join [previewsDir, lit "page"]
    let tr1 := tr ++ [Event.run dir (lit "pdftoppm")
      [lit "-png", lit "-r", lit "110", inPath, pfx]]
    (Reply.preview pages, reconcilePreviews env previewsDir (pageIndices total) tr1)

/-- Source: `handlePreview`, with `baseWorkDir` as a parameter. -/
def handlePreview (env : Env) (baseWorkDir : Str) (req : PreviewRequest) : Reply × Trace :=
  if req.isPost = false then (Reply.error 405 (lit "method not allowed"), [])
  else if req.formOk = false then (Reply.error 400 (lit "invalid multipart form"), [])
  else
    match req.filename with
    | none => (Reply.error 400 (lit "file is required"), [])
    | some _ =>
      let j := newJobDir env baseWorkDir []
      match j.1 with
      | none => (Reply.error 500 (lit "failed to create job"), j.2)
      | some (jobID, dir) =>
        let inPath := Join [dir, lit "input.pdf"]
        let tr1 := j.2 ++ [Event.saveUpload inPath]
        if env.saveUpload j.2 inPath = false then
          (Reply.error 500 (lit "failed to save file"), tr1)
        else
          let previewsDir := Join [dir, lit "previews"]
          let tr2 := tr1 ++ [Event.mkdirAll previewsDir]
          if env.mkdirAll tr1 previewsDir = false then
            (Reply.error 500 (lit "failed to create previews dir"), tr2)
          else
            let c := previewPageCount env dir inPath tr2
            match c.1 with
            | none => (Reply.error 500 (lit "failed to read page count"), c.2)
            | some total => previewInJob env req.baseURL jobID dir total c.2

/-! ## Organize: rotations grouped by angle -/

/-- Source: `organizeRotation`. -/
structure OrganizeRotation where
  /-- JSON field `pageNumber`. -/
  pageNumber : Int
  /-- JSON field `degrees`. -/
  degrees : Int
deriving DecidableEq, Repr

/-- Multipart request of `handleOrganize`.  `parsed` is what `json.Unmarshal`
returns for the trimmed `rotations` field. -/
structure OrganizeRequest where
  /-- The method is POST. -/
  isPost : Bool
  /-- `ParseMultipartForm` succeeded. -/
  formOk : Bool
  /-- Name of the uploaded file, `none` when `FormFile("file")` fails. -/
  filename : Option Str
  /-- Form field `order`. -/
  order : Str
  /-- Form field `rotations`. -/
  rotations : Str
  /-- Result of `json.Unmarshal` on the trimmed field. -/
  parsed : Except Str (List OrganizeRotation)

/-- Source: `((rot.Degrees % 360) + 360) % 360` with the remainder of Go
(truncated division). -/
def normDegrees (d : Int) : Int := Int.tmod (Int.tmod d 360 + 360) 360

/-- Source: the body of `for _, rot := range rotations` in `handleOrganize`:
the page number joins the bucket of its angle unless the angle is 0, is not
90, 180 or 270, or the page number is not positive. -/
def addRotation (buckets : Int → List Int) (rot : OrganizeRotation) : Int → List Int :=
  let deg := normDegrees rot.degrees
  if deg = 0 then buckets
  else if deg ≠ 90 ∧ deg ≠ 180 ∧ deg ≠ 270 then buckets
  else if rot.pageNumber ≤ 0 then buckets
  else fun d => if d = deg then buckets d ++ [rot.pageNumber] else buckets d

/-- Source: `handleOrganize`, the buckets after the grouping loop. -/
def rotationBuckets (rotations : List OrganizeRotation) : Int → List Int :=
  rotations.foldl addRotation (fun _ => [])

/-- Go `sort.Ints`. -/
def sortInts (l : List Int) : List Int := l.insertionSort (fun a b => a ≤ b)

/-- Source: `handleOrganize`, the page list expression of a bucket: the sorted
page numbers joined with commas. -/
def pagesSpec (bucket : List Int) : Str := [','].intercalate ((sortInts bucket).map Itoa)

/-- Arguments of the rotate invocation of one angle. -/
def rotateArgs (bucket : List Int) (workPath : Str) (deg : Int) : List Str :=
  [lit "rotate", lit "-pages", pagesSpec bucket, workPath, '-' :: Itoa deg]

/-- Source: the loop `for _, deg := range []int{90, 180, 270}` of
`handleOrganize` over the angles still to do.  The first component is the
error response when a rotate invocation fails. -/
def rotateBuckets (env : Env) (dir workPath : Str) (buckets : Int → List Int) :
    List Int → Trace → Option Reply × Trace
  | [], tr => (none, tr)
  | deg :: rest, tr =>
    if buckets deg = [] then rotateBuckets env dir workPath buckets rest tr
    else
      let args := rotateArgs (buckets deg) workPath deg
      let tr1 := tr ++ [Event.run dir (lit "pdfcpu") args]
      if (env.run tr dir (lit "pdfcpu") args).2 = false then
        (some (Reply.error 500 (lit "failed to rotate pages")), tr1)
      else rotateBuckets env dir workPath buckets rest tr1

/-- Source: `handleOrganize`, the optional rotation step: nothing for an empty
`rotations` field, 400 for a malformed one. -/
def rotateStep (env : Env) (req : OrganizeRequest) (dir workPath : Str) (tr : Trace) :
    Option Reply × Trace :=
  if TrimSpace req.rotations = [] then (none, tr)
  else
    match req.parsed with
    | Except.error _ => (some (Reply.error 400 (lit "invalid rotations")), tr)
    | Except.ok rotations =>
      rotateBuckets env dir workPath (rotationBuckets rotations) [90, 180, 270] tr

/-- Source: `handleOrganize`, with `baseWorkDir` as a parameter. -/
def handleOrganize (env : Env) (baseWorkDir : Str) (req : OrganizeRequest) : Reply × Trace :=
  if req.isPost = false then (Reply.error 405 (lit "method not allowed"), [])
  else if req.formOk = false then (Reply.error 400 (lit "invalid multipart form"), [])
  else
    match req.filename with
    | none => (Reply.error 400 (lit "file is required"), [])
    | some filename =>
      if TrimSpace req.order = [] then (Reply.error 400 (lit "order is required"), [])
      else
        let j := newJobDir env baseWorkDir []
        match j.1 with
        | none => (Reply.error 500 (lit "failed to create job"), j.2)
        | some (jobID, dir) =>
          let inPath := Join [dir, lit "input.pdf"]
          let tr1 := j.2 ++ [Event.saveUpload inPath]
          if env.saveUpload j.2 inPath = false then
            (Reply.error 500 (lit "failed to save file"), tr1)
          else
            let workPath := Join [dir, lit "work.pdf"]
            let tr2 := tr1 ++ [Event.readFile inPath]
            if env.readFile tr1 inPath = false then
              (Reply.error 500 (lit "failed to prepare work file"), tr2)
            else
              let tr3 := tr2 ++ [Event.writeFile workPath]
              let rs := rotateStep env req dir workPath tr3
              match rs.1 with
              | some reply => (reply, rs.2)
              | none =>
                let outName := buildOutputName filename (lit "organized")
                let outPath := Join [dir, outName]
                let cArgs := [lit "collect", lit "-pages", TrimSpace req.order, workPath, outPath]
                let tr4 := rs.2 ++ [Event.run dir (lit "pdfcpu") cArgs]
                if (env.run rs.2 dir (lit "pdfcpu") cArgs).2 = false then
                  (Reply.error 500 (lit "failed to organize PDF"), tr4)
                else (Reply.download (buildDownloadURL jobID outName), tr4)

/-! ## Edit: annotations stamped page after page -/

/-- One element of the `annotations` JSON array.  Positions and sizes are
floats in the source; the texts the handler formats from them and from the
page size are given as functions of `info`, the output of `pdfinfo` when it
could be read (floating point is not modelled).  `decodes` tells whether
`base64.StdEncoding.DecodeString` accepts the payload of `imageData`, and
`pathLen` is `len(ann.DrawingPath)`. -/
structure Annotation where
  /-- JSON field `id`. -/
  id : Str
  /-- JSON field `type`. -/
  type : Str
  /-- JSON field `page`. -/
  page : Int
  /-- JSON field `content`. -/
  content : Str
  /-- JSON field `fontSize`. -/
  fontSize : Int
  /-- JSON field `color`. -/
  color : Str
  /-- JSON field `imageData`. -/
  imageData : Str
  /-- The payload of `imageData` is valid base64. -/
  decodes : Bool
  /-- Number of points of `drawingPath`. -/
  pathLen : Nat
  /-- Text of the `-draw text ...` argument. -/
  textDraw : Option Str → Str
  /-- Text of the `-resize` argument of an image. -/
  imgResize : Option Str → Str
  /-- Text of the `-geometry` argument of an image. -/
  imgOffset : Option Str → Str
  /-- Text of the `-draw polyline ...` argument. -/
  polyline : Option Str → Str

/-- Multipart request of `handleEditPDF`.  `parsed` is what `json.Unmarshal`
returns for the `annotations` field. -/
structure EditRequest where
  /-- The method is POST. -/
  isPost : Bool
  /-- `ParseMultipartForm` succeeded. -/
  formOk : Bool
  /-- Name of the uploaded file, `none` when `FormFile("file")` fails. -/
  filename : Option Str
  /-- Form field `annotations`. -/
  annotationsJSON : Str
  /-- Result of `json.Unmarshal` on the field. -/
  parsed : Except Str (List Annotation)

/-- Overlay arguments, `hasContent` flag and trace while the annotations of
one page are collected. -/
structure OverlayState where
  /-- The `overlayArgs` built so far. -/
  args : List Str
  /-- The flag `hasContent`. -/
  hasContent : Bool
  /-- The events so far. -/
  tr : Trace

/-- Source: `handleEditPDF`, the block of a `drawing` annotation. -/
def drawingBlock (info : Option Str) (ann : Annotation) (st : OverlayState) : OverlayState :=
  if ann.type = lit "drawing" ∧ 1 < ann.pathLen then
    let drawColor := if ann.color = [] then lit "#000000" else ann.color
    let isHighlight := decide (drawColor = lit "#FFFF00")
    let strokeWidth := if isHighlight then lit "12" else lit "3"
    let strokeColor := if isHighlight then lit "#FFFF0080" else drawColor
    { st with
      args := st.args ++ [lit "-stroke", strokeColor, lit "-strokewidth", strokeWidth,
        lit "-fill", lit "none", lit "-draw", ann.polyline info]
      hasContent := true }
  else st

/-- Source: `handleEditPDF`, the block of a `text` annotation. -/
def textBlock (info : Option Str) (ann : Annotation) (st : OverlayState) : OverlayState :=
  if ann.type = lit "text" ∧ ann.content ≠ [] then
    let fontSize := if ann.fontSize < 8 then 16 else ann.fontSize
    let color := if ann.color = [] then lit "#000000" else ann.color
    { st with
      args := st.args ++ [lit "-font", lit "DejaVu-Sans", lit "-fill", color,
        lit "-pointsize", Itoa fontSize, lit "-draw", ann.textDraw info]
      hasContent := true }
  else st

/-- Source: the body of `for i, ann := range pageAnns` in `handleEditPDF`:
text block, image block (whose failures `continue` to the next annotation),
drawing block. -/
def annotationStep (env : Env) (dir : Str) (pageNum : Int) (info : Option Str)
    (sizeText : Option Str → Str) (i : Nat) (ann : Annotation) (st : OverlayState) :
    OverlayState :=
  let s1 := textBlock info ann st
  if ann.type = lit "image" ∧ ann.imageData ≠ [] ∧
      startsWith ann.imageData (lit "data:image") = true then
    if ann.imageData.contains ',' then
      if ann.decodes = false then s1
      else
        let imgPath := Join [dir, lit "img_" ++ Itoa pageNum ++ lit "_" ++ natToDec i ++ lit ".png"]
        let tr1 := s1.tr ++ [Event.writeFile imgPath]
        if env.writeFile s1.tr imgPath = false then { s1 with tr := tr1 }
        else
          let imgOverlayPath :=
            Join [dir, lit "img_overlay_" ++ Itoa pageNum ++ lit "_" ++ natToDec i ++ lit ".png"]
          let imgOverlayArgs := [lit "-size", sizeText info, lit "xc:none", lit "(", imgPath,
            lit "-resize", ann.imgResize info, lit ")", lit "-geometry", ann.imgOffset info,
            lit "-composite", lit "PNG32:" ++ imgOverlayPath]
          let tr2 := tr1 ++ [Event.run dir (lit "convert") imgOverlayArgs]
          if (env.run tr1 dir (lit "convert") imgOverlayArgs).2 = false then { s1 with tr := tr2 }
          else
            drawingBlock info ann
              { args := s1.args ++ [imgOverlayPath, lit "-composite"], hasContent := true,
                tr := tr2 }
    else drawingBlock info ann s1
  else drawingBlock info ann s1

/-- Source: the loop `for i, ann := range pageAnns` of `handleEditPDF`. -/
def editAnnotations (env : Env) (dir : Str) (pageNum : Int) (info : Option Str)
    (sizeText : Option Str → Str) : List (Nat × Annotation) → OverlayState → OverlayState
  | [], st => st
  | (i, ann) :: rest, st =>
    editAnnotations env dir pageNum info sizeText rest
      (annotationStep env dir pageNum info sizeText i ann st)

/-- Current input, temporary counter, applied counter and trace of the page
loop of `handleEditPDF`. -/
structure EditProgress where
  /-- The variable `currentInput`. -/
  currentInput : Str
  /-- The variable `tempCounter`. -/
  tempCounter : Nat
  /-- The variable `appliedCount`. -/
  appliedCount : Nat
  /-- The events so far. -/
  tr : Trace

/-- Source: the loop `for pageNum, pageAnns := range pageGroups` of
`handleEditPDF` over the pages still to visit. -/
def editPages (env : Env) (dir : Str) (anns : List Annotation) (info : Option Str)
    (sizeText : Option Str → Str) : List Int → EditProgress → EditProgress
  | [], st => st
  | pageNum :: rest, st =>
    let overlayFile := Join [dir, lit "edit_overlay_" ++ Itoa pageNum ++ lit ".png"]
    let mine := (anns.filter (fun a => decide (a.page = pageNum))).enum
    let o := editAnnotations env dir pageNum info sizeText mine
      { args := [lit "-size", sizeText info, lit "xc:none"], hasContent := false, tr := st.tr }
    if o.hasContent = false then
      editPages env dir anns info sizeText rest { st with tr := o.tr }
    else
      let overlayArgs := o.args ++ [lit "PNG32:" ++ overlayFile]
      let tr1 := o.tr ++ [Event.run dir (lit "convert") overlayArgs]
      if (env.run o.tr dir (lit "convert") overlayArgs).2 = false then
        editPages env dir anns info sizeText rest { st with tr := tr1 }
      else
        let tempOutput := Join [dir, lit "temp_" ++ natToDec st.tempCounter ++ lit ".pdf"]
        let args := signStampArgs pageNum overlayFile st.currentInput tempOutput
        let tr2 := tr1 ++ [Event.run dir (lit "pdfcpu") args]
        if (env.run tr1 dir (lit "pdfcpu") args).2 = false then
          editPages env dir anns info sizeText rest
            { st with tempCounter := st.tempCounter + 1, tr := tr2 }
        else
          editPages env dir anns info sizeText rest
            { currentInput := tempOutput, tempCounter := st.tempCounter + 1,
              appliedCount := st.appliedCount + 1, tr := tr2 }

/-- Source: `handleEditPDF` after the upload has been saved in the job
directory `dir`; `sizeText` stands for the `%dx%d` text of the page size. -/
def editInJob (env : Env) (sizeText : Option Str → Str) (req : EditRequest)
    (filename jobID dir : Str) (tr : Trace) : Reply × Trace :=
  let inputPath := Join [dir, lit "input.pdf"]
  let outputName := baseNameWithoutExt filename ++ lit "_edited.pdf"
  let outputPath := Join [dir, outputName]
  let parsed : Except Str (List Annotation) :=
    if req.annotationsJSON ≠ [] then req.parsed else Except.ok []
  match parsed with
  | Except.error _ => (Reply.error 400 (lit "invalid annotations format"), tr)
  | Except.ok [] => (Reply.error 400 (lit "no annotations provided"), tr)
  | Except.ok (a :: as) =>
    let r := env.run tr dir (lit "pdfinfo") [inputPath]
    let tr1 := tr ++ [Event.run dir (lit "pdfinfo") [inputPath]]
    let info : Option Str := if r.2 then some r.1 else none
    let keys := env.mapOrder tr1 ((a :: as).map (fun x => x.page)).dedup
    let lp := editPages env dir (a :: as) info sizeText keys
      { currentInput := inputPath, tempCounter := 0, appliedCount := 0, tr := tr1 }
    if lp.appliedCount = 0 then
      (Reply.error 500 (lit "failed to apply annotations to PDF"), lp.tr)
    else
      let tr2 := lp.tr ++ [Event.copyFile lp.currentInput outputPath]
      if env.copyFile lp.tr lp.currentInput outputPath = false then
        (Reply.error 500 (lit "failed to finalize PDF"), tr2)
      else (Reply.download (buildDownloadURL jobID outputName), tr2)

/-- Source: `handleEditPDF`, with `baseWorkDir` as a parameter. -/
def handleEditPDF (env : Env) (sizeText : Option Str → Str) (baseWorkDir : Str)
    (req : EditRequest) : Reply × Trace :=
  if req.isPost = false then (Reply.error 405 (lit "POST required"), [])
  else if req.formOk = false then (Reply.error 400 (lit "invalid multipart form"), [])
  else
    match req.filename with
    | none => (Reply.error 400 (lit "file is required"), [])
    | some filename =>
      let j := newJobDir env baseWorkDir []
      match j.1 with
      | none => (Reply.error 500 (env.errText j.2), j.2)
      | some (jobID, dir) =>
        let inputPath := Join [dir, lit "input.pdf"]
        let tr1 := j.2 ++ [Event.saveUpload inputPath]
        if env.saveUpload j.2 inputPath = false then
          (Reply.error 500 (lit "failed to save file"), tr1)
        else editInJob env sizeText req filename jobID dir tr1

/-! ## A file system behind the oracle -/

/-- State of the files: what `os.Stat` would report for each path. -/
abbrev FS := Str → Option FileInfo

/-- Effect of `os.Rename(a, b)`: when `a` exists it takes the place of `b` and
is gone from `a`; otherwise nothing changes. -/
def FS.rename (fs : FS) (a b : Str) : FS :=
  match fs a with
  | none => fs
  | some info => fun p => if p = b then some info else if p = a then none else fs p

/-- World given by a start state and the effect of every event that is not a
read or a rename (writes, removals, external programs). -/
structure World where
  /-- State before the handler starts. -/
  init : FS
  /-- Effect of the writing events and of the external programs. -/
  effect : Event → FS → FS

/-- Effect of one event: `stat`, `glob`, `ReadDir`, `ReadFile` and `ServeFile`
read only, `Rename` moves a file, everything else is given by the world. -/
def World.step (w : World) (fs : FS) : Event → FS
  | .stat _ => fs
  | .glob _ => fs
  | .readDir _ => fs
  | .readFile _ => fs
  | .serveFile _ => fs
  | .rename a b => fs.rename a b
  | ev => w.effect ev fs

/-- State of the files after the events of a trace. -/
def World.after (w : World) (tr : Trace) : FS := tr.foldl w.step w.init

/-- Oracle whose `os.Stat` and `os.Rename` answer from the state of the files
after the events so far; the other answers are those of `e`. -/
def World.env (w : World) (e : Env) : Env :=
  { e with
    stat := fun tr p => w.after tr p
    rename := fun tr a _ => (w.after tr a).isSome }

/-! ## Response headers of the gateway -/

/-- Value of the `Content-Disposition` header of a response, `none` when the
header is not set: only `serveDownload` sets it, to `attachment; filename=`
followed by `strconv.Quote(fi.Name())`; `quote` stands for `strconv.Quote`. -/
def contentDisposition (quote : Str → Str) : Reply → Option Str
  | .file _ (some name) => some (lit "attachment; filename=" ++ quote name)
  | _ => none

/-! ## PNG text chunk -/

/-- Go `[]byte`: the values are below 256. -/
abbrev Bytes := List Nat

/-- Go `binary.Write(&buf, binary.BigEndian, v)` for a `uint32`. -/
def be32 (v : Nat) : Bytes :=
  [v / 2 ^ 24 % 256, v / 2 ^ 16 % 256, v / 2 ^ 8 % 256, v % 256]

/-- One bit of the reflected CRC-32 with the IEEE polynomial. -/
def crcBit (c : Nat) : Nat :=
  if c % 2 = 1 then Nat.xor (c / 2) 0xEDB88320 else c / 2

/-- One byte of the CRC-32. -/
def crcByte (c b : Nat) : Nat := crcBit^[8] (Nat.xor c (b % 256))

/-- Go `crc32.ChecksumIEEE`. -/
def ChecksumIEEE (data : Bytes) : Nat :=
  Nat.xor (data.foldl crcByte 0xFFFFFFFF) 0xFFFFFFFF

/-- Source: `appendPNGTextChunk`; `keyword` and `text` are the bytes of the two
strings.  `uint32(len(textData))` keeps the length modulo `2^32`. -/
def appendPNGTextChunk (pngData keyword text : Bytes) : Bytes :=
  if pngData.length < 12 then pngData
  else
    let iendPos := pngData.length - 12
    if iendPos < 8 then pngData
    else
      let textData := (keyword ++ [0]) ++ text
      let chunkType : Bytes := [116, 69, 88, 116]
      let crcData := chunkType ++ textData
      let crc := ChecksumIEEE crcData
      let chunk := be32 (textData.length % 2 ^ 32) ++ chunkType ++ textData ++ be32 crc
      (pngData.take iendPos ++ chunk) ++ pngData.drop iendPos

/-! ## Split: page ranges -/

/-- Value that Go `strconv.Atoi` returns, whether or not it also returns an
error: 0 for a syntax error; the largest (or smallest) `int` when the digits
read so far overflow, which `ParseUint` notices before it reaches a character
that is not a digit; the number otherwise. -/
def AtoiValue (s : Str) : Int :=
  let body : Bool × Str :=
    match s with
    | '-' :: r => (true, r)
    | '+' :: r => (false, r)
    | _ => (false, s)
  if body.2 = [] then 0
  else
    let digits := body.2.takeWhile Char.isDigit
    if 2 ^ 64 - 1 < digitsValue digits then (if body.1 then minInt else maxInt)
    else if digits ≠ body.2 then 0
    else if body.1 then
      (if 2 ^ 63 < digitsValue digits then minInt else -(digitsValue digits : Int))
    else (if 2 ^ 63 ≤ digitsValue digits then maxInt else (digitsValue digits : Int))

/-- Source: the loop `for i := start; i <= end; i++` of `parsePageRanges` in
Go `int` arithmetic, appending `i` to `pages`; `none` when `fuel` iterations do
not end it. -/
def rangeLoop : Nat → Int → Int → List Int → Option (List Int)
  | 0, _, _, _ => none
  | fuel + 1, i, e, pages =>
    if i ≤ e then rangeLoop fuel (wrap64 (i + 1)) e (pages ++ [i]) else some pages

/-- Source: the body of `for _, part := range parts` in `parsePageRanges`. -/
def parsePart (fuel : Nat) (pages : List Int) (part : Str) : Option (List Int) :=
  let part := TrimSpace part
  if part.contains '-' then
    let rangeParts := part.splitOn '-'
    if rangeParts.length = 2 then
      let start := AtoiValue (TrimSpace (rangeParts.getD 0 []))
      let stop := AtoiValue (TrimSpace (rangeParts.getD 1 []))
      rangeLoop fuel start stop pages
    else some pages
  else
    match Atoi part with
    | some num => some (pages ++ [num])
    | none => some pages

/-- Source: `parsePageRanges`; `fuel` bounds the iterations of each range loop
and `none` means that a loop did not end within it. -/
def parsePageRanges (fuel : Nat) (ranges : Str) : Option (List Int) :=
  (ranges.splitOn ',').foldl
    (fun acc part => acc.bind (fun pages => parsePart fuel pages part)) (some [])

/-- Multipart request of `handleSplit`. -/
structure SplitRequest where
  /-- The method is POST. -/
  isPost : Bool
  /-- `ParseMultipartForm` succeeded. -/
  formOk : Bool
  /-- Name of the uploaded file, `none` when `FormFile("file")` fails. -/
  filename : Option Str
  /-- Form field `mode`. -/
  mode : Str
  /-- Form field `ranges`. -/
  ranges : Str
  /-- Form field `merge`. -/
  merge : Str

/-- Arguments of the `qpdf` invocation that writes the pages `pages` of the
upload to `outPath`. -/
def qpdfPagesArgs (inPath pages outPath : Str) : List Str :=
  [inPath, lit "--pages", inPath, pages, lit "--", outPath]

/-- Source: the loop of the mode `fixed_parts` of `handleSplit`; the first
component is `false` when an invocation failed. -/
def splitParts (env : Env) (dir inPath partsDir origBase : Str) :
    List (Nat × Str) → Trace → Bool × Trace
  | [], tr => (true, tr)
  | (i, rng) :: rest, tr =>
    let outPath := Join [partsDir, origBase ++ lit "_part_" ++ natToDec (i + 1) ++ lit ".pdf"]
    let args := qpdfPagesArgs inPath rng outPath
    let tr1 := tr ++ [Event.run dir (lit "qpdf") args]
    if (env.run tr dir (lit "qpdf") args).2 = false then (false, tr1)
    else splitParts env dir inPath partsDir origBase rest tr1

/-- Source: the loop of the mode `ranges` of `handleSplit`; a failed
invocation is logged and skipped. -/
def splitRanges (dir inPath partsDir origBase : Str) : List (Nat × Str) → Trace → Trace
  | [], tr => tr
  | (i, rng) :: rest, tr =>
    let outPath := Join [partsDir, origBase ++ lit "_range_" ++ natToDec (i + 1) ++ lit ".pdf"]
    splitRanges dir inPath partsDir origBase rest
      (tr ++ [Event.run dir (lit "qpdf") (qpdfPagesArgs inPath rng outPath)])

/-- Source: the loop `for _, pageNum := range pageNums` of the mode `extract`
of `handleSplit`; a failed invocation is logged and skipped. -/
def extractPages (dir inPath pagesDir origBase : Str) : List Int → Trace → Trace
  | [], tr => tr
  | pageNum :: rest, tr =>
    let outPath := Join [pagesDir, origBase ++ lit "_page_" ++ Itoa pageNum ++ lit ".pdf"]
    extractPages dir inPath pagesDir origBase rest
      (tr ++ [Event.run dir (lit "qpdf") (qpdfPagesArgs inPath (Itoa pageNum) outPath)])

/-- Source: the end of several modes of `handleSplit`: zip a directory and
answer with the URL of the archive. -/
def zipAndReply (env : Env) (jobID dir srcDir zipName failMsg : Str) (tr : Trace) :
    Reply × Trace :=
  let zipPath := Join [dir, zipName]
  let tr1 := tr ++ [Event.zipDir srcDir zipPath]
  if env.zipDir tr srcDir zipPath = false then (Reply.error 500 failMsg, tr1)
  else (Reply.download (buildDownloadURL jobID zipName), tr1)

/-- Source: `handleSplit` after the upload has been saved; `none` when a range
loop of `parsePageRanges` does not end within `fuel` iterations. -/
def splitInJob (env : Env) (fuel : Nat) (req : SplitRequest) (origBase jobID dir : Str)
    (tr : Trace) : Option (Reply × Trace) :=
  let inPath := Join [dir, lit "input.pdf"]
  let run1 (outName failMsg : Str) : Option (Reply × Trace) :=
    let args := qpdfPagesArgs inPath req.ranges (Join [dir, outName])
    let tr1 := tr ++ [Event.run dir (lit "qpdf") args]
    if (env.run tr dir (lit "qpdf") args).2 = false then some (Reply.error 500 failMsg, tr1)
    else some (Reply.download (buildDownloadURL jobID outName), tr1)
  if req.mode = lit "fixed_parts" ∧ req.ranges ≠ [] then
    let partsDir := Join [dir, lit "parts"]
    let tr1 := tr ++ [Event.mkdirAll partsDir]
    if env.mkdirAll tr partsDir = false then
      some (Reply.error 500 (lit "failed to create parts dir"), tr1)
    else
      let r := splitParts env dir inPath partsDir origBase (req.ranges.splitOn ',').enum tr1
      if r.1 = false then some (Reply.error 500 (lit "failed to split PDF into parts"), r.2)
      else
        some (zipAndReply env jobID dir partsDir (origBase ++ lit "_split_parts.zip")
          (lit "failed to zip parts") r.2)
  else if req.mode = lit "extract_merge" ∧ req.ranges ≠ [] then
    run1 (origBase ++ lit "_extracted.pdf") (lit "failed to extract and merge pages")
  else if req.mode = lit "extract" ∧ req.ranges ≠ [] then
    let pagesDir := Join [dir, lit "extracted"]
    let tr1 := tr ++ [Event.mkdirAll pagesDir]
    if env.mkdirAll tr pagesDir = false then
      some (Reply.error 500 (lit "failed to create extracted dir"), tr1)
    else
      match parsePageRanges fuel req.ranges with
      | none => none
      | some pageNums =>
        some (zipAndReply env jobID dir pagesDir (origBase ++ lit "_extracted_pages.zip")
          (lit "failed to zip extracted pages")
          (extractPages dir inPath pagesDir origBase pageNums tr1))
  else if req.mode = lit "ranges" ∧ req.ranges ≠ [] then
    if req.merge = lit "true" then
      run1 (origBase ++ lit "_merged.pdf") (lit "failed to merge ranges")
    else
      let partsDir := Join [dir, lit "ranges"]
      let tr1 := tr ++ [Event.mkdirAll partsDir]
      if env.mkdirAll tr partsDir = false then
        some (Reply.error 500 (lit "failed to create ranges dir"), tr1)
      else
        some (zipAndReply env jobID dir partsDir (origBase ++ lit "_split_ranges.zip")
          (lit "failed to zip ranges")
          (splitRanges dir inPath partsDir origBase (req.ranges.splitOn ',').enum tr1))
  else
    let pagesDir := Join [dir, lit "pages"]
    let tr1 := tr ++ [Event.mkdirAll pagesDir]
    if env.mkdirAll tr pagesDir = false then
      some (Reply.error 500 (lit "failed to create pages dir"), tr1)
    else
      let args := [lit "extract", lit "-mode", lit "page", inPath, pagesDir]
      let tr2 := tr1 ++ [Event.run dir (lit "pdfcpu") args]
      if (env.run tr1 dir (lit "pdfcpu") args).2 = false then
        some (Reply.error 500 (lit "failed to split PDF"), tr2)
      else
        some (zipAndReply env jobID dir pagesDir (origBase ++ lit "_split_pages.zip")
          (lit "failed to zip pages") tr2)

/-- Source: `handleSplit`, with `baseWorkDir` as a parameter. -/
def handleSplit (env : Env) (fuel : Nat) (baseWorkDir : Str) (req : SplitRequest) :
    Option (Reply × Trace) :=
  if req.isPost = false then some (Reply.error 405 (lit "method not allowed"), [])
  else if req.formOk = false then some (Reply.error 400 (lit "invalid multipart form"), [])
  else
    match req.filename with
    | none => some (Reply.error 400 (lit "file is required"), [])
    | some filename =>
      let j := newJobDir env baseWorkDir []
      match j.1 with
      | none => some (Reply.error 500 (lit "failed to create job"), j.2)
      | some (jobID, dir) =>
        let origBase := baseNameWithoutExt filename
        let inPath := Join [dir, lit "input.pdf"]
        let tr1 := j.2 ++ [Event.saveUpload inPath]
        if env.saveUpload j.2 inPath = false then
          some (Reply.error 500 (lit "failed to save file"), tr1)
        else splitInJob env fuel req origBase jobID dir tr1

/-! ## Markdown to HTML (`convertMarkdownToHTML`, `applyInlineMarkdown`) -/

/-- Go `strings.Index(s, sub)`: the first position at which `sub` occurs in
`s`; `none` stands for the result -1. -/
def Index (sub : Str) : Str → Option Nat
  | [] => if sub = [] then some 0 else none
  | c :: t => if startsWith (c :: t) sub then some 0 else (Index sub t).map (· + 1)

/-- One `for` loop of `applyInlineMarkdown`; the three loops of the source
differ only in the marker and in the two tags.  Each turn looks for the first
marker (`start`) and for the next one after it (`stop`), leaves the loop when
either is missing, and otherwise puts the tags in place of the two markers.
The fuel bounds the number of turns; `none` is a loop still running when the
fuel is spent. -/
def replacePairs (marker openTag closeTag : Str) : Nat → Str → Option Str
  | 0, _ => none
  | fuel + 1, result =>
    match Index marker result with
    | none => some result
    | some start =>
      match Index marker (result.drop (start + marker.length)) with
      | none => some result
      | some e =>
        let stop := e + (start + marker.length)
        let inner := (result.take stop).drop (start + marker.length)
        replacePairs marker openTag closeTag fuel
          (result.take start ++ openTag ++ inner ++ closeTag
            ++ result.drop (stop + marker.length))

/-- Source `applyInlineMarkdown`: the loop for `**`, then the loop for `*`,
then the loop for the backtick. -/
def applyInlineMarkdown (fuel : Nat) (s : Str) : Option Str :=
  (replacePairs (lit "**") (lit "<strong>") (lit "</strong>") fuel s).bind fun r1 =>
  (replacePairs (lit "*") (lit "<em>") (lit "</em>") fuel r1).bind fun r2 =>
  replacePairs (lit "\x60") (lit "<code>") (lit "</code>") fuel r2

/-- Go `strings.ReplaceAll(s, old, new)` for a one-character `old` and any
`new`. -/
def replaceCharWith (s : Str) (old : Char) (new : Str) : Str :=
  s.flatMap (fun c => if c = old then new else [c])

/-- The local variables of `convertMarkdownToHTML` that live across the lines:
the builder `body` and the two flags. -/
structure MarkdownState where
  body : Str
  inCodeBlock : Bool
  inList : Bool
deriving DecidableEq

/-- The text written for a line that is neither a fence nor inside a code
block nor blank nor a list item: a heading or a paragraph. -/
def markdownBlock (fuel : Nat) (trimmed : Str) : Option Str :=
  if startsWith trimmed (lit "### ") then
    (applyInlineMarkdown fuel (trimmed.drop 4)).map fun t => lit "<h3>" ++ t ++ lit "</h3>\n"
  else if startsWith trimmed (lit "## ") then
    (applyInlineMarkdown fuel (trimmed.drop 3)).map fun t => lit "<h2>" ++ t ++ lit "</h2>\n"
  else if startsWith trimmed (lit "# ") then
    (applyInlineMarkdown fuel (trimmed.drop 2)).map fun t => lit "<h1>" ++ t ++ lit "</h1>\n"
  else
    (applyInlineMarkdown fuel trimmed).map fun t => lit "<p>" ++ t ++ lit "</p>\n"

/-- The body of the `for _, line := range lines` loop of
`convertMarkdownToHTML`. -/
def markdownLine (fuel : Nat) (st : MarkdownState) (line : Str) : Option MarkdownState :=
  if startsWith line (lit "\x60\x60\x60") then
    if st.inCodeBlock then
      some { st with body := st.body ++ lit "</code></pre>\n", inCodeBlock := false }
    else
      let closed := if st.inList then st.body ++ lit "</ul>\n" else st.body
      some { body := closed ++ lit "<pre><code>", inCodeBlock := true, inList := false }
  else if st.inCodeBlock then
    some { st with
      body := st.body
        ++ replaceCharWith (replaceCharWith line '<' (lit "&lt;")) '>' (lit "&gt;")
        ++ lit "\n" }
  else
    let trimmed := TrimSpace line
    if trimmed = [] then
      let closed := if st.inList then st.body ++ lit "</ul>\n" else st.body
      some { st with body := closed ++ lit "<br>\n", inList := false }
    else if startsWith trimmed (lit "- ") || startsWith trimmed (lit "* ") then
      let opened := if st.inList then st.body else st.body ++ lit "<ul>\n"
      (applyInlineMarkdown fuel (trimmed.drop 2)).map fun t =>
        { st with body := opened ++ lit "<li>" ++ t ++ lit "</li>\n", inList := true }
    else
      let closed := if st.inList then st.body ++ lit "</ul>\n" else st.body
      (markdownBlock fuel trimmed).map fun t =>
        { st with body := closed ++ t, inList := false }

/-- The `for _, line := range lines` loop of `convertMarkdownToHTML`. -/
def markdownLines (fuel : Nat) : MarkdownState → List Str → Option MarkdownState
  | st, [] => some st
  | st, line :: rest => (markdownLine fuel st line).bind fun st1 => markdownLines fuel st1 rest

/-- The two closing writes after the loop of `convertMarkdownToHTML`. -/
def markdownClose (st : MarkdownState) : Str :=
  let b1 := if st.inList then st.body ++ lit "</ul>\n" else st.body
  if st.inCodeBlock then b1 ++ lit "</code></pre>\n" else b1

/-- The part of the page template before the `%s` verb. -/
def htmlHead : Str :=
  lit ("<!DOCTYPE html>\n" ++
    "<html>\n" ++
    "<head>\n" ++
    "<meta charset=\"UTF-8\">\n" ++
    "<style>\n" ++
    "body \x7b font-family: -apple-system, BlinkMacSystemFont, \x27Segoe UI\x27, Roboto, sans-serif; max-width: 800px; margin: 40px auto; padding: 0 20px; line-height: 1.6; color: #333; \x7d\n" ++
    "h1, h2, h3 \x7b color: #111; \x7d\n" ++
    "pre \x7b background: #f5f5f5; padding: 16px; border-radius: 4px; overflow-x: auto; \x7d\n" ++
    "code \x7b background: #f5f5f5; padding: 2px 6px; border-radius: 3px; font-size: 0.9em; \x7d\n" ++
    "pre code \x7b background: none; padding: 0; \x7d\n" ++
    "ul \x7b padding-left: 24px; \x7d\n" ++
    "</style>\n" ++
    "</head>\n" ++
    "<body>\n")

/-- The part of the page template after the `%s` verb. -/
def htmlFoot : Str := lit "\n</body>\n</html>"

/-- Source `convertMarkdownToHTML`; the fuel is the one handed to every call
of `applyInlineMarkdown`. -/
def convertMarkdownToHTML (fuel : Nat) (md : Str) : Option Str :=
  (markdownLines fuel { body := [], inCodeBlock := false, inList := false }
      (md.splitOn '\n')).map fun st =>
    htmlHead ++ markdownClose st ++ htmlFoot

/-! ## PDF to HTML -/

/-- Multipart request of `handlePDFToHTML`. -/
structure HTMLRequest where
  /-- The method is POST. -/
  isPost : Bool
  /-- `ParseMultipartForm` succeeded. -/
  formOk : Bool
  /-- Name of the uploaded file, `none` when `FormFile("file")` fails. -/
  filename : Option Str

/-- Source: `handlePDFToHTML`, the first search for the file `pdftohtml` has
written: `baseName.html`, else `baseName-html.html`, else `baseNames.html`.
A failing `os.Stat` is read as `not exist`. -/
def htmlOutputName (env : Env) (dir baseName : Str) (tr : Trace) : Str × Trace :=
  let outputName := baseName ++ lit ".html"
  let tr1 := tr ++ [Event.stat (Join [dir, outputName])]
  if (env.stat tr (Join [dir, outputName])).isSome then (outputName, tr1)
  else
    let altName := baseName ++ lit "-html.html"
    let tr2 := tr1 ++ [Event.stat (Join [dir, altName])]
    if (env.stat tr1 (Join [dir, altName])).isSome then (altName, tr2)
    else
      let suffixName := baseName ++ lit "s.html"
      let tr3 := tr2 ++ [Event.stat (Join [dir, suffixName])]
      if (env.stat tr2 (Join [dir, suffixName])).isSome then (suffixName, tr3)
      else (outputName, tr3)

/-- Source: `handlePDFToHTML` after the upload is saved. -/
def htmlInJob (env : Env) (filename jobID dir : Str) (tr1 : Trace) : Reply × Trace :=
  let inputPath := Join [dir, lit "input.pdf"]
  let baseName := baseNameWithoutExt filename
  let args := [lit "-s", lit "-noframes", lit "-enc", lit "UTF-8", inputPath,
    Join [dir, baseName]]
  let tr2 := tr1 ++ [Event.run dir (lit "pdftohtml") args]
  if (env.run tr1 dir (lit "pdftohtml") args).2 = false then
    (Reply.error 500 (lit "pdftohtml failed: " ++ env.errText tr2), tr2)
  else
    let found := htmlOutputName env dir baseName tr2
    let tr3 := found.2 ++ [Event.stat (Join [dir, found.1])]
    let picked : Str × Trace :=
      if (env.stat found.2 (Join [dir, found.1])).isSome then (found.1, tr3)
      else
        let tr4 := tr3 ++ [Event.readDir dir]
        match ((env.readDir tr3 dir).getD []).find?
            (fun e => !e.isDir && endsWith e.name (lit ".html")) with
        | some e => (e.name, tr4)
        | none => (found.1, tr4)
    let tr5 := picked.2 ++ [Event.stat (Join [dir, picked.1])]
    if (env.stat picked.2 (Join [dir, picked.1])).isSome then
      (Reply.download (buildDownloadURL jobID picked.1), tr5)
    else (Reply.error 500 (lit "HTML output not found"), tr5)

/-- Source: `handlePDFToHTML`, with `baseWorkDir` as a parameter. -/
def handlePDFToHTML (env : Env) (baseWorkDir : Str) (req : HTMLRequest) : Reply × Trace :=
  if req.isPost = false then (Reply.error 405 (lit "POST required"), [])
  else if req.formOk = false then (Reply.error 400 (lit "invalid multipart form"), [])
  else
    match req.filename with
    | none => (Reply.error 400 (lit "file is required"), [])
    | some filename =>
      let j := newJobDir env baseWorkDir []
      match j.1 with
      | none => (Reply.error 500 (env.errText j.2), j.2)
      | some (jobID, dir) =>
        let inputPath := Join [dir, lit "input.pdf"]
        let tr1 := j.2 ++ [Event.saveUpload inputPath]
        if env.saveUpload j.2 inputPath = false then
          (Reply.error 500 (lit "failed to save file"), tr1)
        else htmlInJob env filename jobID dir tr1

/-! ## Concrete worlds used to run the handlers -/

/-- World in which every call succeeds, no path exists, programs print
nothing and the job id is `job-1`. -/
def quietEnv : Env where
  uuid := fun _ => lit "job-1"
  stat := fun _ _ => none
  mkdirAll := fun _ _ => true
  saveUpload := fun _ _ => true
  run := fun _ _ _ _ => ([], true)
  glob := fun _ _ => some []
  rename := fun _ _ _ => true
  writeFile := fun _ _ => true
  copyFile := fun _ _ _ => true
  zipDir := fun _ _ _ => true
  readDir := fun _ _ => some []
  now := fun _ => 0
  mapOrder := fun _ ks => ks
  errText := fun _ => lit "exit status 1"
  readFile := fun _ _ => true

/-- World of a one-page upload: every call succeeds, `pdfinfo` reports one
page and the renderer has written `images/page-1.jpg`. -/
def onePageEnv : Env :=
  { quietEnv with
    run := fun _ _ _ _ => (lit "Pages: 1", true)
    glob := fun _ _ => some [lit "/srv/work/job-1/images/page-1.jpg"] }

/-- Request to `handlePDFToJPG` for `a.pdf` whose `page` field is the text
`/../../../x`. -/
def escapeRequest : JPGRequest where
  isPost := true
  formOk := true
  filename := some (lit "a.pdf")
  dpi := []
  page := lit "/../../../x"
  all := []

/-- World of a three-page upload: every call succeeds and the page count
tools report three pages. -/
def threePageEnv : Env :=
  { quietEnv with run := fun _ _ _ _ => (lit "Pages: 3", true) }

/-- Request to `handlePageNumbers` for `doc.pdf`, numbering from 5 at the
bottom centre. -/
def numberFromFive : PageNumbersRequest where
  isPost := true
  formOk := true
  filename := some (lit "doc.pdf")
  position := lit "bc"
  fontSize := []
  opacityText := lit "0.95"
  startAt := lit "5"
  margin := []

/-- World of a three-page upload in which every call succeeds except the
stamp invocation that writes `stamped-0002.pdf`. -/
def failAtPageTwoEnv : Env :=
  { quietEnv with
    run := fun _ _ _ a => (lit "Pages: 3",
      !(decide (a.head? = some (lit "stamp")) &&
        decide (a.getLastD [] = lit "/srv/work/job-1/stamped-0002.pdf"))) }

/-- World in which both page count tools fail and every other call succeeds. -/
def noCountEnv : Env :=
  { quietEnv with run := fun _ _ _ _ => ([], false) }

/-- Request to `handlePageNumbers` for `doc.pdf` whose `startAt` field is the
largest Go `int`. -/
def numberFromMaxInt : PageNumbersRequest :=
  { numberFromFive with startAt := lit "9223372036854775807" }

/-- State of a storage root `/srv/work` at time 10000 s: a job directory
`old` last modified at 1000 s, a job directory `fresh` last modified at
9000 s and a plain file `note`. -/
def sweepEnv : Env :=
  { quietEnv with
    readDir := fun _ _ => some [⟨lit "old", true⟩, ⟨lit "fresh", true⟩, ⟨lit "note", false⟩]
    stat := fun _ p =>
      if p = lit "/srv/work/old" then some ⟨true, 1000000000000⟩
      else if p = lit "/srv/work/fresh" then some ⟨true, 9000000000000⟩
      else if p = lit "/srv/work/note" then some ⟨false, 1000000000000⟩
      else none
    now := fun _ => 10000000000000 }

/-- Two hours, the retention of `main`, in nanoseconds. -/
def twoHours : Int := 7200000000000

/-- World of a one-page upload to redact: every call succeeds, the renderer
has written `page-1.png` only and `identify` reports 100 by 200 pixels. -/
def onePagePNGEnv : Env :=
  { quietEnv with
    run := fun _ _ _ _ => (lit "100 200", true)
    glob := fun _ _ => some [lit "/srv/work/job-1/page-1.png"] }

/-- Request to `handleRedactPDF` for `a.pdf` with one redaction area, on
page 5. -/
def redactPageFive : RedactRequest where
  isPost := true
  formOk := true
  redactions := lit "[\x7b\"page\":5,\"x\":0,\"y\":0,\"width\":1,\"height\":1\x7d]"
  parsed := Except.ok [⟨5, fun _ _ => lit "rectangle 0,0 1,1"⟩]
  filename := some (lit "a.pdf")

/-- Signature with a valid image payload placed on page `p`. -/
def signatureOn (p : Int) : PlacedSignature where
  id := lit "s"
  page := p
  imageData := lit "data:image/png;base64,AAAA"
  decodes := true
  resize := fun _ _ => lit "10x10!"
  offset := fun _ _ => lit "+1+1"

/-- Request to `handleSignPDF` for `a.pdf` with one signature on page 1 and
one on page 2. -/
def signTwoPages : SignRequest where
  isPost := true
  formOk := true
  filename := some (lit "a.pdf")
  signaturesJSON := lit "[\x7b\"page\":1\x7d,\x7b\"page\":2\x7d]"
  parsed := Except.ok [signatureOn 1, signatureOn 2]

/-- World in which every call succeeds except the composite invocation that
writes the overlay of page 2. -/
def overlayTwoFailsEnv : Env :=
  { quietEnv with
    run := fun _ _ n a => ([],
      !(decide (n = lit "convert") &&
        decide (a.getLastD [] = lit "PNG32:/srv/work/job-1/overlay_2.png"))) }

/-- Request to `handleRedactPDF` whose `redactions` field is the single
character `\x7b`: `json.Unmarshal` reports a truncated input. -/
def truncatedRedactions : RedactRequest where
  isPost := true
  formOk := true
  redactions := lit "\x7b"
  parsed := Except.error (lit "unexpected end of JSON input")
  filename := some (lit "a.pdf")

/-- Request to `handleRedactPDF` whose `redactions` field is the number `1`:
`json.Unmarshal` reports a type mismatch. -/
def numberRedactions : RedactRequest where
  isPost := true
  formOk := true
  redactions := lit "1"
  parsed := Except.error
    (lit "json: cannot unmarshal number into Go value of type []main.redactionArea")
  filename := some (lit "a.pdf")

/-- Text annotation `hello` placed on page `p`. -/
def textOn (p : Int) : Annotation where
  id := lit "t"
  type := lit "text"
  page := p
  content := lit "hello"
  fontSize := 12
  color := []
  imageData := []
  decodes := false
  pathLen := 0
  textDraw := fun _ => lit "text 10,20 \"hello\""
  imgResize := fun _ => []
  imgOffset := fun _ => []
  polyline := fun _ => []

/-- Request to `handleEditPDF` for `a.pdf` with one text annotation on page 1
and one on page 2. -/
def editTwoPages : EditRequest where
  isPost := true
  formOk := true
  filename := some (lit "a.pdf")
  annotationsJSON := lit "[\x7b\"page\":1\x7d,\x7b\"page\":2\x7d]"
  parsed := Except.ok [textOn 1, textOn 2]

/-- Page size text of a US Letter page, the default of `handleEditPDF`. -/
def letterSize : Option Str → Str := fun _ => lit "612x792"

/-- World in which every call succeeds except the `pdfcpu rotate`
invocations. -/
def rotateFailsEnv : Env :=
  { quietEnv with
    run := fun _ _ n a => ([],
      !(decide (n = lit "pdfcpu") && decide (a.head? = some (lit "rotate")))) }

/-- Request to `handleOrganize` for `a.pdf`, keeping the two pages in order,
turning page 1 by 90 degrees and page 2 by 180 degrees. -/
def turnTwoAngles : OrganizeRequest where
  isPost := true
  formOk := true
  filename := some (lit "a.pdf")
  order := lit "1,2"
  rotations := lit "[\x7b\"pageNumber\":1,\"degrees\":90\x7d,\x7b\"pageNumber\":2,\"degrees\":180\x7d]"
  parsed := Except.ok [⟨1, 90⟩, ⟨2, 180⟩]

/-- Request to `handleOrganize` for `a.pdf` whose rotations are all whole
turns: 360, -720 and 0 degrees. -/
def wholeTurns : OrganizeRequest where
  isPost := true
  formOk := true
  filename := some (lit "a.pdf")
  order := lit "1,2,3"
  rotations := lit "[\x7b\"pageNumber\":1,\"degrees\":360\x7d,\x7b\"pageNumber\":2,\"degrees\":-720\x7d,\x7b\"pageNumber\":3,\"degrees\":0\x7d]"
  parsed := Except.ok [⟨1, 360⟩, ⟨2, -720⟩, ⟨3, 0⟩]

/-- World with no file at the start in which every renderer invocation leaves
`page-04.png` in the previews directory of job `job-1`. -/
def paddedRenderWorld : World where
  init := fun _ => none
  effect := fun ev fs =>
    match ev with
    | .run _ _ _ => fun p =>
      if p = lit "/srv/work/job-1/previews/page-04.png" then some ⟨false, 0⟩ else fs p
    | _ => fs

/-- Oracle of `paddedRenderWorld`; every call succeeds. -/
def paddedRenderEnv : Env := paddedRenderWorld.env quietEnv

/-- World of an upload of 10000 pages: no file at the start, and the renderer
`pdftoppm` writes `page-00001.png` ... `page-10000.png`, padded to the five
digits of the page count, into the previews directory of job `job-1`. -/
def tenThousandWorld : World where
  init := fun _ => none
  effect := fun ev fs =>
    match ev with
    | .run _ n _ =>
      if n = lit "pdftoppm" then
        fun p =>
          if p ∈ (List.range' 1 10000).map (paddedPreview (lit "/srv/work/job-1/previews") 5)
          then some ⟨false, 0⟩ else fs p
      else fs
    | _ => fs

/-- Oracle of `tenThousandWorld`: every call succeeds and `pdfinfo` reports
10000 pages. -/
def tenThousandEnv : Env :=
  tenThousandWorld.env { quietEnv with run := fun _ _ _ _ => (lit "Pages: 10000", true) }

/-- Request to `handlePreview` for the upload `big.pdf`. -/
def previewUpload : PreviewRequest where
  isPost := true
  formOk := true
  filename := some (lit "big.pdf")
  baseURL := lit "http://localhost"

/-- World in which `page-01.png` and `page-02.png` are the files of the
previews directory `/w/previews`. -/
def twoPaddedWorld : World where
  init := fun p =>
    if p = lit "/w/previews/page-01.png" ∨ p = lit "/w/previews/page-02.png" then
      some ⟨false, 0⟩
    else none
  effect := fun _ fs => fs

/-- World of a three-page upload in which every path exists as a regular
file. -/
def allFilesEnv : Env :=
  { threePageEnv with stat := fun _ _ => some ⟨false, 0⟩ }

/-- Request to `handlePageNumbers` for the upload `a..b.pdf`. -/
def numberDottedName : PageNumbersRequest :=
  { numberFromFive with filename := some (lit "a..b.pdf") }

/-- World in which every call succeeds and the page count tools print
`Pages: 0`. -/
def zeroPagesEnv : Env :=
  { quietEnv with run := fun _ _ _ _ => (lit "Pages: 0", true) }

/-- World in which every call succeeds and the page count tools print
`Pages: -1`. -/
def minusOnePageEnv : Env :=
  { quietEnv with run := fun _ _ _ _ => (lit "Pages: -1", true) }

/-- Request to `handleSplit` for `a.pdf` in the mode `extract` with the given
`ranges` field. -/
def extractRequest (ranges : Str) : SplitRequest where
  isPost := true
  formOk := true
  filename := some (lit "a.pdf")
  mode := lit "extract"
  ranges := ranges
  merge := []

/-- World of the job `job-1` after `pdftohtml` has written `index.html`: the
job directory and that file exist, nothing else does. -/
def indexHtmlEnv : Env :=
  { quietEnv with
    stat := fun _ p =>
      if p = lit "/srv/work/job-1" then some ⟨true, 0⟩
      else if p = lit "/srv/work/job-1/index.html" then some ⟨false, 0⟩
      else none }

/-- Request to `handlePDFToHTML` for the upload `index.pdf`. -/
def indexUpload : HTMLRequest where
  isPost := true
  formOk := true
  filename := some (lit "index.pdf")

/-! ## Vocabulary of the statements -/

/-- Overlay image of a page in `handleSignPDF`. -/
def overlayPathOf (dir : Str) (pageNum : Int) : Str :=
  Join [dir, lit "overlay_" ++ Itoa pageNum ++ lit ".png"]

/-- For the page, the composite invocation that writes its overlay always
fails, or the stamp invocation that applies its overlay always fails. -/
def PageFails (env : Env) (dir : Str) (pageNum : Int) : Prop :=
  (∀ t a, (env.run t dir (lit "convert")
      (a ++ [lit "PNG32:" ++ overlayPathOf dir pageNum])).2 = false) ∨
    (∀ t cur out, (env.run t dir (lit "pdfcpu")
      (signStampArgs pageNum (overlayPathOf dir pageNum) cur out)).2 = false)


/-- The entry is a directory that `stat` reports as last modified before
`cutoff`, in the file system state `fs`. -/
def OldJob (fs : Str → Option FileInfo) (baseWorkDir : Str) (cutoff : Int) (e : DirEntry) :
    Prop :=
  e.isDir = true ∧ ∃ info, fs (Join [baseWorkDir, e.name]) = some info ∧ info.modTime < cutoff


/-- Job directory of the request: `baseWorkDir` joined with the fresh uuid. -/
def jobDirOf (env : Env) (baseWorkDir : Str) : Str := Join [baseWorkDir, env.uuid []]

/-- Path of the saved upload inside the job directory. -/
def inputPathOf (dir : Str) : Str := Join [dir, lit "input.pdf"]

/-- Events of a handler up to the saved upload: job directory created,
upload written. -/
def uploadTrace (env : Env) (baseWorkDir : Str) : Trace :=
  [Event.mkdirAll (jobDirOf env baseWorkDir),
    Event.saveUpload (inputPathOf (jobDirOf env baseWorkDir))]

/-- Arguments of the extract invocation that splits the upload into pages. -/
def extractArgs (dir : Str) : List Str :=
  [lit "extract", lit "-mode", lit "page", inputPathOf dir, Join [dir, lit "pages"]]

/-- Arguments of the merge invocation over the page outputs `1..N`. -/
def mergeArgs (dir filename : Str) (N : Nat) : List Str :=
  lit "merge" :: Join [dir, buildOutputName filename (lit "numbered")] ::
    (List.range' 1 N).map (stampedPath dir)

/-- The `pdfcpu info` invocation of the primary page count. -/
def infoRun (dir : Str) : Event := Event.run dir (lit "pdfcpu") [lit "info", inputPathOf dir]

/-- The `pdfinfo` invocation of the secondary page count. -/
def pdfinfoRun (dir : Str) : Event := Event.run dir (lit "pdfinfo") [inputPathOf dir]

/-- Page outputs `stamped-0001.pdf`, ..., for the pages `1..N` in ascending
order. -/
def stampedOutputs (dir : Str) (N : Nat) : List Str := (List.range' 1 N).map (stampedPath dir)

/-- Path of the merged document of `handlePageNumbers`. -/
def numberedPath (dir filename : Str) : Str :=
  Join [dir, buildOutputName filename (lit "numbered")]


/-- Programs started by a trace, in order: name and arguments. -/
def runsOf : Trace → List (Str × List Str)
  | [] => []
  | Event.run _ name args :: rest => (name, args) :: runsOf rest
  | _ :: rest => runsOf rest

/-- The invocation is `pdfcpu stamp ...`. -/
def isStampRun (r : Str × List Str) : Bool :=
  decide (r.1 = lit "pdfcpu") && decide (r.2.head? = some (lit "stamp"))

/-- The invocation is `pdfcpu merge ...`. -/
def isMergeRun (r : Str × List Str) : Bool :=
  decide (r.1 = lit "pdfcpu") && decide (r.2.head? = some (lit "merge"))

/-- The invocation is `pdfcpu extract ...`. -/
def isExtractRun (r : Str × List Str) : Bool :=
  decide (r.1 = lit "pdfcpu") && decide (r.2.head? = some (lit "extract"))

/-- Stamp invocations of a trace, in order. -/
def stampRuns (tr : Trace) : List (Str × List Str) := (runsOf tr).filter isStampRun

/-- Output artifacts (last argument) of the stamp invocations of a trace. -/
def stampOutputs (tr : Trace) : List Str := (stampRuns tr).map (fun r => r.2.getLastD [])

/-- Labels (the argument after `--`) of the stamp invocations of a trace. -/
def stampLabels (tr : Trace) : List Str := (stampRuns tr).map (fun r => r.2.getD 5 [])

/-- Argument lists of the merge invocations of a trace, in order. -/
def mergeRuns (tr : Trace) : List (List Str) :=
  ((runsOf tr).filter isMergeRun).map (fun r => r.2)


/-- Ordinary path element: not empty, not `.`, not `..`, no separator. -/
def Normal (c : Str) : Prop := c ≠ [] ∧ c ≠ ['.'] ∧ c ≠ ['.', '.'] ∧ '/' ∉ c

/-- Absolute path with the given elements. -/
def absPath (cs : List Str) : Str := '/' :: joinSlash cs

/-- Elements that `filepath.Clean` does not drop on sight. -/
def keepElem (c : Str) : Bool := decide (c ≠ []) && decide (c ≠ ['.'])

/-- No element of the path is `..`. -/
def noDotDotComp (x : Str) : Prop := ∀ c ∈ splitSlash x, c ≠ ['.', '.']

/-- Every path named by an event of the trace, and every absolute path given
to a program as an argument, lies inside `root`. -/
def AllInside (root : Str) (tr : Trace) : Prop :=
  ∀ ev ∈ tr, ∀ p ∈ ev.paths ++ ev.pathArgs, Inside root p

/-- The path `p` is the absolute path `B` followed by ordinary elements. -/
def Under (B : List Str) (p : Str) : Prop :=
  ∃ E : List Str, (∀ c ∈ E, Normal c) ∧ p = absPath (B ++ E)

/-- First name tried for the single-page file of page `i`. -/
def inputPageCandidate (pagesDir : Str) (i : Nat) : Str :=
  Join [pagesDir, lit "input_page_" ++ natToDec i ++ lit ".pdf"]

/-- Second name tried for the single-page file of page `i`. -/
def pageCandidate (pagesDir : Str) (i : Nat) : Str :=
  Join [pagesDir, lit "page_" ++ natToDec i ++ lit ".pdf"]

/-- Glob pattern of the files ending in the page-number suffix of page `i`. -/
def pageSuffixPattern (pagesDir : Str) (i : Nat) : Str :=
  Join [pagesDir, lit "*_page_" ++ natToDec i ++ lit ".pdf"]

/-- The event is an invocation of the renderer `pdftoppm`. -/
def isRenderRun : Event → Bool
  | .run _ n _ => decide (n = lit "pdftoppm")
  | _ => false

/-- The event is a call of `http.ServeFile`. -/
def isServed : Event → Bool
  | .serveFile _ => true
  | _ => false

/-- The trace holds an invocation of the renderer `pdftoppm`. -/
def Rendered (tr : Trace) : Prop :=
  ∃ e ∈ tr, isRenderRun e = true

/-- The trace holds no call of `http.ServeFile`. -/
def NothingServed (tr : Trace) : Prop :=
  ∀ e ∈ tr, isServed e = false

instance (tr : Trace) : Decidable (Rendered tr) := by
  unfold Rendered; infer_instance

instance (tr : Trace) : Decidable (NothingServed tr) := by
  unfold NothingServed; infer_instance

/-- Input artifacts (the argument before the last) of the stamp invocations of
a trace. -/
def stampInputs (tr : Trace) : List Str := (stampRuns tr).map (fun r => r.2.reverse.getD 1 [])

/-- No stamp invocation of the trace reads the output artifact of a stamp
invocation of the trace. -/
def Independent (tr : Trace) : Prop := ∀ a ∈ stampInputs tr, a ∉ stampOutputs tr

instance (tr : Trace) : Decidable (Independent tr) := by
  unfold Independent; infer_instance

/-- The invocation is the stamp of page `i` of `handlePageNumbers` in the job
directory `dir`, reading one of the names the resolver can return. -/
def PageStamp (env : Env) (pagesDir dir : Str) (r : Str × List Str) : Prop :=
  ∃ label desc src i, r = (lit "pdfcpu", stampArgs label desc src (stampedPath dir i)) ∧
    (src = inputPageCandidate pagesDir i ∨ src = pageCandidate pagesDir i ∨
      ∃ t, src ∈ (env.glob t (pageSuffixPattern pagesDir i)).getD [])

/-- The invocation is `pdfcpu rotate ...`. -/
def isRotateRun (r : Str × List Str) : Bool :=
  decide (r.1 = lit "pdfcpu") && decide (r.2.head? = some (lit "rotate"))

/-- Argument lists of the rotate invocations of a trace, in order. -/
def rotateRuns (tr : Trace) : List (List Str) :=
  ((runsOf tr).filter isRotateRun).map (fun r => r.2)

/-- Path of the working copy inside the job directory. -/
def workPathOf (dir : Str) : Str := Join [dir, lit "work.pdf"]

/-- Decoded `rotations` list of a request, empty when the field does not
parse. -/
def rotationsOf (req : OrganizeRequest) : List OrganizeRotation :=
  match req.parsed with
  | Except.ok rots => rots
  | Except.error _ => []

/-- Page numbers, in request order, of the entries with `pageNumber >= 1`
whose angle `((degrees mod 360) + 360) mod 360` (mathematical remainder) is
`d`. -/
def pagesTurned (rots : List OrganizeRotation) (d : Int) : List Int :=
  (rots.filter (fun r => decide (1 ≤ r.pageNumber) &&
    decide ((r.degrees % 360 + 360) % 360 = d))).map (fun r => r.pageNumber)

/-- Rotate invocation expected for the angle `d`: the ascending page numbers
joined with commas, the working copy, and the angle. -/
def expectedRotate (workPath : Str) (rots : List OrganizeRotation) (d : Int) : List Str :=
  [lit "rotate", lit "-pages",
    [','].intercalate ((sortInts (pagesTurned rots d)).map Itoa),
    workPath, '-' :: Itoa d]

/-- Rotate invocations expected for a rotations list: one for each of the
angles 90, 180, 270, in this order, that at least one entry asks for. -/
def expectedRotates (workPath : Str) (rots : List OrganizeRotation) : List (List Str) :=
  ([90, 180, 270].filter (fun d => decide (pagesTurned rots d ≠ []))).map
    (expectedRotate workPath rots)

/-- Rotate invocations of the angles `L` with a non-empty bucket. -/
def bucketRuns (buckets : Int → List Int) (workPath : Str) (L : List Int) :
    List (Str × List Str) :=
  (L.filter (fun d => decide (buckets d ≠ []))).map
    (fun d => (lit "pdfcpu", rotateArgs (buckets d) workPath d))

/-- The reply is one that `handleOrganize` gives after the rotation step: the
download URL or the failure of the final collect invocation. -/
def PastRotation (r : Reply) : Prop :=
  (∃ u, r = Reply.download u) ∨ r = Reply.error 500 (lit "failed to organize PDF")

/-- Canonical file name of the preview of page `n`. -/
def previewName (n : Nat) : Str := lit "page-" ++ natToDec n ++ lit ".png"

/-- Path of the preview of page `n` of job `jobId`, relative to the root. -/
def previewRel (jobId : Str) (n : Nat) : Str :=
  jobId ++ lit "/previews/page-" ++ natToDec n ++ lit ".png"

/-- Renderer invocation restricted to page `n` of the upload of job `jobId`. -/
def renderPage (base jobId : Str) (n : Nat) : Str × List Str :=
  (lit "pdftoppm", [lit "-png", lit "-r", lit "110", lit "-f", natToDec n, lit "-l", natToDec n,
    Join [Join [base, jobId], lit "input.pdf"],
    Join [Join [Join [base, jobId], lit "previews"], lit "page"]])

/-- Events of a trace after its first renderer invocation; none when there is
no such invocation. -/
def afterRender (tr : Trace) : Trace := (tr.dropWhile (fun e => !isRenderRun e)).drop 1

/-- The event is a call of `os.Rename`. -/
def isRename : Event → Bool
  | .rename _ _ => true
  | _ => false

/-- Names `servePreview` tries for the rendered file of page `n`: unpadded and
padded to two and to three digits. -/
def lazyCandidates (base jobId : Str) (n : Nat) : List Str :=
  [canonicalPreview (Join [Join [base, jobId], lit "previews"]) n,
    paddedPreview (Join [Join [base, jobId], lit "previews"]) 2 n,
    paddedPreview (Join [Join [base, jobId], lit "previews"]) 3 n]

/-- Event of the name reconciliation of a lazy request: a lookup, the delivery
of the requested file, or the renaming of a candidate to the requested file. -/
def ReconcileEvent (cands : List Str) (full : Str) (ev : Event) : Prop :=
  (∃ p, ev = Event.stat p) ∨ ev = Event.serveFile full ∨
    ∃ src ∈ cands, ev = Event.rename src full

/-- Effect on the files of the inner loop over the padded names: the first
one that exists is renamed to `expected`. -/
def padEffect (expected : Str) : List Str → FS → FS
  | [], fs => fs
  | p :: rest, fs => if (fs p).isSome then fs.rename p expected else padEffect expected rest fs

/-- Effect on the files of the reconciliation of page `i`. -/
def pageEffect (previewsDir : Str) (fs : FS) (i : Nat) : FS :=
  if (fs (canonicalPreview previewsDir i)).isSome then fs
  else
    padEffect (canonicalPreview previewsDir i)
      [paddedPreview previewsDir 2 i, paddedPreview previewsDir 3 i,
        paddedPreview previewsDir 4 i] fs

/-- Names the reconciliation of page `i` looks at: the canonical one and the
padded ones of width 2, 3 and 4. -/
def pageNames (previewsDir : Str) (i : Nat) : List Str :=
  [canonicalPreview previewsDir i, paddedPreview previewsDir 2 i,
    paddedPreview previewsDir 3 i, paddedPreview previewsDir 4 i]

/-- Page `i` needs no renaming: its canonical file exists, or none of the
padded names the loop tries does. -/
def Settled (previewsDir : Str) (fs : FS) (i : Nat) : Prop :=
  (fs (canonicalPreview previewsDir i)).isSome = true ∨
    ∀ p ∈ [paddedPreview previewsDir 2 i, paddedPreview previewsDir 3 i,
      paddedPreview previewsDir 4 i], fs p = none

/-- Events of `handlePreview` up to and including the rendering of all pages
when the first page count succeeds. -/
def renderedTrace (env : Env) (baseWorkDir : Str) : Trace :=
  uploadTrace env baseWorkDir ++
    [Event.mkdirAll (Join [jobDirOf env baseWorkDir, lit "previews"]),
      pdfinfoRun (jobDirOf env baseWorkDir),
      Event.run (jobDirOf env baseWorkDir) (lit "pdftoppm")
        [lit "-png", lit "-r", lit "110", inputPathOf (jobDirOf env baseWorkDir),
          Join [Join [jobDirOf env baseWorkDir, lit "previews"], lit "page"]]]

/-- Cleaned relative path of a download request. -/
def downloadRel (urlPath : Str) : Str :=
  Clean (stripRoute urlPath (lit "/api/pdf/downloads/") (lit "/downloads/"))

/-- Path under the storage root that a download request names. -/
def downloadTarget (baseWorkDir urlPath : Str) : Str := Join [baseWorkDir, downloadRel urlPath]

/-- The string has no leading and no trailing whitespace. -/
def Trimmed (s : Str) : Prop :=
  (∀ c, s.head? = some c → isSpace c = false) ∧ (∀ c, s.getLast? = some c → isSpace c = false)

/-- Bytes of the chunk type `tEXt`. -/
def tEXt : Bytes := [116, 69, 88, 116]

/-- The `tEXt` chunk of a keyword and a text: length, type, keyword, a zero
byte, the text, and the CRC-32 of everything after the length. -/
def textChunk (keyword text : Bytes) : Bytes :=
  be32 ((keyword.length + 1 + text.length) % 2 ^ 32) ++ tEXt ++ keyword ++ [0] ++ text ++
    be32 (ChecksumIEEE (tEXt ++ keyword ++ [0] ++ text))

/-- A run of `k` blanks. -/
def blanks (k : Nat) : Str := List.replicate k ' '

/-- One token of a page list: a single number, or a range `a-b`; the first
fields are the numbers of blanks before and after the token and, for a range,
around the dash. -/
inductive PageToken where
  /-- A single page number. -/
  | one (before after : Nat) (n : Nat)
  /-- A range of page numbers. -/
  | span (before mid1 mid2 after : Nat) (a b : Nat)

/-- Text of a token: decimal numbers, blanks and, for a range, the dash. -/
def PageToken.text : PageToken → Str
  | .one l r n => blanks l ++ natToDec n ++ blanks r
  | .span l m1 m2 r a b =>
    blanks l ++ (natToDec a ++ blanks m1 ++ ['-'] ++ blanks m2 ++ natToDec b) ++ blanks r

/-- Pages a token stands for: `[n]`, or `[a, a+1, ..., b]`. -/
def PageToken.pages : PageToken → List Int
  | .one _ _ n => [(n : Int)]
  | .span _ _ _ _ a b => (List.range' a (b + 1 - a)).map (fun k => (k : Int))

/-- The numbers of the token are in the range of `int` and a range `a-b` has
`a <= b` with `b` below the largest `int`. -/
def PageToken.ok : PageToken → Prop
  | .one _ _ n => (n : Int) ≤ maxInt
  | .span _ _ _ _ a b => a ≤ b ∧ (b : Int) < maxInt

/-- Number of pages of a range token (0 for a single number). -/
def PageToken.steps : PageToken → Nat
  | .one _ _ _ => 0
  | .span _ _ _ _ a b => b + 1 - a

/-- Comma-separated text of a list of tokens. -/
def pageListText (tokens : List PageToken) : Str :=
  [','].intercalate (tokens.map PageToken.text)

/-- The number of positions of `s` at which `p` begins.  For the four block
tags counted below no occurrence can overlap another one, so this is the
number Go `strings.Count` gives. -/
def countSub (p : Str) : Str → Nat
  | [] => 0
  | c :: t => (if startsWith (c :: t) p then 1 else 0) + countSub p t

/-- A tag of the simplest shape: `<`, then characters other than `>`, then
`>`. -/
def simpleTag : Str → Bool
  | [] => false
  | c :: rest => decide (c = '<') && decide (rest.getLast? = some '>')
      && !(rest.dropLast.contains '>')

/-- Every `<` of the text begins one of the listed tags. -/
def tagged (tags : List Str) : Str → Bool
  | [] => true
  | c :: t => (decide (c ≠ '<') || tags.any (fun T => T.isPrefixOf (c :: t))) && tagged tags t

/-- The tags `applyInlineMarkdown` writes. -/
def inlineTags : List Str :=
  [lit "<strong>", lit "</strong>", lit "<em>", lit "</em>", lit "<code>", lit "</code>"]

/-- The tags written for a line outside a code block, the list brackets
apart. -/
def lineTags : List Str :=
  inlineTags ++ [lit "<li>", lit "</li>", lit "<h1>", lit "</h1>", lit "<h2>", lit "</h2>",
    lit "<h3>", lit "</h3>", lit "<p>", lit "</p>", lit "<br>"]

/-- All tags of a page `convertMarkdownToHTML` returns. -/
def pageTags : List Str :=
  lineTags ++ [lit "<ul>", lit "</ul>", lit "<pre>", lit "</pre>",
    lit "<!DOCTYPE html>", lit "<html>", lit "</html>", lit "<head>", lit "</head>",
    lit "<meta charset=\"UTF-8\">", lit "<style>", lit "</style>", lit "<body>", lit "</body>"]

/-- The text so far has `u` more `<ul>` than `</ul>` and `c` more
`<pre><code>` than `</code></pre>`, and every `<` in it begins a tag of the
page. -/
def Open (s : Str) (u c : Nat) : Prop :=
  tagged pageTags s = true ∧
  countSub (lit "<ul>") s = countSub (lit "</ul>") s + u ∧
  countSub (lit "<pre><code>") s = countSub (lit "</code></pre>") s + c

/-- The state of `convertMarkdownToHTML` before its first line. -/
def markdownStart : MarkdownState := { body := [], inCodeBlock := false, inList := false }

/-- A document with a list that a code fence interrupts. -/
def listThenFence : Str := lit "- a\n\x60\x60\x60\nb > c\n\x60\x60\x60\n* d"

/-- The invariant of the loop of `convertMarkdownToHTML`, for the text `pre`
written before the body: the body has one `<ul>` more than `</ul>` exactly
while a list is open, one `<pre><code>` more than `</code></pre>` exactly
while a code block is open, and no list is open inside a code block. -/
def Kept (pre : Str) (st : MarkdownState) : Prop :=
  Open (pre ++ st.body) st.inList.toNat st.inCodeBlock.toNat ∧
  (st.inCodeBlock = true → st.inList = false)

/-! ## Lemmas on strings and paths -/

theorem splitSlash_cons (c : Char) (s : Str) :
    splitSlash (c :: s) =
      if c = '/' then [] :: splitSlash s else (splitSlash s).modifyHead (List.cons c) := by
  unfold splitSlash List.splitOn
  rw [List.splitOnP_cons]
  by_cases h : c = '/' <;> simp [h]

theorem splitSlash_nil : splitSlash [] = [[]] := rfl

theorem splitSlash_ne_nil (s : Str) : splitSlash s ≠ [] := List.splitOnP_ne_nil _ _

theorem splitSlash_append (a b : Str) :
    splitSlash (a ++ '/' :: b) = splitSlash a ++ splitSlash b := by
  induction a with
  | nil => simp [splitSlash_cons, splitSlash_nil]
  | cons c a ih =>
    simp only [List.cons_append, splitSlash_cons, ih]
    split_ifs
    · rfl
    · cases h : splitSlash a with
      | nil => exact absurd h (splitSlash_ne_nil a)
      | cons hd tl => rfl

theorem noSlash_of_mem_splitSlash (s : Str) : ∀ c ∈ splitSlash s, '/' ∉ c := by
  induction s with
  | nil => intro c hc; simp [splitSlash_nil] at hc; simp [hc]
  | cons ch s ih =>
    intro c hc
    rw [splitSlash_cons] at hc
    split_ifs at hc with h
    · rcases List.mem_cons.1 hc with rfl | hc
      · simp
      · exact ih c hc
    · cases hs : splitSlash s with
      | nil => exact absurd hs (splitSlash_ne_nil s)
      | cons hd tl =>
        rw [hs] at hc ih
        simp only [List.modifyHead_cons, List.mem_cons] at hc
        rcases hc with rfl | hc
        · intro hmem
          rcases List.mem_cons.1 hmem with h1 | h1
          · exact h h1.symm
          · exact ih hd (List.mem_cons_self _ _) h1
        · exact ih c (List.mem_cons_of_mem _ hc)

theorem splitSlash_of_noSlash (x : Str) (h : '/' ∉ x) : splitSlash x = [x] := by
  unfold splitSlash List.splitOn
  apply List.splitOnP_eq_single
  intro c hc hp
  rw [beq_iff_eq] at hp
  exact h (hp ▸ hc)

theorem joinSlash_cons_cons (a b : Str) (rest : List Str) :
    joinSlash (a :: b :: rest) = a ++ '/' :: joinSlash (b :: rest) := by
  simp [joinSlash, List.intercalate, List.intersperse, List.flatten]

theorem joinSlash_single (a : Str) : joinSlash [a] = a := by
  simp [joinSlash, List.intercalate, List.intersperse, List.flatten]

theorem joinSlash_append (B E : List Str) (hB : B ≠ []) (hE : E ≠ []) :
    joinSlash (B ++ E) = joinSlash B ++ '/' :: joinSlash E := by
  induction B with
  | nil => exact absurd rfl hB
  | cons b B ih =>
    cases B with
    | nil =>
      cases E with
      | nil => exact absurd rfl hE
      | cons e E => simp [joinSlash_cons_cons, joinSlash_single]
    | cons b2 B =>
      have := ih (by simp)
      simp only [List.cons_append] at this ⊢
      rw [joinSlash_cons_cons, this, joinSlash_cons_cons]
      simp

theorem joinSlash_splitSlash (x : Str) : joinSlash (splitSlash x) = x :=
  List.intercalate_splitOn x '/'

theorem splitSlash_joinSlash (B : List Str) (hB : ∀ c ∈ B, '/' ∉ c) (hne : B ≠ []) :
    splitSlash (joinSlash B) = B :=
  List.splitOn_intercalate B '/' hB hne

theorem cleanStep_skip (r : Bool) (acc : List Str) (c : Str) (h : keepElem c = false) :
    cleanStep r acc c = acc := by
  unfold cleanStep
  unfold keepElem at h
  by_cases h1 : c = []
  · simp [h1]
  · by_cases h2 : c = ['.']
    · simp [h2]
    · simp [h1, h2] at h

theorem cleanStep_keep (r : Bool) (acc : List Str) (c : Str) (h : keepElem c = true)
    (h2 : c ≠ ['.', '.']) : cleanStep r acc c = c :: acc := by
  unfold cleanStep
  unfold keepElem at h
  simp only [Bool.and_eq_true, decide_eq_true_eq] at h
  simp [h.1, h.2, h2]

theorem foldl_cleanStep_noDotDot (r : Bool) (X : List Str) (hX : ∀ c ∈ X, c ≠ ['.', '.'])
    (acc : List Str) :
    X.foldl (cleanStep r) acc = (X.filter keepElem).reverse ++ acc := by
  induction X generalizing acc with
  | nil => rfl
  | cons c X ih =>
    have hX2 : ∀ d ∈ X, d ≠ ['.', '.'] := fun d hd => hX d (List.mem_cons_of_mem _ hd)
    rw [List.foldl_cons, ih hX2]
    by_cases hk : keepElem c = true
    · rw [cleanStep_keep r acc c hk (hX c (List.mem_cons_self _ _))]
      simp [List.filter_cons, hk]
    · have hk2 : keepElem c = false := by simpa using hk
      rw [cleanStep_skip r acc c hk2]
      simp [List.filter_cons, hk2]

theorem Normal.keep {c : Str} (h : Normal c) : keepElem c = true := by
  unfold keepElem; simp [h.1, h.2.1]

theorem filter_keepElem_normal (B : List Str) (hB : ∀ c ∈ B, Normal c) :
    B.filter keepElem = B := by
  apply List.filter_eq_self.2
  intro c hc
  exact (hB c hc).keep

theorem splitSlash_absPath (B : List Str) (hB : ∀ c ∈ B, Normal c) :
    (splitSlash (absPath B)).filter keepElem = B := by
  have h0 : absPath B = [] ++ '/' :: joinSlash B := rfl
  rw [h0, splitSlash_append, splitSlash_nil]
  by_cases hne : B = []
  · subst hne
    decide
  · rw [splitSlash_joinSlash B (fun c hc => (hB c hc).2.2.2) hne]
    simp only [List.singleton_append]
    rw [List.filter_cons]
    simp only [keepElem, ne_eq, not_true_eq_false, decide_False, Bool.false_and,
      Bool.false_eq_true, ↓reduceIte]
    exact filter_keepElem_normal B hB

theorem noDotDot_absPath (B : List Str) (hB : ∀ c ∈ B, Normal c) :
    noDotDotComp (absPath B) := by
  intro c hc
  have h0 : absPath B = [] ++ '/' :: joinSlash B := rfl
  rw [h0, splitSlash_append, splitSlash_nil] at hc
  by_cases hne : B = []
  · subst hne
    revert hc; revert c; decide
  · rw [splitSlash_joinSlash B (fun c hc => (hB c hc).2.2.2) hne] at hc
    rcases List.mem_append.1 hc with h | h
    · simp at h; simp [h]
    · exact (hB c h).2.2.1

theorem normal_of_kept (x : Str) (hx : noDotDotComp x) :
    ∀ c ∈ (splitSlash x).filter keepElem, Normal c := by
  intro c hc
  rcases List.mem_filter.1 hc with ⟨hmem, hk⟩
  unfold keepElem at hk
  simp only [Bool.and_eq_true, decide_eq_true_eq] at hk
  exact ⟨hk.1, hk.2, hx c hmem, noSlash_of_mem_splitSlash x c hmem⟩

theorem startsWith_absPath_append (B : List Str) (t : Str) :
    startsWith (absPath B ++ t) ['/'] = true := by
  simp [startsWith, absPath]

theorem Clean_absPath_append (B : List Str) (hB : ∀ c ∈ B, Normal c) (x : Str)
    (hx : noDotDotComp x) :
    Clean (absPath B ++ '/' :: x) = absPath (B ++ (splitSlash x).filter keepElem) := by
  unfold Clean cleanStack
  rw [startsWith_absPath_append, if_pos rfl, splitSlash_append, List.foldl_append,
    foldl_cleanStep_noDotDot true _ (noDotDot_absPath B hB),
    foldl_cleanStep_noDotDot true _ hx, splitSlash_absPath B hB]
  simp [absPath]

theorem Join_absPath (B : List Str) (hB : ∀ c ∈ B, Normal c) (x : Str) (hx : noDotDotComp x) :
    Join [absPath B, x] = absPath (B ++ (splitSlash x).filter keepElem) := by
  have hd : [absPath B, x].dropWhile (fun e => decide (e = [])) = [absPath B, x] := by
    simp [List.dropWhile, absPath]
  have hj : joinSlash [absPath B, x] = absPath B ++ '/' :: x := by
    rw [joinSlash_cons_cons, joinSlash_single]
  unfold Join
  rw [hd]
  show Clean (joinSlash [absPath B, x]) = _
  rw [hj, Clean_absPath_append B hB x hx]

theorem Inside_absPath (B E : List Str) (hB : B ≠ []) :
    Inside (absPath B) (absPath (B ++ E)) := by
  by_cases hE : E = []
  · left; simp [hE]
  · right
    unfold absPath
    rw [joinSlash_append B E hB hE]
    exact ⟨joinSlash E, by simp⟩

theorem noDotDotComp_of_noSlash (x : Str) (h1 : '/' ∉ x) (h2 : x ≠ ['.', '.']) :
    noDotDotComp x := by
  intro c hc
  rw [splitSlash_of_noSlash x h1] at hc
  simp at hc
  rw [hc]; exact h2

theorem cleanStep_rooted_normal (acc : List Str) (c : Str) (hc : '/' ∉ c)
    (hacc : ∀ d ∈ acc, Normal d) : ∀ d ∈ cleanStep true acc c, Normal d := by
  unfold cleanStep
  by_cases h1 : c = [] ∨ c = ['.']
  · rw [if_pos h1]; exact hacc
  · rw [if_neg h1]
    by_cases h2 : c = ['.', '.']
    · rw [if_pos h2]
      cases acc with
      | nil => simp
      | cons top rest =>
        have ht : top ≠ ['.', '.'] := (hacc top (List.mem_cons_self _ _)).2.2.1
        simp only [ht, if_false]
        intro d hd
        exact hacc d (List.mem_cons_of_mem _ hd)
    · rw [if_neg h2]
      intro d hd
      rcases List.mem_cons.1 hd with rfl | hd
      · exact ⟨fun h => h1 (Or.inl h), fun h => h1 (Or.inr h), h2, hc⟩
      · exact hacc d hd

theorem foldl_cleanStep_rooted_normal (X : List Str) (hX : ∀ c ∈ X, '/' ∉ c)
    (acc : List Str) (hacc : ∀ d ∈ acc, Normal d) :
    ∀ d ∈ X.foldl (cleanStep true) acc, Normal d := by
  induction X generalizing acc with
  | nil => exact hacc
  | cons c X ih =>
    rw [List.foldl_cons]
    apply ih (fun d hd => hX d (List.mem_cons_of_mem _ hd))
    exact cleanStep_rooted_normal acc c (hX c (List.mem_cons_self _ _)) hacc

theorem initBase_absPath (cwd : Str) (h : startsWith cwd ['/'] = true) :
    ∃ B, B ≠ [] ∧ (∀ c ∈ B, Normal c) ∧ initBaseWorkDir cwd = absPath B := by
  obtain ⟨rest, rfl⟩ : ∃ rest, cwd = '/' :: rest := by
    cases cwd with
    | nil => simp [startsWith] at h
    | cons c rest =>
      refine ⟨rest, ?_⟩
      simp [startsWith] at h
      rw [h]
  let S := (splitSlash ('/' :: rest)).foldl (cleanStep true) []
  have hS : ∀ d ∈ S, Normal d :=
    foldl_cleanStep_rooted_normal _ (noSlash_of_mem_splitSlash _) [] (by simp)
  have hwork : Normal (lit "work") := by
    refine ⟨by decide, by decide, by decide, by decide⟩
  refine ⟨S.reverse ++ [lit "work"], by simp, ?_, ?_⟩
  · intro c hc
    rcases List.mem_append.1 hc with hc | hc
    · exact hS c (List.mem_reverse.1 hc)
    · simp at hc; rw [hc]; exact hwork
  · have e1 : initBaseWorkDir ('/' :: rest) = Clean (('/' :: rest) ++ '/' :: lit "./work") := by
      unfold initBaseWorkDir Abs
      rw [if_neg (by decide)]
      unfold Join
      have hd : [('/' :: rest), lit "./work"].dropWhile (fun e => decide (e = []))
          = [('/' :: rest), lit "./work"] := by simp [List.dropWhile]
      rw [hd]
      show Clean (joinSlash _) = _
      rw [joinSlash_cons_cons, joinSlash_single]
    rw [e1]
    unfold Clean cleanStack
    have hst : startsWith (('/' :: rest) ++ '/' :: lit "./work") ['/'] = true := by
      simp [startsWith]
    rw [hst, if_pos rfl, splitSlash_append, List.foldl_append]
    have e2 : splitSlash (lit "./work") = [['.'], lit "work"] := by decide
    rw [e2]
    show '/' :: joinSlash (List.foldl (cleanStep true) S [['.'], lit "work"]).reverse = _
    have e3 : List.foldl (cleanStep true) S [['.'], lit "work"] = lit "work" :: S := by
      simp only [List.foldl_cons, List.foldl_nil]
      rw [cleanStep_skip true S ['.'] (by decide),
        cleanStep_keep true S (lit "work") (by decide) (by decide)]
    rw [e3]
    simp [absPath]

theorem digitChar_ne_slash (d : Nat) : digitChar d ≠ '/' := by
  have h : ∀ k, k < 10 → Char.ofNat (48 + k) ≠ '/' := by decide
  exact h (d % 10) (Nat.mod_lt _ (by decide))

theorem digitChar_ne_dot (d : Nat) : digitChar d ≠ '.' := by
  have h : ∀ k, k < 10 → Char.ofNat (48 + k) ≠ '.' := by decide
  exact h (d % 10) (Nat.mod_lt _ (by decide))

theorem natDigits_chars (P : Char → Prop) (hP : ∀ d, P (digitChar d)) (fuel n : Nat)
    (acc : Str) (hacc : ∀ c ∈ acc, P c) : ∀ c ∈ natDigits fuel n acc, P c := by
  induction fuel generalizing n acc with
  | zero => exact hacc
  | succ fuel ih =>
    unfold natDigits
    have hacc2 : ∀ c ∈ digitChar n :: acc, P c := by
      intro c hc
      rcases List.mem_cons.1 hc with rfl | hc
      · exact hP n
      · exact hacc c hc
    split_ifs
    · exact hacc2
    · exact ih _ _ hacc2

theorem natToDec_noSlash (n : Nat) : '/' ∉ natToDec n := by
  intro h
  exact natDigits_chars (fun c => c ≠ '/') digitChar_ne_slash (n + 1) n [] (by simp) _ h rfl

theorem padZero_noSlash (w n : Nat) : '/' ∉ padZero w n := by
  unfold padZero
  intro h
  rcases List.mem_append.1 h with h | h
  · have := (List.mem_replicate.1 h).2
    exact absurd this (by decide)
  · exact natToDec_noSlash n h

theorem Itoa_noSlash (n : Int) : '/' ∉ Itoa n := by
  unfold Itoa
  split_ifs
  · intro h
    rcases List.mem_cons.1 h with h | h
    · exact absurd h (by decide)
    · exact natToDec_noSlash _ h
  · exact natToDec_noSlash _

theorem containsDotDot_append_right (a b : Str) (h : containsDotDot b = true) :
    containsDotDot (a ++ b) = true := by
  induction a with
  | nil => exact h
  | cons c a ih =>
    simp only [List.cons_append]
    unfold containsDotDot
    rw [ih]
    simp

theorem containsDotDot_dots (t : Str) : containsDotDot ('.' :: '.' :: t) = true := by
  unfold containsDotDot
  simp

theorem containsDotDot_of_mem (ls : List Str) (h : ['.', '.'] ∈ ls) :
    containsDotDot (joinSlash ls) = true := by
  induction ls with
  | nil => simp at h
  | cons l rest ih =>
    cases rest with
    | nil =>
      simp at h
      rw [joinSlash_single, ← h]
      exact containsDotDot_dots []
    | cons r rest2 =>
      rw [joinSlash_cons_cons]
      rcases List.mem_cons.1 h with h | h
      · rw [← h]
        exact containsDotDot_dots _
      · exact containsDotDot_append_right _ _
          (containsDotDot_append_right ['/'] _ (ih h))

theorem noDotDotComp_of_contains (x : Str) (h : containsDotDot x = false) :
    noDotDotComp x := by
  intro c hc heq
  have := containsDotDot_of_mem (splitSlash x) (heq ▸ hc)
  rw [joinSlash_splitSlash, h] at this
  exact Bool.noConfusion this

theorem Under_self (B : List Str) : Under B (absPath B) :=
  ⟨[], by simp, by simp⟩

theorem Under_join (B : List Str) (hB : ∀ c ∈ B, Normal c) (P x : Str) (hP : Under B P)
    (hx : noDotDotComp x) : Under B (Join [P, x]) := by
  obtain ⟨E, hE, rfl⟩ := hP
  have hBE : ∀ c ∈ B ++ E, Normal c := by
    intro c hc
    rcases List.mem_append.1 hc with h | h
    · exact hB c h
    · exact hE c h
  refine ⟨E ++ (splitSlash x).filter keepElem, ?_, ?_⟩
  · intro c hc
    rcases List.mem_append.1 hc with h | h
    · exact hE c h
    · exact normal_of_kept x hx c h
  · rw [Join_absPath (B ++ E) hBE x hx, List.append_assoc]

theorem Under_inside (B : List Str) (hne : B ≠ []) (p : Str) (h : Under B p) :
    Inside (absPath B) p := by
  obtain ⟨E, _, rfl⟩ := h
  exact Inside_absPath B E hne

theorem mem_of_startsWith_slash (x : Str) (h : startsWith x ['/'] = true) : '/' ∈ x := by
  cases x with
  | nil => simp [startsWith] at h
  | cons c t =>
    simp [startsWith] at h
    exact List.mem_cons.2 (Or.inl h)

theorem AllInside_nil (root : Str) : AllInside root [] := by
  intro ev hev; simp at hev

theorem AllInside_append (root : Str) (a b : Trace) :
    AllInside root (a ++ b) ↔ AllInside root a ∧ AllInside root b := by
  unfold AllInside
  constructor
  · intro h
    exact ⟨fun ev hev => h ev (List.mem_append_left _ hev),
      fun ev hev => h ev (List.mem_append_right _ hev)⟩
  · rintro ⟨h1, h2⟩ ev hev
    rcases List.mem_append.1 hev with h | h
    · exact h1 ev h
    · exact h2 ev h

theorem AllInside_one (root : Str) (ev : Event)
    (h : ∀ p ∈ ev.paths ++ ev.pathArgs, Inside root p) : AllInside root [ev] := by
  intro e he
  simp at he
  rw [he]; exact h

theorem AllInside_stat (root p : Str) (h : Inside root p) :
    AllInside root [Event.stat p] := by
  apply AllInside_one
  intro q hq
  simp [Event.paths, Event.pathArgs] at hq
  rw [hq]; exact h

theorem AllInside_serveFile (root p : Str) (h : Inside root p) :
    AllInside root [Event.serveFile p] := by
  apply AllInside_one
  intro q hq
  simp [Event.paths, Event.pathArgs] at hq
  rw [hq]; exact h

theorem AllInside_mkdirAll (root p : Str) (h : Inside root p) :
    AllInside root [Event.mkdirAll p] := by
  apply AllInside_one
  intro q hq
  simp [Event.paths, Event.pathArgs] at hq
  rw [hq]; exact h

theorem AllInside_rename (root a b : Str) (ha : Inside root a) (hb : Inside root b) :
    AllInside root [Event.rename a b] := by
  apply AllInside_one
  intro q hq
  simp [Event.paths, Event.pathArgs] at hq
  rcases hq with rfl | rfl
  · exact ha
  · exact hb

theorem renameFirst_inside (env : Env) (root full : Str) (hfull : Inside root full)
    (pats : List Str) (hp : ∀ p ∈ pats, Inside root p) (tr : Trace)
    (htr : AllInside root tr) : AllInside root (renameFirst env full pats tr) := by
  induction pats generalizing tr with
  | nil => exact htr
  | cons pat rest ih =>
    have hpat : Inside root pat := hp pat (List.mem_cons_self _ _)
    unfold renameFirst
    split_ifs
    · rw [AllInside_append]
      refine ⟨htr, ?_⟩
      have : [Event.stat pat, Event.rename pat full] = [Event.stat pat] ++ [Event.rename pat full] :=
        rfl
      rw [this, AllInside_append]
      exact ⟨AllInside_stat _ _ hpat, AllInside_rename _ _ _ hpat hfull⟩
    · apply ih (fun p h => hp p (List.mem_cons_of_mem _ h))
      rw [AllInside_append]
      exact ⟨htr, AllInside_stat _ _ hpat⟩

theorem noDotDotComp_pageName (mid : Str) (hmid : '/' ∉ mid) :
    noDotDotComp (lit "page-" ++ mid ++ lit ".png") := by
  apply noDotDotComp_of_noSlash
  · intro h
    rcases List.mem_append.1 h with h | h
    · rcases List.mem_append.1 h with h | h
      · revert h; decide
      · exact hmid h
    · revert h; decide
  · intro h
    have := congrArg List.head? h
    simp [lit] at this

/-- The trace of `http.ServeFile` is the trace before it and the call. -/
theorem ServeFile_trace (urlPath name : Str) (a : Option Str) (tr : Trace) :
    (ServeFile urlPath name a tr).2 = tr ++ [Event.serveFile name] := by
  unfold ServeFile
  dsimp only
  split_ifs <;> rfl

/-- The three answers of `http.ServeFile`. -/
theorem ServeFile_reply (urlPath name : Str) (a : Option Str) (tr : Trace) :
    (ServeFile urlPath name a tr).1 =
      if hasDotDotElement urlPath = true then Reply.error 400 (lit "invalid URL path")
      else if endsWith urlPath (lit "/index.html") = true then Reply.redirect 301 (lit "./")
      else Reply.file name a := by
  unfold ServeFile
  dsimp only
  split_ifs <;> rfl

theorem ServeFile_inside (root urlPath name : Str) (a : Option Str) (tr : Trace)
    (hname : Inside root name) (htr : AllInside root tr) :
    AllInside root (ServeFile urlPath name a tr).2 := by
  rw [ServeFile_trace, AllInside_append]
  exact ⟨htr, AllInside_serveFile _ _ hname⟩

theorem lazyRender_inside (env : Env) (B : List Str) (hB : ∀ c ∈ B, Normal c) (hne : B ≠ [])
    (urlPath jobID full : Str) (n : Int) (tr : Trace) (hjob : noDotDotComp jobID)
    (hfull : Inside (absPath B) full) (htr : AllInside (absPath B) tr) :
    AllInside (absPath B) (lazyRender env (absPath B) urlPath jobID full n tr).2 := by
  have uJob : Under B (Join [absPath B, jobID]) := Under_join B hB _ _ (Under_self B) hjob
  have uSrc := Under_join B hB _ (lit "input.pdf") uJob
    (noDotDotComp_of_noSlash _ (by decide) (by decide))
  have uPrev := Under_join B hB _ (lit "previews") uJob
    (noDotDotComp_of_noSlash _ (by decide) (by decide))
  have uPfx := Under_join B hB _ (lit "page") uPrev
    (noDotDotComp_of_noSlash _ (by decide) (by decide))
  have uP1 := Under_join B hB _ (lit "page-" ++ Itoa n ++ lit ".png") uPrev
    (noDotDotComp_pageName _ (Itoa_noSlash n))
  have uP2 := Under_join B hB _ (lit "page-" ++ padZero 2 n.toNat ++ lit ".png") uPrev
    (noDotDotComp_pageName _ (padZero_noSlash 2 _))
  have uP3 := Under_join B hB _ (lit "page-" ++ padZero 3 n.toNat ++ lit ".png") uPrev
    (noDotDotComp_pageName _ (padZero_noSlash 3 _))
  have iJob := Under_inside B hne _ uJob
  have iSrc := Under_inside B hne _ uSrc
  have iPrev := Under_inside B hne _ uPrev
  have iPfx := Under_inside B hne _ uPfx
  have hrun : AllInside (absPath B) [Event.run (Join [absPath B, jobID]) (lit "pdftoppm")
      [lit "-png", lit "-r", lit "110", lit "-f", Itoa n, lit "-l", Itoa n,
        Join [Join [absPath B, jobID], lit "input.pdf"],
        Join [Join [Join [absPath B, jobID], lit "previews"], lit "page"]]] := by
    apply AllInside_one
    intro q hq
    rcases List.mem_append.1 hq with hq | hq
    · simp [Event.paths] at hq
      rw [hq]; exact iJob
    · simp only [Event.pathArgs] at hq
      rcases List.mem_filter.1 hq with ⟨hmem, hst⟩
      simp only [List.mem_cons, List.mem_singleton, List.not_mem_nil, or_false] at hmem
      rcases hmem with h | h | h | h | h | h | h | h | h
      · rw [h] at hst; exact absurd hst (by decide)
      · rw [h] at hst; exact absurd hst (by decide)
      · rw [h] at hst; exact absurd hst (by decide)
      · rw [h] at hst; exact absurd hst (by decide)
      · rw [h] at hst; exact absurd (mem_of_startsWith_slash _ hst) (Itoa_noSlash n)
      · rw [h] at hst; exact absurd hst (by decide)
      · rw [h] at hst; exact absurd (mem_of_startsWith_slash _ hst) (Itoa_noSlash n)
      · rw [h]; exact iSrc
      · rw [h]; exact iPfx
  have h2 : AllInside (absPath B) ((tr ++ [Event.mkdirAll
      (Join [Join [absPath B, jobID], lit "previews"])]) ++
      [Event.run (Join [absPath B, jobID]) (lit "pdftoppm")
      [lit "-png", lit "-r", lit "110", lit "-f", Itoa n, lit "-l", Itoa n,
        Join [Join [absPath B, jobID], lit "input.pdf"],
        Join [Join [Join [absPath B, jobID], lit "previews"], lit "page"]]]) := by
    rw [AllInside_append, AllInside_append]
    exact ⟨⟨htr, AllInside_mkdirAll _ _ iPrev⟩, hrun⟩
  unfold lazyRender
  simp only []
  split_ifs
  · exact h2
  · rw [AllInside_append]
    refine ⟨?_, AllInside_stat _ _ hfull⟩
    apply renameFirst_inside env _ _ hfull _ _ _ h2
    intro p hp
    simp only [List.mem_cons, List.mem_singleton, List.not_mem_nil, or_false] at hp
    rcases hp with rfl | rfl | rfl
    · exact Under_inside B hne _ uP1
    · exact Under_inside B hne _ uP2
    · exact Under_inside B hne _ uP3
  · apply ServeFile_inside _ _ _ _ _ hfull
    rw [AllInside_append]
    refine ⟨?_, AllInside_stat _ _ hfull⟩
    apply renameFirst_inside env _ _ hfull _ _ _ h2
    intro p hp
    simp only [List.mem_cons, List.mem_singleton, List.not_mem_nil, or_false] at hp
    rcases hp with rfl | rfl | rfl
    · exact Under_inside B hne _ uP1
    · exact Under_inside B hne _ uP2
    · exact Under_inside B hne _ uP3

theorem serveDownload_inside (env : Env) (B : List Str) (hB : ∀ c ∈ B, Normal c) (hne : B ≠ [])
    (urlPath : Str) : AllInside (absPath B) (serveDownload env (absPath B) urlPath).2 := by
  unfold serveDownload
  simp only []
  split_ifs with hcd hm
  · exact AllInside_nil _
  · have hfull := Under_inside B hne _ (Under_join B hB _ _ (Under_self B)
      (noDotDotComp_of_contains _ (by simpa using hcd)))
    exact AllInside_stat _ _ hfull
  · have hfull := Under_inside B hne _ (Under_join B hB _ _ (Under_self B)
      (noDotDotComp_of_contains _ (by simpa using hcd)))
    exact ServeFile_inside _ _ _ _ _ hfull (AllInside_stat _ _ hfull)

theorem headD_mem_splitSlash (x : Str) : (splitSlash x).headD [] ∈ splitSlash x := by
  cases h : splitSlash x with
  | nil => exact absurd h (splitSlash_ne_nil x)
  | cons a t => simp

theorem servePreview_inside (env : Env) (B : List Str) (hB : ∀ c ∈ B, Normal c) (hne : B ≠ [])
    (urlPath : Str) : AllInside (absPath B) (servePreview env (absPath B) urlPath).2 := by
  unfold servePreview
  simp only []
  by_cases hcd : containsDotDot
      (Clean (stripRoute urlPath (lit "/api/pdf/previews/") (lit "/previews/"))) = true
  · rw [if_pos hcd]
    exact AllInside_nil _
  · rw [if_neg hcd]
    have hnd := noDotDotComp_of_contains _ (by simpa using hcd)
    have hfull := Under_inside B hne _ (Under_join B hB _ _ (Under_self B) hnd)
    have hstat := AllInside_stat _ _ hfull
    have hjob : noDotDotComp ((splitSlash
        (Clean (stripRoute urlPath (lit "/api/pdf/previews/") (lit "/previews/")))).headD []) := by
      have hm := headD_mem_splitSlash
        (Clean (stripRoute urlPath (lit "/api/pdf/previews/") (lit "/previews/")))
      exact noDotDotComp_of_noSlash _ (noSlash_of_mem_splitSlash _ _ hm) (hnd _ hm)
    split_ifs
    · split
      · split_ifs
        · exact lazyRender_inside env B hB hne _ _ _ _ _ hjob hfull hstat
        · exact hstat
      · exact hstat
    · exact hstat
    · exact hstat
    · exact ServeFile_inside _ _ _ _ _ hfull hstat

/-- C1: for a server started in an absolute working directory, every path
that `serveDownload` or `servePreview` stats, creates, renders into, renames
from or to, or serves lies lexically inside the storage root `baseWorkDir`,
for every request path and every state of the outside world. -/
theorem gateway_paths_inside_root (env : Env) (cwd urlPath : Str)
    (hcwd : startsWith cwd ['/'] = true) :
    AllInside (initBaseWorkDir cwd) (serveDownload env (initBaseWorkDir cwd) urlPath).2 ∧
      AllInside (initBaseWorkDir cwd) (servePreview env (initBaseWorkDir cwd) urlPath).2 := by
  obtain ⟨B, hne, hB, hbase⟩ := initBase_absPath cwd hcwd
  rw [hbase]
  exact ⟨serveDownload_inside env B hB hne urlPath, servePreview_inside env B hB hne urlPath⟩

/-- C1 at a lazy preview request of job `j1`, page 2, in the empty world. -/
theorem gateway_paths_inside_root_witness :
    startsWith (lit "/srv") ['/'] = true ∧
      (AllInside (initBaseWorkDir (lit "/srv"))
          (serveDownload quietEnv (initBaseWorkDir (lit "/srv"))
            (lit "/previews/j1/previews/page-2.png")).2 ∧
        AllInside (initBaseWorkDir (lit "/srv"))
          (servePreview quietEnv (initBaseWorkDir (lit "/srv"))
            (lit "/previews/j1/previews/page-2.png")).2) :=
  ⟨by decide, gateway_paths_inside_root quietEnv (lit "/srv")
    (lit "/previews/j1/previews/page-2.png") (by decide)⟩

/-! ## Traversal check of the gateway -/

theorem renameFirst_ne_nil (env : Env) (full : Str) (pats : List Str) (tr : Trace)
    (h : tr ≠ []) : renameFirst env full pats tr ≠ [] := by
  induction pats generalizing tr with
  | nil => exact h
  | cons pat rest ih =>
    unfold renameFirst
    split_ifs
    · simp
    · exact ih _ (by simp)

theorem ServeFile_not_forbidden (urlPath name : Str) (a : Option Str) (tr : Trace) :
    (ServeFile urlPath name a tr).1 ≠ Reply.error 403 (lit "forbidden") ∧
      (ServeFile urlPath name a tr).2 ≠ [] := by
  rw [ServeFile_trace, ServeFile_reply]
  refine ⟨?_, by simp⟩
  split_ifs <;> simp

theorem lazyRender_not_forbidden (env : Env) (base urlPath jobID full : Str) (n : Int)
    (tr : Trace) :
    (lazyRender env base urlPath jobID full n tr).1 ≠ Reply.error 403 (lit "forbidden") ∧
      (lazyRender env base urlPath jobID full n tr).2 ≠ [] := by
  unfold lazyRender
  simp only []
  split_ifs
  · exact ⟨by simp, by simp⟩
  · exact ⟨by simp, by simp⟩
  · exact ServeFile_not_forbidden _ _ _ _

theorem serveDownload_forbidden (env : Env) (base urlPath : Str) :
    ((serveDownload env base urlPath).1 = Reply.error 403 (lit "forbidden") ↔
        containsDotDot (Clean (stripRoute urlPath (lit "/api/pdf/downloads/")
          (lit "/downloads/"))) = true) ∧
      ((serveDownload env base urlPath).2 = [] ↔
        containsDotDot (Clean (stripRoute urlPath (lit "/api/pdf/downloads/")
          (lit "/downloads/"))) = true) := by
  unfold serveDownload
  simp only []
  split_ifs with hcd hm
  · exact ⟨⟨fun _ => hcd, fun _ => rfl⟩, ⟨fun _ => hcd, fun _ => rfl⟩⟩
  · refine ⟨⟨fun h => ?_, fun h => absurd h hcd⟩, ⟨fun h => ?_, fun h => absurd h hcd⟩⟩
    · simp at h
    · simp at h
  · exact ⟨⟨fun h => absurd h (ServeFile_not_forbidden _ _ _ _).1, fun h => absurd h hcd⟩,
      ⟨fun h => absurd h (ServeFile_not_forbidden _ _ _ _).2, fun h => absurd h hcd⟩⟩

theorem servePreview_forbidden (env : Env) (base urlPath : Str) :
    ((servePreview env base urlPath).1 = Reply.error 403 (lit "forbidden") ↔
        containsDotDot (Clean (stripRoute urlPath (lit "/api/pdf/previews/")
          (lit "/previews/"))) = true) ∧
      ((servePreview env base urlPath).2 = [] ↔
        containsDotDot (Clean (stripRoute urlPath (lit "/api/pdf/previews/")
          (lit "/previews/"))) = true) := by
  unfold servePreview
  simp only []
  by_cases hcd : containsDotDot
      (Clean (stripRoute urlPath (lit "/api/pdf/previews/") (lit "/previews/"))) = true
  · rw [if_pos hcd]
    exact ⟨⟨fun _ => hcd, fun _ => rfl⟩, ⟨fun _ => hcd, fun _ => rfl⟩⟩
  · rw [if_neg hcd]
    have key : ∀ r : Reply × Trace, r.1 ≠ Reply.error 403 (lit "forbidden") → r.2 ≠ [] →
        ((r.1 = Reply.error 403 (lit "forbidden") ↔ containsDotDot
          (Clean (stripRoute urlPath (lit "/api/pdf/previews/") (lit "/previews/"))) = true) ∧
        (r.2 = [] ↔ containsDotDot
          (Clean (stripRoute urlPath (lit "/api/pdf/previews/") (lit "/previews/"))) = true)) :=
      fun r h1 h2 => ⟨⟨fun h => absurd h h1, fun h => absurd h hcd⟩,
        ⟨fun h => absurd h h2, fun h => absurd h hcd⟩⟩
    apply key
    · split_ifs
      · split
        · split_ifs
          · exact (lazyRender_not_forbidden _ _ _ _ _ _ _).1
          · simp
        · simp
      · simp
      · simp
      · exact (ServeFile_not_forbidden _ _ _ _).1
    · split_ifs
      · split
        · split_ifs
          · exact (lazyRender_not_forbidden _ _ _ _ _ _ _).2
          · simp
        · simp
      · simp
      · simp
      · exact (ServeFile_not_forbidden _ _ _ _).2

theorem cleanStep_keeps_bottom (acc : List Str) (c : Str)
    (h : acc.getLast? = some ['.', '.']) :
    (cleanStep false acc c).getLast? = some ['.', '.'] := by
  obtain ⟨top, rest, rfl⟩ : ∃ top rest, acc = top :: rest := by
    cases acc with
    | nil => simp at h
    | cons a b => exact ⟨a, b, rfl⟩
  have hpush : ∀ d : Str, (d :: top :: rest).getLast? = some ['.', '.'] := by
    intro d; rw [List.getLast?_cons_cons]; exact h
  unfold cleanStep
  by_cases h1 : c = [] ∨ c = ['.']
  · rw [if_pos h1]; exact h
  · rw [if_neg h1]
    by_cases h2 : c = ['.', '.']
    · rw [if_pos h2]
      show (if top = ['.', '.'] then c :: top :: rest else rest).getLast? = _
      by_cases h3 : top = ['.', '.']
      · rw [if_pos h3]; exact hpush c
      · rw [if_neg h3]
        cases rest with
        | nil => simp at h; exact absurd h h3
        | cons r rest2 => rw [List.getLast?_cons_cons] at h; exact h
    · rw [if_neg h2]; exact hpush c

theorem foldl_cleanStep_keeps_bottom (X : List Str) (acc : List Str)
    (h : acc.getLast? = some ['.', '.']) :
    (X.foldl (cleanStep false) acc).getLast? = some ['.', '.'] := by
  induction X generalizing acc with
  | nil => exact h
  | cons c X ih => exact ih _ (cleanStep_keeps_bottom acc c h)

theorem Clean_leading_dotdot (t : Str) : containsDotDot (Clean (lit "../" ++ t)) = true := by
  have hsplit : splitSlash (lit "../" ++ t) = [['.', '.']] ++ splitSlash t :=
    splitSlash_append ['.', '.'] t
  have hst : startsWith (lit "../" ++ t) ['/'] = false := rfl
  have hlast : (cleanStack (lit "../" ++ t)).getLast? = some ['.', '.'] := by
    unfold cleanStack
    rw [hst, hsplit, List.foldl_append]
    exact foldl_cleanStep_keeps_bottom _ _ (by decide)
  have hmem : ['.', '.'] ∈ (cleanStack (lit "../" ++ t)).reverse :=
    List.mem_reverse.2 (List.mem_of_getLast?_eq_some hlast)
  have hne : cleanStack (lit "../" ++ t) ≠ [] := by
    intro h; rw [h] at hlast; simp at hlast
  unfold Clean
  rw [hst, if_neg (by simp), if_neg hne]
  exact containsDotDot_of_mem _ hmem

/-- C2 (counterexample): the relative path `a/../b` has a `..` segment, yet
`serveDownload` does not answer 403 and does stat a file: `filepath.Clean` has
resolved the segment to `b` before the check.  The answer is 404 when
`<root>/b` is missing; when it exists the handler goes on to `http.ServeFile`,
which answers 400 `invalid URL path`. -/
theorem dotdot_segment_looked_up :
    ['.', '.'] ∈ splitSlash (stripRoute (lit "/downloads/a/../b")
        (lit "/api/pdf/downloads/") (lit "/downloads/")) ∧
      serveDownload quietEnv (initBaseWorkDir (lit "/srv")) (lit "/downloads/a/../b") =
        (Reply.error 404 (lit "file not found"), [Event.stat (lit "/srv/work/b")]) ∧
      serveDownload allFilesEnv (initBaseWorkDir (lit "/srv")) (lit "/downloads/a/../b") =
        (Reply.error 400 (lit "invalid URL path"),
          [Event.stat (lit "/srv/work/b"), Event.serveFile (lit "/srv/work/b")]) := by
  decide

/-- C2 (amended): `serveDownload` and `servePreview` answer 403 forbidden, and
touch nothing, exactly when the cleaned relative path still contains `..`;
every relative path that starts with a `..` segment is of that kind. -/
theorem forbidden_iff_cleaned_has_dotdot (env : Env) (base urlPath t : Str) :
    (((serveDownload env base urlPath).1 = Reply.error 403 (lit "forbidden") ↔
        containsDotDot (Clean (stripRoute urlPath (lit "/api/pdf/downloads/")
          (lit "/downloads/"))) = true) ∧
      ((serveDownload env base urlPath).2 = [] ↔
        containsDotDot (Clean (stripRoute urlPath (lit "/api/pdf/downloads/")
          (lit "/downloads/"))) = true)) ∧
    (((servePreview env base urlPath).1 = Reply.error 403 (lit "forbidden") ↔
        containsDotDot (Clean (stripRoute urlPath (lit "/api/pdf/previews/")
          (lit "/previews/"))) = true) ∧
      ((servePreview env base urlPath).2 = [] ↔
        containsDotDot (Clean (stripRoute urlPath (lit "/api/pdf/previews/")
          (lit "/previews/"))) = true)) ∧
    containsDotDot (Clean (lit "../" ++ t)) = true :=
  ⟨serveDownload_forbidden env base urlPath, servePreview_forbidden env base urlPath,
    Clean_leading_dotdot t⟩

/-! ## PDF to JPG: the output path -/

/-- C3 (failing input): with the form field `page` set to `/../../../x`,
`handlePDFToJPG` answers 200 and has renamed the image to `/srv/x.jpg`, which
is outside the job directory `/srv/work/job-1` and outside the storage root
`/srv/work`. -/
theorem jpg_page_field_escapes_job :
    handlePDFToJPG onePageEnv (initBaseWorkDir (lit "/srv")) escapeRequest =
        (Reply.download (lit "/downloads/job-1/a_page/../../../x.jpg"),
          [Event.mkdirAll (lit "/srv/work/job-1"),
            Event.saveUpload (lit "/srv/work/job-1/input.pdf"),
            Event.run (lit "/srv/work/job-1") (lit "pdfinfo") [lit "/srv/work/job-1/input.pdf"],
            Event.mkdirAll (lit "/srv/work/job-1/images"),
            Event.run (lit "/srv/work/job-1") (lit "pdftoppm")
              [lit "-jpeg", lit "-r", lit "150", lit "/srv/work/job-1/input.pdf",
                lit "/srv/work/job-1/images/page"],
            Event.glob (lit "/srv/work/job-1/images/page-*.jpg"),
            Event.rename (lit "/srv/work/job-1/images/page-1.jpg") (lit "/srv/x.jpg")]) ∧
      ¬ Inside (lit "/srv/work/job-1") (lit "/srv/x.jpg") ∧
      ¬ Inside (initBaseWorkDir (lit "/srv")) (lit "/srv/x.jpg") := by
  decide

/-! ## Page numbers: the stamping loop -/

theorem runsOf_append (a b : Trace) : runsOf (a ++ b) = runsOf a ++ runsOf b := by
  induction a with
  | nil => rfl
  | cons e a ih =>
    cases e <;> simp [runsOf, ih]

theorem resolvePage_runs (env : Env) (pagesDir : Str) (i : Nat) (tr : Trace) :
    runsOf (resolvePage env pagesDir i tr).2 = runsOf tr := by
  unfold resolvePage
  simp only []
  split_ifs
  · simp [runsOf_append, runsOf]
  · simp [runsOf_append, runsOf]
  · split <;> simp [runsOf_append, runsOf]

theorem isStampRun_stampArgs (label desc src out : Str) :
    isStampRun (lit "pdfcpu", stampArgs label desc src out) = true := by
  simp [isStampRun, stampArgs]

theorem stampArgs_last (label desc src out : Str) :
    (stampArgs label desc src out).getLastD [] = out := by
  simp [stampArgs, List.getLastD]

theorem stampArgs_label (label desc src out : Str) :
    (stampArgs label desc src out).getD 5 [] = label := by
  simp [stampArgs]

/-- While the stamp invocations of the pages `idx1` succeed, the loop issues
exactly one stamp invocation for each of them, in order, and goes on with the
remaining pages. -/
theorem stampPages_prefix (env : Env) (dir pagesDir desc : Str) (s : Int) (idx1 idx2 : List Nat)
    (hok : ∀ i ∈ idx1, ∀ tr src,
      (env.run tr dir (lit "pdfcpu")
        (stampArgs (pageLabel s i) desc src (stampedPath dir i))).2 = true)
    (tr : Trace) (st : List Str) :
    ∃ tr2 runs, stampPages env dir pagesDir desc s (idx1 ++ idx2) tr st =
        stampPages env dir pagesDir desc s idx2 tr2 (st ++ idx1.map (stampedPath dir)) ∧
      runsOf tr2 = runsOf tr ++ runs ∧
      (∀ r ∈ runs, isStampRun r = true) ∧
      runs.map (fun r => r.2.getLastD []) = idx1.map (stampedPath dir) ∧
      runs.map (fun r => r.2.getD 5 []) = idx1.map (pageLabel s) := by
  induction idx1 generalizing tr st with
  | nil => exact ⟨tr, [], by simp, by simp, by simp, by simp, by simp⟩
  | cons i rest ih =>
    have hi := hok i (List.mem_cons_self _ _) (resolvePage env pagesDir i tr).2
      (resolvePage env pagesDir i tr).1
    obtain ⟨tr2, runs, h1, h2, h3, h4, h5⟩ :=
      ih (fun j hj => hok j (List.mem_cons_of_mem _ hj))
        ((resolvePage env pagesDir i tr).2 ++ [Event.run dir (lit "pdfcpu")
          (stampArgs (pageLabel s i) desc (resolvePage env pagesDir i tr).1 (stampedPath dir i))])
        (st ++ [stampedPath dir i])
    refine ⟨tr2, (lit "pdfcpu", stampArgs (pageLabel s i) desc
      (resolvePage env pagesDir i tr).1 (stampedPath dir i)) :: runs, ?_, ?_, ?_, ?_, ?_⟩
    · rw [List.cons_append]
      conv => lhs; unfold stampPages
      simp only []
      rw [if_pos hi, h1]
      simp
    · rw [h2, runsOf_append, resolvePage_runs]
      simp [runsOf]
    · intro r hr
      rcases List.mem_cons.1 hr with rfl | hr
      · exact isStampRun_stampArgs _ _ _ _
      · exact h3 r hr
    · simp only [List.map_cons, h4, stampArgs_last]
    · simp only [List.map_cons, h5, stampArgs_label]

theorem filter_stamp_all (runs : List (Str × List Str)) (h : ∀ r ∈ runs, isStampRun r = true) :
    runs.filter isStampRun = runs := List.filter_eq_self.2 h

theorem not_merge_of_stamp (r : Str × List Str) (h : isStampRun r = true) :
    isMergeRun r = false := by
  unfold isStampRun at h
  unfold isMergeRun
  simp only [Bool.and_eq_true, decide_eq_true_eq] at h
  rw [h.1, h.2]
  decide

theorem filter_merge_none (runs : List (Str × List Str)) (h : ∀ r ∈ runs, isStampRun r = true) :
    runs.filter isMergeRun = [] := by
  apply List.filter_eq_nil_iff.2
  intro r hr
  rw [not_merge_of_stamp r (h r hr)]
  exact Bool.false_ne_true

theorem handlePageNumbers_valid (env : Env) (base : Str) (req : PageNumbersRequest)
    (filename : Str) (hpost : req.isPost = true) (hform : req.formOk = true)
    (hfile : req.filename = some filename)
    (hmk : env.mkdirAll [] (jobDirOf env base) = true)
    (hsave : env.saveUpload [Event.mkdirAll (jobDirOf env base)]
      (inputPathOf (jobDirOf env base)) = true) :
    handlePageNumbers env base req =
      match (pageCountWithFallback env (jobDirOf env base) (inputPathOf (jobDirOf env base))
          (uploadTrace env base)).1 with
      | none => (Reply.error 500 (lit "failed to read page count"),
          (pageCountWithFallback env (jobDirOf env base) (inputPathOf (jobDirOf env base))
            (uploadTrace env base)).2)
      | some total => pageNumbersPipeline env req filename (env.uuid []) (jobDirOf env base)
          (inputPathOf (jobDirOf env base)) total
          (pageCountWithFallback env (jobDirOf env base) (inputPathOf (jobDirOf env base))
            (uploadTrace env base)).2 := by
  unfold jobDirOf at hmk
  unfold jobDirOf inputPathOf at hsave
  unfold handlePageNumbers newJobDir uploadTrace jobDirOf inputPathOf
  simp [hpost, hform, hfile, hmk, hsave]

theorem pipeline_all_ok (env : Env) (req : PageNumbersRequest) (filename jobID dir : Str)
    (N : Nat) (tr : Trace) (hmk : ∀ t p, env.mkdirAll t p = true)
    (hrun : ∀ t d n a, (env.run t d n a).2 = true) :
    ∃ pre runs,
      pageNumbersPipeline env req filename jobID dir (inputPathOf dir) (N : Int) tr =
        (Reply.download (buildDownloadURL jobID (buildOutputName filename (lit "numbered"))),
          pre ++ [Event.run dir (lit "pdfcpu") (mergeArgs dir filename N)]) ∧
      runsOf pre = runsOf tr ++ [(lit "pdfcpu", extractArgs dir)] ++ runs ∧
      (∀ r ∈ runs, isStampRun r = true) ∧
      runs.map (fun r => r.2.getLastD []) = stampedOutputs dir N ∧
      runs.map (fun r => r.2.getD 5 []) =
        (List.range' 1 N).map (pageLabel (startAtOf req.startAt)) := by
  obtain ⟨tr2, runs, h1, h2, h3, h4, h5⟩ :=
    stampPages_prefix env dir (Join [dir, lit "pages"]) (stampDesc req) (startAtOf req.startAt)
      (List.range' 1 N) [] (fun i _ t src => hrun t dir _ _)
      (tr ++ [Event.mkdirAll (Join [dir, lit "pages"])] ++
        [Event.run dir (lit "pdfcpu") (extractArgs dir)]) []
  refine ⟨tr2, runs, ?_, ?_, h3, h4, h5⟩
  · have hidx : pageIndices (N : Int) = List.range' 1 N := by
      unfold pageIndices; simp
    have hneg : ¬ ((N : Int) < 0) := by omega
    rw [List.append_nil] at h1
    have h1' : stampPages env dir (Join [dir, lit "pages"]) (stampDesc req)
        (startAtOf req.startAt) (List.range' 1 N)
        (tr ++ [Event.mkdirAll (Join [dir, lit "pages"])] ++
          [Event.run dir (lit "pdfcpu") (extractArgs dir)]) [] =
        (some ((List.range' 1 N).map (stampedPath dir)), tr2) := by
      rw [h1]; simp [stampPages]
    unfold pageNumbersPipeline
    simp only [hidx, hmk, hrun, hneg]
    unfold extractArgs at h1'
    simp only [h1']
    simp [mergeArgs]
  · rw [h2]
    simp [runsOf_append, runsOf]

theorem pageCountPDF_trace (env : Env) (dir inPath : Str) (tr : Trace) :
    (pageCountPDF env dir inPath tr).2 = tr ++ [Event.run dir (lit "pdfcpu") [lit "info", inPath]] := by
  unfold pageCountPDF
  simp only []
  split_ifs <;> rfl

theorem pageCountPoppler_trace (env : Env) (dir inPath : Str) (tr : Trace) :
    (pageCountPoppler env dir inPath tr).2 = tr ++ [Event.run dir (lit "pdfinfo") [inPath]] := by
  unfold pageCountPoppler
  simp only []
  split_ifs <;> rfl

theorem pageCount_primary (env : Env) (dir inPath : Str) (tr : Trace) (n : Int)
    (h : (pageCountPDF env dir inPath tr).1 = some n) :
    pageCountWithFallback env dir inPath tr =
      (some n, tr ++ [Event.run dir (lit "pdfcpu") [lit "info", inPath]]) := by
  unfold pageCountWithFallback
  simp only [h, pageCountPDF_trace]

theorem pageCount_secondary (env : Env) (dir inPath : Str) (tr : Trace)
    (h : (pageCountPDF env dir inPath tr).1 = none) :
    pageCountWithFallback env dir inPath tr =
      pageCountPoppler env dir inPath
        (tr ++ [Event.run dir (lit "pdfcpu") [lit "info", inPath]]) := by
  unfold pageCountWithFallback
  simp only [h, pageCountPDF_trace]

theorem isStampRun_head (name : Str) (a : Str) (rest : List Str) (h : a ≠ lit "stamp") :
    isStampRun (name, a :: rest) = false := by
  simp [isStampRun, h]

theorem isMergeRun_head (name : Str) (a : Str) (rest : List Str) (h : a ≠ lit "merge") :
    isMergeRun (name, a :: rest) = false := by
  simp [isMergeRun, h]

theorem runsOf_uploadTrace (env : Env) (base : Str) : runsOf (uploadTrace env base) = [] := rfl

theorem stampOutputs_sections (pre : Trace) (first last : Str × List Str)
    (runs : List (Str × List Str)) (dir : Str) (m : List Str)
    (hpre : runsOf pre = [first] ++ [(lit "pdfcpu", extractArgs dir)] ++ runs)
    (hfirst : isStampRun first = false ∧ isMergeRun first = false)
    (hlast : last = (lit "pdfcpu", lit "merge" :: m))
    (hruns : ∀ r ∈ runs, isStampRun r = true) :
    (runsOf (pre ++ [Event.run dir last.1 last.2])).filter isStampRun = runs ∧
      (runsOf (pre ++ [Event.run dir last.1 last.2])).filter isMergeRun = [last] := by
  have hx1 : isStampRun (lit "pdfcpu", extractArgs dir) = false :=
    isStampRun_head _ _ _ (by decide)
  have hx2 : isMergeRun (lit "pdfcpu", extractArgs dir) = false :=
    isMergeRun_head _ _ _ (by decide)
  have hl1 : isStampRun last = false := by
    rw [hlast]; exact isStampRun_head _ _ _ (by decide)
  have hl2 : isMergeRun last = true := by
    rw [hlast]; simp [isMergeRun]
  rw [runsOf_append, hpre]
  constructor
  · simp [runsOf, List.filter_append, List.filter_cons, hfirst.1, hx1, hl1,
      filter_stamp_all runs hruns]
  · simp [runsOf, List.filter_append, List.filter_cons, hfirst.2, hx2, hl2,
      filter_merge_none runs hruns]

theorem parsePagesPDF_three : parsePagesPDF (lit "Pages: 3") = some ((3 : Nat) : Int) := by
  decide

theorem range_split_at (N k : Nat) (hk1 : 1 ≤ k) (hkN : k ≤ N) :
    List.range' 1 N = List.range' 1 (k - 1) ++ k :: List.range' (k + 1) (N - k) := by
  have h1 : List.range' 1 N = List.range' 1 (k - 1) ++ List.range' (1 + (k - 1)) (N - k + 1) := by
    rw [List.range'_append_1]
    congr 1
    omega
  rw [h1, List.range'_succ]
  have : 1 + (k - 1) = k := by omega
  rw [this]

theorem stampedOutputs_succ (dir : Str) (k : Nat) (hk1 : 1 ≤ k) :
    stampedOutputs dir k = stampedOutputs dir (k - 1) ++ [stampedPath dir k] := by
  unfold stampedOutputs
  obtain ⟨j, rfl⟩ : ∃ j, k = j + 1 := ⟨k - 1, by omega⟩
  rw [List.range'_1_concat]
  simp [Nat.add_comm]

theorem pipeline_stamp_fails (env : Env) (req : PageNumbersRequest) (filename jobID dir : Str)
    (N k : Nat) (hk1 : 1 ≤ k) (hkN : k ≤ N) (tr : Trace)
    (hmk : ∀ t p, env.mkdirAll t p = true)
    (hextract : ∀ t, (env.run t dir (lit "pdfcpu") (extractArgs dir)).2 = true)
    (hok : ∀ i, i < k → ∀ t src, (env.run t dir (lit "pdfcpu")
      (stampArgs (pageLabel (startAtOf req.startAt) i) (stampDesc req) src
        (stampedPath dir i))).2 = true)
    (hfail : ∀ t src, (env.run t dir (lit "pdfcpu")
      (stampArgs (pageLabel (startAtOf req.startAt) k) (stampDesc req) src
        (stampedPath dir k))).2 = false) :
    ∃ pre runs,
      (pageNumbersPipeline env req filename jobID dir (inputPathOf dir) (N : Int) tr).1 =
        Reply.error 500 (lit "failed to add page numbers") ∧
      (pageNumbersPipeline env req filename jobID dir (inputPathOf dir) (N : Int) tr).2 = pre ∧
      runsOf pre = runsOf tr ++ [(lit "pdfcpu", extractArgs dir)] ++ runs ∧
      (∀ r ∈ runs, isStampRun r = true) ∧
      runs.map (fun r => r.2.getLastD []) = stampedOutputs dir k := by
  obtain ⟨tr2, runs, h1, h2, h3, h4, _⟩ :=
    stampPages_prefix env dir (Join [dir, lit "pages"]) (stampDesc req) (startAtOf req.startAt)
      (List.range' 1 (k - 1)) (k :: List.range' (k + 1) (N - k))
      (fun i hi t src => hok i (by have := (List.mem_range'_1.1 hi).2; omega) t src)
      (tr ++ [Event.mkdirAll (Join [dir, lit "pages"])] ++
        [Event.run dir (lit "pdfcpu") (extractArgs dir)]) []
  have hidx : pageIndices (N : Int) = List.range' 1 N := by
    unfold pageIndices; simp
  have hneg : ¬ ((N : Int) < 0) := by omega
  rw [← range_split_at N k hk1 hkN] at h1
  have hk := hfail (resolvePage env (Join [dir, lit "pages"]) k tr2).2
    (resolvePage env (Join [dir, lit "pages"]) k tr2).1
  have h1' : stampPages env dir (Join [dir, lit "pages"]) (stampDesc req)
      (startAtOf req.startAt) (List.range' 1 N)
      (tr ++ [Event.mkdirAll (Join [dir, lit "pages"])] ++
        [Event.run dir (lit "pdfcpu") (extractArgs dir)]) [] =
      (none, (resolvePage env (Join [dir, lit "pages"]) k tr2).2 ++
        [Event.run dir (lit "pdfcpu") (stampArgs (pageLabel (startAtOf req.startAt) k)
          (stampDesc req) (resolvePage env (Join [dir, lit "pages"]) k tr2).1
          (stampedPath dir k))]) := by
    rw [h1]
    conv => lhs; unfold stampPages
    simp only [hk]
    simp
  refine ⟨_, runs ++ [(lit "pdfcpu", stampArgs (pageLabel (startAtOf req.startAt) k)
      (stampDesc req) (resolvePage env (Join [dir, lit "pages"]) k tr2).1
      (stampedPath dir k))], ?_, rfl, ?_, ?_, ?_⟩
  · unfold pageNumbersPipeline
    unfold extractArgs at h1' hextract
    simp only [hidx, hmk, hextract, hneg, h1']
    simp
  · unfold pageNumbersPipeline
    unfold extractArgs at h1' hextract
    simp only [hidx, hmk, hextract, hneg, h1']
    simp [runsOf_append, resolvePage_runs, h2, runsOf, extractArgs]
  · intro r hr
    rcases List.mem_append.1 hr with hr | hr
    · exact h3 r hr
    · simp at hr; rw [hr]; exact isStampRun_stampArgs _ _ _ _
  · rw [List.map_append, h4, stampedOutputs_succ dir k hk1]
    simp only [List.map_cons, List.map_nil, stampArgs_last]
    rfl

theorem stamp_sections_no_merge (pre : Trace) (first : Str × List Str)
    (runs : List (Str × List Str)) (dir : Str)
    (hpre : runsOf pre = [first] ++ [(lit "pdfcpu", extractArgs dir)] ++ runs)
    (hfirst : isStampRun first = false ∧ isMergeRun first = false)
    (hruns : ∀ r ∈ runs, isStampRun r = true) :
    (runsOf pre).filter isStampRun = runs ∧ (runsOf pre).filter isMergeRun = [] := by
  have hx1 : isStampRun (lit "pdfcpu", extractArgs dir) = false :=
    isStampRun_head _ _ _ (by decide)
  have hx2 : isMergeRun (lit "pdfcpu", extractArgs dir) = false :=
    isMergeRun_head _ _ _ (by decide)
  rw [hpre]
  constructor
  · simp [List.filter_append, List.filter_cons, hfirst.1, hx1, filter_stamp_all runs hruns]
  · simp [List.filter_append, List.filter_cons, hfirst.2, hx2, filter_merge_none runs hruns]

/-- C5: when the stamp invocations of the pages before `k` succeed and the one
of page `k` fails (`1 ≤ k ≤ N`), `handlePageNumbers` answers with the server
error "failed to add page numbers": the stamp invocations issued are those of
the pages `1..k` and no others, no merge invocation is issued, and the reply
is not a download URL. -/
theorem page_numbers_stamp_failure (env : Env) (base : Str) (req : PageNumbersRequest)
    (filename : Str) (N k : Nat) (hk1 : 1 ≤ k) (hkN : k ≤ N)
    (hpost : req.isPost = true) (hform : req.formOk = true)
    (hfile : req.filename = some filename)
    (hmk : ∀ t p, env.mkdirAll t p = true) (hsave : ∀ t p, env.saveUpload t p = true)
    (hinfo : ∀ t d p, (env.run t d (lit "pdfcpu") [lit "info", p]).2 = true)
    (hcount : ∀ t d p,
      parsePagesPDF (env.run t d (lit "pdfcpu") [lit "info", p]).1 = some (N : Int))
    (hextract : ∀ t, (env.run t (jobDirOf env base) (lit "pdfcpu")
      (extractArgs (jobDirOf env base))).2 = true)
    (hok : ∀ i, i < k → ∀ t src, (env.run t (jobDirOf env base) (lit "pdfcpu")
      (stampArgs (pageLabel (startAtOf req.startAt) i) (stampDesc req) src
        (stampedPath (jobDirOf env base) i))).2 = true)
    (hfail : ∀ t src, (env.run t (jobDirOf env base) (lit "pdfcpu")
      (stampArgs (pageLabel (startAtOf req.startAt) k) (stampDesc req) src
        (stampedPath (jobDirOf env base) k))).2 = false) :
    (handlePageNumbers env base req).1 = Reply.error 500 (lit "failed to add page numbers") ∧
      (∀ url, (handlePageNumbers env base req).1 ≠ Reply.download url) ∧
      stampOutputs (handlePageNumbers env base req).2 = stampedOutputs (jobDirOf env base) k ∧
      mergeRuns (handlePageNumbers env base req).2 = [] := by
  have hc : (pageCountPDF env (jobDirOf env base) (inputPathOf (jobDirOf env base))
      (uploadTrace env base)).1 = some (N : Int) := by
    unfold pageCountPDF
    simp only [hinfo, if_true]
    exact hcount _ _ _
  obtain ⟨pre, runs, hp1, hp2, hr, h3, h4⟩ := pipeline_stamp_fails env req filename (env.uuid [])
    (jobDirOf env base) N k hk1 hkN (uploadTrace env base ++
      [Event.run (jobDirOf env base) (lit "pdfcpu")
        [lit "info", inputPathOf (jobDirOf env base)]]) hmk hextract hok hfail
  have hh : handlePageNumbers env base req =
      pageNumbersPipeline env req filename (env.uuid []) (jobDirOf env base)
        (inputPathOf (jobDirOf env base)) (N : Int) (uploadTrace env base ++
          [Event.run (jobDirOf env base) (lit "pdfcpu")
            [lit "info", inputPathOf (jobDirOf env base)]]) := by
    rw [handlePageNumbers_valid env base req filename hpost hform hfile (hmk _ _) (hsave _ _),
      pageCount_primary _ _ _ _ _ hc]
  have hr2 : runsOf pre = [(lit "pdfcpu", [lit "info", inputPathOf (jobDirOf env base)])] ++
      [(lit "pdfcpu", extractArgs (jobDirOf env base))] ++ runs := by
    rw [hr, runsOf_append, runsOf_uploadTrace]
    rfl
  have hs := stamp_sections_no_merge pre _ runs (jobDirOf env base) hr2
    ⟨isStampRun_head _ _ _ (by decide), isMergeRun_head _ _ _ (by decide)⟩ h3
  rw [hh, hp1, hp2]
  refine ⟨rfl, ?_, ?_, ?_⟩
  · intro url h
    exact Reply.noConfusion h
  · unfold stampOutputs stampRuns
    rw [hs.1, h4]
  · unfold mergeRuns
    rw [hs.2]
    rfl

/-- C5 on a three-page upload whose second stamp invocation fails. -/
theorem page_numbers_stamp_failure_witness :
    (handlePageNumbers failAtPageTwoEnv (initBaseWorkDir (lit "/srv")) numberFromFive).1 =
        Reply.error 500 (lit "failed to add page numbers") ∧
      stampOutputs (handlePageNumbers failAtPageTwoEnv (initBaseWorkDir (lit "/srv"))
          numberFromFive).2 =
        stampedOutputs (jobDirOf failAtPageTwoEnv (initBaseWorkDir (lit "/srv"))) 2 ∧
      mergeRuns (handlePageNumbers failAtPageTwoEnv (initBaseWorkDir (lit "/srv"))
        numberFromFive).2 = [] :=
  have h := page_numbers_stamp_failure failAtPageTwoEnv (initBaseWorkDir (lit "/srv"))
    numberFromFive (lit "doc.pdf") 3 2 (by decide) (by decide) rfl rfl rfl (fun _ _ => rfl)
    (fun _ _ => rfl) (fun _ _ _ => rfl) (fun _ _ _ => parsePagesPDF_three) (fun _ => rfl)
    (fun i hi _ _ => by interval_cases i <;> rfl) (fun _ _ => rfl)
  ⟨h.1, h.2.2.1, h.2.2.2⟩

/-! ## Page numbers: the labels -/

theorem wrap64_id (x : Int) (h1 : minInt ≤ x) (h2 : x ≤ maxInt) : wrap64 x = x := by
  unfold wrap64
  unfold minInt at h1
  unfold maxInt at h2
  omega

theorem Atoi_range (s : Str) (n : Int) (h : Atoi s = some n) : minInt ≤ n ∧ n ≤ maxInt := by
  unfold Atoi at h
  simp only [] at h
  split_ifs at h with h1 h2
  all_goals
    simp only [Option.some.injEq] at h
    subst h
    constructor <;> omega

theorem startAtOf_eq (field : Str) :
    startAtOf field = max 1 ((Atoi (TrimSpace field)).getD 1) := by
  unfold startAtOf parseIntDefault
  simp only []
  by_cases h0 : TrimSpace field = []
  · rw [if_pos h0, h0]
    decide
  · rw [if_neg h0]
    cases h : Atoi (TrimSpace field) with
    | none => simp
    | some n =>
      simp only [Option.getD_some]
      split_ifs with h1
      · omega
      · omega

theorem startAtOf_range (field : Str) : 1 ≤ startAtOf field ∧ startAtOf field ≤ maxInt := by
  rw [startAtOf_eq]
  cases h : Atoi (TrimSpace field) with
  | none => simp [maxInt]
  | some n =>
    have := Atoi_range _ _ h
    simp only [Option.getD_some]
    unfold maxInt at this ⊢
    omega

theorem pageLabel_exact (s : Int) (i : Nat) (hs : 1 ≤ s) (hi : 1 ≤ i)
    (h : s + ((i : Int) - 1) ≤ maxInt) : pageLabel s i = Itoa (s + ((i : Int) - 1)) := by
  unfold pageLabel
  rw [wrap64_id]
  · unfold minInt; omega
  · exact h

/-- C9 (counterexample): with `startAt = 9223372036854775807` the start value
is that number, and the label stamped on page 2 of a three-page document is
`-9223372036854775808`, not the decimal rendering of `startAt + 1`. -/
theorem label_wraps_at_max_int :
    startAtOf (lit "9223372036854775807") = 9223372036854775807 ∧
      stampLabels (handlePageNumbers threePageEnv (initBaseWorkDir (lit "/srv"))
          numberFromMaxInt).2 =
        [lit "9223372036854775807", lit "-9223372036854775808", lit "-9223372036854775807"] ∧
      lit "-9223372036854775808" ≠ Itoa (9223372036854775807 + (2 - 1)) := by
  decide

/-- C9 (amended): when every tool invocation succeeds on a document of `N`
pages and `s' + (N - 1)` does not exceed the largest Go `int`, the labels of
the stamp invocations of `handlePageNumbers` are, in page order, the decimal
renderings of `s' + (i - 1)` for `i = 1..N`, where `s'` is the parsed
`startAt` field, or 1 when the field is empty, unparsable or below 1. -/
theorem page_labels_count_from_start (env : Env) (base : Str) (req : PageNumbersRequest)
    (filename : Str) (N : Nat) (hpost : req.isPost = true) (hform : req.formOk = true)
    (hfile : req.filename = some filename)
    (hmk : ∀ t p, env.mkdirAll t p = true) (hsave : ∀ t p, env.saveUpload t p = true)
    (hrun : ∀ t d n a, (env.run t d n a).2 = true)
    (hcount : ∀ t d p,
      parsePagesPDF (env.run t d (lit "pdfcpu") [lit "info", p]).1 = some (N : Int))
    (hrange : startAtOf req.startAt + ((N : Int) - 1) ≤ maxInt) :
    stampLabels (handlePageNumbers env base req).2 =
        (List.range' 1 N).map (fun (i : Nat) => Itoa (startAtOf req.startAt + ((i : Int) - 1))) ∧
      startAtOf req.startAt = max 1 ((Atoi (TrimSpace req.startAt)).getD 1) := by
  have hc : (pageCountPDF env (jobDirOf env base) (inputPathOf (jobDirOf env base))
      (uploadTrace env base)).1 = some (N : Int) := by
    unfold pageCountPDF
    simp only [hrun, if_true]
    exact hcount _ _ _
  obtain ⟨pre, runs, hp, hr, h3, _, h5⟩ := pipeline_all_ok env req filename (env.uuid [])
    (jobDirOf env base) N (uploadTrace env base ++ [Event.run (jobDirOf env base) (lit "pdfcpu")
      [lit "info", inputPathOf (jobDirOf env base)]]) hmk hrun
  have hh : handlePageNumbers env base req =
      (Reply.download (buildDownloadURL (env.uuid []) (buildOutputName filename (lit "numbered"))),
        pre ++ [Event.run (jobDirOf env base) (lit "pdfcpu")
          (mergeArgs (jobDirOf env base) filename N)]) := by
    rw [handlePageNumbers_valid env base req filename hpost hform hfile (hmk _ _) (hsave _ _),
      pageCount_primary _ _ _ _ _ hc]
    exact hp
  have hr2 : runsOf pre = [(lit "pdfcpu", [lit "info", inputPathOf (jobDirOf env base)])] ++
      [(lit "pdfcpu", extractArgs (jobDirOf env base))] ++ runs := by
    rw [hr, runsOf_append, runsOf_uploadTrace]
    rfl
  have hs := stampOutputs_sections pre _
    (lit "pdfcpu", mergeArgs (jobDirOf env base) filename N) runs (jobDirOf env base)
    (Join [jobDirOf env base, buildOutputName filename (lit "numbered")] ::
      (List.range' 1 N).map (stampedPath (jobDirOf env base))) hr2
    ⟨isStampRun_head _ _ _ (by decide), isMergeRun_head _ _ _ (by decide)⟩ rfl h3
  refine ⟨?_, startAtOf_eq _⟩
  rw [hh]
  unfold stampLabels stampRuns
  rw [hs.1, h5]
  apply List.map_congr_left
  intro i hi
  have hi' := List.mem_range'_1.1 hi
  exact pageLabel_exact _ _ (startAtOf_range _).1 hi'.1 (by omega)

/-- C9 (amended) on the three-page upload numbered from 5: the labels are
`5`, `6`, `7`. -/
theorem page_labels_count_from_start_witness :
    stampLabels (handlePageNumbers threePageEnv (initBaseWorkDir (lit "/srv"))
      numberFromFive).2 = [lit "5", lit "6", lit "7"] :=
  (page_labels_count_from_start threePageEnv (initBaseWorkDir (lit "/srv")) numberFromFive
    (lit "doc.pdf") 3 rfl rfl rfl (fun _ _ => rfl) (fun _ _ => rfl) (fun _ _ _ _ => rfl)
    (fun _ _ _ => parsePagesPDF_three) (by decide)).1.trans (by decide)

/-! ## Page numbers: the page count -/

theorem stampPages_only_pdfcpu (env : Env) (dir pagesDir desc : Str) (s : Int) (idx : List Nat)
    (tr : Trace) (st : List Str) :
    ∀ r ∈ runsOf (stampPages env dir pagesDir desc s idx tr st).2,
      r ∈ runsOf tr ∨ r.1 = lit "pdfcpu" := by
  induction idx generalizing tr st with
  | nil => intro r hr; exact Or.inl hr
  | cons i rest ih =>
    have hstep : ∀ r ∈ runsOf ((resolvePage env pagesDir i tr).2 ++ [Event.run dir (lit "pdfcpu")
        (stampArgs (pageLabel s i) desc (resolvePage env pagesDir i tr).1 (stampedPath dir i))]),
        r ∈ runsOf tr ∨ r.1 = lit "pdfcpu" := by
      intro r hr
      rw [runsOf_append, resolvePage_runs] at hr
      rcases List.mem_append.1 hr with h | h
      · exact Or.inl h
      · simp [runsOf] at h
        right; rw [h]
    unfold stampPages
    simp only []
    split_ifs
    · intro r hr
      rcases ih _ _ r hr with h | h
      · exact hstep r h
      · exact Or.inr h
    · exact hstep

theorem pipeline_only_pdfcpu (env : Env) (req : PageNumbersRequest) (filename jobID dir inPath : Str)
    (total : Int) (tr : Trace) :
    ∀ r ∈ runsOf (pageNumbersPipeline env req filename jobID dir inPath total tr).2,
      r ∈ runsOf tr ∨ r.1 = lit "pdfcpu" := by
  have h1 : ∀ r ∈ runsOf (tr ++ [Event.mkdirAll (Join [dir, lit "pages"])]),
      r ∈ runsOf tr ∨ r.1 = lit "pdfcpu" := by
    intro r hr
    rw [runsOf_append] at hr
    simp [runsOf] at hr
    exact Or.inl hr
  have h2 : ∀ r ∈ runsOf (tr ++ [Event.mkdirAll (Join [dir, lit "pages"])] ++
      [Event.run dir (lit "pdfcpu") [lit "extract", lit "-mode", lit "page", inPath,
        Join [dir, lit "pages"]]]), r ∈ runsOf tr ∨ r.1 = lit "pdfcpu" := by
    intro r hr
    rw [runsOf_append] at hr
    rcases List.mem_append.1 hr with h | h
    · exact h1 r h
    · simp [runsOf] at h
      right; rw [h]
  have h3 := stampPages_only_pdfcpu env dir (Join [dir, lit "pages"]) (stampDesc req)
    (startAtOf req.startAt) (pageIndices total)
    (tr ++ [Event.mkdirAll (Join [dir, lit "pages"])] ++
      [Event.run dir (lit "pdfcpu") [lit "extract", lit "-mode", lit "page", inPath,
        Join [dir, lit "pages"]]]) []
  have h4 : ∀ r ∈ runsOf (stampPages env dir (Join [dir, lit "pages"]) (stampDesc req)
      (startAtOf req.startAt) (pageIndices total)
      (tr ++ [Event.mkdirAll (Join [dir, lit "pages"])] ++
        [Event.run dir (lit "pdfcpu") [lit "extract", lit "-mode", lit "page", inPath,
          Join [dir, lit "pages"]]]) []).2, r ∈ runsOf tr ∨ r.1 = lit "pdfcpu" := by
    intro r hr
    rcases h3 r hr with h | h
    · exact h2 r h
    · exact Or.inr h
  unfold pageNumbersPipeline
  simp only []
  split_ifs
  · exact h1
  · exact h2
  · exact h2
  · split
    · exact h4
    · split_ifs
      · intro r hr
        rw [runsOf_append] at hr
        rcases List.mem_append.1 hr with h | h
        · exact h4 r h
        · simp [runsOf] at h
          right; rw [h]
      · intro r hr
        rw [runsOf_append] at hr
        rcases List.mem_append.1 hr with h | h
        · exact h4 r h
        · simp [runsOf] at h
          right; rw [h]

/-- C10: in `handlePageNumbers` the page count is the result of `pageCountPDF`
whenever that succeeds, and then no program other than `pdfcpu` is ever run
(the secondary tool `pdfinfo` is not consulted); when it fails the count is
the result of `pageCountPoppler`; when both fail the reply is the server
error "failed to read page count" and the only programs run are the two page
count tools: no split, stamp or merge invocation is issued. -/
theorem page_count_primary_then_fallback (env : Env) (base : Str) (req : PageNumbersRequest)
    (filename : Str) (hpost : req.isPost = true) (hform : req.formOk = true)
    (hfile : req.filename = some filename)
    (hmk : env.mkdirAll [] (jobDirOf env base) = true)
    (hsave : env.saveUpload [Event.mkdirAll (jobDirOf env base)]
      (inputPathOf (jobDirOf env base)) = true) :
    (∀ n, (pageCountPDF env (jobDirOf env base) (inputPathOf (jobDirOf env base))
          (uploadTrace env base)).1 = some n →
        handlePageNumbers env base req =
          pageNumbersPipeline env req filename (env.uuid []) (jobDirOf env base)
            (inputPathOf (jobDirOf env base)) n
            (uploadTrace env base ++ [infoRun (jobDirOf env base)]) ∧
        ∀ r ∈ runsOf (handlePageNumbers env base req).2, r.1 = lit "pdfcpu") ∧
    ((pageCountPDF env (jobDirOf env base) (inputPathOf (jobDirOf env base))
          (uploadTrace env base)).1 = none →
        ∀ n, (pageCountPoppler env (jobDirOf env base) (inputPathOf (jobDirOf env base))
          (uploadTrace env base ++ [infoRun (jobDirOf env base)])).1 = some n →
        handlePageNumbers env base req =
          pageNumbersPipeline env req filename (env.uuid []) (jobDirOf env base)
            (inputPathOf (jobDirOf env base)) n
            (uploadTrace env base ++ [infoRun (jobDirOf env base)] ++
              [pdfinfoRun (jobDirOf env base)])) ∧
    ((pageCountPDF env (jobDirOf env base) (inputPathOf (jobDirOf env base))
          (uploadTrace env base)).1 = none →
        (pageCountPoppler env (jobDirOf env base) (inputPathOf (jobDirOf env base))
          (uploadTrace env base ++ [infoRun (jobDirOf env base)])).1 = none →
        handlePageNumbers env base req =
          (Reply.error 500 (lit "failed to read page count"),
            uploadTrace env base ++ [infoRun (jobDirOf env base)] ++
              [pdfinfoRun (jobDirOf env base)])) := by
  have hv := handlePageNumbers_valid env base req filename hpost hform hfile hmk hsave
  refine ⟨?_, ?_, ?_⟩
  · intro n hn
    have e : handlePageNumbers env base req =
        pageNumbersPipeline env req filename (env.uuid []) (jobDirOf env base)
          (inputPathOf (jobDirOf env base)) n
          (uploadTrace env base ++ [infoRun (jobDirOf env base)]) := by
      rw [hv, pageCount_primary _ _ _ _ _ hn]
      rfl
    refine ⟨e, ?_⟩
    intro r hr
    rw [e] at hr
    rcases pipeline_only_pdfcpu _ _ _ _ _ _ _ _ r hr with h | h
    · rw [runsOf_append, runsOf_uploadTrace] at h
      simp [runsOf, infoRun] at h
      rw [h]
    · exact h
  · intro h1 n hn
    have hn' : (pageCountPoppler env (jobDirOf env base) (inputPathOf (jobDirOf env base))
        (uploadTrace env base ++ [Event.run (jobDirOf env base) (lit "pdfcpu")
          [lit "info", inputPathOf (jobDirOf env base)]])).1 = some n := hn
    rw [hv, pageCount_secondary _ _ _ _ h1]
    simp only [hn', pageCountPoppler_trace]
    rfl
  · intro h1 h2
    have h2' : (pageCountPoppler env (jobDirOf env base) (inputPathOf (jobDirOf env base))
        (uploadTrace env base ++ [Event.run (jobDirOf env base) (lit "pdfcpu")
          [lit "info", inputPathOf (jobDirOf env base)]])).1 = none := h2
    rw [hv, pageCount_secondary _ _ _ _ h1]
    simp only [h2', pageCountPoppler_trace]
    rfl

/-- C10 in the world where both page count tools fail: the request ends with
the server error after the two page count invocations. -/
theorem page_count_primary_then_fallback_witness :
    handlePageNumbers noCountEnv (initBaseWorkDir (lit "/srv")) numberFromFive =
      (Reply.error 500 (lit "failed to read page count"),
        uploadTrace noCountEnv (initBaseWorkDir (lit "/srv")) ++
          [infoRun (jobDirOf noCountEnv (initBaseWorkDir (lit "/srv")))] ++
          [pdfinfoRun (jobDirOf noCountEnv (initBaseWorkDir (lit "/srv")))]) :=
  (page_count_primary_then_fallback noCountEnv (initBaseWorkDir (lit "/srv")) numberFromFive
    (lit "doc.pdf") rfl rfl rfl rfl rfl).2.2 rfl rfl

/-! ## Retention sweep -/

theorem sweepEntries_mem (env : Env) (fs : Str → Option FileInfo) (base : Str) (cutoff : Int)
    (hfs : ∀ t p, env.stat t p = fs p) (entries : List DirEntry) (tr : Trace) (ev : Event) :
    ev ∈ sweepEntries env base cutoff entries tr ↔
      ev ∈ tr ∨ ∃ e ∈ entries, (e.isDir = true ∧ ev = Event.stat (Join [base, e.name])) ∨
        (OldJob fs base cutoff e ∧ ev = Event.removeAll (Join [base, e.name])) := by
  induction entries generalizing tr with
  | nil => simp [sweepEntries]
  | cons e rest ih =>
    unfold sweepEntries
    by_cases hd : e.isDir = false
    · rw [if_pos hd, ih]
      constructor
      · rintro (h | ⟨e2, he2, h⟩)
        · exact Or.inl h
        · exact Or.inr ⟨e2, List.mem_cons_of_mem _ he2, h⟩
      · rintro (h | ⟨e2, he2, h⟩)
        · exact Or.inl h
        · rcases List.mem_cons.1 he2 with rfl | he2
          · rcases h with h | h
            · rw [hd] at h; exact absurd h.1 (by simp)
            · rw [OldJob, hd] at h; exact absurd h.1.1 (by simp)
          · exact Or.inr ⟨e2, he2, h⟩
    · rw [if_neg hd]
      have hd' : e.isDir = true := by simpa using hd
      simp only [hfs]
      cases hst : fs (Join [base, e.name]) with
      | none =>
        simp only []
        rw [ih]
        constructor
        · rintro (h | ⟨e2, he2, h⟩)
          · rcases List.mem_append.1 h with h | h
            · exact Or.inl h
            · simp at h
              exact Or.inr ⟨e, List.mem_cons_self _ _, Or.inl ⟨hd', h⟩⟩
          · exact Or.inr ⟨e2, List.mem_cons_of_mem _ he2, h⟩
        · rintro (h | ⟨e2, he2, h⟩)
          · exact Or.inl (List.mem_append_left _ h)
          · rcases List.mem_cons.1 he2 with rfl | he2
            · rcases h with h | h
              · exact Or.inl (List.mem_append_right _ (by simp [h.2]))
              · obtain ⟨_, info, hi, _⟩ := h.1
                rw [hst] at hi
                exact absurd hi (by simp)
            · exact Or.inr ⟨e2, he2, h⟩
      | some info =>
        simp only []
        by_cases hlt : info.modTime < cutoff
        · rw [if_pos hlt, ih]
          constructor
          · rintro (h | ⟨e2, he2, h⟩)
            · rcases List.mem_append.1 h with h | h
              · rcases List.mem_append.1 h with h | h
                · exact Or.inl h
                · simp at h
                  exact Or.inr ⟨e, List.mem_cons_self _ _, Or.inl ⟨hd', h⟩⟩
              · simp at h
                exact Or.inr ⟨e, List.mem_cons_self _ _, Or.inr ⟨⟨hd', info, hst, hlt⟩, h⟩⟩
            · exact Or.inr ⟨e2, List.mem_cons_of_mem _ he2, h⟩
          · rintro (h | ⟨e2, he2, h⟩)
            · exact Or.inl (List.mem_append_left _ (List.mem_append_left _ h))
            · rcases List.mem_cons.1 he2 with rfl | he2
              · rcases h with h | h
                · exact Or.inl (List.mem_append_left _ (List.mem_append_right _ (by simp [h.2])))
                · exact Or.inl (List.mem_append_right _ (by simp [h.2]))
              · exact Or.inr ⟨e2, he2, h⟩
        · rw [if_neg hlt, ih]
          constructor
          · rintro (h | ⟨e2, he2, h⟩)
            · rcases List.mem_append.1 h with h | h
              · exact Or.inl h
              · simp at h
                exact Or.inr ⟨e, List.mem_cons_self _ _, Or.inl ⟨hd', h⟩⟩
            · exact Or.inr ⟨e2, List.mem_cons_of_mem _ he2, h⟩
          · rintro (h | ⟨e2, he2, h⟩)
            · exact Or.inl (List.mem_append_left _ h)
            · rcases List.mem_cons.1 he2 with rfl | he2
              · rcases h with h | h
                · exact Or.inl (List.mem_append_right _ (by simp [h.2]))
                · obtain ⟨_, info2, hi, hlt2⟩ := h.1
                  rw [hst] at hi
                  simp only [Option.some.injEq] at hi
                  rw [← hi] at hlt2
                  exact absurd hlt2 hlt
              · exact Or.inr ⟨e2, he2, h⟩

/-- C8: for a storage root whose listing is `entries` and whose files have the
state `fs` during the sweep, `cleanupOldJobs(maxAge)` requests the removal of
exactly the directory entries last modified before `now - maxAge`: every such
directory is removed, every removal is of such a directory (so a directory
modified at or after the cutoff and a non-directory entry are never removed),
and the sweep does nothing else than list the root, stat directory entries and
remove. -/
theorem sweep_removes_exactly_old_jobs (env : Env) (fs : Str → Option FileInfo)
    (base : Str) (maxAge : Int) (entries : List DirEntry)
    (hfs : ∀ t p, env.stat t p = fs p) (hls : env.readDir [] base = some entries) :
    (∀ e ∈ entries, OldJob fs base (env.now [Event.readDir base] - maxAge) e →
        Event.removeAll (Join [base, e.name]) ∈ cleanupOldJobs env base maxAge) ∧
      (∀ p, Event.removeAll p ∈ cleanupOldJobs env base maxAge →
        ∃ e ∈ entries, OldJob fs base (env.now [Event.readDir base] - maxAge) e ∧
          p = Join [base, e.name]) ∧
      (∀ ev ∈ cleanupOldJobs env base maxAge, ev = Event.readDir base ∨
        (∃ e ∈ entries, e.isDir = true ∧ ev = Event.stat (Join [base, e.name])) ∨
        ∃ p, ev = Event.removeAll p) := by
  have hc : cleanupOldJobs env base maxAge =
      sweepEntries env base (env.now [Event.readDir base] - maxAge) entries
        [Event.readDir base] := by
    unfold cleanupOldJobs
    simp only [hls]
  rw [hc]
  refine ⟨?_, ?_, ?_⟩
  · intro e he hold
    exact (sweepEntries_mem env fs base _ hfs entries _ _).2
      (Or.inr ⟨e, he, Or.inr ⟨hold, rfl⟩⟩)
  · intro p hp
    rcases (sweepEntries_mem env fs base _ hfs entries _ _).1 hp with h | ⟨e, he, h | h⟩
    · simp at h
    · exact absurd h.2 (by simp)
    · refine ⟨e, he, h.1, ?_⟩
      have := h.2
      simp only [Event.removeAll.injEq] at this
      exact this
  · intro ev hev
    rcases (sweepEntries_mem env fs base _ hfs entries _ _).1 hev with h | ⟨e, he, h | h⟩
    · simp at h
      exact Or.inl h
    · exact Or.inr (Or.inl ⟨e, he, h⟩)
    · exact Or.inr (Or.inr ⟨_, h.2⟩)

/-- C8 on a root holding an old job, a fresh job and a plain file, swept with
the two hour retention: the whole sweep is the listing, two stats and the
removal of the old job. -/
theorem sweep_removes_exactly_old_jobs_witness :
    cleanupOldJobs sweepEnv (lit "/srv/work") twoHours =
        [Event.readDir (lit "/srv/work"), Event.stat (lit "/srv/work/old"),
          Event.removeAll (lit "/srv/work/old"), Event.stat (lit "/srv/work/fresh")] ∧
      Event.removeAll (lit "/srv/work/old") ∈ cleanupOldJobs sweepEnv (lit "/srv/work") twoHours :=
  ⟨by decide,
    (sweep_removes_exactly_old_jobs sweepEnv (sweepEnv.stat []) (lit "/srv/work") twoHours
      [⟨lit "old", true⟩, ⟨lit "fresh", true⟩, ⟨lit "note", false⟩] (fun _ _ => rfl) rfl).1
      ⟨lit "old", true⟩ (by simp) ⟨rfl, ⟨true, 1000000000000⟩, by decide, by decide⟩⟩

/-! ## Redaction: pages whose image is not located -/

/-- C6 (counterexample): a one-page upload with a redaction area on page 5,
whose image is not among the renderer outputs: `handleRedactPDF` issues no
draw invocation and answers 200 with the download URL of the rebuilt,
unredacted document. -/
theorem redact_missing_page_still_succeeds :
    findPagePNG [lit "/srv/work/job-1/page-1.png"] 5 = none ∧
      handleRedactPDF onePagePNGEnv (initBaseWorkDir (lit "/srv")) redactPageFive =
        (Reply.download (lit "/downloads/job-1/a_redacted.pdf"),
          [Event.mkdirAll (lit "/srv/work/job-1"),
            Event.saveUpload (lit "/srv/work/job-1/input.pdf"),
            Event.run (lit "/srv/work/job-1") (lit "pdftoppm")
              [lit "-png", lit "-r", lit "300", lit "/srv/work/job-1/input.pdf",
                lit "/srv/work/job-1/page"],
            Event.glob (lit "/srv/work/job-1/page-*.png"),
            Event.run (lit "/srv/work/job-1") (lit "convert")
              [lit "/srv/work/job-1/page-1.png", lit "/srv/work/job-1/temp_redacted.pdf"],
            Event.run (lit "/srv/work/job-1") (lit "qpdf")
              [lit "--warning-exit-0", lit "--linearize", lit "--compress-streams=y",
                lit "--object-streams=disable", lit "/srv/work/job-1/temp_redacted.pdf",
                lit "/srv/work/job-1/a_redacted.pdf"],
            Event.remove (lit "/srv/work/job-1/temp_redacted.pdf"),
            Event.remove (lit "/srv/work/job-1/page-1.png")]) := by
  decide

/-- C6 (amended): in the redaction loop of `handleRedactPDF` a page whose
rendered image cannot be located is skipped: the loop over the requested pages
answers and acts exactly as the loop over those requested pages whose image is
located, so such a page causes no invocation and no error. -/
theorem redact_skips_unlocated_pages (env : Env) (dir : Str) (areas : List RedactionArea)
    (pngFiles : List Str) (keys : List Int) (tr : Trace) :
    redactPages env dir areas pngFiles keys tr =
      redactPages env dir areas pngFiles
        (keys.filter (fun k => (findPagePNG pngFiles k).isSome)) tr := by
  induction keys generalizing tr with
  | nil => rfl
  | cons k rest ih =>
    cases hf : findPagePNG pngFiles k with
    | none =>
      rw [List.filter_cons, hf]
      simp only [Option.isSome_none, Bool.false_eq_true, if_false]
      rw [← ih]
      simp only [redactPages, hf]
    | some pngPath =>
      rw [List.filter_cons, hf]
      simp only [Option.isSome_some, if_true]
      simp only [redactPages, hf]
      split_ifs
      · rfl
      · split
        · rfl
        · split_ifs
          · rfl
          · rfl
          · exact ih _

/-! ## Signatures: pages whose overlay cannot be applied -/

theorem signPages_none_applied (env : Env) (dir : Str) (sigs : List PlacedSignature)
    (w h : Int) (keys : List Int) (hk : ∀ k ∈ keys, PageFails env dir k) (tr : Trace)
    (cur : Str) (cnt : Nat) : (signPages env dir sigs w h keys tr cur cnt).1 = cur := by
  induction keys generalizing tr cnt with
  | nil => rfl
  | cons k rest ih =>
    have hrest : ∀ j ∈ rest, PageFails env dir j := fun j hj => hk j (List.mem_cons_of_mem _ hj)
    simp only [signPages]
    rcases hk k (List.mem_cons_self _ _) with h1 | h2
    · unfold overlayPathOf at h1
      rw [if_pos (h1 _ _)]
      exact ih hrest _ _
    · unfold overlayPathOf at h2
      split_ifs
      · exact ih hrest _ _
      · exact ih hrest _ _
      · rename_i hstamp
        exact absurd (h2 _ _ _) hstamp

/-- C7 (counterexample): signatures on pages 1 and 2, the composite invocation
of page 2 fails: `handleSignPDF` still answers 200 with the download URL of a
document that carries the signature of page 1 only. -/
theorem sign_partial_result_returned :
    validSignature (signatureOn 1) = true ∧ validSignature (signatureOn 2) = true ∧
      (overlayTwoFailsEnv.run [] (lit "/srv/work/job-1") (lit "convert")
        [lit "-size", lit "612x792", lit "xc:none", lit "(", lit "/srv/work/job-1/sig_p2_0.png",
          lit "-resize", lit "10x10!", lit ")", lit "-geometry", lit "+1+1", lit "-composite",
          lit "PNG32:/srv/work/job-1/overlay_2.png"]).2 = false ∧
      handleSignPDF overlayTwoFailsEnv (fun _ => none) (initBaseWorkDir (lit "/srv"))
          signTwoPages =
        (Reply.download (lit "/downloads/job-1/a_signed.pdf"),
          [Event.mkdirAll (lit "/srv/work/job-1"),
            Event.saveUpload (lit "/srv/work/job-1/input.pdf"),
            Event.run (lit "/srv/work/job-1") (lit "pdfinfo") [lit "/srv/work/job-1/input.pdf"],
            Event.writeFile (lit "/srv/work/job-1/sig_p1_0.png"),
            Event.run (lit "/srv/work/job-1") (lit "convert")
              [lit "-size", lit "612x792", lit "xc:none", lit "(",
                lit "/srv/work/job-1/sig_p1_0.png", lit "-resize", lit "10x10!", lit ")",
                lit "-geometry", lit "+1+1", lit "-composite",
                lit "PNG32:/srv/work/job-1/overlay_1.png"],
            Event.run (lit "/srv/work/job-1") (lit "pdfcpu")
              [lit "stamp", lit "add", lit "-mode", lit "image", lit "-pages", lit "1", lit "--",
                lit "/srv/work/job-1/overlay_1.png", lit "pos:tl, off:0 0, scale:1.0 abs, rot:0",
                lit "/srv/work/job-1/input.pdf", lit "/srv/work/job-1/temp_0.pdf"],
            Event.writeFile (lit "/srv/work/job-1/sig_p2_0.png"),
            Event.run (lit "/srv/work/job-1") (lit "convert")
              [lit "-size", lit "612x792", lit "xc:none", lit "(",
                lit "/srv/work/job-1/sig_p2_0.png", lit "-resize", lit "10x10!", lit ")",
                lit "-geometry", lit "+1+1", lit "-composite",
                lit "PNG32:/srv/work/job-1/overlay_2.png"],
            Event.copyFile (lit "/srv/work/job-1/temp_0.pdf")
              (lit "/srv/work/job-1/a_signed.pdf")]) := by
  decide

/-- C7 (amended): in `handleSignPDF`, when for every page the composite
invocation that writes its overlay fails or the stamp invocation that applies
it fails, the request ends with the server error "no signatures could be
applied" and no download URL; a failure on some pages only skips those
pages. -/
theorem sign_fails_when_no_page_applies (env : Env) (toInt : Str → Option Int) (base : Str)
    (req : SignRequest) (filename : Str) (s : PlacedSignature) (ss : List PlacedSignature)
    (hpost : req.isPost = true) (hform : req.formOk = true)
    (hfile : req.filename = some filename)
    (hmk : env.mkdirAll [] (jobDirOf env base) = true)
    (hsave : env.saveUpload [Event.mkdirAll (jobDirOf env base)]
      (inputPathOf (jobDirOf env base)) = true)
    (hjson : req.signaturesJSON ≠ []) (hparsed : req.parsed = Except.ok (s :: ss))
    (hfail : ∀ k, PageFails env (jobDirOf env base) k) :
    (handleSignPDF env toInt base req).1 =
      Reply.error 500 (lit "no signatures could be applied") := by
  unfold jobDirOf at hmk
  unfold jobDirOf inputPathOf at hsave
  have hfail' : ∀ k, PageFails env (Join [base, env.uuid []]) k := hfail
  unfold handleSignPDF newJobDir
  simp only [hpost, hform, hfile, hmk, List.nil_append, hsave]
  simp only [signInJob, hjson, hparsed]
  simp [signPages_none_applied env _ _ _ _ _ (fun k _ => hfail' k), hsave, hjson]

/-- C7 (amended) in the world where every program fails: two signatures, none
applied, server error. -/
theorem sign_fails_when_no_page_applies_witness :
    (handleSignPDF noCountEnv (fun _ => none) (initBaseWorkDir (lit "/srv")) signTwoPages).1 =
      Reply.error 500 (lit "no signatures could be applied") :=
  sign_fails_when_no_page_applies noCountEnv (fun _ => none) (initBaseWorkDir (lit "/srv"))
    signTwoPages (lit "a.pdf") (signatureOn 1) [signatureOn 2] rfl rfl rfl rfl rfl
    (by decide) rfl (fun _ => Or.inl (fun _ _ => rfl))

/-! ## Decimal rendering is injective -/

theorem foldl_digits_init (x : Nat) (b : Str) :
    b.foldl (fun acc c => acc * 10 + (c.toNat - 48)) x =
      x * 10 ^ b.length + b.foldl (fun acc c => acc * 10 + (c.toNat - 48)) 0 := by
  induction b generalizing x with
  | nil => simp
  | cons c b ih =>
    simp only [List.foldl_cons, List.length_cons]
    rw [ih (x * 10 + (c.toNat - 48)), ih (0 * 10 + (c.toNat - 48))]
    ring

theorem digitsValue_append (a b : Str) :
    digitsValue (a ++ b) = digitsValue a * 10 ^ b.length + digitsValue b := by
  unfold digitsValue
  rw [List.foldl_append, foldl_digits_init]

theorem natDigits_acc (fuel n : Nat) (acc : Str) :
    natDigits fuel n acc = natDigits fuel n [] ++ acc := by
  induction fuel generalizing n acc with
  | zero => rfl
  | succ fuel ih =>
    unfold natDigits
    split_ifs
    · rfl
    · rw [ih (n / 10) (digitChar n :: acc), ih (n / 10) [digitChar n]]
      simp

theorem digitChar_value (d : Nat) : (digitChar d).toNat - 48 = d % 10 := by
  have h : ∀ k, k < 10 → (Char.ofNat (48 + k)).toNat - 48 = k := by decide
  exact h (d % 10) (Nat.mod_lt _ (by decide))

theorem digitsValue_natDigits (fuel n : Nat) (h : n < fuel) :
    digitsValue (natDigits fuel n []) = n := by
  induction fuel generalizing n with
  | zero => omega
  | succ fuel ih =>
    unfold natDigits
    split_ifs with h0
    · have : digitsValue [digitChar n] = n % 10 := by
        simp [digitsValue, digitChar_value]
      rw [this]
      omega
    · rw [natDigits_acc, digitsValue_append, ih (n / 10) (by omega)]
      have : digitsValue [digitChar n] = n % 10 := by
        simp [digitsValue, digitChar_value]
      rw [this]
      simp only [List.length_singleton, pow_one]
      omega

theorem digitsValue_natToDec (n : Nat) : digitsValue (natToDec n) = n :=
  digitsValue_natDigits (n + 1) n (by omega)

theorem digitsValue_zeros (k : Nat) : digitsValue (List.replicate k '0') = 0 := by
  induction k with
  | zero => rfl
  | succ k ih =>
    rw [List.replicate_succ']
    rw [digitsValue_append, ih]
    rfl

theorem digitsValue_padZero (w n : Nat) : digitsValue (padZero w n) = n := by
  unfold padZero
  simp only []
  rw [digitsValue_append, digitsValue_zeros, digitsValue_natToDec]
  simp

theorem padZero_inj (w i j : Nat) (h : padZero w i = padZero w j) : i = j := by
  have := congrArg digitsValue h
  rwa [digitsValue_padZero, digitsValue_padZero] at this

/-! ## Distinct pages have distinct output artifacts -/

theorem cleanStep_mem (r : Bool) (acc : List Str) (c : Str) :
    ∀ d ∈ cleanStep r acc c, d ∈ acc ∨ d = c := by
  intro d hd
  unfold cleanStep at hd
  by_cases h1 : c = [] ∨ c = ['.']
  · rw [if_pos h1] at hd; exact Or.inl hd
  · rw [if_neg h1] at hd
    by_cases h2 : c = ['.', '.']
    · rw [if_pos h2] at hd
      cases acc with
      | nil =>
        cases r with
        | true => simp at hd
        | false => simp at hd; exact Or.inr hd
      | cons top rest =>
        simp only [] at hd
        by_cases h3 : top = ['.', '.']
        · rw [if_pos h3] at hd
          rcases List.mem_cons.1 hd with h | h
          · exact Or.inr h
          · exact Or.inl h
        · rw [if_neg h3] at hd
          exact Or.inl (List.mem_cons_of_mem _ hd)
    · rw [if_neg h2] at hd
      rcases List.mem_cons.1 hd with h | h
      · exact Or.inr h
      · exact Or.inl h

theorem foldl_cleanStep_mem (r : Bool) (X : List Str) (acc : List Str) :
    ∀ d ∈ X.foldl (cleanStep r) acc, d ∈ acc ∨ d ∈ X := by
  induction X generalizing acc with
  | nil => intro d hd; exact Or.inl hd
  | cons c X ih =>
    intro d hd
    rw [List.foldl_cons] at hd
    rcases ih _ d hd with h | h
    · rcases cleanStep_mem r acc c d h with h2 | h2
      · exact Or.inl h2
      · exact Or.inr (h2 ▸ List.mem_cons_self _ _)
    · exact Or.inr (List.mem_cons_of_mem _ h)

theorem cleanStep_normal (r : Bool) (acc : List Str) (c : Str) (h : Normal c) :
    cleanStep r acc c = c :: acc :=
  cleanStep_keep r acc c h.keep h.2.2.1

/-- Joining a directory with an ordinary element appends that element to a
path that depends on the directory only. -/
theorem Join_normal (dir : Str) :
    ∃ (P : Str) (A : List Str), (∀ a ∈ A, '/' ∉ a) ∧
      ∀ y, Normal y → Join [dir, y] = P ++ joinSlash (A ++ [y]) := by
  by_cases hd : dir = []
  · subst hd
    refine ⟨[], [], by simp, ?_⟩
    intro y hy
    have hy0 : y ≠ [] := hy.1
    have hst : startsWith y ['/'] = false := by
      cases hb : startsWith y ['/'] with
      | false => rfl
      | true => exact absurd (mem_of_startsWith_slash y hb) hy.2.2.2
    have hj : Join [[], y] = Clean y := by
      unfold Join
      have : [([] : Str), y].dropWhile (fun e => decide (e = [])) = [y] := by
        simp [List.dropWhile, hy0]
      rw [this]
      show Clean (joinSlash [y]) = _
      rw [joinSlash_single]
    rw [hj]
    unfold Clean cleanStack
    rw [hst, splitSlash_of_noSlash y hy.2.2.2]
    simp only [List.foldl_cons, List.foldl_nil]
    rw [cleanStep_normal false [] y hy]
    simp
  · obtain ⟨c, t, rfl⟩ : ∃ c t, dir = c :: t := by
      cases dir with
      | nil => exact absurd rfl hd
      | cons c t => exact ⟨c, t, rfl⟩
    refine ⟨if startsWith (c :: t) ['/'] then ['/'] else [],
      ((splitSlash (c :: t)).foldl (cleanStep (startsWith (c :: t) ['/'])) []).reverse, ?_, ?_⟩
    · intro a ha
      rcases foldl_cleanStep_mem _ _ _ a (List.mem_reverse.1 ha) with h | h
      · simp at h
      · exact noSlash_of_mem_splitSlash _ a h
    · intro y hy
      have hj : Join [c :: t, y] = Clean ((c :: t) ++ '/' :: y) := by
        unfold Join
        have : [c :: t, y].dropWhile (fun e => decide (e = [])) = [c :: t, y] := by
          simp [List.dropWhile]
        rw [this]
        show Clean (joinSlash [c :: t, y]) = _
        rw [joinSlash_cons_cons, joinSlash_single]
      have hst : startsWith ((c :: t) ++ '/' :: y) ['/'] = startsWith (c :: t) ['/'] := by
        simp [startsWith, List.isPrefixOf]
      rw [hj]
      unfold Clean cleanStack
      rw [hst, splitSlash_append, List.foldl_append, splitSlash_of_noSlash y hy.2.2.2]
      simp only [List.foldl_cons, List.foldl_nil]
      rw [cleanStep_normal _ _ y hy]
      by_cases hr : startsWith (c :: t) ['/'] = true
      · simp [hr]
      · simp [hr]

theorem Join_normal_inj (dir x y : Str) (hx : Normal x) (hy : Normal y)
    (h : Join [dir, x] = Join [dir, y]) : x = y := by
  obtain ⟨P, A, hA, hJ⟩ := Join_normal dir
  rw [hJ x hx, hJ y hy] at h
  have h2 := List.append_cancel_left h
  have h3 := congrArg splitSlash h2
  rw [splitSlash_joinSlash, splitSlash_joinSlash] at h3
  · have h4 := List.append_cancel_left h3
    simpa using h4
  · intro c hc
    rcases List.mem_append.1 hc with hc | hc
    · exact hA c hc
    · simp at hc; rw [hc]; exact hy.2.2.2
  · simp
  · intro c hc
    rcases List.mem_append.1 hc with hc | hc
    · exact hA c hc
    · simp at hc; rw [hc]; exact hx.2.2.2
  · simp

theorem stampedName_normal (i : Nat) : Normal (lit "stamped-" ++ padZero 4 i ++ lit ".pdf") := by
  refine ⟨?_, ?_, ?_, ?_⟩
  · intro h
    have := congrArg List.length h
    simp [lit] at this
  · intro h
    exact absurd (congrArg List.head? h) (by simp [lit])
  · intro h
    exact absurd (congrArg List.head? h) (by simp [lit])
  · intro h
    rcases List.mem_append.1 h with h | h
    · rcases List.mem_append.1 h with h | h
      · revert h; decide
      · exact padZero_noSlash 4 i h
    · revert h; decide

theorem stampedPath_inj (dir : Str) (i j : Nat) (h : stampedPath dir i = stampedPath dir j) :
    i = j := by
  unfold stampedPath at h
  have h2 := Join_normal_inj dir _ _ (stampedName_normal i) (stampedName_normal j) h
  have h3 := List.append_cancel_right h2
  have h4 := List.append_cancel_left h3
  exact padZero_inj 4 i j h4

theorem stampedOutputs_nodup (dir : Str) (N : Nat) : (stampedOutputs dir N).Nodup := by
  unfold stampedOutputs
  exact (List.nodup_range' 1 N).map (fun i j h => stampedPath_inj dir i j h)

/-! ## Page numbers: one stamp per page, then one merge -/

/-- C4: when every tool invocation succeeds on a document of `N` pages,
`handlePageNumbers` answers with the download URL after exactly `N` stamp
invocations, whose outputs are `stamped-0001.pdf`, ... for the pages `1..N` in
ascending order, followed by exactly one merge invocation, the last event of
the request, whose inputs are those `N` outputs in the same order; the `N`
outputs are pairwise distinct files, so no page is dropped or duplicated. -/
theorem page_numbers_stamps_then_merge (env : Env) (base : Str) (req : PageNumbersRequest)
    (filename : Str) (N : Nat) (hpost : req.isPost = true) (hform : req.formOk = true)
    (hfile : req.filename = some filename)
    (hmk : ∀ t p, env.mkdirAll t p = true) (hsave : ∀ t p, env.saveUpload t p = true)
    (hrun : ∀ t d n a, (env.run t d n a).2 = true)
    (hcount : ∀ t d p,
      parsePagesPDF (env.run t d (lit "pdfcpu") [lit "info", p]).1 = some (N : Int)) :
    (handlePageNumbers env base req).1 =
        Reply.download (buildDownloadURL (env.uuid []) (buildOutputName filename (lit "numbered"))) ∧
      stampOutputs (handlePageNumbers env base req).2 = stampedOutputs (jobDirOf env base) N ∧
      (stampOutputs (handlePageNumbers env base req).2).length = N ∧
      mergeRuns (handlePageNumbers env base req).2 = [mergeArgs (jobDirOf env base) filename N] ∧
      (handlePageNumbers env base req).2.getLast? =
        some (Event.run (jobDirOf env base) (lit "pdfcpu")
          (mergeArgs (jobDirOf env base) filename N)) ∧
      (stampedOutputs (jobDirOf env base) N).Nodup := by
  have hc : (pageCountPDF env (jobDirOf env base) (inputPathOf (jobDirOf env base))
      (uploadTrace env base)).1 = some (N : Int) := by
    unfold pageCountPDF
    simp only [hrun, if_true]
    exact hcount _ _ _
  obtain ⟨pre, runs, hp, hr, h3, h4, _⟩ := pipeline_all_ok env req filename (env.uuid [])
    (jobDirOf env base) N (uploadTrace env base ++ [Event.run (jobDirOf env base) (lit "pdfcpu")
      [lit "info", inputPathOf (jobDirOf env base)]]) hmk hrun
  have hh : handlePageNumbers env base req =
      (Reply.download (buildDownloadURL (env.uuid []) (buildOutputName filename (lit "numbered"))),
        pre ++ [Event.run (jobDirOf env base) (lit "pdfcpu")
          (mergeArgs (jobDirOf env base) filename N)]) := by
    rw [handlePageNumbers_valid env base req filename hpost hform hfile (hmk _ _) (hsave _ _),
      pageCount_primary _ _ _ _ _ hc]
    exact hp
  have hr2 : runsOf pre = [(lit "pdfcpu", [lit "info", inputPathOf (jobDirOf env base)])] ++
      [(lit "pdfcpu", extractArgs (jobDirOf env base))] ++ runs := by
    rw [hr, runsOf_append, runsOf_uploadTrace]
    rfl
  have hs := stampOutputs_sections pre _
    (lit "pdfcpu", mergeArgs (jobDirOf env base) filename N) runs (jobDirOf env base)
    (Join [jobDirOf env base, buildOutputName filename (lit "numbered")] ::
      (List.range' 1 N).map (stampedPath (jobDirOf env base))) hr2
    ⟨isStampRun_head _ _ _ (by decide), isMergeRun_head _ _ _ (by decide)⟩ rfl h3
  rw [hh]
  refine ⟨rfl, ?_, ?_, ?_, ?_, stampedOutputs_nodup _ _⟩
  · unfold stampOutputs stampRuns
    rw [hs.1, h4]
  · unfold stampOutputs stampRuns
    rw [hs.1, h4]
    simp [stampedOutputs]
  · unfold mergeRuns
    rw [hs.2]
    rfl
  · simp

/-- C4 on a three-page upload of `doc.pdf`. -/
theorem page_numbers_stamps_then_merge_witness :
    (handlePageNumbers threePageEnv (initBaseWorkDir (lit "/srv")) numberFromFive).1 =
        Reply.download (buildDownloadURL (threePageEnv.uuid [])
          (buildOutputName (lit "doc.pdf") (lit "numbered"))) ∧
      stampOutputs (handlePageNumbers threePageEnv (initBaseWorkDir (lit "/srv")) numberFromFive).2 =
        stampedOutputs (jobDirOf threePageEnv (initBaseWorkDir (lit "/srv"))) 3 ∧
      (stampOutputs
        (handlePageNumbers threePageEnv (initBaseWorkDir (lit "/srv")) numberFromFive).2).length = 3 ∧
      mergeRuns (handlePageNumbers threePageEnv (initBaseWorkDir (lit "/srv")) numberFromFive).2 =
        [mergeArgs (jobDirOf threePageEnv (initBaseWorkDir (lit "/srv"))) (lit "doc.pdf") 3] ∧
      (handlePageNumbers threePageEnv (initBaseWorkDir (lit "/srv")) numberFromFive).2.getLast? =
        some (Event.run (jobDirOf threePageEnv (initBaseWorkDir (lit "/srv"))) (lit "pdfcpu")
          (mergeArgs (jobDirOf threePageEnv (initBaseWorkDir (lit "/srv"))) (lit "doc.pdf") 3)) ∧
      (stampedOutputs (jobDirOf threePageEnv (initBaseWorkDir (lit "/srv"))) 3).Nodup :=
  page_numbers_stamps_then_merge threePageEnv (initBaseWorkDir (lit "/srv")) numberFromFive
    (lit "doc.pdf") 3 rfl rfl rfl (fun _ _ => rfl) (fun _ _ => rfl) (fun _ _ _ _ => rfl)
    (fun _ _ _ => parsePagesPDF_three)

/-! ## Page numbers: locating the single-page file -/

/-- C11: in `handlePageNumbers` the source of page `i` is resolved, whatever
the oracle answers, as follows: `input_page_<i>.pdf` when it exists; else
`page_<i>.pdf` when it exists; else the first match of the glob
`*_page_<i>.pdf`.  When there is no match either (or the glob fails) the
first name is kept. -/
theorem resolvePage_first_existing (env : Env) (pagesDir : Str) (i : Nat) (tr : Trace) :
    ((env.stat tr (inputPageCandidate pagesDir i)).isSome = true →
        (resolvePage env pagesDir i tr).1 = inputPageCandidate pagesDir i) ∧
      ((env.stat tr (inputPageCandidate pagesDir i)).isSome = false →
        (env.stat (tr ++ [Event.stat (inputPageCandidate pagesDir i)])
          (pageCandidate pagesDir i)).isSome = true →
        (resolvePage env pagesDir i tr).1 = pageCandidate pagesDir i) ∧
      (∀ f rest,
        (env.stat tr (inputPageCandidate pagesDir i)).isSome = false →
        (env.stat (tr ++ [Event.stat (inputPageCandidate pagesDir i)])
          (pageCandidate pagesDir i)).isSome = false →
        env.glob (tr ++ [Event.stat (inputPageCandidate pagesDir i)] ++
          [Event.stat (pageCandidate pagesDir i)]) (pageSuffixPattern pagesDir i)
            = some (f :: rest) →
        (resolvePage env pagesDir i tr).1 = f) ∧
      ((env.stat tr (inputPageCandidate pagesDir i)).isSome = false →
        (env.stat (tr ++ [Event.stat (inputPageCandidate pagesDir i)])
          (pageCandidate pagesDir i)).isSome = false →
        (env.glob (tr ++ [Event.stat (inputPageCandidate pagesDir i)] ++
          [Event.stat (pageCandidate pagesDir i)]) (pageSuffixPattern pagesDir i)).getD []
            = [] →
        (resolvePage env pagesDir i tr).1 = inputPageCandidate pagesDir i) := by
  unfold inputPageCandidate pageCandidate pageSuffixPattern
  refine ⟨?_, ?_, ?_, ?_⟩
  · intro h1
    unfold resolvePage
    dsimp only
    rw [if_pos h1]
  · intro h1 h2
    unfold resolvePage
    dsimp only
    rw [if_neg (by rw [h1]; decide), if_pos h2]
  · intro f rest h1 h2 h3
    unfold resolvePage
    dsimp only
    rw [if_neg (by rw [h1]; decide), if_neg (by rw [h2]; decide), h3]
    rfl
  · intro h1 h2 h3
    unfold resolvePage
    dsimp only
    rw [if_neg (by rw [h1]; decide), if_neg (by rw [h2]; decide), h3]

/-! ## Lazy previews: the file is still absent after rendering -/

/-- C17 (counterexample): in a world where the renderer succeeds but writes
nothing, the request for `page-2.png` of job `job-1` is answered 404
`file not found`, not with a 5xx status. -/
theorem lazy_preview_absent_gives_404 :
    (quietEnv.run [Event.stat (lit "/srv/work/job-1/previews/page-2.png"),
        Event.mkdirAll (lit "/srv/work/job-1/previews")] (lit "/srv/work/job-1")
        (lit "pdftoppm") [lit "-png", lit "-r", lit "110", lit "-f", lit "2", lit "-l", lit "2",
          lit "/srv/work/job-1/input.pdf", lit "/srv/work/job-1/previews/page"]).2 = true ∧
      servePreview quietEnv (initBaseWorkDir (lit "/srv"))
          (lit "/previews/job-1/previews/page-2.png") =
        (Reply.error 404 (lit "file not found"),
          [Event.stat (lit "/srv/work/job-1/previews/page-2.png"),
            Event.mkdirAll (lit "/srv/work/job-1/previews"),
            Event.run (lit "/srv/work/job-1") (lit "pdftoppm")
              [lit "-png", lit "-r", lit "110", lit "-f", lit "2", lit "-l", lit "2",
                lit "/srv/work/job-1/input.pdf", lit "/srv/work/job-1/previews/page"],
            Event.stat (lit "/srv/work/job-1/previews/page-2.png"),
            Event.stat (lit "/srv/work/job-1/previews/page-02.png"),
            Event.stat (lit "/srv/work/job-1/previews/page-002.png"),
            Event.stat (lit "/srv/work/job-1/previews/page-2.png")]) := by
  decide

/-- C17 (amended): when the renderer succeeds whenever it is invoked, a
preview request that led to a renderer invocation and whose file was not
served (it is still absent at the retried lookup) is answered 404
`file not found`. -/
theorem lazy_preview_absent_is_not_found (env : Env) (base urlPath : Str)
    (hrun : ∀ t d a, (env.run t d (lit "pdftoppm") a).2 = true)
    (hrend : Rendered (servePreview env base urlPath).2)
    (hns : NothingServed (servePreview env base urlPath).2) :
    (servePreview env base urlPath).1 = Reply.error 404 (lit "file not found") := by
  revert hrend hns
  unfold servePreview lazyRender
  simp only [hrun]
  repeat' split
  all_goals first
    | (intro _ _; rfl)
    | (intro _ _; contradiction)
    | (intro h _; simp [Rendered, isRenderRun] at h; done)
    | (intro _ h;
       rw [ServeFile_trace] at h;
       exact absurd (h (Event.serveFile _) (List.mem_append_right _ (List.mem_singleton_self _)))
         (by simp [isServed]))

/-- Witness of C17 (amended): the request for `page-2.png` of `job-1` in the
world where the renderer writes nothing. -/
theorem lazy_preview_absent_is_not_found_witness :
    (servePreview quietEnv (initBaseWorkDir (lit "/srv"))
      (lit "/previews/job-1/previews/page-2.png")).1 =
        Reply.error 404 (lit "file not found") :=
  lazy_preview_absent_is_not_found quietEnv (initBaseWorkDir (lit "/srv"))
    (lit "/previews/job-1/previews/page-2.png") (fun _ _ _ => rfl) (by decide) (by decide)

/-! ## Malformed structured parameters -/

/-- Parse errors of the `signatures` field are answered with a fixed message. -/
theorem sign_parse_error_fixed (env : Env) (toInt : Str → Option Int) (req : SignRequest)
    (filename jobID dir e : Str) (tr : Trace) (hne : req.signaturesJSON ≠ [])
    (hp : req.parsed = Except.error e) :
    (signInJob env toInt req filename jobID dir tr).1 =
      Reply.error 400 (lit "invalid signatures format") := by
  simp [signInJob, hne, hp]

/-- Parse errors of the `annotations` field are answered with a fixed
message. -/
theorem edit_parse_error_fixed (env : Env) (sizeText : Option Str → Str) (req : EditRequest)
    (filename jobID dir e : Str) (tr : Trace) (hne : req.annotationsJSON ≠ [])
    (hp : req.parsed = Except.error e) :
    (editInJob env sizeText req filename jobID dir tr).1 =
      Reply.error 400 (lit "invalid annotations format") := by
  simp [editInJob, hne, hp]

/-- Parse errors of the `rotations` field are answered with a fixed message. -/
theorem organize_parse_error_fixed (env : Env) (req : OrganizeRequest) (dir workPath e : Str)
    (tr : Trace) (hne : TrimSpace req.rotations ≠ [])
    (hp : req.parsed = Except.error e) :
    (rotateStep env req dir workPath tr).1 = some (Reply.error 400 (lit "invalid rotations")) := by
  simp [rotateStep, hne, hp]

/-- C20 (the code at the failing input): two malformed `redactions` bodies
whose parse errors differ are both rejected with status 400, but each reply
carries the text of its parse error, so the two messages differ. -/
theorem redact_reply_carries_parser_text :
    handleRedactPDF quietEnv (initBaseWorkDir (lit "/srv")) truncatedRedactions =
        (Reply.error 400 (lit "invalid redactions JSON: unexpected end of JSON input"), []) ∧
      handleRedactPDF quietEnv (initBaseWorkDir (lit "/srv")) numberRedactions =
        (Reply.error 400 (lit ("invalid redactions JSON: json: cannot unmarshal number " ++
          "into Go value of type []main.redactionArea")), []) ∧
      (handleRedactPDF quietEnv (initBaseWorkDir (lit "/srv")) truncatedRedactions).1 ≠
        (handleRedactPDF quietEnv (initBaseWorkDir (lit "/srv")) numberRedactions).1 := by
  decide

/-! ## Stamping tasks and each other's outputs -/

/-- C12 (counterexample): with a signature, or an annotation, on each of the
pages 1 and 2 and every invocation succeeding, the stamp of the second page
reads `temp_0.pdf`, the output of the stamp of the first page, in
`handleSignPDF` and in `handleEditPDF` alike. -/
theorem sign_and_edit_chain_page_outputs :
    stampInputs (handleSignPDF quietEnv (fun _ => none) (initBaseWorkDir (lit "/srv"))
        signTwoPages).2 =
        [lit "/srv/work/job-1/input.pdf", lit "/srv/work/job-1/temp_0.pdf"] ∧
      stampOutputs (handleSignPDF quietEnv (fun _ => none) (initBaseWorkDir (lit "/srv"))
        signTwoPages).2 =
        [lit "/srv/work/job-1/temp_0.pdf", lit "/srv/work/job-1/temp_1.pdf"] ∧
      stampInputs (handleEditPDF quietEnv letterSize (initBaseWorkDir (lit "/srv"))
        editTwoPages).2 =
        [lit "/srv/work/job-1/input.pdf", lit "/srv/work/job-1/temp_0.pdf"] ∧
      stampOutputs (handleEditPDF quietEnv letterSize (initBaseWorkDir (lit "/srv"))
        editTwoPages).2 =
        [lit "/srv/work/job-1/temp_0.pdf", lit "/srv/work/job-1/temp_1.pdf"] ∧
      ¬ Independent (handleSignPDF quietEnv (fun _ => none) (initBaseWorkDir (lit "/srv"))
        signTwoPages).2 ∧
      ¬ Independent (handleEditPDF quietEnv letterSize (initBaseWorkDir (lit "/srv"))
        editTwoPages).2 := by
  decide

theorem absPath_inside_prefix (X Y : List Str) (hX : ∀ c ∈ X, Normal c)
    (hY : ∀ c ∈ Y, Normal c) (h : Inside (absPath X) (absPath Y)) : X <+: Y := by
  rcases h with h | ⟨t, ht⟩
  · have h2 := congrArg (fun p => (splitSlash p).filter keepElem) h
    simp only [splitSlash_absPath X hX, splitSlash_absPath Y hY] at h2
    rw [h2]
  · have h2 := congrArg (fun p => (splitSlash p).filter keepElem) ht
    simp only [List.append_assoc, List.singleton_append, splitSlash_append, List.filter_append,
      splitSlash_absPath X hX, splitSlash_absPath Y hY] at h2
    exact ⟨_, h2⟩

theorem Join_absPath_normal (B : List Str) (hB : ∀ c ∈ B, Normal c) (x : Str) (hx : Normal x) :
    Join [absPath B, x] = absPath (B ++ [x]) := by
  rw [Join_absPath B hB x (noDotDotComp_of_noSlash x hx.2.2.2 hx.2.2.1),
    splitSlash_of_noSlash x hx.2.2.2]
  simp [List.filter, hx.keep]

theorem pages_normal : Normal (lit "pages") := by
  refine ⟨?_, ?_, ?_, ?_⟩ <;> decide

theorem resolvePage_cases (env : Env) (pagesDir : Str) (i : Nat) (tr : Trace) :
    (resolvePage env pagesDir i tr).1 = inputPageCandidate pagesDir i ∨
      (resolvePage env pagesDir i tr).1 = pageCandidate pagesDir i ∨
      ∃ t, (resolvePage env pagesDir i tr).1 ∈
        (env.glob t (pageSuffixPattern pagesDir i)).getD [] := by
  unfold resolvePage inputPageCandidate pageCandidate pageSuffixPattern
  simp only []
  split_ifs
  · exact Or.inl rfl
  · exact Or.inr (Or.inl rfl)
  · split
    · rename_i f rest heq
      exact Or.inr (Or.inr ⟨_, by rw [heq]; exact List.mem_cons_self _ _⟩)
    · exact Or.inl rfl

theorem stampPages_shape (env : Env) (dir pagesDir desc : Str) (s : Int) (idx : List Nat)
    (tr : Trace) (st : List Str) :
    ∀ r ∈ runsOf (stampPages env dir pagesDir desc s idx tr st).2,
      r ∈ runsOf tr ∨ PageStamp env pagesDir dir r := by
  induction idx generalizing tr st with
  | nil => intro r hr; exact Or.inl hr
  | cons i rest ih =>
    have hstep : ∀ r ∈ runsOf ((resolvePage env pagesDir i tr).2 ++ [Event.run dir (lit "pdfcpu")
        (stampArgs (pageLabel s i) desc (resolvePage env pagesDir i tr).1 (stampedPath dir i))]),
        r ∈ runsOf tr ∨ PageStamp env pagesDir dir r := by
      intro r hr
      rw [runsOf_append, resolvePage_runs] at hr
      rcases List.mem_append.1 hr with h | h
      · exact Or.inl h
      · simp [runsOf] at h
        right
        exact ⟨_, _, _, i, h, resolvePage_cases env pagesDir i tr⟩
    unfold stampPages
    simp only []
    split_ifs
    · intro r hr
      rcases ih _ _ r hr with h | h
      · exact hstep r h
      · exact Or.inr h
    · exact hstep

theorem pageCount_not_stamp (env : Env) (dir inPath : Str) (tr : Trace) :
    ∀ r ∈ runsOf (pageCountWithFallback env dir inPath tr).2,
      r ∈ runsOf tr ∨ isStampRun r = false := by
  intro r hr
  unfold pageCountWithFallback at hr
  simp only [] at hr
  split at hr
  · rw [pageCountPDF_trace, runsOf_append] at hr
    rcases List.mem_append.1 hr with h | h
    · exact Or.inl h
    · simp [runsOf] at h
      right; rw [h]; exact isStampRun_head _ _ _ (by decide)
  · rw [pageCountPoppler_trace, pageCountPDF_trace, runsOf_append, runsOf_append] at hr
    rcases List.mem_append.1 hr with h | h
    · rcases List.mem_append.1 h with h | h
      · exact Or.inl h
      · simp [runsOf] at h
        right; rw [h]; exact isStampRun_head _ _ _ (by decide)
    · simp [runsOf] at h
      right; rw [h]; simp only [isStampRun, Bool.and_eq_false_imp, decide_eq_true_eq]
      intro h2; exact absurd h2 (by decide)

theorem pipeline_shape (env : Env) (req : PageNumbersRequest) (filename jobID dir inPath : Str)
    (total : Int) (tr : Trace) :
    ∀ r ∈ runsOf (pageNumbersPipeline env req filename jobID dir inPath total tr).2,
      r ∈ runsOf tr ∨ isStampRun r = false ∨ PageStamp env (Join [dir, lit "pages"]) dir r := by
  have h1 : ∀ r ∈ runsOf (tr ++ [Event.mkdirAll (Join [dir, lit "pages"])]),
      r ∈ runsOf tr ∨ isStampRun r = false ∨ PageStamp env (Join [dir, lit "pages"]) dir r := by
    intro r hr
    rw [runsOf_append] at hr
    simp [runsOf] at hr
    exact Or.inl hr
  have h2 : ∀ r ∈ runsOf (tr ++ [Event.mkdirAll (Join [dir, lit "pages"])] ++
      [Event.run dir (lit "pdfcpu") [lit "extract", lit "-mode", lit "page", inPath,
        Join [dir, lit "pages"]]]),
      r ∈ runsOf tr ∨ isStampRun r = false ∨ PageStamp env (Join [dir, lit "pages"]) dir r := by
    intro r hr
    rw [runsOf_append] at hr
    rcases List.mem_append.1 hr with h | h
    · exact h1 r h
    · simp [runsOf] at h
      right; left; rw [h]; exact isStampRun_head _ _ _ (by decide)
  have h3 := stampPages_shape env dir (Join [dir, lit "pages"]) (stampDesc req)
    (startAtOf req.startAt) (pageIndices total)
    (tr ++ [Event.mkdirAll (Join [dir, lit "pages"])] ++
      [Event.run dir (lit "pdfcpu") [lit "extract", lit "-mode", lit "page", inPath,
        Join [dir, lit "pages"]]]) []
  have h4 : ∀ r ∈ runsOf (stampPages env dir (Join [dir, lit "pages"]) (stampDesc req)
      (startAtOf req.startAt) (pageIndices total)
      (tr ++ [Event.mkdirAll (Join [dir, lit "pages"])] ++
        [Event.run dir (lit "pdfcpu") [lit "extract", lit "-mode", lit "page", inPath,
          Join [dir, lit "pages"]]]) []).2,
      r ∈ runsOf tr ∨ isStampRun r = false ∨ PageStamp env (Join [dir, lit "pages"]) dir r := by
    intro r hr
    rcases h3 r hr with h | h
    · exact h2 r h
    · exact Or.inr (Or.inr h)
  have h5 : ∀ (outPath : Str) (stamped : List Str),
      ∀ r ∈ runsOf ((stampPages env dir (Join [dir, lit "pages"]) (stampDesc req)
      (startAtOf req.startAt) (pageIndices total)
      (tr ++ [Event.mkdirAll (Join [dir, lit "pages"])] ++
        [Event.run dir (lit "pdfcpu") [lit "extract", lit "-mode", lit "page", inPath,
          Join [dir, lit "pages"]]]) []).2 ++
        [Event.run dir (lit "pdfcpu") (lit "merge" :: outPath :: stamped)]),
      r ∈ runsOf tr ∨ isStampRun r = false ∨ PageStamp env (Join [dir, lit "pages"]) dir r := by
    intro outPath stamped r hr
    rw [runsOf_append] at hr
    rcases List.mem_append.1 hr with h | h
    · exact h4 r h
    · simp [runsOf] at h
      right; left; rw [h]; exact isStampRun_head _ _ _ (by decide)
  unfold pageNumbersPipeline
  simp only []
  split_ifs
  · exact h1
  · exact h2
  · exact h2
  · split
    · exact h4
    · split_ifs
      · exact h5 _ _
      · exact h5 _ _

theorem handlePageNumbers_shape (env : Env) (base : Str) (req : PageNumbersRequest) :
    ∀ r ∈ runsOf (handlePageNumbers env base req).2,
      isStampRun r = false ∨
        PageStamp env (Join [jobDirOf env base, lit "pages"]) (jobDirOf env base) r := by
  unfold handlePageNumbers newJobDir jobDirOf
  by_cases hpost : req.isPost = false
  · simp [hpost, runsOf]
  by_cases hform : req.formOk = false
  · simp [hpost, hform, runsOf]
  rw [if_neg hpost, if_neg hform]
  cases hf : req.filename with
  | none => simp [runsOf]
  | some filename =>
    dsimp only
    by_cases hmk : env.mkdirAll [] (Join [base, env.uuid []]) = true
    · simp only [hmk, if_true, List.nil_append]
      by_cases hsave : env.saveUpload [Event.mkdirAll (Join [base, env.uuid []])]
          (Join [Join [base, env.uuid []], lit "input.pdf"]) = false
      · rw [if_pos hsave]
        simp [runsOf]
      · rw [if_neg hsave]
        have hq := pageCount_not_stamp env (Join [base, env.uuid []])
          (Join [Join [base, env.uuid []], lit "input.pdf"])
          ([Event.mkdirAll (Join [base, env.uuid []])] ++
            [Event.saveUpload (Join [Join [base, env.uuid []], lit "input.pdf"])])
        revert hq
        generalize pageCountWithFallback env (Join [base, env.uuid []])
          (Join [Join [base, env.uuid []], lit "input.pdf"])
          ([Event.mkdirAll (Join [base, env.uuid []])] ++
            [Event.saveUpload (Join [Join [base, env.uuid []], lit "input.pdf"])]) = c
        intro hq
        rcases c with ⟨_ | total, c2⟩
        · intro r hr
          rcases hq r hr with h | h
          · simp [runsOf] at h
          · exact Or.inl h
        · intro r hr
          rcases pipeline_shape _ _ _ _ _ _ _ _ r hr with h | h
          · rcases hq r h with h | h
            · simp [runsOf] at h
            · exact Or.inl h
          · exact h
    · simp [hmk, runsOf]

theorem Normal_of_head (c : Char) (t : Str) (hc : c ≠ '.') (hs : '/' ∉ c :: t) :
    Normal (c :: t) := by
  refine ⟨by simp, ?_, ?_, hs⟩
  · intro h
    injection h with h1 _
    exact hc h1
  · intro h
    injection h with h1 _
    exact hc h1

theorem inputPageName_normal (i : Nat) :
    Normal (lit "input_page_" ++ natToDec i ++ lit ".pdf") := by
  have hs : '/' ∉ lit "input_page_" ++ natToDec i ++ lit ".pdf" := by
    intro h
    rcases List.mem_append.1 h with h | h
    · rcases List.mem_append.1 h with h | h
      · revert h; decide
      · exact natToDec_noSlash i h
    · revert h; decide
  exact Normal_of_head 'i' (lit "nput_page_" ++ natToDec i ++ lit ".pdf") (by decide) hs

theorem pageName_normal (i : Nat) : Normal (lit "page_" ++ natToDec i ++ lit ".pdf") := by
  have hs : '/' ∉ lit "page_" ++ natToDec i ++ lit ".pdf" := by
    intro h
    rcases List.mem_append.1 h with h | h
    · rcases List.mem_append.1 h with h | h
      · revert h; decide
      · exact natToDec_noSlash i h
    · revert h; decide
  exact Normal_of_head 'p' (lit "age_" ++ natToDec i ++ lit ".pdf") (by decide) hs

theorem stamped_not_in_pages (D : List Str) (hD : ∀ c ∈ D, Normal c) (i : Nat) :
    ¬ Inside (Join [absPath D, lit "pages"]) (stampedPath (absPath D) i) := by
  intro h
  unfold stampedPath at h
  rw [Join_absPath_normal D hD _ pages_normal,
    Join_absPath_normal D hD _ (stampedName_normal i)] at h
  have hp := absPath_inside_prefix (D ++ [lit "pages"]) (D ++ [lit "stamped-" ++ padZero 4 i ++
    lit ".pdf"]) (by
      intro c hc
      rcases List.mem_append.1 hc with h | h
      · exact hD c h
      · simp at h; rw [h]; exact pages_normal) (by
      intro c hc
      rcases List.mem_append.1 hc with h | h
      · exact hD c h
      · simp at h; rw [h]; exact stampedName_normal i) h
  rw [List.prefix_append_right_inj] at hp
  obtain ⟨t, ht⟩ := hp
  simp only [List.singleton_append, List.cons.injEq] at ht
  exact absurd (congrArg List.head? ht.1) (by simp [lit])

theorem candidate_in_pages (D : List Str) (hD : ∀ c ∈ D, Normal c) (x : Str) (hx : Normal x) :
    Inside (Join [absPath D, lit "pages"]) (Join [Join [absPath D, lit "pages"], x]) := by
  have hDp : ∀ c ∈ D ++ [lit "pages"], Normal c := by
    intro c hc
    rcases List.mem_append.1 hc with h | h
    · exact hD c h
    · simp at h; rw [h]; exact pages_normal
  rw [Join_absPath_normal D hD _ pages_normal, Join_absPath_normal _ hDp x hx]
  exact Inside_absPath _ _ (by simp)

/-- C12 (amended): in `handlePageNumbers`, for a server started in an absolute
directory, a job id without a `..` element and a glob whose matches lie in the
directory of its pattern, every stamp invocation reads a file of the `pages`
directory of the job and writes a file outside that directory, so no page's
stamp reads the output of another page's stamp. -/
theorem page_numbers_tasks_independent (env : Env) (cwd : Str) (req : PageNumbersRequest)
    (hcwd : startsWith cwd ['/'] = true) (hid : noDotDotComp (env.uuid []))
    (hglob : ∀ t i, ∀ f ∈ (env.glob t (pageSuffixPattern
        (Join [jobDirOf env (initBaseWorkDir cwd), lit "pages"]) i)).getD [],
      Inside (Join [jobDirOf env (initBaseWorkDir cwd), lit "pages"]) f) :
    (∀ a ∈ stampInputs (handlePageNumbers env (initBaseWorkDir cwd) req).2,
        Inside (Join [jobDirOf env (initBaseWorkDir cwd), lit "pages"]) a) ∧
      (∀ b ∈ stampOutputs (handlePageNumbers env (initBaseWorkDir cwd) req).2,
        ¬ Inside (Join [jobDirOf env (initBaseWorkDir cwd), lit "pages"]) b) ∧
      Independent (handlePageNumbers env (initBaseWorkDir cwd) req).2 := by
  obtain ⟨B, -, hB, hbase⟩ := initBase_absPath cwd hcwd
  have hD : ∀ c ∈ B ++ (splitSlash (env.uuid [])).filter keepElem, Normal c := by
    intro c hc
    rcases List.mem_append.1 hc with h | h
    · exact hB c h
    · exact normal_of_kept _ hid c h
  have hdir : jobDirOf env (initBaseWorkDir cwd) =
      absPath (B ++ (splitSlash (env.uuid [])).filter keepElem) := by
    unfold jobDirOf
    rw [hbase, Join_absPath B hB _ hid]
  have hshape := handlePageNumbers_shape env (initBaseWorkDir cwd) req
  have hin : ∀ a ∈ stampInputs (handlePageNumbers env (initBaseWorkDir cwd) req).2,
      Inside (Join [jobDirOf env (initBaseWorkDir cwd), lit "pages"]) a := by
    intro a ha
    unfold stampInputs stampRuns at ha
    obtain ⟨r, hr, rfl⟩ := List.mem_map.1 ha
    obtain ⟨hr1, hr2⟩ := List.mem_filter.1 hr
    rcases hshape r hr1 with h | ⟨label, desc, src, i, rfl, hsrc⟩
    · rw [h] at hr2; exact absurd hr2 (by decide)
    · have e : (stampArgs label desc src
          (stampedPath (jobDirOf env (initBaseWorkDir cwd)) i)).reverse.getD 1 [] = src := by
        simp [stampArgs]
      show Inside _ ((stampArgs label desc src
          (stampedPath (jobDirOf env (initBaseWorkDir cwd)) i)).reverse.getD 1 [])
      rw [e]
      rcases hsrc with h | h | ⟨t, h⟩
      · rw [h, hdir]
        exact candidate_in_pages _ hD _ (inputPageName_normal i)
      · rw [h, hdir]
        exact candidate_in_pages _ hD _ (pageName_normal i)
      · exact hglob t i src h
  have hout : ∀ b ∈ stampOutputs (handlePageNumbers env (initBaseWorkDir cwd) req).2,
      ¬ Inside (Join [jobDirOf env (initBaseWorkDir cwd), lit "pages"]) b := by
    intro b hb
    unfold stampOutputs stampRuns at hb
    obtain ⟨r, hr, rfl⟩ := List.mem_map.1 hb
    obtain ⟨hr1, hr2⟩ := List.mem_filter.1 hr
    rcases hshape r hr1 with h | ⟨label, desc, src, i, rfl, -⟩
    · rw [h] at hr2; exact absurd hr2 (by decide)
    · show ¬ Inside _ ((stampArgs label desc src
          (stampedPath (jobDirOf env (initBaseWorkDir cwd)) i)).getLastD [])
      rw [stampArgs_last, hdir]
      exact stamped_not_in_pages _ hD i
  exact ⟨hin, hout, fun a ha hmem => hout a hmem (hin a ha)⟩

/-- Witness of C12 (amended): the three-page upload numbered from 5. -/
theorem page_numbers_tasks_independent_witness :
    (∀ a ∈ stampInputs (handlePageNumbers threePageEnv (initBaseWorkDir (lit "/srv"))
          numberFromFive).2,
        Inside (Join [jobDirOf threePageEnv (initBaseWorkDir (lit "/srv")), lit "pages"]) a) ∧
      (∀ b ∈ stampOutputs (handlePageNumbers threePageEnv (initBaseWorkDir (lit "/srv"))
          numberFromFive).2,
        ¬ Inside (Join [jobDirOf threePageEnv (initBaseWorkDir (lit "/srv")), lit "pages"]) b) ∧
      Independent (handlePageNumbers threePageEnv (initBaseWorkDir (lit "/srv"))
        numberFromFive).2 :=
  page_numbers_tasks_independent threePageEnv (lit "/srv") numberFromFive (by decide)
    (noDotDotComp_of_noSlash _ (by decide) (by decide)) (fun _ _ f hf => absurd hf (by simp [threePageEnv, quietEnv]))

/-! ## Organize: rotations grouped by angle -/

/-- The remainder arithmetic of Go on `degrees` gives the mathematical
remainder. -/
theorem normDegrees_eq (d : Int) : normDegrees d = (d % 360 + 360) % 360 := by
  unfold normDegrees
  rcases le_or_lt 0 d with h | h
  · rw [Int.tmod_eq_emod h (by norm_num), Int.tmod_eq_emod (by omega) (by norm_num)]
  · cases d with
    | ofNat n => exact absurd h (by simp)
    | negSucc n =>
      have e : Int.tmod (Int.negSucc n) 360 = -(((n + 1) % 360 : Nat) : Int) := rfl
      rw [e, Int.tmod_eq_emod (by omega) (by norm_num), Int.negSucc_eq]
      omega

theorem normDegrees_zero_iff (d : Int) : normDegrees d = 0 ↔ 360 ∣ d := by
  rw [normDegrees_eq]
  omega

theorem addRotation_apply (b : Int → List Int) (r : OrganizeRotation) (d : Int)
    (hd : d = 90 ∨ d = 180 ∨ d = 270) :
    addRotation b r d = b d ++ pagesTurned [r] d := by
  have key : (r.degrees % 360 + 360) % 360 = r.degrees % 360 := by omega
  unfold addRotation pagesTurned
  rw [normDegrees_eq]
  simp only [List.filter_cons, List.filter_nil, key]
  by_cases h0 : r.degrees % 360 = 0
  · have hne : r.degrees % 360 ≠ d := by omega
    simp [h0, hne]
    intro _ h; omega
  · by_cases h3 : r.degrees % 360 ≠ 90 ∧ r.degrees % 360 ≠ 180 ∧ r.degrees % 360 ≠ 270
    · have hne : r.degrees % 360 ≠ d := by omega
      rw [if_neg h0, if_pos h3]
      simp [hne]
    · rw [if_neg h0, if_neg h3]
      by_cases hp : r.pageNumber ≤ 0
      · have hp1 : ¬ (1 ≤ r.pageNumber) := by omega
        rw [if_pos hp]
        simp [hp1]
      · have hp1 : 1 ≤ r.pageNumber := by omega
        rw [if_neg hp]
        by_cases hdd : d = r.degrees % 360
        · simp [hp1, hdd]
        · have hdd2 : ¬ (r.degrees % 360 = d) := fun h => hdd h.symm
          simp [hp1, hdd, hdd2]

theorem foldl_addRotation (rots : List OrganizeRotation) (b : Int → List Int) (d : Int)
    (hd : d = 90 ∨ d = 180 ∨ d = 270) :
    rots.foldl addRotation b d = b d ++ pagesTurned rots d := by
  induction rots generalizing b with
  | nil => simp [pagesTurned]
  | cons r rest ih =>
    rw [List.foldl_cons, ih, addRotation_apply b r d hd, List.append_assoc]
    congr 1
    unfold pagesTurned
    simp only [List.filter_cons, List.filter_nil]
    split_ifs <;> simp

theorem rotationBuckets_eq (rots : List OrganizeRotation) (d : Int)
    (hd : d = 90 ∨ d = 180 ∨ d = 270) : rotationBuckets rots d = pagesTurned rots d := by
  unfold rotationBuckets
  rw [foldl_addRotation rots _ d hd]
  rfl

theorem sortInts_sorted (l : List Int) :
    (sortInts l).Sorted (fun a b => a ≤ b) ∧ (sortInts l).Perm l :=
  ⟨List.sorted_insertionSort _ l, List.perm_insertionSort _ l⟩

theorem bucketRuns_rotate (b : Int → List Int) (wp : Str) (L : List Int) :
    ∀ r ∈ bucketRuns b wp L, isRotateRun r = true := by
  intro r hr
  unfold bucketRuns at hr
  obtain ⟨d, -, rfl⟩ := List.mem_map.1 hr
  simp [isRotateRun, rotateArgs]

/-- The loop over the angles issues the rotate invocations of the non-empty
buckets in order, up to and including the first one that fails. -/
theorem rotateBuckets_runs (env : Env) (dir wp : Str) (b : Int → List Int) (L : List Int)
    (tr : Trace) :
    ∃ X, runsOf (rotateBuckets env dir wp b L tr).2 = runsOf tr ++ X ∧
      X <+: bucketRuns b wp L ∧
      ((rotateBuckets env dir wp b L tr).1 = none → X = bucketRuns b wp L) ∧
      ((rotateBuckets env dir wp b L tr).1 = none ∨
        (rotateBuckets env dir wp b L tr).1 =
          some (Reply.error 500 (lit "failed to rotate pages"))) := by
  induction L generalizing tr with
  | nil => exact ⟨[], by simp [rotateBuckets], by simp [bucketRuns], by simp [bucketRuns],
      Or.inl rfl⟩
  | cons d rest ih =>
    unfold rotateBuckets
    by_cases hb : b d = []
    · rw [if_pos hb]
      have e : bucketRuns b wp (d :: rest) = bucketRuns b wp rest := by
        simp [bucketRuns, List.filter_cons, hb]
      rw [e]
      exact ih tr
    · rw [if_neg hb]
      have e : bucketRuns b wp (d :: rest) =
          (lit "pdfcpu", rotateArgs (b d) wp d) :: bucketRuns b wp rest := by
        simp [bucketRuns, List.filter_cons, hb]
      rw [e]
      dsimp only
      by_cases hrun : (env.run tr dir (lit "pdfcpu") (rotateArgs (b d) wp d)).2 = false
      · rw [if_pos hrun]
        refine ⟨[(lit "pdfcpu", rotateArgs (b d) wp d)], ?_, ?_, ?_, Or.inr rfl⟩
        · rw [runsOf_append]; rfl
        · exact ⟨bucketRuns b wp rest, rfl⟩
        · intro h; cases h
      · rw [if_neg hrun]
        obtain ⟨X, h1, h2, h3, h4⟩ :=
          ih (tr ++ [Event.run dir (lit "pdfcpu") (rotateArgs (b d) wp d)])
        refine ⟨(lit "pdfcpu", rotateArgs (b d) wp d) :: X, ?_, ?_, ?_, h4⟩
        · rw [h1, runsOf_append, List.append_assoc]; rfl
        · obtain ⟨t, ht⟩ := h2
          exact ⟨t, by rw [← ht]; rfl⟩
        · intro h; rw [h3 h]

/-- The rotation step of a request: the invocations of the buckets of its
decoded list, up to the first failure; none for a list that does not parse. -/
theorem rotateStep_runs (env : Env) (req : OrganizeRequest) (dir wp : Str) (tr : Trace) :
    ∃ X, runsOf (rotateStep env req dir wp tr).2 = runsOf tr ++ X ∧
      X <+: bucketRuns (rotationBuckets (rotationsOf req)) wp [90, 180, 270] ∧
      ((rotateStep env req dir wp tr).1 = none → TrimSpace req.rotations ≠ [] →
        X = bucketRuns (rotationBuckets (rotationsOf req)) wp [90, 180, 270]) ∧
      (∀ reply, (rotateStep env req dir wp tr).1 = some reply → ¬ PastRotation reply) := by
  unfold rotateStep rotationsOf
  by_cases he : TrimSpace req.rotations = []
  · rw [if_pos he]
    exact ⟨[], by simp, List.nil_prefix, fun _ h => absurd he h, fun _ h => by cases h⟩
  · rw [if_neg he]
    cases hp : req.parsed with
    | error e =>
      refine ⟨[], by simp, List.nil_prefix, ?_, ?_⟩
      · intro h
        simp at h
      · intro reply h
        simp only [Option.some.injEq] at h
        rw [← h]
        rintro (⟨u, hu⟩ | hu)
        · cases hu
        · exact absurd hu (by decide)
    | ok rots =>
      obtain ⟨X, h1, h2, h3, h4⟩ :=
        rotateBuckets_runs env dir wp (rotationBuckets rots) [90, 180, 270] tr
      refine ⟨X, h1, h2, fun h _ => h3 h, ?_⟩
      intro reply h
      dsimp only at h
      rcases h4 with h4 | h4
      · rw [h4] at h; cases h
      · rw [h4] at h
        simp only [Option.some.injEq] at h
        rw [← h]
        rintro (⟨u, hu⟩ | hu)
        · cases hu
        · exact absurd hu (by decide)

theorem not_past_of_error (status : Nat) (msg : Str)
    (h : Reply.error status msg ≠ Reply.error 500 (lit "failed to organize PDF")) :
    ¬ PastRotation (Reply.error status msg) := by
  rintro (⟨u, hu⟩ | hu)
  · cases hu
  · exact h hu

theorem filter_rotate_prefix (X E : List (Str × List Str)) (hX : X <+: E)
    (hE : ∀ r ∈ E, isRotateRun r = true) : X.filter isRotateRun = X := by
  apply List.filter_eq_self.2
  intro r hr
  exact hE r (hX.subset hr)

/-- The rotate invocations of a request to `handleOrganize` are those of the
non-empty buckets of its decoded list, in the order 90, 180, 270, up to the
first failure; all of them when the request went past the rotation step. -/
theorem handleOrganize_rotates (env : Env) (base : Str) (req : OrganizeRequest) :
    (runsOf (handleOrganize env base req).2).filter isRotateRun <+:
        bucketRuns (rotationBuckets (rotationsOf req)) (workPathOf (jobDirOf env base))
          [90, 180, 270] ∧
      (PastRotation (handleOrganize env base req).1 → TrimSpace req.rotations ≠ [] →
        (runsOf (handleOrganize env base req).2).filter isRotateRun =
          bucketRuns (rotationBuckets (rotationsOf req)) (workPathOf (jobDirOf env base))
            [90, 180, 270]) := by
  have early : ∀ (status : Nat) (msg : Str) (tr : Trace), runsOf tr = [] →
      Reply.error status msg ≠ Reply.error 500 (lit "failed to organize PDF") →
      (runsOf (Reply.error status msg, tr).2).filter isRotateRun <+:
        bucketRuns (rotationBuckets (rotationsOf req)) (workPathOf (jobDirOf env base))
          [90, 180, 270] ∧
      (PastRotation (Reply.error status msg, tr).1 → TrimSpace req.rotations ≠ [] →
        (runsOf (Reply.error status msg, tr).2).filter isRotateRun =
          bucketRuns (rotationBuckets (rotationsOf req)) (workPathOf (jobDirOf env base))
            [90, 180, 270]) := by
    intro status msg tr htr hne
    refine ⟨?_, fun h => absurd h (not_past_of_error status msg hne)⟩
    show (runsOf tr).filter isRotateRun <+: _
    rw [htr]
    exact List.nil_prefix
  unfold handleOrganize newJobDir
  by_cases hpost : req.isPost = false
  · rw [if_pos hpost]
    exact early _ _ _ rfl (by decide)
  rw [if_neg hpost]
  by_cases hform : req.formOk = false
  · rw [if_pos hform]
    exact early _ _ _ rfl (by decide)
  rw [if_neg hform]
  cases hf : req.filename with
  | none => exact early _ _ _ rfl (by decide)
  | some filename =>
    dsimp only
    by_cases hord : TrimSpace req.order = []
    · rw [if_pos hord]
      exact early _ _ _ rfl (by decide)
    rw [if_neg hord]
    by_cases hmk : env.mkdirAll [] (Join [base, env.uuid []]) = true
    · simp only [hmk, if_true, List.nil_append]
      by_cases hsave : env.saveUpload [Event.mkdirAll (Join [base, env.uuid []])]
          (Join [Join [base, env.uuid []], lit "input.pdf"]) = false
      · rw [if_pos hsave]
        exact early _ _ _ rfl (by decide)
      rw [if_neg hsave]
      by_cases hread : env.readFile ([Event.mkdirAll (Join [base, env.uuid []])] ++
          [Event.saveUpload (Join [Join [base, env.uuid []], lit "input.pdf"])])
          (Join [Join [base, env.uuid []], lit "input.pdf"]) = false
      · rw [if_pos hread]
        exact early _ _ _ rfl (by decide)
      rw [if_neg hread]
      have hS := rotateStep_runs env req (Join [base, env.uuid []])
        (Join [Join [base, env.uuid []], lit "work.pdf"])
        ([Event.mkdirAll (Join [base, env.uuid []])] ++
          [Event.saveUpload (Join [Join [base, env.uuid []], lit "input.pdf"])] ++
          [Event.readFile (Join [Join [base, env.uuid []], lit "input.pdf"])] ++
          [Event.writeFile (Join [Join [base, env.uuid []], lit "work.pdf"])])
      revert hS
      generalize rotateStep env req (Join [base, env.uuid []])
        (Join [Join [base, env.uuid []], lit "work.pdf"])
        ([Event.mkdirAll (Join [base, env.uuid []])] ++
          [Event.saveUpload (Join [Join [base, env.uuid []], lit "input.pdf"])] ++
          [Event.readFile (Join [Join [base, env.uuid []], lit "input.pdf"])] ++
          [Event.writeFile (Join [Join [base, env.uuid []], lit "work.pdf"])]) = rs
      rintro ⟨X, h1, h2, h3, h4⟩
      have h1' : runsOf rs.2 = X := by
        rw [h1]; simp [runsOf]
      have hX : X.filter isRotateRun = X :=
        filter_rotate_prefix X _ h2 (bucketRuns_rotate _ _ _)
      rcases rs with ⟨_ | reply, t⟩
      · have hfin : ∀ (reply : Reply) (rest : List Str),
            (runsOf (reply, t ++ [Event.run (Join [base, env.uuid []]) (lit "pdfcpu")
              (lit "collect" :: rest)]).2).filter isRotateRun = X := by
          intro reply rest
          show (runsOf (t ++ _)).filter isRotateRun = X
          rw [runsOf_append, List.filter_append, h1', hX]
          simp [runsOf, isRotateRun]
          decide
        dsimp only
        split_ifs
        · rw [hfin]
          exact ⟨h2, fun _ hne => h3 rfl hne⟩
        · rw [hfin]
          exact ⟨h2, fun _ hne => h3 rfl hne⟩
      · dsimp only
        rw [h1', hX]
        exact ⟨h2, fun h => absurd h (h4 reply rfl)⟩
    · simp only [hmk, List.nil_append]
      exact early _ _ _ rfl (by decide)

theorem bucketRuns_expected (rots : List OrganizeRotation) (wp : Str) :
    (bucketRuns (rotationBuckets rots) wp [90, 180, 270]).map (fun r => r.2) =
      expectedRotates wp rots := by
  have h90 := rotationBuckets_eq rots 90 (Or.inl rfl)
  have h180 := rotationBuckets_eq rots 180 (Or.inr (Or.inl rfl))
  have h270 := rotationBuckets_eq rots 270 (Or.inr (Or.inr rfl))
  unfold bucketRuns expectedRotates
  simp only [List.filter_cons, List.filter_nil, h90, h180, h270]
  split_ifs <;> simp [h90, h180, h270, rotateArgs, expectedRotate, pagesSpec]

/-- C19 (counterexample): pages 1 and 2 are to be turned by 90 and by 180
degrees and the first rotate invocation fails: the request ends with 500
after the single invocation for 90 degrees, and none is issued for 180
degrees although page 2 asks for it. -/
theorem rotate_failure_skips_later_angles :
    pagesTurned [⟨1, 90⟩, ⟨2, 180⟩] 180 = [2] ∧
      (handleOrganize rotateFailsEnv (initBaseWorkDir (lit "/srv")) turnTwoAngles).1 =
        Reply.error 500 (lit "failed to rotate pages") ∧
      rotateRuns (handleOrganize rotateFailsEnv (initBaseWorkDir (lit "/srv")) turnTwoAngles).2 =
        [[lit "rotate", lit "-pages", lit "1", lit "/srv/work/job-1/work.pdf", lit "-90"]] ∧
      rotateRuns (handleOrganize rotateFailsEnv (initBaseWorkDir (lit "/srv")) turnTwoAngles).2 ≠
        expectedRotates (lit "/srv/work/job-1/work.pdf") [⟨1, 90⟩, ⟨2, 180⟩] := by
  decide

/-- C19 (amended): the rotate invocations of `handleOrganize` are, in the
order 90, 180, 270, one per angle `d` for which an entry has
`pageNumber >= 1` and `((degrees mod 360) + 360) mod 360 = d`, each with the
comma-joined ascending list of exactly those entries' page numbers, issued up
to and including the first invocation that fails; all of them are issued
whenever the request gets past the rotation step.  Entries with another angle
or with `pageNumber <= 0` are in no invocation. -/
theorem organize_one_rotate_per_angle (env : Env) (base : Str) (req : OrganizeRequest) :
    rotateRuns (handleOrganize env base req).2 <+:
        expectedRotates (workPathOf (jobDirOf env base)) (rotationsOf req) ∧
      (PastRotation (handleOrganize env base req).1 → TrimSpace req.rotations ≠ [] →
        rotateRuns (handleOrganize env base req).2 =
          expectedRotates (workPathOf (jobDirOf env base)) (rotationsOf req)) ∧
      (∀ d, (sortInts (pagesTurned (rotationsOf req) d)).Sorted (fun a b => a ≤ b) ∧
        (sortInts (pagesTurned (rotationsOf req) d)).Perm (pagesTurned (rotationsOf req) d)) := by
  obtain ⟨h1, h2⟩ := handleOrganize_rotates env base req
  refine ⟨?_, ?_, fun d => sortInts_sorted _⟩
  · unfold rotateRuns
    rw [← bucketRuns_expected]
    obtain ⟨t, ht⟩ := h1
    exact ⟨t.map (fun r => r.2), by rw [← ht, List.map_append]⟩
  · intro hp hne
    unfold rotateRuns
    rw [h2 hp hne, bucketRuns_expected]

/-- Both angles are served when every invocation succeeds. -/
theorem organize_two_angles_example :
    (handleOrganize quietEnv (initBaseWorkDir (lit "/srv")) turnTwoAngles).1 =
        Reply.download (lit "/downloads/job-1/a_organized.pdf") ∧
      rotateRuns (handleOrganize quietEnv (initBaseWorkDir (lit "/srv")) turnTwoAngles).2 =
        [[lit "rotate", lit "-pages", lit "1", lit "/srv/work/job-1/work.pdf", lit "-90"],
          [lit "rotate", lit "-pages", lit "2", lit "/srv/work/job-1/work.pdf", lit "-180"]] := by
  decide

theorem addRotation_whole_turn (b : Int → List Int) (r : OrganizeRotation)
    (h : 360 ∣ r.degrees) : addRotation b r = b := by
  unfold addRotation
  simp only []
  rw [if_pos ((normDegrees_zero_iff r.degrees).2 h)]

theorem foldl_addRotation_filter (rots : List OrganizeRotation) (b : Int → List Int) :
    (rots.filter (fun r => decide (¬ 360 ∣ r.degrees))).foldl addRotation b =
      rots.foldl addRotation b := by
  induction rots generalizing b with
  | nil => rfl
  | cons r rest ih =>
    by_cases h : 360 ∣ r.degrees
    · rw [List.filter_cons_of_neg (by simpa using h), List.foldl_cons,
        addRotation_whole_turn b r h, ih]
    · rw [List.filter_cons_of_pos (by simpa using h), List.foldl_cons, List.foldl_cons, ih]

theorem rotateStep_filter (env : Env) (req : OrganizeRequest) (rots : List OrganizeRotation)
    (hp : req.parsed = Except.ok rots) (dir wp : Str) (tr : Trace) :
    rotateStep env
        { req with parsed := Except.ok (rots.filter (fun r => decide (¬ 360 ∣ r.degrees))) }
        dir wp tr = rotateStep env req dir wp tr := by
  unfold rotateStep rotationBuckets
  simp only [hp, foldl_addRotation_filter]

theorem pagesTurned_whole_turns (rots : List OrganizeRotation)
    (h : ∀ r ∈ rots, 360 ∣ r.degrees) (d : Int) (hd : d = 90 ∨ d = 180 ∨ d = 270) :
    pagesTurned rots d = [] := by
  unfold pagesTurned
  rw [List.map_eq_nil_iff, List.filter_eq_nil_iff]
  intro r hr
  have := h r hr
  simp only [Bool.and_eq_true, decide_eq_true_eq, not_and]
  intro _
  omega

/-- C18: `handleOrganize` never issues a rotate invocation for a zero-degree
rotation: the angle argument of every rotate invocation is `-90`, `-180` or
`-270`; dropping from the decoded list the entries whose degrees is a multiple
of 360 (negative multiples included) changes neither the reply nor any event
of the request; and a list made only of such entries leads to no rotate
invocation at all. -/
theorem organize_zero_degree_no_rotate (env : Env) (base : Str) (req : OrganizeRequest) :
    (∀ a ∈ rotateRuns (handleOrganize env base req).2,
        a.getLastD [] = lit "-90" ∨ a.getLastD [] = lit "-180" ∨ a.getLastD [] = lit "-270") ∧
      (∀ rots, req.parsed = Except.ok rots →
        handleOrganize env base
            { req with parsed := Except.ok (rots.filter (fun r => decide (¬ 360 ∣ r.degrees))) } =
          handleOrganize env base req) ∧
      ((∀ r ∈ rotationsOf req, 360 ∣ r.degrees) →
        rotateRuns (handleOrganize env base req).2 = []) := by
  obtain ⟨h1, -⟩ := handleOrganize_rotates env base req
  refine ⟨?_, ?_, ?_⟩
  · intro a ha
    unfold rotateRuns at ha
    obtain ⟨r, hr, rfl⟩ := List.mem_map.1 ha
    have hr2 := h1.subset hr
    unfold bucketRuns at hr2
    obtain ⟨d, hd, rfl⟩ := List.mem_map.1 hr2
    have hd2 := (List.mem_filter.1 hd).1
    simp only [List.mem_cons, List.mem_singleton, List.not_mem_nil, or_false] at hd2
    rcases hd2 with rfl | rfl | rfl
    · left; simp [rotateArgs, List.getLastD]; decide
    · right; left; simp [rotateArgs, List.getLastD]; decide
    · right; right; simp [rotateArgs, List.getLastD]; decide
  · intro rots hp
    unfold handleOrganize
    simp only [rotateStep_filter env req rots hp]
  · intro hall
    have hnil : bucketRuns (rotationBuckets (rotationsOf req)) (workPathOf (jobDirOf env base))
        [90, 180, 270] = [] := by
      unfold bucketRuns
      rw [List.map_eq_nil_iff, List.filter_eq_nil_iff]
      intro d hd
      simp only [List.mem_cons, List.mem_singleton, List.not_mem_nil, or_false] at hd
      rw [rotationBuckets_eq _ d hd, pagesTurned_whole_turns _ hall d hd]
      simp
    rw [hnil] at h1
    unfold rotateRuns
    rw [List.prefix_nil.1 h1]
    rfl

/-- A request whose rotations are 360, -720 and 0 degrees: the reply is the
download URL and the only program run is the final collect. -/
theorem organize_whole_turns_example :
    handleOrganize quietEnv (initBaseWorkDir (lit "/srv")) wholeTurns =
      (Reply.download (lit "/downloads/job-1/a_organized.pdf"),
        [Event.mkdirAll (lit "/srv/work/job-1"),
          Event.saveUpload (lit "/srv/work/job-1/input.pdf"),
          Event.readFile (lit "/srv/work/job-1/input.pdf"),
          Event.writeFile (lit "/srv/work/job-1/work.pdf"),
          Event.run (lit "/srv/work/job-1") (lit "pdfcpu")
            [lit "collect", lit "-pages", lit "1,2,3", lit "/srv/work/job-1/work.pdf",
              lit "/srv/work/job-1/a_organized.pdf"]]) := by
  decide

/-! ## Lazy previews: one renderer invocation for an absent page -/

theorem digitChar_props (d : Nat) :
    (digitChar d).isDigit = true ∧ digitChar d ≠ '-' ∧ digitChar d ≠ '+' ∧
      digitChar d ≠ '.' ∧ (digitChar d).toLower = digitChar d := by
  have h : ∀ k, k < 10 → (Char.ofNat (48 + k)).isDigit = true ∧ Char.ofNat (48 + k) ≠ '-' ∧
      Char.ofNat (48 + k) ≠ '+' ∧ Char.ofNat (48 + k) ≠ '.' ∧
      (Char.ofNat (48 + k)).toLower = Char.ofNat (48 + k) := by decide
  exact h (d % 10) (Nat.mod_lt _ (by decide))

theorem natToDec_chars (n : Nat) :
    ∀ c ∈ natToDec n, c.isDigit = true ∧ c ≠ '-' ∧ c ≠ '+' ∧ c ≠ '.' ∧ c.toLower = c :=
  natDigits_chars _ digitChar_props (n + 1) n [] (by simp)

theorem natDigits_ne_nil (fuel n : Nat) (acc : Str) (h : acc ≠ []) :
    natDigits fuel n acc ≠ [] := by
  induction fuel generalizing n acc with
  | zero => exact h
  | succ fuel ih =>
    unfold natDigits
    split_ifs
    · simp
    · exact ih _ _ (by simp)

theorem natToDec_ne_nil (n : Nat) : natToDec n ≠ [] := by
  unfold natToDec natDigits
  split_ifs
  · simp
  · exact natDigits_ne_nil _ _ _ (by simp)

theorem Atoi_natToDec (n : Nat) (h : (n : Int) ≤ maxInt) : Atoi (natToDec n) = some (n : Int) := by
  have hv := digitsValue_natToDec n
  have hall : (natToDec n).all Char.isDigit = true := by
    rw [List.all_eq_true]
    intro c hc
    exact (natToDec_chars n c hc).1
  have hne := natToDec_ne_nil n
  have hch := natToDec_chars n
  revert hv hall hne hch
  generalize natToDec n = s
  intro hv hall hne hch
  cases s with
  | nil => exact absurd rfl hne
  | cons c t =>
    have hc := hch c (List.mem_cons_self _ _)
    unfold Atoi
    split
    · rename_i r heq
      injection heq with h1 _
      exact absurd h1 hc.2.1
    · rename_i r heq
      injection heq with h1 _
      exact absurd h1 hc.2.2.1
    · have hmin : ¬ ((n : Int) < minInt) := by
        unfold minInt; omega
      have hmax : ¬ (maxInt < (n : Int)) := by omega
      simp [hall, hv, hmin, hmax]

theorem Itoa_natCast (n : Nat) : Itoa (n : Int) = natToDec n := by
  unfold Itoa
  simp

theorem startsWith_append (p r : Str) : startsWith (p ++ r) p = true := by
  unfold startsWith
  rw [List.isPrefixOf_iff_prefix]
  exact List.prefix_append p r

theorem trimStart_append (p r : Str) : trimStart (p ++ r) p = r := by
  unfold trimStart
  rw [startsWith_append, if_pos rfl, List.drop_left]

theorem endsWith_append (x s : Str) : endsWith (x ++ s) s = true := by
  unfold endsWith
  rw [List.reverse_append, List.isPrefixOf_iff_prefix]
  exact List.prefix_append _ _

theorem trimEnd_append (x s : Str) : trimEnd (x ++ s) s = x := by
  unfold trimEnd
  rw [endsWith_append, if_pos rfl]
  simp

theorem containsDotDot_cons (x : Char) (rest : Str) :
    containsDotDot (x :: rest) =
      ((decide (x = '.') && decide (rest.head? = some '.')) || containsDotDot rest) := by
  cases rest <;> simp [containsDotDot]

theorem containsDotDot_append_head (a b : Str) (c : Char) (hc : c ≠ '.') :
    containsDotDot (a ++ c :: b) = (containsDotDot a || containsDotDot (c :: b)) := by
  induction a with
  | nil => simp [containsDotDot]
  | cons x a ih =>
    rw [List.cons_append, containsDotDot_cons, ih, containsDotDot_cons x a]
    cases a with
    | nil => simp [hc, containsDotDot]
    | cons y a => simp [Bool.or_assoc]

theorem containsDotDot_nodot (a : Str) (h : '.' ∉ a) : containsDotDot a = false := by
  induction a with
  | nil => rfl
  | cons x a ih =>
    have hx : x ≠ '.' := fun e => h (by rw [e]; exact List.mem_cons_self _ _)
    rw [containsDotDot_cons, ih (fun hm => h (List.mem_cons_of_mem _ hm))]
    simp [hx]

theorem previewName_normal (n : Nat) : Normal (previewName n) := by
  have hs : '/' ∉ lit "page-" ++ natToDec n ++ lit ".png" := by
    intro h
    rcases List.mem_append.1 h with h | h
    · rcases List.mem_append.1 h with h | h
      · revert h; decide
      · exact natToDec_noSlash n h
    · revert h; decide
  exact Normal_of_head 'p' (lit "age-" ++ natToDec n ++ lit ".png") (by decide) hs

theorem previews_normal : Normal (lit "previews") := by
  refine ⟨?_, ?_, ?_, ?_⟩ <;> decide

theorem previewRel_eq (jobId : Str) (n : Nat) :
    previewRel jobId n = joinSlash [jobId, lit "previews", previewName n] := by
  unfold previewRel previewName joinSlash
  have e : lit "/previews/page-" = '/' :: (lit "previews" ++ '/' :: lit "page-") := by decide
  rw [e]
  simp [List.intercalate]

theorem Clean_relative (c : Str) (rest : List Str) (h : ∀ x ∈ c :: rest, Normal x) :
    Clean (joinSlash (c :: rest)) = joinSlash (c :: rest) := by
  have hc := h c (List.mem_cons_self _ _)
  have hnos : ∀ x ∈ c :: rest, '/' ∉ x := fun x hx => (h x hx).2.2.2
  have hst : startsWith (joinSlash (c :: rest)) ['/'] = false := by
    cases hb : startsWith (joinSlash (c :: rest)) ['/'] with
    | false => rfl
    | true =>
      exfalso
      obtain ⟨x, t, rfl⟩ : ∃ x t, c = x :: t := by
        cases c with
        | nil => exact absurd rfl hc.1
        | cons x t => exact ⟨x, t, rfl⟩
      have hx : x ≠ '/' := fun e => hc.2.2.2 (by rw [e]; exact List.mem_cons_self _ _)
      cases rest with
      | nil =>
        rw [joinSlash_single] at hb
        simp [startsWith, hx] at hb
        exact hx hb.symm
      | cons y ys =>
        rw [joinSlash_cons_cons] at hb
        simp [startsWith, hx] at hb
        exact hx hb.symm
  have hstack : cleanStack (joinSlash (c :: rest)) = (c :: rest).reverse := by
    unfold cleanStack
    rw [hst, splitSlash_joinSlash _ hnos (by simp),
      foldl_cleanStep_noDotDot false _ (fun x hx => (h x hx).2.2.1),
      filter_keepElem_normal _ h]
    simp
  unfold Clean
  rw [hst, hstack]
  simp

theorem containsDotDot_nodot_append (a b : Str) (ha : '.' ∉ a) :
    containsDotDot (a ++ b) = containsDotDot b := by
  induction a with
  | nil => rfl
  | cons x a ih =>
    have hx : x ≠ '.' := fun e => ha (by rw [e]; exact List.mem_cons_self _ _)
    rw [List.cons_append, containsDotDot_cons, ih (fun hm => ha (List.mem_cons_of_mem _ hm))]
    simp [hx]

theorem natToDec_noDot (n : Nat) : '.' ∉ natToDec n :=
  fun h => (natToDec_chars n _ h).2.2.2.1 rfl

theorem containsDotDot_previewRel (jobId : Str) (n : Nat) (h : containsDotDot jobId = false) :
    containsDotDot (previewRel jobId n) = false := by
  unfold previewRel
  have e : lit "/previews/page-" = '/' :: lit "previews/page-" := by decide
  rw [e, List.append_assoc, List.append_assoc, List.cons_append,
    containsDotDot_append_head _ _ '/' (by decide), h, Bool.false_or,
    ← List.cons_append, containsDotDot_nodot_append _ _ (by decide),
    containsDotDot_nodot_append _ _ (natToDec_noDot n)]
  decide

theorem ToLower_previewName (n : Nat) : ToLower (previewName n) = previewName n := by
  unfold ToLower previewName
  rw [List.map_append, List.map_append]
  have e1 : (lit "page-").map Char.toLower = lit "page-" := by decide
  have e2 : (lit ".png").map Char.toLower = lit ".png" := by decide
  have e3 : (natToDec n).map Char.toLower = natToDec n := by
    conv_rhs => rw [← List.map_id (natToDec n)]
    exact List.map_congr_left (fun c hc => (natToDec_chars n c hc).2.2.2.2)
  rw [e1, e2, e3]

theorem stripRoute_previews (pfx rel : Str)
    (hp : pfx = lit "/previews/" ∨ pfx = lit "/api/pdf/previews/") :
    stripRoute (pfx ++ rel) (lit "/api/pdf/previews/") (lit "/previews/") = rel := by
  unfold stripRoute
  rcases hp with rfl | rfl
  · have e : startsWith (lit "/previews/" ++ rel) (lit "/api/pdf/previews/") = false := rfl
    rw [e]
    exact trimStart_append _ _
  · rw [startsWith_append, if_pos rfl]
    exact trimStart_append _ _

theorem renameFirst_runs (env : Env) (full : Str) (pats : List Str) (tr : Trace) :
    runsOf (renameFirst env full pats tr) = runsOf tr := by
  induction pats generalizing tr with
  | nil => rfl
  | cons p rest ih =>
    unfold renameFirst
    split_ifs
    · simp [runsOf_append, runsOf]
    · rw [ih]
      simp [runsOf_append, runsOf]

theorem lazyRender_runs (env : Env) (base urlPath jobID full : Str) (n : Int) (tr : Trace) :
    runsOf (lazyRender env base urlPath jobID full n tr).2 =
      runsOf tr ++ [(lit "pdftoppm", [lit "-png", lit "-r", lit "110", lit "-f", Itoa n,
        lit "-l", Itoa n, Join [Join [base, jobID], lit "input.pdf"],
        Join [Join [Join [base, jobID], lit "previews"], lit "page"]])] := by
  unfold lazyRender
  simp only []
  split_ifs
  · simp [runsOf_append, runsOf]
  · simp [runsOf_append, runsOf, renameFirst_runs]
  · rw [ServeFile_trace]
    simp [runsOf_append, runsOf, renameFirst_runs]

/-- A well-formed request for the preview of page `n` of job `jobId` is served
directly when the file is there and goes to the lazy branch otherwise. -/
theorem servePreview_page (env : Env) (base jobId pfx : Str) (n : Nat)
    (hp : pfx = lit "/previews/" ∨ pfx = lit "/api/pdf/previews/")
    (hjob : Normal jobId) (hdd : containsDotDot jobId = false)
    (hn : 1 ≤ n) (hmax : (n : Int) ≤ maxInt) :
    servePreview env base (pfx ++ previewRel jobId n) =
      if missingOrDir (env.stat [] (Join [base, previewRel jobId n])) = true then
        lazyRender env base (pfx ++ previewRel jobId n) jobId (Join [base, previewRel jobId n])
          (n : Int) [Event.stat (Join [base, previewRel jobId n])]
      else
        ServeFile (pfx ++ previewRel jobId n) (Join [base, previewRel jobId n]) none
          [Event.stat (Join [base, previewRel jobId n])] := by
  have hnorm : ∀ x ∈ [jobId, lit "previews", previewName n], Normal x := by
    intro x hx
    simp only [List.mem_cons, List.mem_singleton, List.not_mem_nil, or_false] at hx
    rcases hx with rfl | rfl | rfl
    · exact hjob
    · exact previews_normal
    · exact previewName_normal n
  have hclean : Clean (previewRel jobId n) = previewRel jobId n := by
    rw [previewRel_eq]
    exact Clean_relative _ _ hnorm
  have hsplit : splitSlash (previewRel jobId n) = [jobId, lit "previews", previewName n] := by
    rw [previewRel_eq]
    exact splitSlash_joinSlash _ (fun x hx => (hnorm x hx).2.2.2) (by simp)
  have hnum : trimEnd (trimStart (previewName n) (lit "page-")) (lit ".png") = natToDec n := by
    unfold previewName
    rw [List.append_assoc, trimStart_append, trimEnd_append]
  have hsw : startsWith (previewName n) (lit "page-") = true := by
    unfold previewName
    rw [List.append_assoc]
    exact startsWith_append _ _
  have hew : endsWith (ToLower (previewName n)) (lit ".png") = true := by
    rw [ToLower_previewName]
    exact endsWith_append _ _
  have hpos : (0 : Int) < (n : Int) := by omega
  unfold servePreview
  simp only [stripRoute_previews _ _ hp, hclean, containsDotDot_previewRel jobId n hdd, hsplit]
  by_cases hm : missingOrDir (env.stat [] (Join [base, previewRel jobId n])) = true
  · simp only [hm, if_true]
    simp [hnum, hsw, hew, Atoi_natToDec n hmax, hpos, hn, List.getLastD]
  · simp [hm]

/-- C15 (counterexample): the page number 9223372036854775808 is at least 1,
the file is absent, and no renderer is invoked: `strconv.Atoi` fails beyond
the largest `int` and the request is answered 404 after the one lookup. -/
theorem page_beyond_int_not_rendered :
    (1 : Int) ≤ 9223372036854775808 ∧
      missingOrDir (quietEnv.stat []
        (lit "/srv/work/job-1/previews/page-9223372036854775808.png")) = true ∧
      servePreview quietEnv (initBaseWorkDir (lit "/srv"))
          (lit "/previews/job-1/previews/page-9223372036854775808.png") =
        (Reply.error 404 (lit "file not found"),
          [Event.stat (lit "/srv/work/job-1/previews/page-9223372036854775808.png")]) ∧
      runsOf (servePreview quietEnv (initBaseWorkDir (lit "/srv"))
          (lit "/previews/job-1/previews/page-9223372036854775808.png")).2 = [] := by
  decide

/-- C15 (amended): for a job id that is an ordinary path element without `..` and a
page number `n >= 1` in the range of `int`, the request for
`<jobId>/previews/page-<n>.png` (under either route) leads to exactly one
renderer invocation when the file is absent, `pdftoppm -png -r 110 -f n -l n`
on `<root>/<jobId>/input.pdf`, and to no invocation of any program when the
file is present. -/
theorem lazy_preview_renders_once (env : Env) (base jobId pfx : Str) (n : Nat)
    (hp : pfx = lit "/previews/" ∨ pfx = lit "/api/pdf/previews/")
    (hjob : Normal jobId) (hdd : containsDotDot jobId = false)
    (hn : 1 ≤ n) (hmax : (n : Int) ≤ maxInt) :
    (missingOrDir (env.stat [] (Join [base, previewRel jobId n])) = true →
        runsOf (servePreview env base (pfx ++ previewRel jobId n)).2 =
          [renderPage base jobId n]) ∧
      (missingOrDir (env.stat [] (Join [base, previewRel jobId n])) = false →
        runsOf (servePreview env base (pfx ++ previewRel jobId n)).2 = []) := by
  rw [servePreview_page env base jobId pfx n hp hjob hdd hn hmax]
  constructor
  · intro hm
    rw [if_pos hm, lazyRender_runs, Itoa_natCast]
    rfl
  · intro hm
    rw [if_neg (by rw [hm]; decide), ServeFile_trace]
    rfl

/-- Witness of C15: page 4 of job `job-1`, absent in the world where no path
exists. -/
theorem lazy_preview_renders_once_witness :
    runsOf (servePreview quietEnv (initBaseWorkDir (lit "/srv"))
        (lit "/previews/" ++ previewRel (lit "job-1") 4)).2 =
      [renderPage (initBaseWorkDir (lit "/srv")) (lit "job-1") 4] :=
  (lazy_preview_renders_once quietEnv (initBaseWorkDir (lit "/srv")) (lit "job-1")
    (lit "/previews/") 4 (Or.inl rfl) ⟨by decide, by decide, by decide, by decide⟩
    (by decide) (by decide) (by decide)).1 rfl

/-! ## Lazy previews: the reconciliation touches the requested page only -/

theorem FS_rename_other (fs : FS) (a b p : Str) (ha : p ≠ a) (hb : p ≠ b) :
    fs.rename a b p = fs p := by
  unfold FS.rename
  cases fs a with
  | none => rfl
  | some info => simp [ha, hb]

theorem reconcile_step_frame (w : World) (cands : List Str) (full : Str) (ev : Event)
    (hev : ReconcileEvent cands full ev) (fs : FS) (p : Str) (hfull : p ≠ full)
    (hc : p ∉ cands) : w.step fs ev p = fs p := by
  rcases hev with ⟨q, rfl⟩ | rfl | ⟨src, hsrc, rfl⟩
  · rfl
  · rfl
  · exact FS_rename_other fs src full p (fun e => hc (e ▸ hsrc)) hfull

theorem reconcile_fold_frame (w : World) (cands : List Str) (full : Str) (ops : Trace)
    (hops : ∀ ev ∈ ops, ReconcileEvent cands full ev) (fs : FS) (p : Str) (hfull : p ≠ full)
    (hc : p ∉ cands) : ops.foldl w.step fs p = fs p := by
  induction ops generalizing fs with
  | nil => rfl
  | cons ev ops ih =>
    rw [List.foldl_cons, ih (fun e he => hops e (List.mem_cons_of_mem _ he)),
      reconcile_step_frame w cands full ev (hops ev (List.mem_cons_self _ _)) fs p hfull hc]

theorem renameFirst_ops (env : Env) (full : Str) (pats : List Str) (tr : Trace) :
    ∃ ops, renameFirst env full pats tr = tr ++ ops ∧
      (∀ ev ∈ ops, ReconcileEvent pats full ev) ∧ (ops.filter isRename).length ≤ 1 := by
  induction pats generalizing tr with
  | nil => exact ⟨[], by simp [renameFirst], by simp, by simp⟩
  | cons p rest ih =>
    unfold renameFirst
    split_ifs
    · refine ⟨[Event.stat p, Event.rename p full], rfl, ?_, by simp [isRename]⟩
      intro ev hev
      simp only [List.mem_cons, List.mem_singleton, List.not_mem_nil, or_false] at hev
      rcases hev with rfl | rfl
      · exact Or.inl ⟨p, rfl⟩
      · exact Or.inr (Or.inr ⟨p, List.mem_cons_self _ _, rfl⟩)
    · obtain ⟨ops, h1, h2, h3⟩ := ih (tr ++ [Event.stat p])
      refine ⟨Event.stat p :: ops, by rw [h1]; simp, ?_, by simpa [isRename] using h3⟩
      intro ev hev
      rcases List.mem_cons.1 hev with rfl | hev
      · exact Or.inl ⟨p, rfl⟩
      · rcases h2 ev hev with h | h | ⟨src, hsrc, h⟩
        · exact Or.inl h
        · exact Or.inr (Or.inl h)
        · exact Or.inr (Or.inr ⟨src, List.mem_cons_of_mem _ hsrc, h⟩)

theorem lazyRender_ops (env : Env) (base urlPath jobId full : Str) (n : Nat) (tr : Trace) :
    ∃ ops, (lazyRender env base urlPath jobId full (n : Int) tr).2 =
        tr ++ [Event.mkdirAll (Join [Join [base, jobId], lit "previews"]),
          Event.run (Join [base, jobId]) (renderPage base jobId n).1
            (renderPage base jobId n).2] ++ ops ∧
      (∀ ev ∈ ops, ReconcileEvent (lazyCandidates base jobId n) full ev) ∧
      (ops.filter isRename).length ≤ 1 := by
  unfold lazyRender
  simp only [Itoa_natCast, Int.toNat_ofNat]
  split_ifs
  · exact ⟨[], by simp [renderPage], by simp, by simp⟩
  · obtain ⟨ops, h1, h2, h3⟩ := renameFirst_ops env full (lazyCandidates base jobId n)
      (tr ++ [Event.mkdirAll (Join [Join [base, jobId], lit "previews"])] ++
        [Event.run (Join [base, jobId]) (renderPage base jobId n).1 (renderPage base jobId n).2])
    refine ⟨ops ++ [Event.stat full], ?_, ?_, by simpa [isRename] using h3⟩
    · show renameFirst env full (lazyCandidates base jobId n) _ ++ [Event.stat full] = _
      simp only [renderPage] at h1 ⊢
      rw [h1]; simp
    · intro ev hev
      rcases List.mem_append.1 hev with h | h
      · exact h2 ev h
      · simp at h; exact Or.inl ⟨full, h⟩
  · obtain ⟨ops, h1, h2, h3⟩ := renameFirst_ops env full (lazyCandidates base jobId n)
      (tr ++ [Event.mkdirAll (Join [Join [base, jobId], lit "previews"])] ++
        [Event.run (Join [base, jobId]) (renderPage base jobId n).1 (renderPage base jobId n).2])
    refine ⟨ops ++ [Event.stat full, Event.serveFile full], ?_, ?_,
      by simpa [isRename] using h3⟩
    · rw [ServeFile_trace]
      show renameFirst env full (lazyCandidates base jobId n) _ ++ [Event.stat full] ++
        [Event.serveFile full] = _
      simp only [renderPage] at h1 ⊢
      rw [h1]; simp
    · intro ev hev
      rcases List.mem_append.1 hev with h | h
      · exact h2 ev h
      · simp at h
        rcases h with rfl | rfl
        · exact Or.inl ⟨full, rfl⟩
        · exact Or.inr (Or.inl rfl)

/-- C16: for a well-formed request for page `n` of job `jobId`, every event of
`servePreview` after the renderer invocation is a lookup, the delivery of the
requested file, or the renaming of one of the three candidate names of page
`n` to the requested file, and at most one renaming takes place; hence,
whatever the state of the files, every path other than the requested file
and those candidates is after the reconciliation as it was before it. -/
theorem lazy_reconciliation_frame (env : Env) (base jobId pfx : Str) (n : Nat)
    (hp : pfx = lit "/previews/" ∨ pfx = lit "/api/pdf/previews/")
    (hjob : Normal jobId) (hdd : containsDotDot jobId = false)
    (hn : 1 ≤ n) (hmax : (n : Int) ≤ maxInt) :
    (∀ ev ∈ afterRender (servePreview env base (pfx ++ previewRel jobId n)).2,
        ReconcileEvent (lazyCandidates base jobId n) (Join [base, previewRel jobId n]) ev) ∧
      ((afterRender (servePreview env base (pfx ++ previewRel jobId n)).2).filter
        isRename).length ≤ 1 ∧
      (∀ (w : World) (fs : FS) (p : Str), p ≠ Join [base, previewRel jobId n] →
        p ∉ lazyCandidates base jobId n →
        (afterRender (servePreview env base (pfx ++ previewRel jobId n)).2).foldl w.step fs p =
          fs p) := by
  have key : ∃ ops, afterRender (servePreview env base (pfx ++ previewRel jobId n)).2 = ops ∧
      (∀ ev ∈ ops, ReconcileEvent (lazyCandidates base jobId n)
        (Join [base, previewRel jobId n]) ev) ∧ (ops.filter isRename).length ≤ 1 := by
    rw [servePreview_page env base jobId pfx n hp hjob hdd hn hmax]
    by_cases hm : missingOrDir (env.stat [] (Join [base, previewRel jobId n])) = true
    · rw [if_pos hm]
      obtain ⟨ops, h1, h2, h3⟩ := lazyRender_ops env base (pfx ++ previewRel jobId n) jobId
        (Join [base, previewRel jobId n]) n [Event.stat (Join [base, previewRel jobId n])]
      refine ⟨ops, ?_, h2, h3⟩
      rw [h1]
      simp [afterRender, isRenderRun, renderPage, List.dropWhile]
    · rw [if_neg hm, ServeFile_trace]
      refine ⟨[], ?_, by simp, by simp⟩
      simp [afterRender, isRenderRun, List.dropWhile]
  obtain ⟨ops, h0, h1, h2⟩ := key
  rw [h0]
  exact ⟨h1, h2, fun w fs p hfull hc => reconcile_fold_frame w _ _ ops h1 fs p hfull hc⟩

/-- Witness of C16: page 4 of job `job-1` when the renderer writes
`page-04.png`. -/
theorem lazy_reconciliation_frame_witness :
    (∀ ev ∈ afterRender (servePreview paddedRenderEnv (initBaseWorkDir (lit "/srv"))
          (lit "/previews/" ++ previewRel (lit "job-1") 4)).2,
        ReconcileEvent (lazyCandidates (initBaseWorkDir (lit "/srv")) (lit "job-1") 4)
          (Join [initBaseWorkDir (lit "/srv"), previewRel (lit "job-1") 4]) ev) ∧
      ((afterRender (servePreview paddedRenderEnv (initBaseWorkDir (lit "/srv"))
          (lit "/previews/" ++ previewRel (lit "job-1") 4)).2).filter isRename).length ≤ 1 ∧
      (∀ (w : World) (fs : FS) (p : Str),
        p ≠ Join [initBaseWorkDir (lit "/srv"), previewRel (lit "job-1") 4] →
        p ∉ lazyCandidates (initBaseWorkDir (lit "/srv")) (lit "job-1") 4 →
        (afterRender (servePreview paddedRenderEnv (initBaseWorkDir (lit "/srv"))
          (lit "/previews/" ++ previewRel (lit "job-1") 4)).2).foldl w.step fs p = fs p) :=
  lazy_reconciliation_frame paddedRenderEnv (initBaseWorkDir (lit "/srv")) (lit "job-1")
    (lit "/previews/") 4 (Or.inl rfl) ⟨by decide, by decide, by decide, by decide⟩
    (by decide) (by decide) (by decide)

/-- The lazy request for page 4 when the renderer writes `page-04.png`: the
padded file is renamed to the requested name and served. -/
theorem lazy_padded_example :
    servePreview paddedRenderEnv (initBaseWorkDir (lit "/srv"))
        (lit "/previews/job-1/previews/page-4.png") =
      (Reply.file (lit "/srv/work/job-1/previews/page-4.png") none,
        [Event.stat (lit "/srv/work/job-1/previews/page-4.png"),
          Event.mkdirAll (lit "/srv/work/job-1/previews"),
          Event.run (lit "/srv/work/job-1") (lit "pdftoppm")
            [lit "-png", lit "-r", lit "110", lit "-f", lit "4", lit "-l", lit "4",
              lit "/srv/work/job-1/input.pdf", lit "/srv/work/job-1/previews/page"],
          Event.stat (lit "/srv/work/job-1/previews/page-4.png"),
          Event.stat (lit "/srv/work/job-1/previews/page-04.png"),
          Event.rename (lit "/srv/work/job-1/previews/page-04.png")
            (lit "/srv/work/job-1/previews/page-4.png"),
          Event.stat (lit "/srv/work/job-1/previews/page-4.png"),
          Event.serveFile (lit "/srv/work/job-1/previews/page-4.png")]) := by
  decide

/-! ## Eager previews: the reconciliation as a function on the files -/

theorem after_append (w : World) (a b : Trace) :
    w.after (a ++ b) = b.foldl w.step (w.after a) := by
  unfold World.after
  rw [List.foldl_append]

theorem after_stat (w : World) (tr : Trace) (p : Str) :
    w.after (tr ++ [Event.stat p]) = w.after tr := by
  rw [after_append]; rfl

theorem renamePadded_after (w : World) (e : Env) (expected : Str) (L : List Str) (tr : Trace) :
    w.after (renamePadded (w.env e) expected L tr) = padEffect expected L (w.after tr) := by
  induction L generalizing tr with
  | nil => rfl
  | cons p rest ih =>
    unfold renamePadded padEffect
    have hs : (w.env e).stat tr p = w.after tr p := rfl
    rw [hs]
    by_cases h : (w.after tr p).isSome = true
    · rw [if_pos h, if_pos h, after_append]
      rfl
    · rw [if_neg h, if_neg h, ih, after_stat]

theorem reconcilePage_after (w : World) (e : Env) (pd : Str) (i : Nat) (tr : Trace) :
    w.after (reconcilePage (w.env e) pd i tr) = pageEffect pd (w.after tr) i := by
  unfold reconcilePage pageEffect
  have hs : (w.env e).stat tr (canonicalPreview pd i) = w.after tr (canonicalPreview pd i) := rfl
  simp only [hs]
  by_cases h : (w.after tr (canonicalPreview pd i)).isSome = true
  · rw [if_pos h, if_pos h, after_stat]
  · rw [if_neg h, if_neg h, renamePadded_after, after_stat]

theorem reconcilePreviews_after (w : World) (e : Env) (pd : Str) (L : List Nat) (tr : Trace) :
    w.after (reconcilePreviews (w.env e) pd L tr) = L.foldl (pageEffect pd) (w.after tr) := by
  induction L generalizing tr with
  | nil => rfl
  | cons i rest ih =>
    unfold reconcilePreviews
    rw [ih, reconcilePage_after, List.foldl_cons]

theorem padEffect_frame (expected : Str) (L : List Str) (fs : FS) (p : Str)
    (hp : p ≠ expected) (hL : p ∉ L) : padEffect expected L fs p = fs p := by
  induction L with
  | nil => rfl
  | cons q rest ih =>
    unfold padEffect
    split_ifs
    · exact FS_rename_other fs q expected p (fun e => hL (e ▸ List.mem_cons_self _ _)) hp
    · exact ih (fun h => hL (List.mem_cons_of_mem _ h))

theorem pageEffect_frame (pd : Str) (fs : FS) (j : Nat) (p : Str) (hp : p ∉ pageNames pd j) :
    pageEffect pd fs j p = fs p := by
  unfold pageEffect
  unfold pageNames at hp
  split_ifs
  · rfl
  · exact padEffect_frame _ _ fs p (fun e => hp (e ▸ List.mem_cons_self _ _))
      (fun h => hp (List.mem_cons_of_mem _ h))

theorem padEffect_none (expected : Str) (L : List Str) (fs : FS) (h : ∀ p ∈ L, fs p = none) :
    padEffect expected L fs = fs := by
  induction L with
  | nil => rfl
  | cons q rest ih =>
    unfold padEffect
    rw [if_neg (by rw [h q (List.mem_cons_self _ _)]; decide)]
    exact ih (fun p hp => h p (List.mem_cons_of_mem _ hp))

theorem pageEffect_settled (pd : Str) (fs : FS) (i : Nat) (h : Settled pd fs i) :
    pageEffect pd fs i = fs := by
  unfold pageEffect
  rcases h with h | h
  · rw [if_pos h]
  · split_ifs
    · rfl
    · exact padEffect_none _ _ fs h

theorem pageFile_normal (s : Str) (hs : '/' ∉ s) : Normal (lit "page-" ++ s ++ lit ".png") := by
  have h : '/' ∉ lit "page-" ++ s ++ lit ".png" := by
    intro h
    rcases List.mem_append.1 h with h | h
    · rcases List.mem_append.1 h with h | h
      · revert h; decide
      · exact hs h
    · revert h; decide
  exact Normal_of_head 'p' (lit "age-" ++ s ++ lit ".png") (by decide) h

theorem pageFile_inj (pd s t : Str) (hs : '/' ∉ s) (ht : '/' ∉ t)
    (h : Join [pd, lit "page-" ++ s ++ lit ".png"] = Join [pd, lit "page-" ++ t ++ lit ".png"]) :
    s = t := by
  have h2 := Join_normal_inj pd _ _ (pageFile_normal s hs) (pageFile_normal t ht) h
  exact List.append_cancel_left (List.append_cancel_right h2)

theorem pageNames_value (pd : Str) (i : Nat) :
    ∀ p ∈ pageNames pd i, ∃ s, '/' ∉ s ∧ digitsValue s = i ∧
      p = Join [pd, lit "page-" ++ s ++ lit ".png"] := by
  intro p hp
  unfold pageNames at hp
  simp only [List.mem_cons, List.mem_singleton, List.not_mem_nil, or_false] at hp
  rcases hp with rfl | rfl | rfl | rfl
  · exact ⟨natToDec i, natToDec_noSlash i, digitsValue_natToDec i, rfl⟩
  · exact ⟨padZero 2 i, padZero_noSlash 2 i, digitsValue_padZero 2 i, rfl⟩
  · exact ⟨padZero 3 i, padZero_noSlash 3 i, digitsValue_padZero 3 i, rfl⟩
  · exact ⟨padZero 4 i, padZero_noSlash 4 i, digitsValue_padZero 4 i, rfl⟩

theorem pageNames_disjoint (pd : Str) (i j : Nat) (hij : i ≠ j) :
    ∀ p ∈ pageNames pd i, p ∉ pageNames pd j := by
  intro p hi hj
  obtain ⟨s, hs, hvs, rfl⟩ := pageNames_value pd i p hi
  obtain ⟨t, ht, hvt, he⟩ := pageNames_value pd j _ hj
  have := pageFile_inj pd s t hs ht he
  rw [this, hvt] at hvs
  exact hij hvs.symm

theorem padEffect_result (expected : Str) (L : List Str) (fs : FS) :
    (padEffect expected L fs expected).isSome = true ∨
      (padEffect expected L fs = fs ∧ ∀ p ∈ L, fs p = none) := by
  induction L with
  | nil => exact Or.inr ⟨rfl, by simp⟩
  | cons q rest ih =>
    unfold padEffect
    by_cases h : (fs q).isSome = true
    · rw [if_pos h]
      left
      obtain ⟨info, hinfo⟩ := Option.isSome_iff_exists.1 h
      unfold FS.rename
      rw [hinfo]
      simp
    · rw [if_neg h]
      rcases ih with ih | ⟨ih1, ih2⟩
      · exact Or.inl ih
      · refine Or.inr ⟨ih1, ?_⟩
        intro p hp
        rcases List.mem_cons.1 hp with rfl | hp
        · simpa using h
        · exact ih2 p hp

theorem pageEffect_makes_settled (pd : Str) (fs : FS) (i : Nat) :
    Settled pd (pageEffect pd fs i) i := by
  unfold pageEffect
  by_cases h : (fs (canonicalPreview pd i)).isSome = true
  · rw [if_pos h]
    exact Or.inl h
  · rw [if_neg h]
    rcases padEffect_result (canonicalPreview pd i)
      [paddedPreview pd 2 i, paddedPreview pd 3 i, paddedPreview pd 4 i] fs with h2 | ⟨h2, h3⟩
    · exact Or.inl h2
    · rw [h2]
      exact Or.inr h3

theorem pageEffect_keeps_settled (pd : Str) (fs : FS) (i j : Nat) (hij : i ≠ j)
    (h : Settled pd fs i) : Settled pd (pageEffect pd fs j) i := by
  have hfr : ∀ p ∈ pageNames pd i, pageEffect pd fs j p = fs p :=
    fun p hp => pageEffect_frame pd fs j p (pageNames_disjoint pd i j hij p hp)
  unfold Settled
  rw [hfr _ (by simp [pageNames])]
  rcases h with h | h
  · exact Or.inl h
  · right
    intro p hp
    rw [hfr p (List.mem_cons_of_mem _ hp)]
    exact h p hp

theorem fold_keeps_settled (pd : Str) (L : List Nat) (fs : FS) (i : Nat) (hi : i ∉ L)
    (h : Settled pd fs i) : Settled pd (L.foldl (pageEffect pd) fs) i := by
  induction L generalizing fs with
  | nil => exact h
  | cons j rest ih =>
    rw [List.foldl_cons]
    exact ih _ (fun hm => hi (List.mem_cons_of_mem _ hm))
      (pageEffect_keeps_settled pd fs i j (fun e => hi (e ▸ List.mem_cons_self _ _)) h)

theorem fold_settles (pd : Str) (L : List Nat) (hL : L.Nodup) (fs : FS) :
    ∀ i ∈ L, Settled pd (L.foldl (pageEffect pd) fs) i := by
  induction L generalizing fs with
  | nil => intro i hi; cases hi
  | cons j rest ih =>
    intro i hi
    rw [List.foldl_cons]
    rcases List.mem_cons.1 hi with rfl | hi
    · exact fold_keeps_settled pd rest _ i (List.nodup_cons.1 hL).1
        (pageEffect_makes_settled pd fs i)
    · exact ih (List.nodup_cons.1 hL).2 _ i hi

theorem fold_settled_fix (pd : Str) (L : List Nat) (fs : FS)
    (h : ∀ i ∈ L, Settled pd fs i) : L.foldl (pageEffect pd) fs = fs := by
  induction L with
  | nil => rfl
  | cons j rest ih =>
    rw [List.foldl_cons, pageEffect_settled pd fs j (h j (List.mem_cons_self _ _))]
    exact ih (fun i hi => h i (List.mem_cons_of_mem _ hi))

theorem fold_absent (pd : Str) (L : List Nat) (fs : FS) (i : Nat)
    (h : ∀ p ∈ pageNames pd i, fs p = none) :
    ∀ p ∈ pageNames pd i, (L.foldl (pageEffect pd) fs) p = none := by
  induction L generalizing fs with
  | nil => exact h
  | cons j rest ih =>
    rw [List.foldl_cons]
    apply ih
    intro p hp
    by_cases hij : i = j
    · subst hij
      rw [pageEffect_settled pd fs i (Or.inr (fun q hq => h q (List.mem_cons_of_mem _ hq)))]
      exact h p hp
    · rw [pageEffect_frame pd fs j p (pageNames_disjoint pd i j hij p hp)]
      exact h p hp

/-! ## Eager previews: the reconciliation is a fixed point -/

theorem renamePadded_none (w : World) (e : Env) (expected : Str) (L : List Str) (tr : Trace)
    (h : ∀ p ∈ L, w.after tr p = none) :
    renamePadded (w.env e) expected L tr = tr ++ L.map Event.stat := by
  induction L generalizing tr with
  | nil => simp [renamePadded]
  | cons p rest ih =>
    unfold renamePadded
    have hs : (w.env e).stat tr p = w.after tr p := rfl
    rw [hs, h p (List.mem_cons_self _ _)]
    rw [if_neg (by decide), ih]
    · simp
    · intro q hq
      rw [after_stat]
      exact h q (List.mem_cons_of_mem _ hq)

theorem filter_rename_stats (L : List Str) : (L.map Event.stat).filter isRename = [] := by
  induction L with
  | nil => rfl
  | cons p rest ih => simp [List.filter_cons, isRename, ih]

theorem reconcilePage_settled (w : World) (e : Env) (pd : Str) (i : Nat) (tr : Trace)
    (h : Settled pd (w.after tr) i) :
    (reconcilePage (w.env e) pd i tr).filter isRename = tr.filter isRename := by
  unfold reconcilePage
  have hs : (w.env e).stat tr (canonicalPreview pd i) = w.after tr (canonicalPreview pd i) := rfl
  simp only [hs]
  by_cases hc : (w.after tr (canonicalPreview pd i)).isSome = true
  · rw [if_pos hc]
    simp [isRename]
  · rw [if_neg hc]
    rcases h with h | h
    · exact absurd h hc
    · rw [renamePadded_none w e _ _ _ (by
        intro p hp
        rw [after_stat]
        exact h p hp)]
      rw [List.filter_append, List.filter_append, filter_rename_stats]
      simp [isRename]

theorem reconcilePreviews_settled (w : World) (e : Env) (pd : Str) (L : List Nat) (tr : Trace)
    (h : ∀ i ∈ L, Settled pd (w.after tr) i) :
    (reconcilePreviews (w.env e) pd L tr).filter isRename = tr.filter isRename := by
  induction L generalizing tr with
  | nil => rfl
  | cons i rest ih =>
    unfold reconcilePreviews
    have hi := h i (List.mem_cons_self _ _)
    have hafter : w.after (reconcilePage (w.env e) pd i tr) = w.after tr := by
      rw [reconcilePage_after, pageEffect_settled pd _ i hi]
    rw [ih _ (by
      intro j hj
      rw [hafter]
      exact h j (List.mem_cons_of_mem _ hj))]
    exact reconcilePage_settled w e pd i tr hi

/-- C14: in the reconciliation loop of `handlePreview` a page whose canonical
file `page-<i>.png` exists adds the lookup of that file and nothing else (no
padded name is looked up, nothing is renamed); and for every page count and
every state of the files, running the loop over `1..N` a second time renames
nothing and leaves every path as the first run left it. -/
theorem reconciliation_fixed_point (w : World) (e : Env) (pd : Str) (N : Int) (tr : Trace) :
    (∀ (env : Env) (i : Nat) (t : Trace),
        (env.stat t (canonicalPreview pd i)).isSome = true →
        reconcilePage env pd i t = t ++ [Event.stat (canonicalPreview pd i)]) ∧
      w.after (reconcilePreviews (w.env e) pd (pageIndices N)
          (reconcilePreviews (w.env e) pd (pageIndices N) tr)) =
        w.after (reconcilePreviews (w.env e) pd (pageIndices N) tr) ∧
      (reconcilePreviews (w.env e) pd (pageIndices N)
          (reconcilePreviews (w.env e) pd (pageIndices N) tr)).filter isRename =
        (reconcilePreviews (w.env e) pd (pageIndices N) tr).filter isRename := by
  have hset : ∀ i ∈ pageIndices N,
      Settled pd (w.after (reconcilePreviews (w.env e) pd (pageIndices N) tr)) i := by
    rw [reconcilePreviews_after]
    exact fold_settles pd _ (List.nodup_range' 1 N.toNat) _
  refine ⟨?_, ?_, ?_⟩
  · intro env i t h
    unfold reconcilePage
    simp only []
    rw [if_pos h]
  · rw [reconcilePreviews_after w e pd (pageIndices N)
      (reconcilePreviews (w.env e) pd (pageIndices N) tr)]
    exact fold_settled_fix pd _ _ hset
  · exact reconcilePreviews_settled w e pd _ _ hset

/-- Two padded files are renamed by the first run of the loop; a second run
only looks the canonical files up. -/
theorem reconciliation_twice_example :
    reconcilePreviews (twoPaddedWorld.env quietEnv) (lit "/w/previews") (pageIndices 2) [] =
        [Event.stat (lit "/w/previews/page-1.png"), Event.stat (lit "/w/previews/page-01.png"),
          Event.rename (lit "/w/previews/page-01.png") (lit "/w/previews/page-1.png"),
          Event.stat (lit "/w/previews/page-2.png"), Event.stat (lit "/w/previews/page-02.png"),
          Event.rename (lit "/w/previews/page-02.png") (lit "/w/previews/page-2.png")] ∧
      reconcilePreviews (twoPaddedWorld.env quietEnv) (lit "/w/previews") (pageIndices 2)
          (reconcilePreviews (twoPaddedWorld.env quietEnv) (lit "/w/previews") (pageIndices 2) []) =
        reconcilePreviews (twoPaddedWorld.env quietEnv) (lit "/w/previews") (pageIndices 2) [] ++
          [Event.stat (lit "/w/previews/page-1.png"), Event.stat (lit "/w/previews/page-2.png")] := by
  decide

/-! ## Eager previews: names padded to five digits -/

theorem handlePreview_valid (env : Env) (base : Str) (req : PreviewRequest) (f : Str) (N : Int)
    (hpost : req.isPost = true) (hform : req.formOk = true) (hfile : req.filename = some f)
    (hmk : env.mkdirAll [] (jobDirOf env base) = true)
    (hsave : env.saveUpload [Event.mkdirAll (jobDirOf env base)]
      (inputPathOf (jobDirOf env base)) = true)
    (hmk2 : env.mkdirAll (uploadTrace env base)
      (Join [jobDirOf env base, lit "previews"]) = true)
    (hcount : (pageCountPoppler env (jobDirOf env base) (inputPathOf (jobDirOf env base))
      (uploadTrace env base ++ [Event.mkdirAll (Join [jobDirOf env base, lit "previews"])])).1 =
        some N)
    (hN : 0 ≤ N) :
    (handlePreview env base req).2 =
      reconcilePreviews env (Join [jobDirOf env base, lit "previews"]) (pageIndices N)
        (renderedTrace env base) := by
  have hneg : ¬ (N < 0) := by omega
  have htr := pageCountPoppler_trace env (jobDirOf env base) (inputPathOf (jobDirOf env base))
    (uploadTrace env base ++ [Event.mkdirAll (Join [jobDirOf env base, lit "previews"])])
  simp only [jobDirOf, inputPathOf, uploadTrace, List.cons_append, List.nil_append,
    List.singleton_append, List.append_assoc] at hmk hsave hmk2 hcount htr
  unfold handlePreview newJobDir previewPageCount previewInJob renderedTrace
  simp only [hpost, hform, hfile, hmk, hsave, hmk2, hcount, htr, hneg, List.nil_append,
    List.singleton_append, List.cons_append, if_true, if_false, Bool.true_eq_false,
    Bool.false_eq_true, pdfinfoRun, uploadTrace, jobDirOf, inputPathOf, List.append_assoc]

theorem padZero_length_ge (w n : Nat) : w ≤ (padZero w n).length := by
  unfold padZero
  simp only [List.length_append, List.length_replicate]
  omega

theorem short_name_not_five (pd s : Str) (hs : '/' ∉ s) (hlen : s.length < 5) :
    Join [pd, lit "page-" ++ s ++ lit ".png"] ∉
      (List.range' 1 10000).map (paddedPreview pd 5) := by
  intro h
  obtain ⟨i, -, hi⟩ := List.mem_map.1 h
  unfold paddedPreview at hi
  have e := pageFile_inj pd _ _ (padZero_noSlash 5 i) hs hi
  have := padZero_length_ge 5 i
  rw [e] at this
  omega

theorem tenThousand_after_render :
    tenThousandWorld.after (renderedTrace tenThousandEnv (initBaseWorkDir (lit "/srv"))) =
      fun p =>
        if p ∈ (List.range' 1 10000).map (paddedPreview (lit "/srv/work/job-1/previews") 5)
        then some ⟨false, 0⟩ else none := rfl

/-- C13 (the code at the failing input): an upload of 10000 pages, for which
the renderer pads the page numbers to five digits.  After rendering, the file
`page-<i padded to five digits>.png` exists for every `i` in `1..10000`; the
request runs the reconciliation loop over `1..10000`; and after the request
the canonical file `page-1.png` still does not exist, because only the widths
2, 3 and 4 are tried. -/
theorem five_digit_names_not_reconciled :
    (∀ i ∈ pageIndices 10000,
        tenThousandWorld.after (renderedTrace tenThousandEnv (initBaseWorkDir (lit "/srv")))
          (paddedPreview (lit "/srv/work/job-1/previews") 5 i) = some ⟨false, 0⟩) ∧
      (handlePreview tenThousandEnv (initBaseWorkDir (lit "/srv")) previewUpload).2 =
        reconcilePreviews tenThousandEnv (lit "/srv/work/job-1/previews") (pageIndices 10000)
          (renderedTrace tenThousandEnv (initBaseWorkDir (lit "/srv"))) ∧
      tenThousandWorld.after
          (handlePreview tenThousandEnv (initBaseWorkDir (lit "/srv")) previewUpload).2
          (canonicalPreview (lit "/srv/work/job-1/previews") 1) = none := by
  have hpd : Join [jobDirOf tenThousandEnv (initBaseWorkDir (lit "/srv")), lit "previews"] =
      lit "/srv/work/job-1/previews" := by decide
  have htrace : (handlePreview tenThousandEnv (initBaseWorkDir (lit "/srv")) previewUpload).2 =
      reconcilePreviews tenThousandEnv (lit "/srv/work/job-1/previews") (pageIndices 10000)
        (renderedTrace tenThousandEnv (initBaseWorkDir (lit "/srv"))) := by
    rw [handlePreview_valid tenThousandEnv (initBaseWorkDir (lit "/srv")) previewUpload
      (lit "big.pdf") 10000 rfl rfl rfl rfl rfl rfl (by decide) (by decide), hpd]
  refine ⟨?_, htrace, ?_⟩
  · intro i hi
    rw [tenThousand_after_render]
    exact if_pos (List.mem_map.2 ⟨i, hi, rfl⟩)
  · rw [htrace]
    show tenThousandWorld.after (reconcilePreviews (tenThousandWorld.env _) _ _ _) _ = none
    rw [reconcilePreviews_after]
    apply fold_absent _ _ _ 1 _ _ (List.mem_cons_self _ _)
    intro p hp
    rw [tenThousand_after_render]
    apply if_neg
    unfold pageNames canonicalPreview paddedPreview at hp
    simp only [List.mem_cons, List.mem_singleton, List.not_mem_nil, or_false] at hp
    rcases hp with rfl | rfl | rfl | rfl
    · exact short_name_not_five _ _ (natToDec_noSlash 1) (by decide)
    · exact short_name_not_five _ _ (padZero_noSlash 2 1) (by decide)
    · exact short_name_not_five _ _ (padZero_noSlash 3 1) (by decide)
    · exact short_name_not_five _ _ (padZero_noSlash 4 1) (by decide)

/-! ## Gateway: not found, forbidden and the attachment header -/

/-- How `serveDownload` answers: 403 `forbidden` without any file access when
the cleaned path contains `..`; otherwise 404 `file not found` exactly when
the lookup of the joined path under the storage root fails or finds a
directory, and in the other case whatever `http.ServeFile` answers for the
request and the joined path. -/
theorem serveDownload_cases (env : Env) (base urlPath : Str) :
    (containsDotDot (downloadRel urlPath) = true →
        serveDownload env base urlPath = (Reply.error 403 (lit "forbidden"), [])) ∧
      (containsDotDot (downloadRel urlPath) = false →
        ((serveDownload env base urlPath).1 = Reply.error 404 (lit "file not found") ↔
          missingOrDir (env.stat [] (downloadTarget base urlPath)) = true) ∧
        (missingOrDir (env.stat [] (downloadTarget base urlPath)) = true →
          serveDownload env base urlPath =
            (Reply.error 404 (lit "file not found"),
              [Event.stat (downloadTarget base urlPath)])) ∧
        (missingOrDir (env.stat [] (downloadTarget base urlPath)) = false →
          serveDownload env base urlPath =
            ServeFile urlPath (downloadTarget base urlPath)
              (some (Base (downloadTarget base urlPath)))
              [Event.stat (downloadTarget base urlPath)])) := by
  unfold downloadTarget downloadRel
  constructor
  · intro h
    unfold serveDownload
    simp only [h, if_true]
  · intro h
    have hne : ¬ (containsDotDot (Clean (stripRoute urlPath (lit "/api/pdf/downloads/")
        (lit "/downloads/"))) = true) := by rw [h]; decide
    refine ⟨?_, ?_, ?_⟩
    · unfold serveDownload
      simp only [if_neg hne]
      by_cases hm : missingOrDir (env.stat [] (Join [base, Clean (stripRoute urlPath
          (lit "/api/pdf/downloads/") (lit "/downloads/"))])) = true
      · simp only [hm, if_true]
      · rw [if_neg hm, ServeFile_reply]
        constructor
        · intro h2
          split_ifs at h2
          all_goals cases h2
        · intro h2; exact absurd h2 hm
    · intro hm
      unfold serveDownload
      simp only [if_neg hne, hm, if_true]
    · intro hm
      unfold serveDownload
      rw [if_neg hne, if_neg (by rw [hm]; decide)]

/-- C21 (the code at the failing input): for the upload `index.pdf`,
`handlePDFToHTML` answers with the URL `/downloads/job-1/index.html` of the
file `pdftohtml` wrote.  The file exists and is no directory, the path is no
traversal attempt, yet `serveDownload` does not serve it: `http.ServeFile`
redirects every URL path ending in `/index.html` to `./` with 301, and the
redirect target `/downloads/job-1/` is the job directory, answered 404. -/
theorem index_html_download_redirected :
    (handlePDFToHTML indexHtmlEnv (initBaseWorkDir (lit "/srv")) indexUpload).1 =
        Reply.download (lit "/downloads/job-1/index.html") ∧
      containsDotDot (downloadRel (lit "/downloads/job-1/index.html")) = false ∧
      missingOrDir (indexHtmlEnv.stat []
        (downloadTarget (initBaseWorkDir (lit "/srv")) (lit "/downloads/job-1/index.html"))) =
          false ∧
      serveDownload indexHtmlEnv (initBaseWorkDir (lit "/srv"))
          (lit "/downloads/job-1/index.html") =
        (Reply.redirect 301 (lit "./"),
          [Event.stat (lit "/srv/work/job-1/index.html"),
            Event.serveFile (lit "/srv/work/job-1/index.html")]) ∧
      serveDownload indexHtmlEnv (initBaseWorkDir (lit "/srv")) (lit "/downloads/job-1/") =
        (Reply.error 404 (lit "file not found"), [Event.stat (lit "/srv/work/job-1")]) := by
  decide

theorem ServeFile_no_attachment (urlPath name : Str) (tr : Trace) (q : Str → Str) :
    contentDisposition q (ServeFile urlPath name none tr).1 = none := by
  rw [ServeFile_reply]
  split_ifs <;> rfl

theorem lazyRender_no_attachment (env : Env) (base urlPath jobID full : Str) (n : Int)
    (tr : Trace) (q : Str → Str) :
    contentDisposition q (lazyRender env base urlPath jobID full n tr).1 = none := by
  unfold lazyRender
  simp only []
  split_ifs
  · rfl
  · rfl
  · exact ServeFile_no_attachment _ _ _ _

/-- C22: when `serveDownload` serves a file, the `Content-Disposition` header
is `attachment; filename=` followed by the quoted base name of the served
path, which is the joined path under the storage root; `servePreview` sets no
`Content-Disposition` header on any path, direct hit or lazy render. -/
theorem attachment_header_only_on_downloads (env : Env) (base urlPath : Str) (q : Str → Str) :
    (∀ p a, (serveDownload env base urlPath).1 = Reply.file p a →
        p = downloadTarget base urlPath ∧
        contentDisposition q (serveDownload env base urlPath).1 =
          some (lit "attachment; filename=" ++ q (Base p))) ∧
      contentDisposition q (servePreview env base urlPath).1 = none := by
  constructor
  · intro p a h
    cases hcd : containsDotDot (downloadRel urlPath)
    · obtain ⟨_, h2, h3⟩ := (serveDownload_cases env base urlPath).2 hcd
      cases hm : missingOrDir (env.stat [] (downloadTarget base urlPath))
      · rw [h3 hm, ServeFile_reply] at h ⊢
        split_ifs at h ⊢
        all_goals cases h
        exact ⟨rfl, rfl⟩
      · rw [h2 hm] at h
        cases h
    · rw [(serveDownload_cases env base urlPath).1 hcd] at h
      cases h
  · unfold servePreview
    simp only []
    repeat' split
    all_goals first
      | rfl
      | exact lazyRender_no_attachment _ _ _ _ _ _ _ _
      | exact ServeFile_no_attachment _ _ _ _

/-- C23 (the code at the failing input): for the upload `a..b.pdf`,
`handlePageNumbers` writes `<root>/job-1/a..b_numbered.pdf` and answers with
the URL `/downloads/job-1/a..b_numbered.pdf`; `serveDownload` answers that URL
with 403 `forbidden`, although the file exists, because the cleaned path
contains the two dots of the file name. -/
theorem dotted_upload_name_not_downloadable :
    buildOutputName (lit "a..b.pdf") (lit "numbered") = lit "a..b_numbered.pdf" ∧
      (handlePageNumbers allFilesEnv (initBaseWorkDir (lit "/srv")) numberDottedName).1 =
        Reply.download (buildDownloadURL (lit "job-1")
          (buildOutputName (lit "a..b.pdf") (lit "numbered"))) ∧
      (handlePageNumbers allFilesEnv (initBaseWorkDir (lit "/srv")) numberDottedName).2.getLast? =
        some (Event.run (lit "/srv/work/job-1") (lit "pdfcpu")
          [lit "merge", lit "/srv/work/job-1/a..b_numbered.pdf",
            lit "/srv/work/job-1/stamped-0001.pdf", lit "/srv/work/job-1/stamped-0002.pdf",
            lit "/srv/work/job-1/stamped-0003.pdf"]) ∧
      allFilesEnv.stat [] (lit "/srv/work/job-1/a..b_numbered.pdf") = some ⟨false, 0⟩ ∧
      serveDownload allFilesEnv (initBaseWorkDir (lit "/srv"))
          (buildDownloadURL (lit "job-1") (buildOutputName (lit "a..b.pdf") (lit "numbered"))) =
        (Reply.error 403 (lit "forbidden"), []) := by
  decide

/-! ## Page count: values below one -/

theorem parsePagesPoppler_pos (out : Str) (n : Int) (h : parsePagesPoppler out = some n) :
    1 ≤ n := by
  unfold parsePagesPoppler at h
  obtain ⟨line, -, hl⟩ := List.exists_of_findSome?_eq_some h
  simp only [] at hl
  split_ifs at hl with h1 h2
  · split at hl
    · split_ifs at hl with h3
      · simp only [Option.some.injEq] at hl
        omega
    · cases hl

/-- C26 (the code at the failing input): for the tool output `Pages: 0` the
parser of `pageCountPDF` returns 0 (and -1 for `Pages: -1`), where the parser
of `pageCountPoppler` reports an error; `handlePageNumbers` then runs no stamp
and a merge invocation without inputs, and panics for the count -1. -/
theorem pdfcpu_count_below_one_accepted :
    parsePagesPDF (lit "Pages: 0") = some 0 ∧
      parsePagesPDF (lit "Pages: -1") = some (-1) ∧
      parsePagesPoppler (lit "Pages: 0") = none ∧
      parsePagesPoppler (lit "Pages: -1") = none ∧
      stampRuns (handlePageNumbers zeroPagesEnv (initBaseWorkDir (lit "/srv")) numberFromFive).2 =
        [] ∧
      mergeRuns (handlePageNumbers zeroPagesEnv (initBaseWorkDir (lit "/srv")) numberFromFive).2 =
        [[lit "merge", lit "/srv/work/job-1/doc_numbered.pdf"]] ∧
      (handlePageNumbers zeroPagesEnv (initBaseWorkDir (lit "/srv")) numberFromFive).1 =
        Reply.download (lit "/downloads/job-1/doc_numbered.pdf") ∧
      (handlePageNumbers minusOnePageEnv (initBaseWorkDir (lit "/srv")) numberFromFive).1 =
        Reply.panic := by
  decide

/-! ## File names: `sanitizeFilename` -/

theorem dropWhile_head_not (p : Char → Bool) (l : Str) (c : Char)
    (h : (l.dropWhile p).head? = some c) : p c = false := by
  have := List.head?_dropWhile_not p l
  rw [h] at this
  exact this

theorem dropWhile_self (p : Char → Bool) (l : Str) (h : ∀ c, l.head? = some c → p c = false) :
    l.dropWhile p = l := by
  cases l with
  | nil => rfl
  | cons x t =>
    have := h x rfl
    simp [List.dropWhile, this]

theorem TrimSpace_trimmed (s : Str) : Trimmed (TrimSpace s) := by
  unfold Trimmed TrimSpace
  constructor
  · intro c hc
    have hpre : ((s.dropWhile isSpace).reverse.dropWhile isSpace).reverse <+:
        s.dropWhile isSpace := by
      rw [← List.reverse_suffix, List.reverse_reverse]
      exact List.dropWhile_suffix _
    obtain ⟨r, hr⟩ := hpre
    apply dropWhile_head_not isSpace s c
    rw [← hr]
    cases hu : ((s.dropWhile isSpace).reverse.dropWhile isSpace).reverse with
    | nil => rw [hu] at hc; cases hc
    | cons x t => rw [hu] at hc; simpa using hc
  · intro c hc
    rw [List.getLast?_reverse] at hc
    exact dropWhile_head_not isSpace _ c hc

theorem TrimSpace_of_trimmed (s : Str) (h : Trimmed s) : TrimSpace s = s := by
  unfold TrimSpace
  rw [dropWhile_self isSpace s h.1, dropWhile_self isSpace s.reverse (by
    intro c hc
    rw [List.head?_reverse] at hc
    exact h.2 c hc), List.reverse_reverse]

theorem TrimSpace_sublist (s : Str) : (TrimSpace s).Sublist s := by
  unfold TrimSpace
  have h1 : ((s.dropWhile isSpace).reverse.dropWhile isSpace).Sublist
      (s.dropWhile isSpace).reverse := List.dropWhile_sublist _
  have h2 := h1.reverse
  rw [List.reverse_reverse] at h2
  exact h2.trans (List.dropWhile_sublist _)

theorem not_mem_replaceChar (s : Str) (old new : Char) (h : old ≠ new) :
    old ∉ replaceChar s old new := by
  unfold replaceChar
  intro hm
  obtain ⟨c, -, hc⟩ := List.mem_map.1 hm
  split_ifs at hc with h1
  · exact h hc.symm
  · exact h1 hc

theorem not_mem_replaceChar_of_not_mem (s : Str) (old new x : Char) (hx : x ∉ s)
    (hn : x ≠ new) : x ∉ replaceChar s old new := by
  unfold replaceChar
  intro hm
  obtain ⟨c, hcs, hc⟩ := List.mem_map.1 hm
  split_ifs at hc with h1
  · exact hn hc.symm
  · exact hx (hc ▸ hcs)

theorem replaceChar_of_not_mem (s : Str) (old new : Char) (h : old ∉ s) :
    replaceChar s old new = s := by
  unfold replaceChar
  conv_rhs => rw [← List.map_id s]
  apply List.map_congr_left
  intro c hc
  have : c ≠ old := fun e => h (e ▸ hc)
  simp [this]

theorem Base_of_noSlash (y : Str) (hne : y ≠ []) (hs : '/' ∉ y) : Base y = y := by
  have hrev : '/' ∉ y.reverse := fun h => hs (List.mem_reverse.1 h)
  have h1 : y.reverse.dropWhile (fun c => decide (c = '/')) = y.reverse := by
    apply dropWhile_self
    intro c hc
    have hm : c ∈ y.reverse := List.mem_of_mem_head? hc
    have : c ≠ '/' := fun e => hrev (e ▸ hm)
    simp [this]
  have h2 : y.reverse.takeWhile (fun c => decide (c ≠ '/')) = y.reverse := by
    rw [List.takeWhile_eq_self_iff]
    intro c hc
    have : c ≠ '/' := fun e => hrev (e ▸ hc)
    simp [this]
  unfold Base
  simp only [if_neg hne, h1, List.reverse_reverse, h2]

/-- C28: for every input `sanitizeFilename` returns a non-empty name without
leading or trailing whitespace and without `/` or `\`, and it maps such a name
to itself: `sanitizeFilename` is idempotent. -/
theorem sanitizeFilename_clean_and_idempotent (name : Str) :
    sanitizeFilename name ≠ [] ∧ Trimmed (sanitizeFilename name) ∧
      '/' ∉ sanitizeFilename name ∧ '\\' ∉ sanitizeFilename name ∧
      sanitizeFilename (sanitizeFilename name) = sanitizeFilename name := by
  have key : ∀ y : Str, y ≠ [] → Trimmed y → '/' ∉ y → '\\' ∉ y → sanitizeFilename y = y := by
    intro y hne ht hs hb
    unfold sanitizeFilename
    simp only [TrimSpace_of_trimmed y ht, Base_of_noSlash y hne hs,
      replaceChar_of_not_mem y '/' '_' hs, replaceChar_of_not_mem y '\\' '_' hb, if_neg hne]
  have hprops : sanitizeFilename name ≠ [] ∧ Trimmed (sanitizeFilename name) ∧
      '/' ∉ sanitizeFilename name ∧ '\\' ∉ sanitizeFilename name := by
    unfold sanitizeFilename
    simp only []
    split_ifs with h
    · refine ⟨by decide, ⟨?_, ?_⟩, by decide, by decide⟩
      · intro c hc
        have : c = 'f' := by
          have e : (lit "file").head? = some 'f' := rfl
          rw [e] at hc
          exact (Option.some.inj hc).symm
        rw [this]; decide
      · intro c hc
        have : c = 'e' := by
          have e : (lit "file").getLast? = some 'e' := rfl
          rw [e] at hc
          exact (Option.some.inj hc).symm
        rw [this]; decide
    · refine ⟨h, TrimSpace_trimmed _, ?_, ?_⟩
      · intro hm
        have hm2 := (TrimSpace_sublist _).subset hm
        exact not_mem_replaceChar_of_not_mem _ '\\' '_' '/'
          (not_mem_replaceChar _ '/' '_' (by decide)) (by decide) hm2
      · intro hm
        have hm2 := (TrimSpace_sublist _).subset hm
        exact not_mem_replaceChar _ '\\' '_' (by decide) hm2
  obtain ⟨h1, h2, h3, h4⟩ := hprops
  exact ⟨h1, h2, h3, h4, key _ h1 h2 h3 h4⟩

/-! ## PNG text chunk -/

set_option maxRecDepth 100000 in
/-- The model of `crc32.ChecksumIEEE` on the check value of the CRC catalogue:
the CRC-32 of the ASCII text `123456789` is `0xCBF43926`. -/
theorem ChecksumIEEE_check_value :
    ChecksumIEEE [49, 50, 51, 52, 53, 54, 55, 56, 57] = 0xCBF43926 := by
  decide

theorem be32_length (v : Nat) : (be32 v).length = 4 := rfl

/-- C27: for a PNG of at least 20 bytes `appendPNGTextChunk` returns the PNG
with one `tEXt` chunk inserted right before its last 12 bytes, the chunk being
the big-endian length of keyword, zero byte and text, the type `tEXt`, the
keyword, a zero byte, the text and the big-endian CRC-32 of type and data;
the result is 13 bytes plus keyword and text longer.  A shorter input is
returned unchanged. -/
theorem png_text_chunk_before_iend (pngData keyword text : Bytes) :
    (20 ≤ pngData.length →
        appendPNGTextChunk pngData keyword text =
          pngData.take (pngData.length - 12) ++ textChunk keyword text ++
            pngData.drop (pngData.length - 12) ∧
        (appendPNGTextChunk pngData keyword text).length =
          pngData.length + 13 + keyword.length + text.length) ∧
      (pngData.length < 20 → appendPNGTextChunk pngData keyword text = pngData) := by
  constructor
  · intro h
    have h1 : ¬ pngData.length < 12 := by omega
    have h2 : ¬ pngData.length - 12 < 8 := by omega
    have e : appendPNGTextChunk pngData keyword text =
        pngData.take (pngData.length - 12) ++ textChunk keyword text ++
          pngData.drop (pngData.length - 12) := by
      unfold appendPNGTextChunk textChunk tEXt
      simp only [if_neg h1, if_neg h2, List.length_append, List.length_singleton,
        List.append_assoc, Nat.add_assoc]
    refine ⟨e, ?_⟩
    rw [e]
    simp only [textChunk, tEXt, List.length_append, List.length_take, List.length_drop,
      be32_length, List.length_cons, List.length_nil]
    omega
  · intro h
    unfold appendPNGTextChunk
    by_cases h1 : pngData.length < 12
    · rw [if_pos h1]
    · rw [if_neg h1]
      have h2 : pngData.length - 12 < 8 := by omega
      simp only [if_pos h2]

/-! ## Split: the page numbers of `parsePageRanges` -/

theorem splitOn_cons_char (sep c : Char) (s : Str) :
    (c :: s).splitOn sep =
      if c = sep then [] :: s.splitOn sep else (s.splitOn sep).modifyHead (List.cons c) := by
  unfold List.splitOn
  rw [List.splitOnP_cons]
  by_cases h : c = sep <;> simp [h]

theorem not_mem_of_mem_splitOn (sep : Char) (s : Str) : ∀ x ∈ s.splitOn sep, sep ∉ x := by
  induction s with
  | nil =>
    intro x hx
    have e : ([] : Str).splitOn sep = [[]] := rfl
    rw [e] at hx
    simp at hx
    simp [hx]
  | cons ch s ih =>
    intro x hx
    rw [splitOn_cons_char] at hx
    split_ifs at hx with h
    · rcases List.mem_cons.1 hx with rfl | hx
      · simp
      · exact ih x hx
    · cases hs : s.splitOn sep with
      | nil => exact absurd hs (List.splitOnP_ne_nil _ _)
      | cons hd tl =>
        rw [hs] at hx ih
        simp only [List.modifyHead_cons, List.mem_cons] at hx
        rcases hx with rfl | hx
        · intro hmem
          rcases List.mem_cons.1 hmem with h1 | h1
          · exact h h1.symm
          · exact ih hd (List.mem_cons_self _ _) h1
        · exact ih x (List.mem_cons_of_mem _ hx)

theorem AtoiValue_nonneg (s : Str) (h : '-' ∉ s) : 0 ≤ AtoiValue s := by
  unfold AtoiValue
  split
  · rename_i r
    exact absurd (List.mem_cons_self _ _) h
  · simp only [Bool.false_eq_true, if_false]
    split_ifs <;> first | exact le_refl _ | (unfold maxInt; omega) | omega
  · simp only [Bool.false_eq_true, if_false]
    split_ifs <;> first | exact le_refl _ | (unfold maxInt; omega) | omega

theorem AtoiValue_le (s : Str) : AtoiValue s ≤ maxInt := by
  unfold AtoiValue
  split <;> simp only [] <;> split_ifs <;>
    first
      | exact le_refl _
      | (unfold maxInt minInt; omega)
      | (unfold maxInt; omega)

theorem Atoi_nonneg (s : Str) (n : Int) (h : '-' ∉ s) (hn : Atoi s = some n) : 0 ≤ n := by
  unfold Atoi at hn
  split at hn
  · exact absurd (List.mem_cons_self _ _) h
  · simp only [Bool.false_eq_true, if_false] at hn
    split_ifs at hn
    simp only [Option.some.injEq] at hn
    omega
  · simp only [Bool.false_eq_true, if_false] at hn
    split_ifs at hn
    simp only [Option.some.injEq] at hn
    omega

theorem wrap64_range (x : Int) : minInt ≤ wrap64 x ∧ wrap64 x ≤ maxInt := by
  unfold wrap64 minInt maxInt
  omega

theorem rangeLoop_never (fuel : Nat) (i : Int) (pages : List Int) (h1 : minInt ≤ i)
    (h2 : i ≤ maxInt) : rangeLoop fuel i maxInt pages = none := by
  induction fuel generalizing i pages with
  | zero => rfl
  | succ fuel ih =>
    unfold rangeLoop
    rw [if_pos h2]
    exact ih _ _ (wrap64_range _).1 (wrap64_range _).2

theorem rangeLoop_nonneg (fuel : Nat) (i e : Int) (pages r : List Int) (hi : 0 ≤ i)
    (he : e ≤ maxInt) (hp : ∀ p ∈ pages, 0 ≤ p) (h : rangeLoop fuel i e pages = some r) :
    ∀ p ∈ r, 0 ≤ p := by
  induction fuel generalizing i pages with
  | zero => cases h
  | succ fuel ih =>
    unfold rangeLoop at h
    split_ifs at h with hie
    · have hp2 : ∀ p ∈ pages ++ [i], 0 ≤ p := by
        intro p hpm
        rcases List.mem_append.1 hpm with h1 | h1
        · exact hp p h1
        · simp at h1; rw [h1]; exact hi
      by_cases hmax : i = maxInt
      · have hee : e = maxInt := by omega
        rw [hee, rangeLoop_never fuel _ _ (wrap64_range _).1 (wrap64_range _).2] at h
        cases h
      · have hlt : i + 1 ≤ maxInt := by omega
        have hmin : minInt ≤ i + 1 := by unfold minInt; omega
        rw [wrap64_id _ hmin hlt] at h
        exact ih (i + 1) _ (by omega) hp2 h
    · simp only [Option.some.injEq] at h
      rw [← h]
      exact hp

theorem parsePart_nonneg (fuel : Nat) (pages r : List Int) (part : Str)
    (hp : ∀ p ∈ pages, 0 ≤ p) (h : parsePart fuel pages part = some r) : ∀ p ∈ r, 0 ≤ p := by
  unfold parsePart at h
  simp only [] at h
  split_ifs at h with h1 h2
  · have hno : ∀ k, '-' ∉ TrimSpace (((TrimSpace part).splitOn '-').getD k []) := by
      intro k hm
      have hm2 := (TrimSpace_sublist _).subset hm
      rcases Nat.lt_or_ge k ((TrimSpace part).splitOn '-').length with hk | hk
      · rw [List.getD_eq_getElem _ _ hk] at hm2
        exact not_mem_of_mem_splitOn '-' _ _ (List.getElem_mem hk) hm2
      · rw [List.getD_eq_default _ _ hk] at hm2
        cases hm2
    exact rangeLoop_nonneg fuel _ _ pages r (AtoiValue_nonneg _ (hno 0)) (AtoiValue_le _) hp h
  · simp only [Option.some.injEq] at h
    rw [← h]; exact hp
  · split at h
    · rename_i num hnum
      simp only [Option.some.injEq] at h
      rw [← h]
      intro p hpm
      rcases List.mem_append.1 hpm with h3 | h3
      · exact hp p h3
      · simp at h3
        rw [h3]
        refine Atoi_nonneg _ num ?_ hnum
        intro hm
        exact h1 (by simpa using hm)
    · simp only [Option.some.injEq] at h
      rw [← h]; exact hp

theorem parsePageRanges_nonneg (fuel : Nat) (ranges : Str) (pages : List Int)
    (h : parsePageRanges fuel ranges = some pages) : ∀ p ∈ pages, 0 ≤ p := by
  unfold parsePageRanges at h
  have gen : ∀ (parts : List Str) (acc : Option (List Int)) (r : List Int),
      (∀ a, acc = some a → ∀ p ∈ a, 0 ≤ p) →
      parts.foldl (fun acc part => acc.bind (fun pages => parsePart fuel pages part)) acc =
        some r → ∀ p ∈ r, 0 ≤ p := by
    intro parts
    induction parts with
    | nil =>
      intro acc r ha hr
      exact ha r hr
    | cons part rest ih =>
      intro acc r ha hr
      rw [List.foldl_cons] at hr
      refine ih _ r ?_ hr
      intro a hacc
      cases acc with
      | none => cases hacc
      | some a0 => exact parsePart_nonneg fuel a0 a part (ha a0 rfl) hacc
  exact gen _ _ pages (fun a ha => by cases ha; intro p hp; cases hp) h

/-- C25 (counterexample): the token `0` gives the page list `[0]` and the
token `-2` gives `[0, 1, 2]`; in the mode `extract` `handleSplit` then asks
`qpdf` for page 0. -/
theorem page_zero_is_extracted :
    parsePageRanges 10 (lit "0") = some [0] ∧
      parsePageRanges 10 (lit "-2") = some [0, 1, 2] ∧
      (handleSplit quietEnv 10 (initBaseWorkDir (lit "/srv")) (extractRequest (lit "0"))).map
          (fun res => (res.1, runsOf res.2)) =
        some (Reply.download (lit "/downloads/job-1/a_extracted_pages.zip"),
          [(lit "qpdf", [lit "/srv/work/job-1/input.pdf", lit "--pages",
            lit "/srv/work/job-1/input.pdf", lit "0", lit "--",
            lit "/srv/work/job-1/extracted/a_page_0.pdf"])]) := by
  decide

theorem extractPages_runs (dir inPath pagesDir origBase : Str) (pages : List Int) (tr : Trace) :
    runsOf (extractPages dir inPath pagesDir origBase pages tr) =
      runsOf tr ++ pages.map (fun p => (lit "qpdf", qpdfPagesArgs inPath (Itoa p)
        (Join [pagesDir, origBase ++ lit "_page_" ++ Itoa p ++ lit ".pdf"]))) := by
  induction pages generalizing tr with
  | nil => simp [extractPages]
  | cons p rest ih =>
    unfold extractPages
    rw [ih, runsOf_append]
    simp [runsOf]

theorem zipAndReply_runs (env : Env) (jobID dir srcDir zipName failMsg : Str) (tr : Trace) :
    runsOf (zipAndReply env jobID dir srcDir zipName failMsg tr).2 = runsOf tr := by
  unfold zipAndReply
  simp only []
  split_ifs <;> simp [runsOf_append, runsOf]

theorem splitInJob_extract (env : Env) (fuel : Nat) (req : SplitRequest)
    (origBase jobID dir : Str) (tr : Trace) (res : Reply × Trace)
    (hmode : req.mode = lit "extract") (htr : runsOf tr = [])
    (h : splitInJob env fuel req origBase jobID dir tr = some res) :
    ∀ r ∈ runsOf res.2, r.1 = lit "qpdf" →
      ∃ pages p, parsePageRanges fuel req.ranges = some pages ∧ p ∈ pages ∧
      r = (lit "qpdf", qpdfPagesArgs (Join [dir, lit "input.pdf"]) (Itoa p)
        (Join [Join [dir, lit "extracted"], origBase ++ lit "_page_" ++ Itoa p ++ lit ".pdf"])) := by
  have h1 : ¬ (req.mode = lit "fixed_parts" ∧ req.ranges ≠ []) := by
    rw [hmode]; intro hh; exact absurd hh.1 (by decide)
  have h2 : ¬ (req.mode = lit "extract_merge" ∧ req.ranges ≠ []) := by
    rw [hmode]; intro hh; exact absurd hh.1 (by decide)
  have h4 : ¬ (req.mode = lit "ranges" ∧ req.ranges ≠ []) := by
    rw [hmode]; intro hh; exact absurd hh.1 (by decide)
  unfold splitInJob at h
  simp only [if_neg h1, if_neg h2, if_neg h4] at h
  by_cases h3 : req.mode = lit "extract" ∧ req.ranges ≠ []
  · rw [if_pos h3] at h
    by_cases hmk : env.mkdirAll tr (Join [dir, lit "extracted"]) = false
    · rw [if_pos hmk] at h
      simp only [Option.some.injEq] at h
      rw [← h]
      intro r hr
      simp [runsOf_append, runsOf, htr] at hr
    · rw [if_neg hmk] at h
      cases hp : parsePageRanges fuel req.ranges with
      | none => rw [hp] at h; cases h
      | some pages =>
        rw [hp] at h
        simp only [Option.some.injEq] at h
        rw [← h, zipAndReply_runs, extractPages_runs]
        intro r hr _
        simp only [runsOf_append, htr, runsOf, List.nil_append, List.append_nil] at hr
        obtain ⟨p, hpm, rfl⟩ := List.mem_map.1 hr
        exact ⟨pages, p, rfl, hpm, rfl⟩
  · rw [if_neg h3] at h
    by_cases hmk : env.mkdirAll tr (Join [dir, lit "pages"]) = false
    · rw [if_pos hmk] at h
      simp only [Option.some.injEq] at h
      rw [← h]
      intro r hr
      simp [runsOf_append, runsOf, htr] at hr
    · rw [if_neg hmk] at h
      have hq : ∀ r ∈ runsOf (tr ++ [Event.mkdirAll (Join [dir, lit "pages"])] ++
          [Event.run dir (lit "pdfcpu") [lit "extract", lit "-mode", lit "page",
            Join [dir, lit "input.pdf"], Join [dir, lit "pages"]]]), r.1 ≠ lit "qpdf" := by
        intro r hr
        simp [runsOf_append, runsOf, htr] at hr
        rw [hr]
        show lit "pdfcpu" ≠ lit "qpdf"
        decide
      split_ifs at h
      · simp only [Option.some.injEq] at h
        rw [← h]
        intro r hr hq2
        exact absurd hq2 (hq r hr)
      · simp only [Option.some.injEq] at h
        rw [← h, zipAndReply_runs]
        intro r hr hq2
        exact absurd hq2 (hq r hr)

/-- C25 (amended): every page number in the list returned by `parsePageRanges`
is at least 0, and in the mode `extract` every `qpdf` invocation of
`handleSplit` asks for such a page of the list: a negative page is never asked
for, page 0 can be. -/
theorem extracted_pages_never_negative (env : Env) (fuel : Nat) (base : Str)
    (req : SplitRequest) :
    (∀ pages, parsePageRanges fuel req.ranges = some pages → ∀ p ∈ pages, 0 ≤ p) ∧
      (∀ res, handleSplit env fuel base req = some res → req.mode = lit "extract" →
        ∀ r ∈ runsOf res.2, r.1 = lit "qpdf" →
          ∃ pages p, parsePageRanges fuel req.ranges = some pages ∧ p ∈ pages ∧ 0 ≤ p ∧
            r.2.getD 3 [] = Itoa p) := by
  refine ⟨fun pages h => parsePageRanges_nonneg fuel _ pages h, ?_⟩
  intro res h hmode r hr hq
  have key : ∃ pages p, parsePageRanges fuel req.ranges = some pages ∧ p ∈ pages ∧
      r = (lit "qpdf", qpdfPagesArgs (Join [jobDirOf env base, lit "input.pdf"]) (Itoa p)
        (Join [Join [jobDirOf env base, lit "extracted"],
          baseNameWithoutExt (req.filename.getD []) ++ lit "_page_" ++ Itoa p ++ lit ".pdf"])) := by
    unfold handleSplit newJobDir at h
    by_cases hpost : req.isPost = false
    · rw [if_pos hpost] at h
      simp only [Option.some.injEq] at h
      rw [← h] at hr; simp [runsOf] at hr
    rw [if_neg hpost] at h
    by_cases hform : req.formOk = false
    · rw [if_pos hform] at h
      simp only [Option.some.injEq] at h
      rw [← h] at hr; simp [runsOf] at hr
    rw [if_neg hform] at h
    cases hf : req.filename with
    | none =>
      rw [hf] at h
      simp only [Option.some.injEq] at h
      rw [← h] at hr; simp [runsOf] at hr
    | some filename =>
      rw [hf] at h
      dsimp only at h
      by_cases hmk : env.mkdirAll [] (Join [base, env.uuid []]) = true
      · simp only [hmk, if_true, List.nil_append] at h
        by_cases hsave : env.saveUpload [Event.mkdirAll (Join [base, env.uuid []])]
            (Join [Join [base, env.uuid []], lit "input.pdf"]) = false
        · rw [if_pos hsave] at h
          simp only [Option.some.injEq] at h
          rw [← h] at hr; simp [runsOf] at hr
        · rw [if_neg hsave] at h
          exact splitInJob_extract env fuel req (baseNameWithoutExt filename) (env.uuid [])
            (Join [base, env.uuid []]) ([Event.mkdirAll (Join [base, env.uuid []])] ++
              [Event.saveUpload (Join [Join [base, env.uuid []], lit "input.pdf"])])
            res hmode rfl h r hr hq
      · simp only [hmk, List.nil_append] at h
        have h' := Option.some.inj h
        rw [← h'] at hr; simp [runsOf] at hr
  obtain ⟨pages, p, h1, h2, rfl⟩ := key
  exact ⟨pages, p, h1, h2, parsePageRanges_nonneg fuel _ pages h1 p h2, rfl⟩

/-! ## Split: `parsePageRanges` on a list of numbers and ranges -/

theorem digitChar_plain (d : Nat) :
    isSpace (digitChar d) = false ∧ digitChar d ≠ '-' ∧ digitChar d ≠ ',' := by
  have h : ∀ k, k < 10 → isSpace (Char.ofNat (48 + k)) = false ∧ Char.ofNat (48 + k) ≠ '-' ∧
      Char.ofNat (48 + k) ≠ ',' := by decide
  exact h (d % 10) (Nat.mod_lt _ (by decide))

theorem natToDec_plain (n : Nat) :
    ∀ c ∈ natToDec n, isSpace c = false ∧ c ≠ '-' ∧ c ≠ ',' :=
  natDigits_chars _ digitChar_plain (n + 1) n [] (by simp)

theorem natToDec_trimmed (n : Nat) : Trimmed (natToDec n) :=
  ⟨fun c hc => (natToDec_plain n c (List.mem_of_mem_head? hc)).1,
    fun c hc => (natToDec_plain n c (List.mem_of_mem_getLast? hc)).1⟩

theorem dropWhile_blanks (k : Nat) (s : Str) :
    (blanks k ++ s).dropWhile isSpace = s.dropWhile isSpace := by
  induction k with
  | zero => rfl
  | succ k ih =>
    have e : blanks (k + 1) ++ s = ' ' :: (blanks k ++ s) := by
      simp [blanks, List.replicate_succ]
    rw [e, List.dropWhile_cons_of_pos (by decide), ih]

theorem TrimSpace_blanks (l r : Nat) (core : Str) (hne : core ≠ []) (ht : Trimmed core) :
    TrimSpace (blanks l ++ core ++ blanks r) = core := by
  unfold TrimSpace
  have h1 : (blanks l ++ core ++ blanks r).dropWhile isSpace = core ++ blanks r := by
    rw [List.append_assoc, dropWhile_blanks]
    apply dropWhile_self
    intro c hc
    cases core with
    | nil => exact absurd rfl hne
    | cons x t => exact ht.1 c (by simpa using hc)
  have h2 : (core ++ blanks r).reverse.dropWhile isSpace = core.reverse := by
    rw [List.reverse_append]
    have e : (blanks r).reverse = blanks r := by simp [blanks]
    rw [e, dropWhile_blanks]
    apply dropWhile_self
    intro c hc
    rw [List.head?_reverse] at hc
    exact ht.2 c hc
  rw [h1, h2, List.reverse_reverse]

theorem AtoiValue_natToDec (n : Nat) (h : (n : Int) ≤ maxInt) :
    AtoiValue (natToDec n) = (n : Int) := by
  have hv := digitsValue_natToDec n
  have htw : (natToDec n).takeWhile Char.isDigit = natToDec n := by
    rw [List.takeWhile_eq_self_iff]
    intro c hc
    exact (natToDec_chars n c hc).1
  have hne := natToDec_ne_nil n
  have hch := natToDec_chars n
  revert hv htw hne hch
  generalize natToDec n = s
  intro hv htw hne hch
  cases s with
  | nil => exact absurd rfl hne
  | cons c t =>
    have hc := hch c (List.mem_cons_self _ _)
    unfold AtoiValue
    split
    · rename_i r heq
      injection heq with h1 _
      exact absurd h1 hc.2.1
    · rename_i r heq
      injection heq with h1 _
      exact absurd h1 hc.2.2.1
    · have h64 : ¬ (2 ^ 64 - 1 < n) := by
        unfold maxInt at h; omega
      have h63 : ¬ (2 ^ 63 ≤ n) := by
        unfold maxInt at h; omega
      simp only [htw, hv, Bool.false_eq_true, if_false, ne_eq, not_true_eq_false, if_neg hne,
        if_neg h64, if_neg h63]

theorem rangeLoop_span (k : Nat) : ∀ (fuel a b : Nat) (pages : List Int), b + 1 - a = k →
    a ≤ b + 1 → (b : Int) < maxInt → k < fuel →
    rangeLoop fuel (a : Int) (b : Int) pages =
      some (pages ++ (List.range' a k).map (fun j => (j : Int))) := by
  induction k with
  | zero =>
    intro fuel a b pages hk hab hb hf
    obtain ⟨f, rfl⟩ : ∃ f, fuel = f + 1 := ⟨fuel - 1, by omega⟩
    unfold rangeLoop
    rw [if_neg (by omega)]
    simp
  | succ k ih =>
    intro fuel a b pages hk hab hb hf
    obtain ⟨f, rfl⟩ : ∃ f, fuel = f + 1 := ⟨fuel - 1, by omega⟩
    unfold rangeLoop
    rw [if_pos (by omega)]
    have hw : wrap64 ((a : Int) + 1) = ((a + 1 : Nat) : Int) := by
      rw [wrap64_id _ (by unfold minInt; omega) (by omega)]
      simp
    rw [hw, ih f (a + 1) b (pages ++ [(a : Int)]) (by omega) (by omega) hb (by omega)]
    simp [List.range'_succ]

theorem contains_false_of_not_mem (s : Str) (c : Char) (h : c ∉ s) : s.contains c = false := by
  rw [Bool.eq_false_iff]
  intro hc
  exact h (by simpa using hc)

theorem contains_true_of_mem (s : Str) (c : Char) (h : c ∈ s) : s.contains c = true := by
  simpa using h

theorem blanks_plain (k : Nat) : ∀ c ∈ blanks k, c ≠ '-' ∧ c ≠ ',' := by
  intro c hc
  have := (List.mem_replicate.1 hc).2
  rw [this]
  exact ⟨by decide, by decide⟩

theorem parsePart_one (fuel l r n : Nat) (pages : List Int) (h : (n : Int) ≤ maxInt) :
    parsePart fuel pages (PageToken.one l r n).text = some (pages ++ [(n : Int)]) := by
  unfold parsePart PageToken.text
  simp only [TrimSpace_blanks l r _ (natToDec_ne_nil n) (natToDec_trimmed n)]
  rw [contains_false_of_not_mem _ '-' (fun hm => (natToDec_plain n _ hm).2.1 rfl)]
  simp only [Bool.false_eq_true, if_false, Atoi_natToDec n h]

theorem span_core_trimmed (m1 m2 a b : Nat) :
    natToDec a ++ blanks m1 ++ ['-'] ++ blanks m2 ++ natToDec b ≠ [] ∧
      Trimmed (natToDec a ++ blanks m1 ++ ['-'] ++ blanks m2 ++ natToDec b) := by
  obtain ⟨x, t, hxt⟩ : ∃ x t, natToDec a = x :: t := by
    cases h : natToDec a with
    | nil => exact absurd h (natToDec_ne_nil a)
    | cons x t => exact ⟨x, t, rfl⟩
  refine ⟨by rw [hxt]; simp, ?_, ?_⟩
  · intro c hc
    rw [hxt] at hc
    simp only [List.cons_append, List.head?_cons, Option.some.injEq] at hc
    rw [← hc]
    exact (natToDec_plain a x (by rw [hxt]; exact List.mem_cons_self _ _)).1
  · intro c hc
    rw [List.getLast?_append_of_ne_nil _ (natToDec_ne_nil b)] at hc
    exact (natToDec_trimmed b).2 c hc

theorem span_core_split (m1 m2 a b : Nat) :
    (natToDec a ++ blanks m1 ++ ['-'] ++ blanks m2 ++ natToDec b).splitOn '-' =
      [natToDec a ++ blanks m1, blanks m2 ++ natToDec b] := by
  have e : natToDec a ++ blanks m1 ++ ['-'] ++ blanks m2 ++ natToDec b =
      ['-'].intercalate [natToDec a ++ blanks m1, blanks m2 ++ natToDec b] := by
    simp [List.intercalate]
  rw [e]
  apply List.splitOn_intercalate
  · intro x hx hm
    simp only [List.mem_cons, List.mem_singleton, List.not_mem_nil, or_false] at hx
    rcases hx with rfl | rfl
    · rcases List.mem_append.1 hm with h | h
      · exact (natToDec_plain a _ h).2.1 rfl
      · exact (blanks_plain m1 _ h).1 rfl
    · rcases List.mem_append.1 hm with h | h
      · exact (blanks_plain m2 _ h).1 rfl
      · exact (natToDec_plain b _ h).2.1 rfl
  · simp

theorem parsePart_span (fuel l m1 m2 r a b : Nat) (pages : List Int) (hab : a ≤ b)
    (hb : (b : Int) < maxInt) (hf : b + 1 - a < fuel) :
    parsePart fuel pages (PageToken.span l m1 m2 r a b).text =
      some (pages ++ (PageToken.span l m1 m2 r a b).pages) := by
  unfold parsePart PageToken.text PageToken.pages
  obtain ⟨hne, ht⟩ := span_core_trimmed m1 m2 a b
  have ha : (a : Int) ≤ maxInt := by omega
  have t1 : TrimSpace (natToDec a ++ blanks m1) = natToDec a := by
    have := TrimSpace_blanks 0 m1 (natToDec a) (natToDec_ne_nil a) (natToDec_trimmed a)
    simpa [blanks] using this
  have t2 : TrimSpace (blanks m2 ++ natToDec b) = natToDec b := by
    have := TrimSpace_blanks m2 0 (natToDec b) (natToDec_ne_nil b) (natToDec_trimmed b)
    simpa [blanks] using this
  simp only [TrimSpace_blanks l r _ hne ht]
  rw [contains_true_of_mem _ '-' (by simp)]
  simp only [if_true, span_core_split, List.length_cons, List.length_nil, List.getD_cons_zero,
    List.getD_cons_succ, t1, t2, AtoiValue_natToDec a ha, AtoiValue_natToDec b (by omega)]
  exact rangeLoop_span _ fuel a b pages rfl (by omega) hb hf

theorem token_text_no_comma (t : PageToken) : ',' ∉ t.text := by
  cases t with
  | one l r n =>
    unfold PageToken.text
    intro hm
    rcases List.mem_append.1 hm with h | h
    · rcases List.mem_append.1 h with h | h
      · exact (blanks_plain l _ h).2 rfl
      · exact (natToDec_plain n _ h).2.2 rfl
    · exact (blanks_plain r _ h).2 rfl
  | span l m1 m2 r a b =>
    unfold PageToken.text
    intro hm
    simp only [List.mem_append, List.mem_singleton] at hm
    rcases hm with ((h | ((((h | h) | h) | h) | h)) | h)
    · exact (blanks_plain l _ h).2 rfl
    · exact (natToDec_plain a _ h).2.2 rfl
    · exact (blanks_plain m1 _ h).2 rfl
    · exact absurd h (by decide)
    · exact (blanks_plain m2 _ h).2 rfl
    · exact (natToDec_plain b _ h).2.2 rfl
    · exact (blanks_plain r _ h).2 rfl

theorem parsePart_token (fuel : Nat) (t : PageToken) (pages : List Int) (hok : t.ok)
    (hf : t.steps < fuel) : parsePart fuel pages t.text = some (pages ++ t.pages) := by
  cases t with
  | one l r n => exact parsePart_one fuel l r n pages hok
  | span l m1 m2 r a b => exact parsePart_span fuel l m1 m2 r a b pages hok.1 hok.2 hf

theorem foldl_parsePart_tokens (fuel : Nat) (tokens : List PageToken) (pages : List Int)
    (hok : ∀ t ∈ tokens, t.ok) (hf : ∀ t ∈ tokens, t.steps < fuel) :
    (tokens.map PageToken.text).foldl
        (fun acc part => acc.bind (fun pages => parsePart fuel pages part)) (some pages) =
      some (pages ++ tokens.flatMap PageToken.pages) := by
  induction tokens generalizing pages with
  | nil => simp
  | cons t rest ih =>
    rw [List.map_cons, List.foldl_cons, Option.bind,
      parsePart_token fuel t pages (hok t (List.mem_cons_self _ _))
        (hf t (List.mem_cons_self _ _)),
      ih _ (fun u hu => hok u (List.mem_cons_of_mem _ hu))
        (fun u hu => hf u (List.mem_cons_of_mem _ hu))]
    simp [List.flatMap]

/-- C24 (counterexample): for the range `9223372036854775807-9223372036854775807`,
whose only page is the largest `int`, and for `1-99999999999999999999` the
loop of `parsePageRanges` never ends, whatever the fuel; the single number
`99999999999999999999` is dropped. -/
theorem page_list_beyond_int :
    (∀ fuel, parsePageRanges fuel (lit "9223372036854775807-9223372036854775807") = none) ∧
      (∀ fuel, parsePageRanges fuel (lit "1-99999999999999999999") = none) ∧
      parsePageRanges 10 (lit "99999999999999999999") = some [] := by
  refine ⟨?_, ?_, by decide⟩
  · intro fuel
    have e : parsePageRanges fuel (lit "9223372036854775807-9223372036854775807") =
        rangeLoop fuel maxInt maxInt [] := rfl
    rw [e]
    exact rangeLoop_never fuel _ _ (by decide) (le_refl _)
  · intro fuel
    have e : parsePageRanges fuel (lit "1-99999999999999999999") =
        rangeLoop fuel 1 maxInt [] := rfl
    rw [e]
    exact rangeLoop_never fuel _ _ (by decide) (by decide)

/-- C24 (amended): `parsePageRanges("1,5-8") = [1, 5, 6, 7, 8]`, and for every
comma-separated list of tokens, each a decimal number `n` in the range of
`int` or a range `a-b` with `a <= b` and `b` below the largest `int`, with
any blanks around the tokens, the numbers and the dash, the result is the
concatenation in token order of `[n]` and `[a, a+1, ..., b]`; the range loops
end as soon as the fuel exceeds the length of the longest range. -/
theorem parsePageRanges_concatenates (fuel : Nat) (tokens : List PageToken)
    (hok : ∀ t ∈ tokens, t.ok) (hf : ∀ t ∈ tokens, t.steps < fuel) :
    parsePageRanges fuel (pageListText tokens) = some (tokens.flatMap PageToken.pages) ∧
      parsePageRanges 5 (lit "1,5-8") = some [1, 5, 6, 7, 8] := by
  refine ⟨?_, by decide⟩
  unfold parsePageRanges pageListText
  cases tokens with
  | nil => rfl
  | cons t rest =>
    rw [List.splitOn_intercalate _ ',' (by
      intro x hx
      obtain ⟨u, -, rfl⟩ := List.mem_map.1 hx
      exact token_text_no_comma u) (by simp)]
    have := foldl_parsePart_tokens fuel (t :: rest) [] hok hf
    simpa using this

/-- Witness of C24 (amended): the tokens `1` and ` 5 - 8`, which stand for the
pages 1, 5, 6, 7, 8. -/
theorem parsePageRanges_concatenates_witness :
    parsePageRanges 5 (pageListText [PageToken.one 0 0 1, PageToken.span 1 1 1 0 5 8]) =
        some [1, 5, 6, 7, 8] ∧
      pageListText [PageToken.one 0 0 1, PageToken.span 1 1 1 0 5 8] = lit "1, 5 - 8" :=
  ⟨(parsePageRanges_concatenates 5 [PageToken.one 0 0 1, PageToken.span 1 1 1 0 5 8]
    (by
      intro t ht
      simp only [List.mem_cons, List.mem_singleton, List.not_mem_nil, or_false] at ht
      rcases ht with rfl | rfl
      · show ((1 : Nat) : Int) ≤ maxInt
        decide
      · exact ⟨by decide, by decide⟩)
    (by
      intro t ht
      simp only [List.mem_cons, List.mem_singleton, List.not_mem_nil, or_false] at ht
      rcases ht with rfl | rfl <;> decide)).1, by decide⟩

/-! ## The inline markers of `applyInlineMarkdown` -/

theorem Index_split (sub : Str) : ∀ (s : Str) (i : Nat), Index sub s = some i →
    s = s.take i ++ sub ++ s.drop (i + sub.length) := by
  intro s
  induction s with
  | nil =>
    intro i h
    unfold Index at h
    split_ifs at h with h0
    subst h0
    simp
  | cons c t ih =>
    intro i h
    unfold Index at h
    split_ifs at h with h0
    · cases h
      unfold startsWith at h0
      obtain ⟨r, hr⟩ := List.isPrefixOf_iff_prefix.1 h0
      rw [← hr]
      simp
    · cases hj : Index sub t with
      | none => rw [hj] at h; cases h
      | some j =>
        rw [hj] at h
        cases h
        have e := ih j hj
        have e2 : j + 1 + sub.length = (j + sub.length) + 1 := by omega
        rw [e2]
        simp only [List.take_succ_cons, List.drop_succ_cons, List.cons_append]
        exact congrArg (List.cons c) e

theorem Index_char_none (c : Char) : ∀ s : Str, Index [c] s = none → c ∉ s := by
  intro s
  induction s with
  | nil => intro _; simp
  | cons d t ih =>
    intro h
    unfold Index at h
    split_ifs at h with h0
    cases hj : Index [c] t with
    | some j => rw [hj] at h; cases h
    | none =>
      intro hm
      rcases List.mem_cons.1 hm with e | e
      · apply h0
        subst e
        simp [startsWith, List.isPrefixOf]
      · exact ih hj e

theorem Index_char_before (c : Char) : ∀ (s : Str) (i : Nat), Index [c] s = some i →
    c ∉ s.take i := by
  intro s
  induction s with
  | nil => intro i _; simp
  | cons d t ih =>
    intro i h
    unfold Index at h
    split_ifs at h with h0
    · cases h
      simp
    · cases hj : Index [c] t with
      | none => rw [hj] at h; cases h
      | some j =>
        rw [hj] at h
        cases h
        simp only [List.take_succ_cons]
        intro hm
        rcases List.mem_cons.1 hm with e | e
        · apply h0
          subst e
          simp [startsWith, List.isPrefixOf]
        · exact ih j hj e

theorem Index_none_of_not_mem (c : Char) (rest : Str) : ∀ s : Str, c ∉ s →
    Index (c :: rest) s = none := by
  intro s
  induction s with
  | nil => intro _; simp [Index]
  | cons d t ih =>
    intro h
    have hd : ¬ c = d := fun e => h (by simp [e])
    have ht : c ∉ t := fun e => h (List.mem_cons_of_mem _ e)
    unfold Index
    rw [if_neg, ih ht]
    · rfl
    · simp [startsWith, List.isPrefixOf, hd]

/-- One turn of a loop of `applyInlineMarkdown` cuts the text at the two
markers: the old text is `a ++ marker ++ b ++ marker ++ c`, the new text has
the tags in place of the markers. -/
theorem replacePairs_cut (marker : Str) (result : Str) (start e : Nat)
    (h1 : Index marker result = some start)
    (h2 : Index marker (result.drop (start + marker.length)) = some e) :
    result = result.take start ++ marker
        ++ (result.take (e + (start + marker.length))).drop (start + marker.length) ++ marker
        ++ result.drop (e + (start + marker.length) + marker.length) := by
  have a1 := Index_split marker result start h1
  have a2 := Index_split marker _ e h2
  have e3 : (result.take (e + (start + marker.length))).drop (start + marker.length)
      = (result.drop (start + marker.length)).take e := by
    rw [List.drop_take]
    congr 1
    omega
  have e4 : result.drop (e + (start + marker.length) + marker.length)
      = (result.drop (start + marker.length)).drop (e + marker.length) := by
    rw [List.drop_drop]
    congr 1
    omega
  rw [e3, e4]
  calc result = result.take start ++ marker ++ result.drop (start + marker.length) := a1
    _ = _ := by
      conv_lhs => rw [a2]
      simp only [List.append_assoc]

theorem replacePairs_exit1 (m o cl : Str) (fuel : Nat) (s : Str) (h1 : Index m s = none) :
    replacePairs m o cl (fuel + 1) s = some s := by
  rw [replacePairs, h1]

theorem replacePairs_exit2 (m o cl : Str) (fuel : Nat) (s : Str) (start : Nat)
    (h1 : Index m s = some start) (h2 : Index m (s.drop (start + m.length)) = none) :
    replacePairs m o cl (fuel + 1) s = some s := by
  rw [replacePairs, h1]
  dsimp only
  rw [h2]

theorem replacePairs_turn (m o cl : Str) (fuel : Nat) (s : Str) (start e : Nat)
    (h1 : Index m s = some start) (h2 : Index m (s.drop (start + m.length)) = some e) :
    replacePairs m o cl (fuel + 1) s =
      replacePairs m o cl fuel
        (s.take start ++ o ++ (s.take (e + (start + m.length))).drop (start + m.length) ++ cl
          ++ s.drop (e + (start + m.length) + m.length)) := by
  rw [replacePairs, h1]
  dsimp only
  rw [h2]

/-- A property kept by every turn of a loop holds of the text the loop
leaves. -/
theorem replacePairs_keeps (m o cl : Str) (Q : Str → Prop)
    (hstep : ∀ a b c : Str, Q (a ++ m ++ b ++ m ++ c) → Q (a ++ o ++ b ++ cl ++ c)) :
    ∀ (fuel : Nat) (s r : Str), replacePairs m o cl fuel s = some r → Q s → Q r := by
  intro fuel
  induction fuel with
  | zero => intro s r h; simp [replacePairs] at h
  | succ k ih =>
    intro s r h hq
    cases h1 : Index m s with
    | none =>
      rw [replacePairs_exit1 m o cl k s h1] at h
      cases h
      exact hq
    | some start =>
      cases h2 : Index m (s.drop (start + m.length)) with
      | none =>
        rw [replacePairs_exit2 m o cl k s start h1 h2] at h
        cases h
        exact hq
      | some e =>
        rw [replacePairs_turn m o cl k s start e h1 h2] at h
        apply ih _ _ h
        apply hstep
        rw [← replacePairs_cut m s start e h1 h2]
        exact hq

/-- The text a loop leaves has no marker, or has no marker after its first
one. -/
theorem replacePairs_left (m o cl : Str) :
    ∀ (fuel : Nat) (s r : Str), replacePairs m o cl fuel s = some r →
      Index m r = none ∨
        ∃ start, Index m r = some start ∧ Index m (r.drop (start + m.length)) = none := by
  intro fuel
  induction fuel with
  | zero => intro s r h; simp [replacePairs] at h
  | succ k ih =>
    intro s r h
    cases h1 : Index m s with
    | none =>
      rw [replacePairs_exit1 m o cl k s h1] at h
      cases h
      exact Or.inl h1
    | some start =>
      cases h2 : Index m (s.drop (start + m.length)) with
      | none =>
        rw [replacePairs_exit2 m o cl k s start h1 h2] at h
        cases h
        exact Or.inr ⟨start, h1, h2⟩
      | some e =>
        rw [replacePairs_turn m o cl k s start e h1 h2] at h
        exact ih _ _ h

/-- More fuel does not change what a loop returns. -/
theorem replacePairs_more (m o cl : Str) :
    ∀ (fuel : Nat) (s r : Str), replacePairs m o cl fuel s = some r →
      ∀ fuel2, fuel ≤ fuel2 → replacePairs m o cl fuel2 s = some r := by
  intro fuel
  induction fuel with
  | zero => intro s r h; simp [replacePairs] at h
  | succ k ih =>
    intro s r h fuel2 hle
    obtain ⟨j, rfl⟩ : ∃ j, fuel2 = j + 1 := ⟨fuel2 - 1, by omega⟩
    cases h1 : Index m s with
    | none =>
      rw [replacePairs_exit1 m o cl k s h1] at h
      rw [replacePairs_exit1 m o cl j s h1]
      exact h
    | some start =>
      cases h2 : Index m (s.drop (start + m.length)) with
      | none =>
        rw [replacePairs_exit2 m o cl k s start h1 h2] at h
        rw [replacePairs_exit2 m o cl j s start h1 h2]
        exact h
      | some e =>
        rw [replacePairs_turn m o cl k s start e h1 h2] at h
        rw [replacePairs_turn m o cl j s start e h1 h2]
        exact ih _ _ h j (by omega)

/-- A loop whose marker holds a character the tags lack ends within as many
turns as the text has such characters. -/
theorem replacePairs_ends (m o cl : Str) (c : Char) (hm : c ∈ m) (ho : c ∉ o) (hc : c ∉ cl) :
    ∀ (fuel : Nat) (s : Str), s.count c < fuel → ∃ r, replacePairs m o cl fuel s = some r := by
  intro fuel
  induction fuel with
  | zero => intro s h; omega
  | succ k ih =>
    intro s h
    cases h1 : Index m s with
    | none => exact ⟨s, replacePairs_exit1 m o cl k s h1⟩
    | some start =>
      cases h2 : Index m (s.drop (start + m.length)) with
      | none => exact ⟨s, replacePairs_exit2 m o cl k s start h1 h2⟩
      | some e =>
        rw [replacePairs_turn m o cl k s start e h1 h2]
        apply ih
        have hcut := replacePairs_cut m s start e h1 h2
        have hs : s.count c = (s.take start).count c + m.count c
            + ((s.take (e + (start + m.length))).drop (start + m.length)).count c + m.count c
            + (s.drop (e + (start + m.length) + m.length)).count c := by
          conv_lhs => rw [hcut]
          simp only [List.count_append]
        have hpos : 0 < m.count c := List.count_pos_iff.2 hm
        have h0 : o.count c = 0 := List.count_eq_zero.2 ho
        have h3 : cl.count c = 0 := List.count_eq_zero.2 hc
        simp only [List.count_append, h0, h3]
        omega

/-- A loop does not change the number of a character that neither the marker
nor the tags hold, and does not raise the number of one the tags lack. -/
theorem replacePairs_count_le (m o cl : Str) (x : Char) (ho : x ∉ o) (hc : x ∉ cl)
    (fuel : Nat) (s r : Str) (h : replacePairs m o cl fuel s = some r) :
    r.count x ≤ s.count x := by
  refine replacePairs_keeps m o cl (fun t => t.count x ≤ s.count x) ?_ fuel s r h (le_refl _)
  intro a b c hq
  have h0 : o.count x = 0 := List.count_eq_zero.2 ho
  have h3 : cl.count x = 0 := List.count_eq_zero.2 hc
  simp only [List.count_append, h0, h3] at hq ⊢
  omega

theorem replacePairs_count_eq (m o cl : Str) (x : Char) (hm : x ∉ m) (ho : x ∉ o) (hc : x ∉ cl)
    (fuel : Nat) (s r : Str) (h : replacePairs m o cl fuel s = some r) :
    r.count x = s.count x := by
  refine replacePairs_keeps m o cl (fun t => t.count x = s.count x) ?_ fuel s r h rfl
  intro a b c hq
  have h0 : o.count x = 0 := List.count_eq_zero.2 ho
  have h3 : cl.count x = 0 := List.count_eq_zero.2 hc
  have h4 : m.count x = 0 := List.count_eq_zero.2 hm
  simp only [List.count_append, h0, h3, h4] at hq ⊢
  omega

/-- A loop with a one-character marker leaves at most one marker. -/
theorem replacePairs_char_left (c : Char) (o cl : Str) (fuel : Nat) (s r : Str)
    (h : replacePairs [c] o cl fuel s = some r) : r.count c ≤ 1 := by
  rcases replacePairs_left [c] o cl fuel s r h with h1 | ⟨start, h1, h2⟩
  · rw [List.count_eq_zero.2 (Index_char_none c r h1)]
    exact Nat.zero_le _
  · have e := Index_split [c] r start h1
    have a1 := Index_char_before c r start h1
    have a2 : c ∉ r.drop (start + 1) := Index_char_none c _ h2
    rw [e]
    simp only [List.count_append, List.count_eq_zero.2 a1, List.length_singleton,
      List.count_eq_zero.2 a2, List.count_singleton_self]
    omega

/-- A loop leaves a text without the first character of its marker as it
is. -/
theorem replacePairs_no_marker (c : Char) (rest o cl : Str) (fuel : Nat) (s : Str)
    (h : c ∉ s) : replacePairs (c :: rest) o cl (fuel + 1) s = some s :=
  replacePairs_exit1 _ o cl fuel s (Index_none_of_not_mem c rest s h)

/-- Enough fuel for the three loops of `applyInlineMarkdown`: the result
exists, does not depend on the fuel, and is made of the results of the three
loops. -/
theorem applyInlineMarkdown_runs (s : Str) :
    ∃ r1 r2 r3 : Str,
      replacePairs (lit "**") (lit "<strong>") (lit "</strong>") (s.length + 1) s = some r1 ∧
      replacePairs (lit "*") (lit "<em>") (lit "</em>") (s.length + 1) r1 = some r2 ∧
      replacePairs (lit "\x60") (lit "<code>") (lit "</code>") (s.length + 1) r2 = some r3 ∧
      ∀ fuel, s.length < fuel → applyInlineMarkdown fuel s = some r3 := by
  have hs : s.count '*' < s.length + 1 := Nat.lt_succ_of_le (List.count_le_length _ _)
  have ht : s.count '\x60' < s.length + 1 := Nat.lt_succ_of_le (List.count_le_length _ _)
  obtain ⟨r1, h1⟩ := replacePairs_ends (lit "**") (lit "<strong>") (lit "</strong>") '*'
    (by decide) (by decide) (by decide) _ s hs
  have c1 := replacePairs_count_le _ _ _ '*' (by decide) (by decide) _ s r1 h1
  have d1 := replacePairs_count_eq _ _ _ '\x60' (by decide) (by decide) (by decide) _ s r1 h1
  obtain ⟨r2, h2⟩ := replacePairs_ends (lit "*") (lit "<em>") (lit "</em>") '*'
    (by decide) (by decide) (by decide) (s.length + 1) r1 (by omega)
  have d2 := replacePairs_count_eq _ _ _ '\x60' (by decide) (by decide) (by decide) _ r1 r2 h2
  obtain ⟨r3, h3⟩ := replacePairs_ends (lit "\x60") (lit "<code>") (lit "</code>") '\x60'
    (by decide) (by decide) (by decide) (s.length + 1) r2 (by omega)
  refine ⟨r1, r2, r3, h1, h2, h3, ?_⟩
  intro fuel hf
  unfold applyInlineMarkdown
  rw [replacePairs_more _ _ _ _ s r1 h1 fuel (by omega)]
  simp only [Option.some_bind]
  rw [replacePairs_more _ _ _ _ r1 r2 h2 fuel (by omega)]
  simp only [Option.some_bind]
  exact replacePairs_more _ _ _ _ r2 r3 h3 fuel (by omega)

/-- C29: `applyInlineMarkdown` terminates on every input: some text is its
result for every fuel above the length of the input.  That result holds at
most one `*` and at most one backtick, and is the input itself when the input
holds neither character. -/
theorem applyInlineMarkdown_terminates_markers_paired (s : Str) :
    ∃ r : Str,
      (∀ fuel, s.length < fuel → applyInlineMarkdown fuel s = some r) ∧
      r.count '*' ≤ 1 ∧ r.count '\x60' ≤ 1 ∧
      ('*' ∉ s → '\x60' ∉ s → r = s) := by
  obtain ⟨r1, r2, r3, h1, h2, h3, hall⟩ := applyInlineMarkdown_runs s
  refine ⟨r3, hall, ?_, ?_, ?_⟩
  · have a := replacePairs_char_left '*' (lit "<em>") (lit "</em>") _ r1 r2 h2
    have b := replacePairs_count_eq _ _ _ '*' (by decide) (by decide) (by decide) _ r2 r3 h3
    omega
  · exact replacePairs_char_left '\x60' (lit "<code>") (lit "</code>") _ r2 r3 h3
  · intro hs ht
    have e1 : r1 = s := by
      have := replacePairs_no_marker '*' ['*'] (lit "<strong>") (lit "</strong>") s.length s hs
      have h1b : replacePairs ('*' :: ['*']) (lit "<strong>") (lit "</strong>") (s.length + 1) s
          = some r1 := h1
      rw [this] at h1b
      exact (Option.some.inj h1b).symm
    subst e1
    have e2 : r2 = r1 := by
      have := replacePairs_no_marker '*' [] (lit "<em>") (lit "</em>") r1.length r1 hs
      have h2b : replacePairs ('*' :: []) (lit "<em>") (lit "</em>") (r1.length + 1) r1
          = some r2 := h2
      rw [this] at h2b
      exact (Option.some.inj h2b).symm
    subst e2
    have := replacePairs_no_marker '\x60' [] (lit "<code>") (lit "</code>") r2.length r2 ht
    have h3b : replacePairs ('\x60' :: []) (lit "<code>") (lit "</code>") (r2.length + 1) r2
        = some r3 := h3
    rw [this] at h3b
    exact (Option.some.inj h3b).symm

/-! ## Tags in the output of `convertMarkdownToHTML` -/

theorem simpleTag_shape (t : Str) (h : simpleTag t = true) :
    ∃ body : Str, t = '<' :: (body ++ ['>']) ∧ '>' ∉ body := by
  cases t with
  | nil => simp [simpleTag] at h
  | cons c rest =>
    simp only [simpleTag, Bool.and_eq_true, decide_eq_true_eq, Bool.not_eq_true'] at h
    obtain ⟨⟨hc, hl⟩, hn⟩ := h
    refine ⟨rest.dropLast, ?_, ?_⟩
    · rw [hc, List.dropLast_append_getLast? '>' (by rw [hl]; rfl)]
    · intro hm
      have : rest.dropLast.contains '>' = true := List.contains_iff_exists_mem_beq.2 ⟨_, hm, by simp⟩
      rw [this] at hn
      cases hn

theorem first_sep_unique (c : Char) : ∀ (a b r q : Str), c ∉ a → c ∉ b →
    a ++ c :: r = b ++ c :: q → a = b := by
  intro a
  induction a with
  | nil =>
    intro b r q _ hb h
    cases b with
    | nil => rfl
    | cons d b =>
      simp only [List.nil_append, List.cons_append, List.cons.injEq] at h
      exact absurd (by simp [h.1]) hb
  | cons x a ih =>
    intro b r q ha hb h
    cases b with
    | nil =>
      simp only [List.nil_append, List.cons_append, List.cons.injEq] at h
      exact absurd (by simp [h.1]) ha
    | cons d b =>
      simp only [List.cons_append, List.cons.injEq] at h
      rw [h.1, ih b r q (fun e => ha (List.mem_cons_of_mem _ e))
        (fun e => hb (List.mem_cons_of_mem _ e)) h.2]

/-- Two simple tags that begin the same text are the same tag. -/
theorem simpleTag_unique (a t x : Str) (ha : simpleTag a = true) (ht : simpleTag t = true)
    (h1 : a <+: x) (h2 : t <+: x) : a = t := by
  obtain ⟨ba, rfl, na⟩ := simpleTag_shape a ha
  obtain ⟨bt, rfl, nt⟩ := simpleTag_shape t ht
  obtain ⟨ra, ea⟩ := h1
  obtain ⟨rt, et⟩ := h2
  have e : ba ++ '>' :: ra = bt ++ '>' :: rt := by
    have := ea.trans et.symm
    simpa using this
  rw [first_sep_unique '>' ba bt ra rt na nt e]

theorem simpleTag_head (a : Str) (ha : simpleTag a = true) : ∃ rest, a = '<' :: rest := by
  obtain ⟨b, rfl, _⟩ := simpleTag_shape a ha
  exact ⟨_, rfl⟩

theorem tagged_cons (tags : List Str) (c : Char) (t : Str) :
    tagged tags (c :: t) = true ↔
      (c = '<' → ∃ T ∈ tags, T <+: c :: t) ∧ tagged tags t = true := by
  simp only [tagged, Bool.and_eq_true, Bool.or_eq_true, decide_eq_true_eq, List.any_eq_true,
    List.isPrefixOf_iff_prefix]
  constructor
  · rintro ⟨h | h, h2⟩
    · exact ⟨fun e => absurd e h, h2⟩
    · exact ⟨fun _ => h, h2⟩
  · rintro ⟨h, h2⟩
    by_cases e : c = '<'
    · exact ⟨Or.inr (h e), h2⟩
    · exact ⟨Or.inl e, h2⟩

theorem tagged_append (tags : List Str) : ∀ a b : Str, tagged tags a = true →
    tagged tags b = true → tagged tags (a ++ b) = true := by
  intro a
  induction a with
  | nil => intro b _ hb; exact hb
  | cons c a ih =>
    intro b ha hb
    rw [List.cons_append, tagged_cons]
    rw [tagged_cons] at ha
    refine ⟨fun e => ?_, ih b ha.2 hb⟩
    obtain ⟨T, hT, hp⟩ := ha.1 e
    exact ⟨T, hT, hp.trans (List.prefix_append (c :: a) b)⟩

theorem tagged_text (tags : List Str) : ∀ s : Str, '<' ∉ s → tagged tags s = true := by
  intro s
  induction s with
  | nil => intro _; rfl
  | cons c s ih =>
    intro h
    rw [tagged_cons]
    exact ⟨fun e => absurd (by simp [e]) h, ih (fun e => h (List.mem_cons_of_mem _ e))⟩

theorem tagged_mono (tags more : List Str) (hsub : ∀ T ∈ tags, T ∈ more) :
    ∀ s : Str, tagged tags s = true → tagged more s = true := by
  intro s
  induction s with
  | nil => intro _; rfl
  | cons c s ih =>
    intro h
    rw [tagged_cons] at h ⊢
    refine ⟨fun e => ?_, ih h.2⟩
    obtain ⟨T, hT, hp⟩ := h.1 e
    exact ⟨T, hsub T hT, hp⟩

theorem tagged_suffix (tags : List Str) : ∀ a b : Str, tagged tags (a ++ b) = true →
    tagged tags b = true := by
  intro a
  induction a with
  | nil => intro b h; exact h
  | cons c a ih =>
    intro b h
    rw [List.cons_append, tagged_cons] at h
    exact ih b h.2

theorem prefix_before_char (c : Char) (T u v : Str) (h : T <+: u ++ c :: v) (hc : c ∉ T) :
    T <+: u := by
  by_cases hl : T.length ≤ u.length
  · exact List.prefix_of_prefix_length_le h (List.prefix_append u _) hl
  · exfalso
    have h2 : u ++ [c] <+: u ++ c :: v := by
      have : u ++ c :: v = (u ++ [c]) ++ v := by simp
      rw [this]
      exact List.prefix_append _ _
    have h3 : u ++ [c] <+: T :=
      List.prefix_of_prefix_length_le h2 h (by simp; omega)
    exact hc (h3.subset (by simp))

/-- A text cut at a character no tag holds: the part before the cut keeps its
tags whole. -/
theorem tagged_cut (tags : List Str) (c : Char) (hc : ∀ T ∈ tags, c ∉ T) :
    ∀ a v : Str, tagged tags (a ++ c :: v) = true → tagged tags a = true := by
  intro a
  induction a with
  | nil => intro _ _; rfl
  | cons d a ih =>
    intro v h
    rw [List.cons_append, tagged_cons] at h
    rw [tagged_cons]
    refine ⟨fun e => ?_, ih v h.2⟩
    obtain ⟨T, hT, hp⟩ := h.1 e
    exact ⟨T, hT, prefix_before_char c T (d :: a) v hp (hc T hT)⟩

/-- In a text whose `<` all begin simple tags, an occurrence of one or two
simple tags that begins inside the text ends inside it, unless the second tag
begins what follows. -/
theorem starts_within (tags : List Str) (hs : ∀ T ∈ tags, simpleTag T = true)
    (A B b : Str) (hA : simpleTag A = true)
    (hB : B = [] ∨ (simpleTag B = true ∧ ¬ B <+: b))
    (c : Char) (a : Str) (ht : tagged tags (c :: a) = true)
    (h : A ++ B <+: (c :: a) ++ b) : A ++ B <+: c :: a := by
  obtain ⟨ra, hra⟩ := simpleTag_head A hA
  have hc : c = '<' := by
    rw [hra] at h
    simp only [List.cons_append, List.cons_prefix_cons] at h
    exact h.1.symm
  obtain ⟨T, hT, hp⟩ := ((tagged_cons tags c a).1 ht).1 hc
  have e1 : A = T := simpleTag_unique A T _ hA (hs T hT)
    ((List.prefix_append A B).trans h) (hp.trans (List.prefix_append _ _))
  subst e1
  obtain ⟨a2, e⟩ := hp
  rw [← e] at h ht ⊢
  rw [List.append_assoc, List.prefix_append_right_inj] at h
  rw [List.prefix_append_right_inj]
  rcases hB with rfl | ⟨hB1, hB2⟩
  · exact List.nil_prefix
  · obtain ⟨rb, hrb⟩ := simpleTag_head B hB1
    cases a2 with
    | nil => exact absurd h hB2
    | cons d a3 =>
      have hd : d = '<' := by
        rw [hrb] at h
        simp only [List.cons_append, List.cons_prefix_cons] at h
        exact h.1.symm
      have ht2 := tagged_suffix tags A (d :: a3) ht
      obtain ⟨T2, hT2, hp2⟩ := ((tagged_cons tags d a3).1 ht2).1 hd
      have e2 : B = T2 := simpleTag_unique B T2 _ hB1 (hs T2 hT2) h
        (hp2.trans (List.prefix_append _ _))
      rw [e2]
      exact hp2

theorem countSub_append (tags : List Str) (hs : ∀ T ∈ tags, simpleTag T = true)
    (A B b : Str) (hA : simpleTag A = true)
    (hB : B = [] ∨ (simpleTag B = true ∧ ¬ B <+: b)) :
    ∀ a : Str, tagged tags a = true →
      countSub (A ++ B) (a ++ b) = countSub (A ++ B) a + countSub (A ++ B) b := by
  intro a
  induction a with
  | nil => intro _; simp [countSub]
  | cons c a ih =>
    intro ht
    have e : startsWith (c :: (a ++ b)) (A ++ B) = startsWith (c :: a) (A ++ B) := by
      rw [Bool.eq_iff_iff]
      unfold startsWith
      rw [List.isPrefixOf_iff_prefix, List.isPrefixOf_iff_prefix]
      constructor
      · exact starts_within tags hs A B b hA hB c a ht
      · intro h
        exact h.trans (List.prefix_append (c :: a) b)
    rw [List.cons_append, countSub, countSub, e, ih ((tagged_cons tags c a).1 ht).2]
    omega

theorem countSub_absent (tags : List Str) (hs : ∀ T ∈ tags, simpleTag T = true)
    (A B : Str) (hA : simpleTag A = true)
    (hB : A ∉ tags ∨ (simpleTag B = true ∧ B ∉ tags)) :
    ∀ s : Str, tagged tags s = true → countSub (A ++ B) s = 0 := by
  intro s
  induction s with
  | nil => intro _; rfl
  | cons c s ih =>
    intro ht
    have e : startsWith (c :: s) (A ++ B) = false := by
      rw [Bool.eq_false_iff]
      unfold startsWith
      rw [Ne, List.isPrefixOf_iff_prefix]
      intro h
      obtain ⟨ra, hra⟩ := simpleTag_head A hA
      have hc : c = '<' := by
        rw [hra] at h
        simp only [List.cons_append, List.cons_prefix_cons] at h
        exact h.1.symm
      obtain ⟨T, hT, hp⟩ := ((tagged_cons tags c s).1 ht).1 hc
      have e1 : A = T := simpleTag_unique A T _ hA (hs T hT)
        ((List.prefix_append A B).trans h) hp
      subst e1
      rcases hB with hB | ⟨hB1, hB2⟩
      · exact hB hT
      · obtain ⟨s2, e⟩ := hp
        rw [← e] at h ht
        rw [List.prefix_append_right_inj] at h
        obtain ⟨rb, hrb⟩ := simpleTag_head B hB1
        cases s2 with
        | nil =>
          rw [hrb] at h
          simp at h
        | cons d s3 =>
          have hd : d = '<' := by
            rw [hrb] at h
            simp only [List.cons_prefix_cons] at h
            exact h.1.symm
          have ht2 := tagged_suffix tags A (d :: s3) ht
          obtain ⟨T2, hT2, hp2⟩ := ((tagged_cons tags d s3).1 ht2).1 hd
          have e2 : B = T2 := simpleTag_unique B T2 _ hB1 (hs T2 hT2) h hp2
          exact hB2 (e2 ▸ hT2)
    rw [countSub, e, ih ((tagged_cons tags c s).1 ht).2]
    rfl

theorem pageTags_simple : ∀ T ∈ pageTags, simpleTag T = true := by decide

theorem lineTags_simple : ∀ T ∈ lineTags, simpleTag T = true := by decide

theorem inline_in_line : ∀ T ∈ inlineTags, T ∈ lineTags := by decide

theorem line_in_page : ∀ T ∈ lineTags, T ∈ pageTags := by decide

/-- A piece written after a tagged text adds its own block tags to the
counts, when it does not begin with the second half of a two-tag bracket. -/
theorem block_counts (body W : Str) (hb : tagged pageTags body = true)
    (h1 : ¬ lit "<code>" <+: W) (h2 : ¬ lit "</pre>" <+: W) :
    countSub (lit "<ul>") (body ++ W) = countSub (lit "<ul>") body + countSub (lit "<ul>") W ∧
    countSub (lit "</ul>") (body ++ W)
      = countSub (lit "</ul>") body + countSub (lit "</ul>") W ∧
    countSub (lit "<pre><code>") (body ++ W)
      = countSub (lit "<pre><code>") body + countSub (lit "<pre><code>") W ∧
    countSub (lit "</code></pre>") (body ++ W)
      = countSub (lit "</code></pre>") body + countSub (lit "</code></pre>") W := by
  refine ⟨?_, ?_, ?_, ?_⟩
  · have := countSub_append pageTags pageTags_simple (lit "<ul>") [] W (by decide)
      (Or.inl rfl) body hb
    rwa [List.append_nil] at this
  · have := countSub_append pageTags pageTags_simple (lit "</ul>") [] W (by decide)
      (Or.inl rfl) body hb
    rwa [List.append_nil] at this
  · exact countSub_append pageTags pageTags_simple (lit "<pre>") (lit "<code>") W (by decide)
      (Or.inr ⟨by decide, h1⟩) body hb
  · exact countSub_append pageTags pageTags_simple (lit "</code>") (lit "</pre>") W (by decide)
      (Or.inr ⟨by decide, h2⟩) body hb

/-- A text with line tags only holds none of the four block tags. -/
theorem line_counts (W : Str) (h : tagged lineTags W = true) :
    countSub (lit "<ul>") W = 0 ∧ countSub (lit "</ul>") W = 0 ∧
    countSub (lit "<pre><code>") W = 0 ∧ countSub (lit "</code></pre>") W = 0 := by
  refine ⟨?_, ?_, ?_, ?_⟩
  · have := countSub_absent lineTags lineTags_simple (lit "<ul>") [] (by decide)
      (Or.inl (by decide)) W h
    rwa [List.append_nil] at this
  · have := countSub_absent lineTags lineTags_simple (lit "</ul>") [] (by decide)
      (Or.inl (by decide)) W h
    rwa [List.append_nil] at this
  · exact countSub_absent lineTags lineTags_simple (lit "<pre>") (lit "<code>") (by decide)
      (Or.inl (by decide)) W h
  · exact countSub_absent lineTags lineTags_simple (lit "</code>") (lit "</pre>") (by decide)
      (Or.inr ⟨by decide, by decide⟩) W h

theorem Open_append (body W : Str) (u c u2 c2 : Nat) (h : Open body u c)
    (hW : tagged pageTags W = true)
    (h1 : ¬ lit "<code>" <+: W) (h2 : ¬ lit "</pre>" <+: W)
    (hu : u + countSub (lit "<ul>") W = countSub (lit "</ul>") W + u2)
    (hc : c + countSub (lit "<pre><code>") W = countSub (lit "</code></pre>") W + c2) :
    Open (body ++ W) u2 c2 := by
  obtain ⟨ht, e1, e2⟩ := h
  obtain ⟨a1, a2, a3, a4⟩ := block_counts body W ht h1 h2
  refine ⟨tagged_append _ _ _ ht hW, ?_, ?_⟩
  · rw [a1, a2]; omega
  · rw [a3, a4]; omega

theorem Open_line (body W : Str) (u c : Nat) (h : Open body u c)
    (hW : tagged lineTags W = true)
    (h1 : ¬ lit "<code>" <+: W) (h2 : ¬ lit "</pre>" <+: W) :
    Open (body ++ W) u c := by
  obtain ⟨z1, z2, z3, z4⟩ := line_counts W hW
  exact Open_append body W u c u c h (tagged_mono _ _ line_in_page W hW) h1 h2
    (by rw [z1, z2]; omega) (by rw [z3, z4]; omega)

theorem replacePairs_tagged (tags : List Str) (mc : Char) (mr o cl : Str)
    (hmc : ∀ T ∈ tags, mc ∉ T) (ho : tagged tags o = true) (hcl : tagged tags cl = true)
    (fuel : Nat) (s r : Str) (h : replacePairs (mc :: mr) o cl fuel s = some r)
    (hs : tagged tags s = true) : tagged tags r = true := by
  refine replacePairs_keeps (mc :: mr) o cl (fun t => tagged tags t = true) ?_ fuel s r h hs
  intro a b c hq
  have e : a ++ (mc :: mr) ++ b ++ (mc :: mr) ++ c
      = a ++ mc :: (mr ++ b ++ (mc :: mr) ++ c) := by simp
  have ha := tagged_cut tags mc hmc a _ (e ▸ hq)
  have e2 : a ++ (mc :: mr) ++ b ++ (mc :: mr) ++ c
      = (a ++ (mc :: mr)) ++ (b ++ mc :: (mr ++ c)) := by simp
  have hrest := tagged_suffix tags _ _ (e2 ▸ hq)
  have hb := tagged_cut tags mc hmc b _ hrest
  have e3 : b ++ mc :: (mr ++ c) = (b ++ (mc :: mr)) ++ c := by simp
  have hc := tagged_suffix tags _ _ (e3 ▸ hrest)
  exact tagged_append _ _ _ (tagged_append _ _ _ (tagged_append _ _ _
    (tagged_append _ _ _ ha ho) hb) hcl) hc

/-- The text `applyInlineMarkdown` makes of a text without `<` has all its
`<` in the inline tags. -/
theorem applyInlineMarkdown_tagged (fuel : Nat) (x t : Str)
    (h : applyInlineMarkdown fuel x = some t) (hx : '<' ∉ x) :
    tagged inlineTags t = true := by
  unfold applyInlineMarkdown at h
  obtain ⟨r1, h1, h⟩ := Option.bind_eq_some.1 h
  obtain ⟨r2, h2, h3⟩ := Option.bind_eq_some.1 h
  have t1 := replacePairs_tagged inlineTags '*' ['*'] _ _ (by decide) (by decide) (by decide)
    fuel x r1 h1 (tagged_text _ x hx)
  have t2 := replacePairs_tagged inlineTags '*' [] _ _ (by decide) (by decide) (by decide)
    fuel r1 r2 h2 t1
  exact replacePairs_tagged inlineTags '\x60' [] _ _ (by decide) (by decide) (by decide)
    fuel r2 t h3 t2

theorem not_prefix_lit (B o rest : Str) (h : ¬ B.take o.length <+: o) : ¬ B <+: o ++ rest := by
  intro hp
  apply h
  have := hp.take o.length
  rwa [List.take_left'  rfl] at this

theorem not_prefix_text (B W : Str) (hB : '<' ∈ B) (hW : '<' ∉ W) : ¬ B <+: W :=
  fun h => hW (h.subset hB)

theorem not_mem_replaceCharWith (c : Char) (new : Str) (hn : c ∉ new) :
    ∀ s : Str, c ∉ replaceCharWith s c new := by
  intro s
  induction s with
  | nil => simp [replaceCharWith]
  | cons d s ih =>
    unfold replaceCharWith at ih ⊢
    rw [List.flatMap_cons, List.mem_append]
    rintro (h | h)
    · split_ifs at h with e
      · exact hn h
      · simp at h
        exact e h.symm
    · exact ih h

theorem not_mem_replaceCharWith_of_not_mem (c old : Char) (new : Str) (hn : c ∉ new) :
    ∀ s : Str, c ∉ s → c ∉ replaceCharWith s old new := by
  intro s
  induction s with
  | nil => intro _; simp [replaceCharWith]
  | cons d s ih =>
    intro hs
    unfold replaceCharWith at ih ⊢
    rw [List.flatMap_cons, List.mem_append]
    rintro (h | h)
    · split_ifs at h with e
      · exact hn h
      · simp at h
        exact hs (by simp [h])
    · exact ih (fun e => hs (List.mem_cons_of_mem _ e)) h

/-- A heading, paragraph or list item: an opening line tag, inline text, a
closing line tag. -/
theorem Open_wrapped (s o t cl : Str) (u c : Nat) (h : Open s u c)
    (ho : tagged lineTags o = true) (hcl : tagged lineTags cl = true)
    (ht : tagged inlineTags t = true)
    (n1 : ¬ (lit "<code>").take o.length <+: o) (n2 : ¬ (lit "</pre>").take o.length <+: o) :
    Open (s ++ (o ++ (t ++ cl))) u c :=
  Open_line s _ u c h
    (tagged_append _ _ _ ho (tagged_append _ _ _ (tagged_mono _ _ inline_in_line t ht) hcl))
    (not_prefix_lit _ _ _ n1) (not_prefix_lit _ _ _ n2)

/-- A literal written to the body. -/
theorem Open_lit (s L : Str) (u c u2 c2 : Nat) (h : Open s u c)
    (hL : tagged pageTags L = true ∧ ¬ lit "<code>" <+: L ∧ ¬ lit "</pre>" <+: L ∧
      u + countSub (lit "<ul>") L = countSub (lit "</ul>") L + u2 ∧
      c + countSub (lit "<pre><code>") L = countSub (lit "</code></pre>") L + c2) :
    Open (s ++ L) u2 c2 :=
  Open_append s L u c u2 c2 h hL.1 hL.2.1 hL.2.2.1 hL.2.2.2.1 hL.2.2.2.2

theorem Kept_intro (pre body : Str) (ic il : Bool) (h : Open (pre ++ body) il.toNat ic.toNat)
    (hx : ic = true → il = false) :
    Kept pre { body := body, inCodeBlock := ic, inList := il } := ⟨h, hx⟩

/-- The body of the loop of `convertMarkdownToHTML` keeps the invariant. -/
theorem markdownLine_keeps (pre : Str) (fuel : Nat) (st st2 : MarkdownState) (line : Str)
    (hl : '<' ∉ line) (h : markdownLine fuel st line = some st2) (hinv : Kept pre st) :
    Kept pre st2 := by
  obtain ⟨body, ic, il⟩ := st
  obtain ⟨ho, hx⟩ := hinv
  dsimp only at ho hx
  have htrim : ∀ k, '<' ∉ (TrimSpace line).drop k := fun k hm =>
    hl ((TrimSpace_sublist line).subset ((List.drop_sublist k _).subset hm))
  unfold markdownLine at h
  dsimp only at h
  by_cases hf : startsWith line (lit "\x60\x60\x60") = true
  · rw [if_pos hf] at h
    cases ic
    · cases il
      · simp only [Bool.false_eq_true, if_false, Option.some.injEq] at h
        subst h
        refine Kept_intro _ _ _ _ ?_ (fun _ => rfl)
        rw [← List.append_assoc]
        exact Open_lit _ _ 0 0 0 1 ho (by decide)
      · simp only [Bool.false_eq_true, if_false, if_true, Option.some.injEq] at h
        subst h
        refine Kept_intro _ _ _ _ ?_ (fun _ => rfl)
        rw [← List.append_assoc, ← List.append_assoc]
        exact Open_lit _ _ 0 0 0 1 (Open_lit _ _ 1 0 0 0 ho (by decide)) (by decide)
    · have hil := hx rfl
      subst hil
      simp only [if_true, Option.some.injEq] at h
      subst h
      refine Kept_intro _ _ _ _ ?_ (fun e => by cases e)
      rw [← List.append_assoc]
      exact Open_lit _ _ 0 1 0 0 ho (by decide)
  · rw [if_neg hf] at h
    cases ic
    · simp only [Bool.false_eq_true, if_false] at h
      by_cases he : TrimSpace line = []
      · rw [if_pos he] at h
        cases il
        · simp only [Bool.false_eq_true, if_false, Option.some.injEq] at h
          subst h
          refine Kept_intro _ _ _ _ ?_ (fun e => by cases e)
          rw [← List.append_assoc]
          exact Open_lit _ _ 0 0 0 0 ho (by decide)
        · simp only [if_true, Option.some.injEq] at h
          subst h
          refine Kept_intro _ _ _ _ ?_ (fun e => by cases e)
          rw [← List.append_assoc, ← List.append_assoc]
          exact Open_lit _ _ 0 0 0 0 (Open_lit _ _ 1 0 0 0 ho (by decide)) (by decide)
      · rw [if_neg he] at h
        by_cases hli : (startsWith (TrimSpace line) (lit "- ")
            || startsWith (TrimSpace line) (lit "* ")) = true
        · rw [if_pos hli] at h
          obtain ⟨t, ht, h⟩ := Option.map_eq_some'.1 h
          have htag := applyInlineMarkdown_tagged fuel _ t ht (htrim 2)
          subst h
          refine Kept_intro _ _ _ _ ?_ (fun e => by cases e)
          cases il
          · simp only [Bool.false_eq_true, if_false, List.append_assoc]
            rw [← List.append_assoc pre, ← List.append_assoc (pre ++ body)]
            exact Open_wrapped _ _ _ _ 1 0 (Open_lit _ _ 0 0 1 0 ho (by decide))
              (by decide) (by decide) htag (by decide) (by decide)
          · simp only [if_true, List.append_assoc]
            rw [← List.append_assoc pre]
            exact Open_wrapped _ _ _ _ 1 0 ho (by decide) (by decide) htag
              (by decide) (by decide)
        · rw [if_neg hli] at h
          obtain ⟨w, hw, h⟩ := Option.map_eq_some'.1 h
          subst h
          refine Kept_intro _ _ _ _ ?_ (fun e => by cases e)
          have hclosed : Open (pre ++ (if il = true then body ++ lit "</ul>\n" else body)) 0 0 := by
            cases il
            · simpa using ho
            · simp only [if_true]
              rw [← List.append_assoc]
              exact Open_lit _ _ 1 0 0 0 ho (by decide)
          rw [← List.append_assoc]
          unfold markdownBlock at hw
          split_ifs at hw
          all_goals
            obtain ⟨t, ht, hw⟩ := Option.map_eq_some'.1 hw
            subst hw
            rw [List.append_assoc (lit _)]
            exact Open_wrapped _ _ _ _ 0 0 hclosed (by decide) (by decide)
              (applyInlineMarkdown_tagged fuel _ t ht
                (by first | exact htrim _ | exact fun hm => hl ((TrimSpace_sublist line).subset hm)))
              (by decide) (by decide)
    · have hil := hx rfl
      subst hil
      simp only [if_true, Option.some.injEq] at h
      subst h
      refine Kept_intro _ _ _ _ ?_ (fun _ => rfl)
      rw [List.append_assoc, ← List.append_assoc pre]
      have hno : '<' ∉ replaceCharWith (replaceCharWith line '<' (lit "&lt;")) '>' (lit "&gt;")
          ++ lit "\n" := by
        rw [List.mem_append]
        rintro (hm | hm)
        · exact not_mem_replaceCharWith_of_not_mem '<' '>' _ (by decide) _
            (not_mem_replaceCharWith '<' _ (by decide) line) hm
        · revert hm
          decide
      exact Open_line _ _ 0 1 ho (tagged_text _ _ hno)
        (not_prefix_text _ _ (by decide) hno) (not_prefix_text _ _ (by decide) hno)

theorem markdownLines_keeps (pre : Str) (fuel : Nat) : ∀ (ls : List Str) (st st2 : MarkdownState),
    (∀ l ∈ ls, '<' ∉ l) → markdownLines fuel st ls = some st2 → Kept pre st → Kept pre st2 := by
  intro ls
  induction ls with
  | nil =>
    intro st st2 _ h hk
    simp only [markdownLines, Option.some.injEq] at h
    exact h ▸ hk
  | cons l ls ih =>
    intro st st2 hl h hk
    rw [markdownLines] at h
    obtain ⟨st1, h1, h2⟩ := Option.bind_eq_some.1 h
    exact ih st1 st2 (fun x hx => hl x (List.mem_cons_of_mem _ hx)) h2
      (markdownLine_keeps pre fuel st st1 l (hl l (List.mem_cons_self _ _)) h1 hk)

theorem applyInlineMarkdown_some (fuel : Nat) (x : Str) (h : x.length < fuel) :
    ∃ t, applyInlineMarkdown fuel x = some t := by
  obtain ⟨_, _, r3, _, _, _, hall⟩ := applyInlineMarkdown_runs x
  exact ⟨r3, hall fuel h⟩

theorem TrimSpace_drop_length (line : Str) (k : Nat) :
    ((TrimSpace line).drop k).length ≤ line.length :=
  ((List.drop_sublist k _).trans (TrimSpace_sublist line)).length_le

theorem markdownBlock_some (fuel : Nat) (line : Str) (h : line.length < fuel) :
    ∃ w, markdownBlock fuel (TrimSpace line) = some w := by
  have h0 : (TrimSpace line).length < fuel :=
    Nat.lt_of_le_of_lt (TrimSpace_sublist line).length_le h
  have hk : ∀ k, ((TrimSpace line).drop k).length < fuel := fun k =>
    Nat.lt_of_le_of_lt (TrimSpace_drop_length line k) h
  unfold markdownBlock
  split_ifs
  · obtain ⟨t, ht⟩ := applyInlineMarkdown_some fuel _ (hk 4)
    rw [ht]; exact ⟨_, rfl⟩
  · obtain ⟨t, ht⟩ := applyInlineMarkdown_some fuel _ (hk 3)
    rw [ht]; exact ⟨_, rfl⟩
  · obtain ⟨t, ht⟩ := applyInlineMarkdown_some fuel _ (hk 2)
    rw [ht]; exact ⟨_, rfl⟩
  · obtain ⟨t, ht⟩ := applyInlineMarkdown_some fuel _ h0
    rw [ht]; exact ⟨_, rfl⟩

/-- With fuel above the length of the line, the body of the loop returns. -/
theorem markdownLine_some (fuel : Nat) (st : MarkdownState) (line : Str)
    (h : line.length < fuel) : ∃ st2, markdownLine fuel st line = some st2 := by
  obtain ⟨t, ht⟩ := applyInlineMarkdown_some fuel ((TrimSpace line).drop 2)
    (Nat.lt_of_le_of_lt (TrimSpace_drop_length line 2) h)
  obtain ⟨w, hw⟩ := markdownBlock_some fuel line h
  unfold markdownLine
  dsimp only
  rw [ht, hw]
  split_ifs <;> exact ⟨_, rfl⟩

theorem markdownLines_some (fuel : Nat) : ∀ (ls : List Str) (st : MarkdownState),
    (∀ l ∈ ls, l.length < fuel) → ∃ st2, markdownLines fuel st ls = some st2 := by
  intro ls
  induction ls with
  | nil => intro st _; exact ⟨st, rfl⟩
  | cons l ls ih =>
    intro st hl
    obtain ⟨st1, h1⟩ := markdownLine_some fuel st l (hl l (List.mem_cons_self _ _))
    obtain ⟨st2, h2⟩ := ih st1 (fun x hx => hl x (List.mem_cons_of_mem _ hx))
    exact ⟨st2, by rw [markdownLines, h1]; exact h2⟩

theorem splitOn_sublist (sep : Char) (s : Str) : ∀ x ∈ s.splitOn sep, x.Sublist s := by
  induction s with
  | nil =>
    intro x hx
    have e : ([] : Str).splitOn sep = [[]] := rfl
    rw [e] at hx
    simp at hx
    simp [hx]
  | cons ch s ih =>
    intro x hx
    rw [splitOn_cons_char] at hx
    split_ifs at hx with h
    · rcases List.mem_cons.1 hx with rfl | hx
      · exact List.nil_sublist _
      · exact (ih x hx).cons _
    · cases hs : s.splitOn sep with
      | nil => exact absurd hs (List.splitOnP_ne_nil _ _)
      | cons hd tl =>
        rw [hs] at hx ih
        simp only [List.modifyHead_cons, List.mem_cons] at hx
        rcases hx with rfl | hx
        · exact (ih hd (List.mem_cons_self _ _)).cons₂ _
        · exact (ih x (List.mem_cons_of_mem _ hx)).cons _

/-- The two closing writes after the loop leave nothing open. -/
theorem Kept_close (pre : Str) (st : MarkdownState) (h : Kept pre st) :
    Open (pre ++ markdownClose st) 0 0 := by
  obtain ⟨body, ic, il⟩ := st
  obtain ⟨ho, hx⟩ := h
  dsimp only at ho hx
  unfold markdownClose
  dsimp only
  cases ic
  · cases il
    · simpa using ho
    · simp only [if_true, Bool.false_eq_true, if_false]
      rw [← List.append_assoc]
      exact Open_lit _ _ 1 0 0 0 ho (by decide)
  · have hil := hx rfl
    subst hil
    simp only [if_true, Bool.false_eq_true, if_false]
    rw [← List.append_assoc]
    exact Open_lit _ _ 0 1 0 0 ho (by decide)

set_option maxRecDepth 100000 in
theorem htmlHead_open : Open htmlHead 0 0 := by
  refine ⟨?_, ?_, ?_⟩ <;> decide

theorem htmlFoot_piece :
    tagged pageTags htmlFoot = true ∧ ¬ lit "<code>" <+: htmlFoot ∧ ¬ lit "</pre>" <+: htmlFoot ∧
      0 + countSub (lit "<ul>") htmlFoot = countSub (lit "</ul>") htmlFoot + 0 ∧
      0 + countSub (lit "<pre><code>") htmlFoot = countSub (lit "</code></pre>") htmlFoot + 0 := by
  decide

/-- C30: for a markdown text without `<` and fuel above its length,
`convertMarkdownToHTML` returns a page in which `<ul>` occurs as often as
`</ul>` and `<pre><code>` as often as `</code></pre>`.  After any number of
its lines, no list is open while a code block is open (the body then has as
many `</ul>` as `<ul>`), and the two closing writes of the document end leave
a body with as many `</ul>` as `<ul>`. -/
theorem markdown_block_tags_balanced (md : Str) (fuel : Nat) (hmd : '<' ∉ md)
    (hf : md.length < fuel) :
    ∃ html, convertMarkdownToHTML fuel md = some html ∧
      countSub (lit "<ul>") html = countSub (lit "</ul>") html ∧
      countSub (lit "<pre><code>") html = countSub (lit "</code></pre>") html ∧
      ∀ ls st, ls <+: md.splitOn '\n' → markdownLines fuel markdownStart ls = some st →
        (st.inCodeBlock = true → st.inList = false ∧
          countSub (lit "<ul>") st.body = countSub (lit "</ul>") st.body) ∧
        countSub (lit "<ul>") (markdownClose st) = countSub (lit "</ul>") (markdownClose st) := by
  have hlines : ∀ l ∈ md.splitOn '\n', '<' ∉ l := fun l hl hm =>
    hmd ((splitOn_sublist '\n' md l hl).subset hm)
  have hlen : ∀ l ∈ md.splitOn '\n', l.length < fuel := fun l hl =>
    Nat.lt_of_le_of_lt (splitOn_sublist '\n' md l hl).length_le hf
  obtain ⟨st, hst⟩ := markdownLines_some fuel (md.splitOn '\n') markdownStart hlen
  have hk : Kept htmlHead st := markdownLines_keeps htmlHead fuel _ markdownStart st hlines hst
    ⟨by simpa [markdownStart] using htmlHead_open, fun e => by cases e⟩
  have hfin := Open_lit _ htmlFoot 0 0 0 0 (Kept_close htmlHead st hk) htmlFoot_piece
  refine ⟨htmlHead ++ markdownClose st ++ htmlFoot, ?_, ?_, ?_, ?_⟩
  · unfold convertMarkdownToHTML
    have e : markdownLines fuel { body := [], inCodeBlock := false, inList := false }
        (md.splitOn '\n') = some st := hst
    rw [e]
    rfl
  · simpa using hfin.2.1
  · simpa using hfin.2.2
  · intro ls st2 hpre h2
    have hk2 : Kept [] st2 := markdownLines_keeps [] fuel ls markdownStart st2
      (fun l hl => hlines l (hpre.subset hl)) h2 ⟨⟨rfl, rfl, rfl⟩, fun e => by cases e⟩
    refine ⟨fun hc => ?_, ?_⟩
    · have hil := hk2.2 hc
      refine ⟨hil, ?_⟩
      have := hk2.1.2.1
      rw [hil] at this
      simpa using this
    · have := (Kept_close [] st2 hk2).2.1
      simpa using this

theorem markdown_block_tags_balanced_witness :
    ∃ html, convertMarkdownToHTML 40 listThenFence = some html ∧
      countSub (lit "<ul>") html = countSub (lit "</ul>") html ∧
      countSub (lit "<pre><code>") html = countSub (lit "</code></pre>") html ∧
      ∀ ls st, ls <+: listThenFence.splitOn '\n' →
        markdownLines 40 markdownStart ls = some st →
        (st.inCodeBlock = true → st.inList = false ∧
          countSub (lit "<ul>") st.body = countSub (lit "</ul>") st.body) ∧
        countSub (lit "<ul>") (markdownClose st) = countSub (lit "</ul>") (markdownClose st) :=
  markdown_block_tags_balanced listThenFence 40 (by decide) (by decide)

end InstantPDF
